import Mathlib

/-!
# metadata-center: the load-statistics store and its replication

A shallow embedding of `pkg/meta/load` (`load_stats.go`, `model_stats.go`,
`engine_stats.go`, `load.go`, `replicator.go`), of the replica-event receiver
and sender of `pkg/replicator`, of the DNS discovery of
`pkg/servicediscovery`, of the replication latency metric of `pkg/prom`, of
the HTTP handlers of `pkg/api` with the binding of their JSON bodies, and of
`ParseJSONFailed` of `pkg/utils/errors`, and theorems about them.

Modelling conventions.

* A `sync.Map` is an association list with first-match lookup (`SyncMap`).
  The source mutates the values it stores through pointers; here every
  mutation is written back under the key the value was loaded from (`put`).
* The request structs are shared with the callers of `AddRequest`: the map
  `Requests` of the source holds the pointer it was given. `Ptr.LoadStats`
  keeps these pointers and a memory of request structs; `LoadStats` is the
  store as a reader finds it (`Ptr.LoadStats.view`), and its `AddRequest` is
  the action of the source for a struct the store does not hold
  (`Ptr.LoadStats.view_AddRequest`), as the structs of the HTTP handlers are.
* `int32` fields are `Int`; `atomic.AddInt32` is `addInt32`, addition reduced
  into the signed 32-bit range.
* Clock readings are `Int` nanoseconds; `time.Time` values and `UnixNano`
  stamps are readings of the same clock. Every operation receives the reading
  `now` of `time.Now()` as an argument; all readings taken inside one
  operation are that same value. `requestExpireDuration` is the parameter
  `expire`.
* The model pass of `GC` compares `nowStamps` with the int64 sum of a stamp
  and `expire`. `LoadStats.Machine` reduces that sum into the signed 64-bit
  range; `LoadStats.GC` takes the sum as it is and agrees with the machine
  pass when every stamp plus `expire` is an int64 (`machine_GC_eq`).
* `sync.Map.Range` visits the entries in the order of the list.
* Operations are executed one at a time (the sequential behaviour of the
  store). The compare-and-swap of `DecrementPromptLength` therefore always
  succeeds when it is reached.
* Metric publication and logging have no effect on the store and are omitted.
* A Go `map` is the list of its entries; a nil function or pointer argument is
  `none`; a Go `error` is its text; a call that can fail takes the result of
  the failing library call (`io.ReadAll`, `net.LookupIP`, `json.Marshal`,
  `client.Do`) as an argument.
* The JSON reader and writer of `encoding/json`, its case-insensitive match
  of member names and the `ipv4` test of the validator are library functions,
  the fields of `Libraries`; `json.Unmarshal`, `json.Marshal` and the binding
  tags of the request structs are written over them. The handlers bind a body
  with a `json.Decoder`, which reads the first JSON value of the body and
  leaves the rest unread: the library function `decodeFirst`.
* The delayed retry of `DeleteRequest` and `DeletePromptLength`
  (`time.AfterFunc(time.Second, ...)`) is a timer of `Runtime`: the call
  queues it with a due time one second after its clock reading, and
  `Runtime.fire` runs the retry body, once, at a reading that is not before
  the due time. `DeleteRequestRetry` and `DeletePromptLengthRetry` are the
  body alone, run on the store the operations in between have left.
-/

namespace MetadataCenter

/-! ## Definitions -/

/-- Reduction of an integer into the signed 32-bit range (two's complement). -/
def wrap32 (x : Int) : Int := (x + 2147483648) % 4294967296 - 2147483648

/-- Go `atomic.AddInt32(&a, delta)`: the new value of `a`. -/
def addInt32 (a delta : Int) : Int := wrap32 (a + delta)

/-- The values an `int32` field can hold. -/
def isInt32 (x : Int) : Prop := -2147483648 ≤ x ∧ x < 2147483648

instance (x : Int) : Decidable (isInt32 x) := by
  unfold isInt32; infer_instance

/-- A `sync.Map` with string keys: an association list, first match wins. -/
abbrev SyncMap (V : Type) := List (String × V)

namespace SyncMap

variable {V : Type}

/-- Go `m.Load(k)`. -/
def Load : SyncMap V → String → Option V
  | [], _ => none
  | (k1, v) :: m, k => if k1 = k then some v else Load m k

/-- Write `v` under `k`: replaces the value of an existing key in place and
appends a new entry otherwise. Used for the store half of `LoadOrStore` and to
write back a value the source mutates through its pointer. -/
def put : SyncMap V → String → V → SyncMap V
  | [], k, v => [(k, v)]
  | (k1, v1) :: m, k, v => if k1 = k then (k, v) :: m else (k1, v1) :: put m k v

/-- Go `m.Delete(k)`. -/
def Delete (m : SyncMap V) (k : String) : SyncMap V :=
  m.filter (fun kv => decide (kv.1 ≠ k))

/-- The keys of the map, in iteration order. -/
def keys (m : SyncMap V) : List String := m.map Prod.fst

end SyncMap

/-- `InferenceRequest` of `load.go`. `CreateTime` is in nanoseconds. -/
structure InferenceRequest where
  Cluster : String
  RequestId : String
  PromptLength : Int
  Ip : String
  TimeStamp : Int
  CreateTime : Int
  deriving DecidableEq, Repr

/-- `EngineStats` of `engine_stats.go`. -/
structure EngineStats where
  Ip : String
  QueuedReqNum : Int
  PromptLength : Int
  UpdatedTime : Int
  deriving DecidableEq, Repr

/-- `ModelStats` of `model_stats.go`. -/
structure ModelStats where
  name : String
  Engines : SyncMap EngineStats
  Length : Int
  UpdateTime : Int
  deriving DecidableEq, Repr

/-- `LoadStats` of `load_stats.go`. -/
structure LoadStats where
  RunningModelStats : SyncMap ModelStats
  Requests : SyncMap InferenceRequest
  deriving DecidableEq, Repr

/-- `NewLoadStats`: the empty store. -/
def NewLoadStats : LoadStats := { RunningModelStats := [], Requests := [] }

/-- `NewEngineLoadStats(ip)`. -/
def NewEngineLoadStats (ip : String) (now : Int) : EngineStats :=
  { Ip := ip, QueuedReqNum := 0, PromptLength := 0, UpdatedTime := now }

/-- `NewModelStats(name)`. -/
def NewModelStats (name : String) (now : Int) : ModelStats :=
  { name := name, Engines := [], Length := 0, UpdateTime := now }

namespace EngineStats

/-- `IncrementQueuedReqNumAndPromptLength(req, promptLength)`. -/
def IncrementQueuedReqNumAndPromptLength (e : EngineStats) (promptLength : Int)
    (now : Int) : EngineStats :=
  { e with QueuedReqNum := addInt32 e.QueuedReqNum 1,
           PromptLength := addInt32 e.PromptLength promptLength,
           UpdatedTime := now }

/-- `DecrementQueuedReqNum(req)`. -/
def DecrementQueuedReqNum (e : EngineStats) (now : Int) : EngineStats :=
  { e with QueuedReqNum := addInt32 e.QueuedReqNum (-1), UpdatedTime := now }

/-- `DecrementPromptLength(req)`: returns the engine and the request, whose
`PromptLength` the source sets to 0 by compare-and-swap before subtracting. -/
def DecrementPromptLength (e : EngineStats) (req : InferenceRequest) (now : Int) :
    EngineStats × InferenceRequest :=
  let length := req.PromptLength
  if length ≤ 0 then (e, req)
  else
    ({ e with PromptLength := addInt32 e.PromptLength (-length), UpdatedTime := now },
     { req with PromptLength := 0 })

end EngineStats

namespace ModelStats

/-- `ms.LoadOrStore(ip)`: the model afterwards and the engine returned. -/
def LoadOrStore (ms : ModelStats) (ip : String) (now : Int) : ModelStats × EngineStats :=
  match ms.Engines.Load ip with
  | some e => ({ ms with UpdateTime := now }, e)
  | none =>
    let e := NewEngineLoadStats ip now
    ({ ms with Engines := ms.Engines.put ip e, Length := addInt32 ms.Length 1,
               UpdateTime := now }, e)

/-- `ms.Load(ip)`: the model afterwards (its `UpdateTime` is written) and the
engine found, if any. -/
def Load (ms : ModelStats) (ip : String) (now : Int) : ModelStats × Option EngineStats :=
  ({ ms with UpdateTime := now }, ms.Engines.Load ip)

/-- `ms.Delete(ip)`. -/
def Delete (ms : ModelStats) (ip : String) (now : Int) : ModelStats :=
  match ms.Engines.Load ip with
  | some _ =>
    { ms with Engines := ms.Engines.Delete ip, Length := addInt32 ms.Length (-1),
              UpdateTime := now }
  | none => { ms with UpdateTime := now }

/-- `ms.Size()`. -/
def Size (ms : ModelStats) : Int := ms.Length

end ModelStats

namespace LoadStats

/-- `ls.GetModelStats(key)`. -/
def GetModelStats (s : LoadStats) (key : String) : Option ModelStats :=
  s.RunningModelStats.Load key

/-- The engine `ip` of model `cluster`, when both entries exist. -/
def engine (s : LoadStats) (cluster ip : String) : Option EngineStats :=
  match s.RunningModelStats.Load cluster with
  | some ms => ms.Engines.Load ip
  | none => none

/-- The `QueuedReqNum` of engine `(cluster, ip)`; 0 when the engine does not exist. -/
def queued (s : LoadStats) (cluster ip : String) : Int :=
  match s.engine cluster ip with
  | some e => e.QueuedReqNum
  | none => 0

/-- The `PromptLength` (aggregate prompt length) of engine `(cluster, ip)`; 0
when the engine does not exist. -/
def aggregate (s : LoadStats) (cluster ip : String) : Int :=
  match s.engine cluster ip with
  | some e => e.PromptLength
  | none => 0

/-- The `Size()` of model `cluster`; 0 when the model does not exist. -/
def engineCount (s : LoadStats) (cluster : String) : Int :=
  match s.GetModelStats cluster with
  | some ms => ms.Size
  | none => 0

/-- `ls.AddRequest(req)` executed at clock reading `now`, for a request struct
the store does not hold; `Ptr.LoadStats.AddRequest` is the call with the
pointer of the source. -/
def AddRequest (s : LoadStats) (req : InferenceRequest) (now : Int) : LoadStats :=
  let req := { req with CreateTime := now }
  let promptLength := req.PromptLength
  match s.Requests.Load req.RequestId with
  | some _ => s
  | none =>
    let requests := s.Requests.put req.RequestId req
    let key := req.Cluster
    let v := match s.RunningModelStats.Load key with
      | some ms => ms
      | none => NewModelStats key now
    let (modelStats, engineStats) := v.LoadOrStore req.Ip now
    let engineStats := engineStats.IncrementQueuedReqNumAndPromptLength promptLength now
    let modelStats := { modelStats with Engines := modelStats.Engines.put req.Ip engineStats }
    { RunningModelStats := s.RunningModelStats.put key modelStats, Requests := requests }

/-- `ls.decEngineStats(req)`. -/
def decEngineStats (s : LoadStats) (req : InferenceRequest) (now : Int) : LoadStats :=
  let key := req.Cluster
  match s.RunningModelStats.Load key with
  | none => s
  | some v =>
    match v.Load req.Ip now with
    | (modelStats, none) =>
      { s with RunningModelStats := s.RunningModelStats.put key modelStats }
    | (modelStats, some engineStats) =>
      let engineStats := engineStats.DecrementQueuedReqNum now
      let engineStats := (engineStats.DecrementPromptLength req now).1
      let modelStats := { modelStats with Engines := modelStats.Engines.put req.Ip engineStats }
      { s with RunningModelStats := s.RunningModelStats.put key modelStats }

/-- `ls.tryDeleteRequestStats(requestID)`: one deletion attempt. -/
def tryDeleteRequestStats (s : LoadStats) (requestID : String) (now : Int) :
    Bool × LoadStats :=
  match s.Requests.Load requestID with
  | some req =>
    (true, decEngineStats { s with Requests := s.Requests.Delete requestID } req now)
  | none => (false, s)

/-- `ls.decEnginePromptLength(req)`: the store afterwards and the request as
`DecrementPromptLength` leaves it. -/
def decEnginePromptLength (s : LoadStats) (req : InferenceRequest) (now : Int) :
    LoadStats × InferenceRequest :=
  let key := req.Cluster
  match s.RunningModelStats.Load key with
  | none => (s, req)
  | some v =>
    match v.Load req.Ip now with
    | (modelStats, none) =>
      ({ s with RunningModelStats := s.RunningModelStats.put key modelStats }, req)
    | (modelStats, some engineStats) =>
      let (engineStats, req1) := engineStats.DecrementPromptLength req now
      let modelStats := { modelStats with Engines := modelStats.Engines.put req.Ip engineStats,
                                          UpdateTime := now }
      ({ s with RunningModelStats := s.RunningModelStats.put key modelStats }, req1)

/-- `ls.tryDecPromptLength(requestID)`: one prompt-deletion attempt. The
request stays in `Requests`; the value `DecrementPromptLength` wrote into it
is stored back under `requestID`. -/
def tryDecPromptLength (s : LoadStats) (requestID : String) (now : Int) :
    Bool × LoadStats :=
  match s.Requests.Load requestID with
  | some req =>
    let (s1, req1) := decEnginePromptLength s req now
    (true, { s1 with Requests := s1.Requests.put requestID req1 })
  | none => (false, s)

/-- `ls.DeleteRequest(req)`: the immediate attempt. The second component is
`true` when the attempt found nothing and the single delayed retry
(`time.AfterFunc(time.Second, ...)`) has been scheduled. -/
def DeleteRequest (s : LoadStats) (requestID : String) (now : Int) : LoadStats × Bool :=
  match tryDeleteRequestStats s requestID now with
  | (true, s1) => (s1, false)
  | (false, s1) => (s1, true)

/-- The body of the delayed retry scheduled by `DeleteRequest`. -/
def DeleteRequestRetry (s : LoadStats) (requestID : String) (now : Int) : LoadStats :=
  (tryDeleteRequestStats s requestID now).2

/-- `ls.DeletePromptLength(req)`: the immediate attempt; the flag tells
whether the delayed retry has been scheduled. -/
def DeletePromptLength (s : LoadStats) (requestID : String) (now : Int) : LoadStats × Bool :=
  match tryDecPromptLength s requestID now with
  | (true, s1) => (s1, false)
  | (false, s1) => (s1, true)

/-- The body of the delayed retry scheduled by `DeletePromptLength`. -/
def DeletePromptLengthRetry (s : LoadStats) (requestID : String) (now : Int) : LoadStats :=
  (tryDecPromptLength s requestID now).2

/-- The callback of `Requests.Range` in `ls.GC()`: an entry with
`req.CreateTime.Add(requestExpireDuration).Before(now)` is deleted and its
engine decremented. -/
def gcRequestVisit (now expire : Int) (acc : LoadStats) (kv : String × InferenceRequest) :
    LoadStats :=
  if kv.2.CreateTime + expire < now then
    decEngineStats { acc with Requests := acc.Requests.Delete kv.1 } kv.2 now
  else acc

/-- The request pass of `ls.GC()`: `Requests.Range` over the entries. -/
def gcRequests (s : LoadStats) (now expire : Int) : LoadStats :=
  s.Requests.foldl (gcRequestVisit now expire) s

/-- The callback of the inner `modelStats.Engines.Range` of `ls.GC()`, with the
sum `UpdatedTime + expire` taken as it is; `Machine.gcEngineVisit` has the
`int64` sum of the source. -/
def gcEngineVisit (nowStamps expire : Int) (acc : ModelStats) (kv : String × EngineStats) :
    ModelStats :=
  if nowStamps ≥ kv.2.UpdatedTime + expire then acc.Delete kv.1 nowStamps else acc

/-- The inner `modelStats.Engines.Range` of the model pass of `ls.GC()`. -/
def gcEngines (ms : ModelStats) (nowStamps expire : Int) : ModelStats :=
  ms.Engines.foldl (gcEngineVisit nowStamps expire) ms

/-- The callback of `RunningModelStats.Range` in `ls.GC()`, with the sum
`UpdateTime + expire` taken as it is; `Machine.gcModelVisit` has the `int64`
sum of the source. -/
def gcModelVisit (nowStamps expire : Int) (acc : LoadStats) (kv : String × ModelStats) :
    LoadStats :=
  if nowStamps ≥ kv.2.UpdateTime + expire then
    { acc with RunningModelStats := acc.RunningModelStats.Delete kv.1 }
  else
    { acc with RunningModelStats :=
        acc.RunningModelStats.put kv.1 (gcEngines kv.2 nowStamps expire) }

/-- The model pass of `ls.GC()`: `RunningModelStats.Range` over the entries. -/
def gcModels (s : LoadStats) (nowStamps expire : Int) : LoadStats :=
  s.RunningModelStats.foldl (gcModelVisit nowStamps expire) s

/-- `ls.GC()` executed at clock reading `now` with `requestExpireDuration = expire`. -/
def GC (s : LoadStats) (now expire : Int) : LoadStats :=
  gcModels (gcRequests s now expire) now expire

end LoadStats

/-! ### Well-typed stores -/

/-- The `int32` fields of an engine hold `int32` values. -/
def EngineStats.WellTyped (e : EngineStats) : Prop :=
  isInt32 e.QueuedReqNum ∧ isInt32 e.PromptLength

instance (e : EngineStats) : Decidable e.WellTyped := by
  unfold EngineStats.WellTyped; infer_instance

/-- The `int32` fields of a model and of its engines hold `int32` values. -/
def ModelStats.WellTyped (ms : ModelStats) : Prop :=
  isInt32 ms.Length ∧ ∀ ke ∈ ms.Engines, ke.2.WellTyped

instance (ms : ModelStats) : Decidable ms.WellTyped := by
  unfold ModelStats.WellTyped; infer_instance

/-- Every `int32` field of the store holds an `int32` value. -/
def LoadStats.WellTyped (s : LoadStats) : Prop :=
  (∀ kv ∈ s.RunningModelStats, kv.2.WellTyped) ∧
  ∀ kr ∈ s.Requests, isInt32 kr.2.PromptLength

instance (s : LoadStats) : Decidable s.WellTyped := by
  unfold LoadStats.WellTyped; infer_instance

/-! ### Concrete requests and stores used as test inputs -/

/-- Request "1" of scenario 1: cluster A, engine 1.1.1.1, prompt 512. -/
def exReq1 : InferenceRequest :=
  { Cluster := "A", RequestId := "1", PromptLength := 512, Ip := "1.1.1.1",
    TimeStamp := 0, CreateTime := 0 }

/-- A second Set with the request id "1" but another cluster, engine and prompt. -/
def exReq1Other : InferenceRequest :=
  { Cluster := "B", RequestId := "1", PromptLength := 7, Ip := "2.2.2.2",
    TimeStamp := 0, CreateTime := 0 }

/-- Request "2" on the same engine as `exReq1`, prompt 512. -/
def exReq2 : InferenceRequest :=
  { Cluster := "A", RequestId := "2", PromptLength := 512, Ip := "1.1.1.1",
    TimeStamp := 0, CreateTime := 0 }

/-- A request with the largest prompt length an `int32` holds. -/
def exReqMax : InferenceRequest :=
  { Cluster := "A", RequestId := "max", PromptLength := 2147483647, Ip := "1.1.1.1",
    TimeStamp := 0, CreateTime := 0 }

/-- A request of prompt length 1 on the engine of `exReqMax`. -/
def exReqOne : InferenceRequest :=
  { Cluster := "A", RequestId := "one", PromptLength := 1, Ip := "1.1.1.1",
    TimeStamp := 0, CreateTime := 0 }

/-- The store after `Set(exReq1)` at time 5 on the empty store. -/
def exStore1 : LoadStats := NewLoadStats.AddRequest exReq1 5

/-- The store after `Set(exReqMax)` at time 0 on the empty store: one engine
whose aggregate prompt length is 2147483647. -/
def exStoreMax : LoadStats := NewLoadStats.AddRequest exReqMax 0


/-- A request of prompt length 2^30 on engine (A, 1.1.1.1). -/
def exReqHalfA : InferenceRequest :=
  { Cluster := "A", RequestId := "halfA", PromptLength := 1073741824, Ip := "1.1.1.1",
    TimeStamp := 0, CreateTime := 0 }

/-- A second request of prompt length 2^30 on engine (A, 1.1.1.1). -/
def exReqHalfB : InferenceRequest :=
  { Cluster := "A", RequestId := "halfB", PromptLength := 1073741824, Ip := "1.1.1.1",
    TimeStamp := 0, CreateTime := 0 }

/-- A request with a negative prompt length, as the replication handler
`HandleLoadSet` admits it (it applies no validation to the decoded payload). -/
def exReqNeg : InferenceRequest :=
  { Cluster := "A", RequestId := "neg", PromptLength := -5, Ip := "1.1.1.1",
    TimeStamp := 0, CreateTime := 0 }

/-- The store after `Set(exReqHalfA)` at time 0 and `Set(exReqHalfB)` at time 5
on the empty store: the aggregate of engine (A, 1.1.1.1) has wrapped to
-2147483648. -/
def exStoreHalves : LoadStats := (NewLoadStats.AddRequest exReqHalfA 0).AddRequest exReqHalfB 5

/-! ### Sequences of operations -/

/-- One operation on the store. `delete` and `promptDelete` are single
attempts (`tryDeleteRequestStats`, `tryDecPromptLength`): the immediate
attempt of `DeleteRequest` / `DeletePromptLength` or the delayed retry. -/
inductive Op where
  | set (req : InferenceRequest)
  | delete (requestID : String)
  | promptDelete (requestID : String)
  | gc
  deriving DecidableEq, Repr

namespace LoadStats

/-- The store after operation `op` executed at clock reading `now`. -/
def step (expire : Int) (s : LoadStats) (op : Op) (now : Int) : LoadStats :=
  match op with
  | Op.set req => s.AddRequest req now
  | Op.delete requestID => (s.tryDeleteRequestStats requestID now).2
  | Op.promptDelete requestID => (s.tryDecPromptLength requestID now).2
  | Op.gc => s.GC now expire

/-- The store after a sequence of operations, each with its clock reading. -/
def run (expire : Int) (s : LoadStats) (ops : List (Op × Int)) : LoadStats :=
  ops.foldl (fun acc x => step expire acc x.1 x.2) s

/-- The situation of one request `id` of prompt length `p` on engine
`(c, ip)` whose counters were `q0` and `a0` before its `Set`: the engine
exists and either the request is stored and counted (its prompt length counted
or already subtracted), or it is gone and the counters are `q0`, `a0` again. -/
def DeletePhase (c ip id : String) (p q0 a0 : Int) (x : LoadStats) : Prop :=
  ∃ e, x.engine c ip = some e ∧
    ((∃ y, x.Requests.Load id = some y ∧ y.Cluster = c ∧ y.Ip = ip ∧
        e.QueuedReqNum = addInt32 q0 1 ∧
        ((y.PromptLength = p ∧ e.PromptLength = addInt32 a0 p) ∨
          (y.PromptLength = 0 ∧ e.PromptLength = a0))) ∨
      (x.Requests.Load id = none ∧ e.QueuedReqNum = q0 ∧ e.PromptLength = a0))

end LoadStats

/-! ### The requests of an engine -/

namespace SyncMap

/-- The sum of `g v` over the entries `(k, v)` of the map. -/
def total {V : Type} (g : V → Int) (m : SyncMap V) : Int := (m.map (fun kv => g kv.2)).sum

end SyncMap

namespace LoadStats

/-- The entries of `Requests` whose cluster is `c` and whose engine is `ip`. -/
def liveOn (s : LoadStats) (c ip : String) : List InferenceRequest :=
  (s.Requests.map Prod.snd).filter (fun r => decide (r.Cluster = c ∧ r.Ip = ip))

/-- The number of entries of `Requests` with cluster `c` and ip `ip`. -/
def liveCount (s : LoadStats) (c ip : String) : Int := ((s.liveOn c ip).length : Int)

/-- The sum of the current prompt lengths of the entries of `Requests` with
cluster `c` and ip `ip`. -/
def livePrompt (s : LoadStats) (c ip : String) : Int :=
  ((s.liveOn c ip).map (fun r => r.PromptLength)).sum

/-- The bound on a `Set` of `r` that adds a contribution: `PromptLength ≥ 0`
and, counting `r`, the number of requests of its engine and the sum of their
prompt lengths stay below 2^31. -/
def SetBounded (s : LoadStats) (r : InferenceRequest) : Prop :=
  0 ≤ r.PromptLength ∧ s.liveCount r.Cluster r.Ip + 1 < 2147483648 ∧
    s.livePrompt r.Cluster r.Ip + r.PromptLength < 2147483648

instance (s : LoadStats) (r : InferenceRequest) : Decidable (SetBounded s r) := by
  unfold SetBounded; infer_instance

/-- Every `Set` of the sequence that adds a request (its id is not stored when
it runs) satisfies `SetBounded` in the state it runs in. -/
def SetsBounded (expire : Int) : LoadStats → List (Op × Int) → Prop
  | _, [] => True
  | s, (Op.set r, t) :: rest =>
    (s.Requests.Load r.RequestId = none → SetBounded s r) ∧
      SetsBounded expire (step expire s (Op.set r) t) rest
  | s, (op, t) :: rest => SetsBounded expire (step expire s op t) rest

/-- The store invariant: request ids are unique, every stored request has a
non-negative prompt length and its engine exists, the per-engine request count
and prompt sum are below 2^31, and the counters of every existing engine are
that count and that sum. -/
def Consistent (s : LoadStats) : Prop :=
  s.Requests.keys.Nodup ∧
  (∀ kr ∈ s.Requests, s.engine kr.2.Cluster kr.2.Ip ≠ none ∧ 0 ≤ kr.2.PromptLength) ∧
  (∀ c ip, s.liveCount c ip < 2147483648 ∧ s.livePrompt c ip < 2147483648) ∧
  (∀ c ip e, s.engine c ip = some e →
    e.QueuedReqNum = s.liveCount c ip ∧ e.PromptLength = s.livePrompt c ip)

end LoadStats

namespace LoadStats

/-- The weight 1 of a request of engine `(c, ip)`, 0 of any other request. -/
def countW (c ip : String) (r : InferenceRequest) : Int :=
  if r.Cluster = c ∧ r.Ip = ip then 1 else 0

/-- The prompt length of a request of engine `(c, ip)`, 0 for any other request. -/
def promptW (c ip : String) (r : InferenceRequest) : Int :=
  if r.Cluster = c ∧ r.Ip = ip then r.PromptLength else 0

end LoadStats

namespace LoadStats

/-- `SetsBounded` is decidable. -/
def decSetsBounded (expire : Int) :
    (s : LoadStats) → (ops : List (Op × Int)) → Decidable (SetsBounded expire s ops)
  | _, [] => isTrue trivial
  | s, (Op.set r, t) :: rest =>
    @instDecidableAnd _ _ inferInstance (decSetsBounded expire (step expire s (Op.set r) t) rest)
  | s, (Op.delete id, t) :: rest => decSetsBounded expire (step expire s (Op.delete id) t) rest
  | s, (Op.promptDelete id, t) :: rest =>
    decSetsBounded expire (step expire s (Op.promptDelete id) t) rest
  | s, (Op.gc, t) :: rest => decSetsBounded expire (step expire s Op.gc t) rest

instance (expire : Int) (s : LoadStats) (ops : List (Op × Int)) :
    Decidable (SetsBounded expire s ops) := decSetsBounded expire s ops

end LoadStats

/-! ### Well-formed stores and the sweeper -/

namespace LoadStats

/-- The keys of every `sync.Map` of the store are unique. -/
def WellFormed (s : LoadStats) : Prop :=
  s.Requests.keys.Nodup ∧ s.RunningModelStats.keys.Nodup ∧
    ∀ kv ∈ s.RunningModelStats, kv.2.Engines.keys.Nodup

instance (s : LoadStats) : Decidable s.WellFormed := by
  unfold WellFormed; infer_instance

/-- The request has expired at sweep time `now`:
`req.CreateTime.Add(requestExpireDuration).Before(now)`. -/
def expired (now expire : Int) (r : InferenceRequest) : Prop := r.CreateTime + expire < now

instance (now expire : Int) (r : InferenceRequest) : Decidable (expired now expire r) := by
  unfold expired; infer_instance

/-- The ids of the requests that have expired at sweep time `now`, in
iteration order. -/
def expiredKeys (s : LoadStats) (now expire : Int) : List String :=
  (s.Requests.filter (fun kv => decide (expired now expire kv.2))).map Prod.fst

/-- The number of expired requests of engine `(c, ip)`. -/
def expiredCount (s : LoadStats) (now expire : Int) (c ip : String) : Int :=
  SyncMap.total (fun r => if expired now expire r then countW c ip r else 0) s.Requests

/-- The sum, over the expired requests of engine `(c, ip)`, of the current
prompt lengths that are positive. -/
def expiredPrompt (s : LoadStats) (now expire : Int) (c ip : String) : Int :=
  SyncMap.total
    (fun r => if expired now expire r ∧ 0 < r.PromptLength then promptW c ip r else 0) s.Requests

end LoadStats

namespace ModelStats

/-- The number of engines of the model that the sweeper removes at `nowStamps`. -/
def staleCount (ms : ModelStats) (nowStamps expire : Int) : Int :=
  SyncMap.total (fun e => if nowStamps ≥ e.UpdatedTime + expire then 1 else 0) ms.Engines

end ModelStats

namespace LoadStats

/-- The cached `Length` of every model is the number of its engines. -/
def SizesCorrect (s : LoadStats) : Prop :=
  ∀ kv ∈ s.RunningModelStats, kv.2.Length = (kv.2.Engines.length : Int)

instance (s : LoadStats) : Decidable s.SizesCorrect := by
  unfold SizesCorrect; infer_instance

/-- Request on engine (A, 1.1.1.1), prompt 512. -/
def exReqA1 : InferenceRequest :=
  { Cluster := "A", RequestId := "a1", PromptLength := 512, Ip := "1.1.1.1",
    TimeStamp := 0, CreateTime := 0 }

/-- Request on engine (A, 2.2.2.2), prompt 256. -/
def exReqA2 : InferenceRequest :=
  { Cluster := "A", RequestId := "a2", PromptLength := 256, Ip := "2.2.2.2",
    TimeStamp := 0, CreateTime := 0 }

/-- Request on engine (B, 1.1.1.1), prompt 128. -/
def exReqB : InferenceRequest :=
  { Cluster := "B", RequestId := "b", PromptLength := 128, Ip := "1.1.1.1",
    TimeStamp := 0, CreateTime := 0 }

/-- A store with expiry 10: `a1` set at 0 and deleted at 2, `b` set at 1 and
deleted at 3, `a2` set at 8. Model A was last touched at 8, its engines at 2
and 8; model B was last touched at 3. -/
def exStoreSweep : LoadStats :=
  run 10 NewLoadStats
    [(Op.set exReqA1, 0), (Op.set exReqB, 1), (Op.delete "a1", 2), (Op.delete "b", 3),
      (Op.set exReqA2, 8)]

end LoadStats

namespace ModelStats

/-- The model `ms2` is `ms1` after operations executed at clock reading `t`
that delete no engine: time stamps are the old ones or `t`, every engine of
`ms1` is still there, and unique engine keys stay unique. -/
def TouchedFrom (t : Int) (ms1 ms2 : ModelStats) : Prop :=
  (ms2.UpdateTime = ms1.UpdateTime ∨ ms2.UpdateTime = t) ∧
  (ms1.Engines.keys.Nodup → ms2.Engines.keys.Nodup) ∧
  ∀ ip e, ms1.Engines.Load ip = some e →
    ∃ e2, ms2.Engines.Load ip = some e2 ∧ (e2.UpdatedTime = e.UpdatedTime ∨ e2.UpdatedTime = t)

end ModelStats

namespace LoadStats

/-- The model map `M2` is `M1` after operations executed at clock reading `t`
that delete no model and no engine. -/
def TouchedModels (t : Int) (M1 M2 : SyncMap ModelStats) : Prop :=
  (M1.keys.Nodup → M2.keys.Nodup) ∧
  ((∀ kv ∈ M1, kv.2.Engines.keys.Nodup) → ∀ kv ∈ M2, kv.2.Engines.keys.Nodup) ∧
  ∀ c ms, M1.Load c = some ms → ∃ ms2, M2.Load c = some ms2 ∧ ms.TouchedFrom t ms2

/-- The model and the engine of request `r` exist and were last touched no
earlier than `r` was created. -/
def Anchored (s : LoadStats) (r : InferenceRequest) : Prop :=
  ∃ ms e, s.RunningModelStats.Load r.Cluster = some ms ∧ ms.Engines.Load r.Ip = some e ∧
    r.CreateTime ≤ ms.UpdateTime ∧ r.CreateTime ≤ e.UpdatedTime

end LoadStats

namespace LoadStats

/-- The invariant of the store at clock reading `T`: `Consistent`, unique model
and engine keys, and every stored request was created no later than `T` and is
`Anchored`. -/
def SweepInv (T : Int) (s : LoadStats) : Prop :=
  Consistent s ∧ s.RunningModelStats.keys.Nodup ∧
  (∀ kv ∈ s.RunningModelStats, kv.2.Engines.keys.Nodup) ∧
  ∀ kr ∈ s.Requests, kr.2.CreateTime ≤ T ∧ Anchored s kr.2

/-- The condition on one operation executed at clock reading `t` in state `s`:
a `Set` that adds a request is `SetBounded`; a sweep does not run at exactly
`CreateTime + expire` of a stored request. -/
def OpAllowed (expire : Int) (s : LoadStats) (op : Op) (t : Int) : Prop :=
  match op with
  | Op.set r => s.Requests.Load r.RequestId = none → SetBounded s r
  | Op.gc => ∀ kr ∈ s.Requests, kr.2.CreateTime + expire ≠ t
  | _ => True

instance (expire : Int) (s : LoadStats) (op : Op) (t : Int) :
    Decidable (OpAllowed expire s op t) := by
  unfold OpAllowed
  cases op <;> infer_instance

/-- The sequence of operations is executed at non-decreasing clock readings,
starting no earlier than `T`, and each operation is `OpAllowed` in the state it
runs in. -/
def Admissible (expire : Int) : Int → LoadStats → List (Op × Int) → Prop
  | _, _, [] => True
  | T, s, x :: rest =>
    T ≤ x.2 ∧ OpAllowed expire s x.1 x.2 ∧ Admissible expire x.2 (step expire s x.1 x.2) rest

/-- `Admissible` is decidable. -/
def decAdmissible (expire : Int) :
    (T : Int) → (s : LoadStats) → (ops : List (Op × Int)) → Decidable (Admissible expire T s ops)
  | _, _, [] => isTrue trivial
  | _, s, x :: rest =>
    @instDecidableAnd _ _ inferInstance
      (@instDecidableAnd _ _ inferInstance (decAdmissible expire x.2 (step expire s x.1 x.2) rest))

instance (expire T : Int) (s : LoadStats) (ops : List (Op × Int)) :
    Decidable (Admissible expire T s ops) := decAdmissible expire T s ops

end LoadStats

/-! ### Queries and the shape of the store -/

/-- `ModelQueryRequest` of `load.go`. -/
structure ModelQueryRequest where
  Cluster : String
  deriving DecidableEq, Repr

namespace ModelStats

/-- `ms.ToEngines()`. The receiver is `none` for the nil pointer, for which
the source returns the nil slice (the empty list); otherwise
`make([]*EngineStats, 0, ms.Size())` allocates the slice, which panics at run
time for a negative capacity (the result is then `none`), and `Engines.Range`
appends every engine to it. -/
def ToEngines : Option ModelStats → Option (List EngineStats)
  | none => some []
  | some ms =>
    if ms.Size < 0 then none
    else some (ms.Engines.foldl (fun engines kv => engines ++ [kv.2]) [])

/-- The shape of a model: the engine keys are unique, the cached `Length` is
the number of engines as an `int32`, and every engine is stored under its own
`Ip`. -/
def Shaped (ms : ModelStats) : Prop :=
  ms.Engines.keys.Nodup ∧ ms.Length = wrap32 (ms.Engines.keys.length : Int) ∧
    ∀ kv ∈ ms.Engines, kv.2.Ip = kv.1

instance (ms : ModelStats) : Decidable ms.Shaped := by
  unfold Shaped; infer_instance

end ModelStats

/-- One call on a `ModelStats`. -/
inductive ModelOp where
  | loadOrStore (ip : String)
  | load (ip : String)
  | delete (ip : String)
  deriving DecidableEq, Repr

namespace ModelStats

/-- The model after the call `op` executed at clock reading `now`. -/
def applyOp (ms : ModelStats) (op : ModelOp) (now : Int) : ModelStats :=
  match op with
  | ModelOp.loadOrStore ip => (ms.LoadOrStore ip now).1
  | ModelOp.load ip => (ms.Load ip now).1
  | ModelOp.delete ip => ms.Delete ip now

/-- The model after a sequence of calls, each with its clock reading. -/
def runOps (ms : ModelStats) (ops : List (ModelOp × Int)) : ModelStats :=
  ops.foldl (fun acc x => acc.applyOp x.1 x.2) ms

end ModelStats

namespace LoadStats

/-- `Query(req)` of `load.go` on the store `s`. -/
def Query (s : LoadStats) (req : ModelQueryRequest) : Option ModelStats :=
  s.GetModelStats req.Cluster

/-- Every model of the store is `Shaped` and the model keys are unique. -/
def Shaped (s : LoadStats) : Prop :=
  s.RunningModelStats.keys.Nodup ∧ ∀ kv ∈ s.RunningModelStats, kv.2.Shaped

instance (s : LoadStats) : Decidable s.Shaped := by
  unfold Shaped; infer_instance

end LoadStats

namespace LoadAPI

/-- `LoadAPI.Query` once the query parameters are parsed into `req`: the
store afterwards and the `Data` of the response, `stat.ToEngines()` (`none`
when `ToEngines` panics). Neither `GetModelStats` nor `ToEngines` writes to
the store. -/
def Query (s : LoadStats) (req : ModelQueryRequest) :
    LoadStats × Option (List EngineStats) :=
  (s, ModelStats.ToEngines (s.Query req))

end LoadAPI

/-! ### Replication events: the receiver (`pkg/replicator/receiver.go`) -/

/-- `json.RawMessage` and request bodies: the bytes, written as a string. -/
abbrev RawMessage := String

/-- Go `error` value, represented by its text. -/
abbrev GoError := String

/-- `EventHandler`, `func(payload json.RawMessage) error`. A handler acts on
whatever state `σ` it can reach (for the handlers of `pkg/meta/load`, the
store); it returns that state afterwards and `none` for a nil error. -/
abbrev EventHandler (σ : Type) := RawMessage → σ → σ × Option GoError

/-- `ErrorInfo` of `errorinfo.go`. -/
structure ErrorInfo where
  Code : Int
  Message : String
  Reason : String
  deriving DecidableEq, Repr

/-- `(*ErrorInfo).GetStatusCode`: Go integer division truncates. -/
def ErrorInfo.GetStatusCode (r : ErrorInfo) : Int := Int.tdiv r.Code 100000

/-- Modelled from the spec: the constant `InvalidInputCode`, whose declaration
is not among the sources; the spec gives the invalid-input code `40001400`. -/
def InvalidInputCode : Int := 40001400

/-- `errors.InvalidInput(reason)` for a `reason` without formatting verbs.
The constant `invalidInputMsg` is declared outside the sources and is a
parameter. -/
def InvalidInput (invalidInputMsg : String) (reason : String) : ErrorInfo :=
  { Code := InvalidInputCode, Message := invalidInputMsg, Reason := reason }

/-- Modelled from the spec: the response envelope `ginx.Response`, whose
declaration is not among the sources. The spec gives the fields `status`,
`code`, `data`, `error`, `trace_id`; `Data` is `nil` in every response built
here and is left out. -/
structure Response where
  Code : Int
  Status : String
  Error : Option ErrorInfo
  TraceID : String
  deriving DecidableEq, Repr

/-- Modelled from the spec: `Response.GetStatusCode`, not among the sources;
the HTTP status of a response is its `code`. -/
def Response.GetStatusCode (r : Response) : Int := r.Code

/-- What `c.Data(status, contentType, buf)` writes: the HTTP status and the
response that `buf` encodes. -/
structure HTTPReply where
  status : Int
  body : Response
  deriving DecidableEq, Repr

namespace ginx

/-- `ginx.ResJSON(c, response)`. -/
def ResJSON (response : Response) : HTTPReply :=
  { status := response.GetStatusCode, body := response }

/-- `ginx.ResSuccess(c, nil)`; `traceID` is `GetTraceID(c)`. -/
def ResSuccess (traceID : String) : HTTPReply :=
  ResJSON { Code := 200, Status := "OK", Error := none, TraceID := traceID }

/-- `ginx.ResError(c, err)` for an `err` that is an `*ErrorInfo`. -/
def ResError (traceID : String) (resErr : ErrorInfo) : HTTPReply :=
  ResJSON { Code := resErr.GetStatusCode, Status := "ERROR", Error := some resErr,
            TraceID := traceID }

end ginx

namespace replicator

/-- `Register(eventType, handler)` on the registry `handlers`; a nil
`handler` is `none`. -/
def Register {σ : Type} (handlers : SyncMap (EventHandler σ)) (eventType : String)
    (handler : Option (EventHandler σ)) : SyncMap (EventHandler σ) :=
  if eventType = "" then handlers
  else
    match handler with
    | none => handlers
    | some h =>
      match handlers.Load eventType with
      | some _ => handlers
      | none => handlers.put eventType h

/-- `HandleReplicateEvent(c)`. Of the request, `eventType` is the value of the
`Event-Type` header (empty when the header is missing) and `body` the result
of `io.ReadAll(c.Request.Body)`; `w` is the state the handlers act on. Returns
that state afterwards and the reply written. -/
def HandleReplicateEvent {σ : Type} (invalidInputMsg : String)
    (handlers : SyncMap (EventHandler σ)) (eventType : String)
    (body : Except GoError RawMessage) (traceID : String) (w : σ) : σ × HTTPReply :=
  if eventType = "" then
    (w, ginx.ResError traceID (InvalidInput invalidInputMsg "missing Event-Type header"))
  else
    match handlers.Load eventType with
    | none => (w, ginx.ResError traceID (InvalidInput invalidInputMsg "Unsupported event type"))
    | some handler =>
      match body with
      | Except.error _ =>
        (w, ginx.ResError traceID (InvalidInput invalidInputMsg "invalid body"))
      | Except.ok body =>
        match handler body w with
        | (w1, some _) =>
          (w1, ginx.ResError traceID (InvalidInput invalidInputMsg "handler execute error"))
        | (w1, none) => (w1, ginx.ResSuccess traceID)

/-- A handler that records the payloads it is called with and fails on the
payload `"bad"`. -/
def exRecorder : EventHandler (List RawMessage) :=
  fun payload w => (w ++ [payload], if payload = "bad" then some "rejected" else none)

/-- A handler that does nothing. -/
def exSilent : EventHandler (List RawMessage) := fun _ w => (w, none)

end replicator

/-- The reply with HTTP status 400 that carries the invalid-input error with
the given reason. -/
def badRequest (invalidInputMsg reason traceID : String) : HTTPReply :=
  { status := 400,
    body := { Code := 400, Status := "ERROR",
              Error := some { Code := 40001400, Message := invalidInputMsg, Reason := reason },
              TraceID := traceID } }

/-- The reply with HTTP status 200 and no error. -/
def okReply (traceID : String) : HTTPReply :=
  { status := 200, body := { Code := 200, Status := "OK", Error := none, TraceID := traceID } }

/-! ### Service discovery (`pkg/servicediscovery/service_discovery.go`) -/

/-- A Go `map[string]struct{}`: the list of its keys. `range` visits the keys
in the order of the list. -/
abbrev StringSet := List String

namespace StringSet

/-- `m[k] = struct{}{}`. -/
def insert (m : StringSet) (k : String) : StringSet := if k ∈ m then m else m ++ [k]

/-- `delete(m, k)`. -/
def delete (m : StringSet) (k : String) : StringSet := m.filter (fun x => decide (x ≠ k))

end StringSet

/-- `dnsServiceDiscovery`: the set of known nodes, the cached peer list and
the local host to exclude. -/
structure dnsServiceDiscovery where
  nodeList : StringSet
  hosts : List String
  localHost : String
  deriving DecidableEq, Repr

/-- `NewDNSDiscovery(config)` with `localHost` the result of
`config.GetLocalHosts()` (empty when that function is nil): no known node,
no cached peer. -/
def NewDNSDiscovery (localHost : String) : dnsServiceDiscovery :=
  { nodeList := [], hosts := [], localHost := localHost }

namespace dnsServiceDiscovery

/-- `sd.dnsLookUp()`. The argument is the result of `net.LookupIP`: an error,
or the addresses found, each given by its `String()` form. -/
def dnsLookUp (sd : dnsServiceDiscovery) (lookup : Except GoError (List String)) :
    dnsServiceDiscovery :=
  match lookup with
  | Except.error _ => sd
  | Except.ok hosts =>
    let newHosts : StringSet := hosts.foldl StringSet.insert []
    let nodeList1 : StringSet :=
      sd.nodeList.foldl
        (fun nl oldHost => if oldHost ∈ newHosts then nl else StringSet.delete nl oldHost)
        sd.nodeList
    let nodeList2 : StringSet :=
      newHosts.foldl
        (fun nl newHost => if newHost ∈ nl then nl else StringSet.insert nl newHost) nodeList1
    let updatedHosts : List String :=
      nodeList2.foldl (fun acc host => if host = sd.localHost then acc else acc ++ [host]) []
    { sd with nodeList := nodeList2, hosts := updatedHosts }

/-- `sd.GetHosts()`. -/
def GetHosts (sd : dnsServiceDiscovery) : List String := sd.hosts

/-- The discovery state after a sequence of lookups with the given results. -/
def lookups (sd : dnsServiceDiscovery) (results : List (Except GoError (List String))) :
    dnsServiceDiscovery :=
  results.foldl dnsLookUp sd

end dnsServiceDiscovery

/-- The addresses that a result of `net.LookupIP` carries: none for an error. -/
def resolvedAddrs : Except GoError (List String) → List String
  | Except.ok ips => ips
  | Except.error _ => []

/-- The results that `net.LookupIP` gives, an assumption on the library `net`
(it is not part of the sources): an error, or a list with at least one
address. A name that resolves to no address is reported as the error
`no such host`, not as an empty list without error. -/
def LookupIPResult : Except GoError (List String) → Prop
  | Except.ok ips => ips ≠ []
  | Except.error _ => True

instance (res : Except GoError (List String)) : Decidable (LookupIPResult res) := by
  cases res <;> unfold LookupIPResult <;> infer_instance

/-- A discovery state on host 10.0.0.1 after one lookup that found the hosts
10.0.0.1, 10.0.0.2 and 10.0.0.3. -/
def exDiscovery : dnsServiceDiscovery :=
  (NewDNSDiscovery "10.0.0.1").dnsLookUp (Except.ok ["10.0.0.1", "10.0.0.2", "10.0.0.3"])

/-! ### Replication events: the sender (`pkg/replicator/sender.go`) -/

/-- The result of `r.client.Do(req)`: a transport error, or a response with
its `StatusCode`. -/
inductive DoResult where
  | transportError (err : GoError)
  | response (StatusCode : Int)
  deriving DecidableEq, Repr

/-- One started send task: the arguments of `go r.sendRequestWithRetry(...)`. -/
structure SendTask where
  targetHost : String
  traceID : String
  eventType : String
  body : RawMessage
  deriving DecidableEq, Repr

namespace Replicator

/-- `r.replicate(c, eventType, payload)`: the send tasks it starts, in the
order of the loop. `hosts` is `r.serviceDiscovery.GetHosts()`, `marshal` the
result of `json.Marshal(payload)` and `traceID` that of the context. -/
def replicate (hosts : List String) (marshal : Except GoError RawMessage)
    (traceID eventType : String) : List SendTask :=
  if hosts.length = 0 then []
  else
    match marshal with
    | Except.error _ => []
    | Except.ok body =>
      hosts.foldl
        (fun tasks host =>
          tasks ++ [{ targetHost := host, traceID := traceID, eventType := eventType,
                      body := body }])
        []

/-- The loop `for attempt := 0; attempt < maxAttempts; attempt++` of
`sendRequestWithRetry`, from `attempt` on with `remaining` iterations left:
the attempt numbers at which `r.client.Do` is called, a POST each.
`newRequestOk` tells whether `http.NewRequestWithContext` succeeds for the
task (its arguments are the same in every iteration) and `doResult attempt`
is the result of `r.client.Do` at that attempt. -/
def sendLoop (newRequestOk : Bool) (doResult : Nat → DoResult) : Nat → Nat → List Nat
  | 0, _ => []
  | remaining + 1, attempt =>
    if newRequestOk then
      match doResult attempt with
      | DoResult.transportError _ =>
        attempt :: sendLoop newRequestOk doResult remaining (attempt + 1)
      | DoResult.response StatusCode =>
        if StatusCode = 200 then [attempt]
        else attempt :: sendLoop newRequestOk doResult remaining (attempt + 1)
    else []

/-- `maxAttempts` of `sendRequestWithRetry`. -/
def maxAttempts : Nat := 2

/-- `r.sendRequestWithRetry(ctx, targetHost, traceID, eventType, body)`: the
attempt numbers of the POST requests the task sends. -/
def sendRequestWithRetry (newRequestOk : Bool) (doResult : Nat → DoResult) : List Nat :=
  sendLoop newRequestOk doResult maxAttempts 0

end Replicator

/-! ### Metrics (`pkg/prom/status.go`) -/

/-- Reduction of an integer into the signed 64-bit range (two's complement). -/
def wrap64 (x : Int) : Int :=
  (x + 9223372036854775808) % 18446744073709551616 - 9223372036854775808

/-- The values an `int64` can hold. -/
def isInt64 (x : Int) : Prop := -9223372036854775808 ≤ x ∧ x < 9223372036854775808

instance (x : Int) : Decidable (isInt64 x) := by
  unfold isInt64; infer_instance

/-- A sample passed to `replicationLatency.Observe`: the value
`float64(nanos) / 1_000_000.0`, in milliseconds, given by the `int64` number
of nanoseconds it is computed from. -/
structure LatencySample where
  nanos : Int
  deriving DecidableEq, Repr

namespace prom

/-- `SetReplicationLatencyMillisecond(timestampNano, requestID)` executed at
the clock reading `nowNano` of `time.Now().UnixNano()`: the samples it passes
to `replicationLatency.Observe`. The difference `nowNano-timestampNano` is an
`int64` subtraction. The test `latencyMillisecond >= 0` on
`float64(d) / 1_000_000.0` is the test `d ≥ 0` on the difference `d`: the
conversion and the division by a positive constant keep the sign. -/
def SetReplicationLatencyMillisecond (timestampNano nowNano : Int) : List LatencySample :=
  if timestampNano > 0 then
    let d := wrap64 (nowNano - timestampNano)
    if d ≥ 0 then [{ nanos := d }] else []
  else []

end prom

/-! ### JSON payloads (`encoding/json` on the request structs of `load.go`) -/

/-- `DeletionInferenceRequest` of `load.go`. -/
structure DeletionInferenceRequest where
  RequestId : String
  TimeStamp : Int
  deriving DecidableEq, Repr

/-- The value of a member of a JSON object, as far as decoding into the
request structs tells values apart: `null`, a string, a number written as an
integer (its value), or anything else (a boolean, an array, an object, a
number that is not written as an integer), with the words Go uses for it in
an error text. -/
inductive JSONField where
  | null
  | string (s : String)
  | integer (n : Int)
  | other (desc : String)
  deriving DecidableEq, Repr

/-- A JSON document: an object with its members in the order written, `null`,
or anything else, with the words Go uses for it in an error text. -/
inductive JSONDoc where
  | object (members : List (String × JSONField))
  | null
  | other (desc : String)
  deriving DecidableEq, Repr

/-- The functions of the libraries that the handlers call and that are not
part of the sources. `decode` is the reading of a JSON text by
`json.Unmarshal` (an error for a text that is not JSON), `decodeFirst` the
reading of the first JSON value of a text by `json.NewDecoder(r).Decode`, the
decoder that `gin` binds a request body with (an error when the text does not
start with a JSON value; what follows the value is not read), `print` the
writing of a document by `json.Marshal`, `foldMatch key name` the
case-insensitive match of an object key with a field name that
`encoding/json` falls back to when no field has exactly that name, and `ipv4`
the test of the `ipv4` tag of the validator. -/
structure Libraries where
  decode : RawMessage → Except GoError JSONDoc
  decodeFirst : RawMessage → Except GoError JSONDoc
  print : JSONDoc → RawMessage
  foldMatch : String → String → Bool
  ipv4 : String → Bool

namespace JSONField

/-- The words of `UnmarshalTypeError.Value` for a member value. -/
def describe : JSONField → String
  | null => "null"
  | string _ => "string"
  | integer n => "number " ++ toString n
  | other desc => desc

end JSONField

/-- The text of a `json.UnmarshalTypeError` for a value that does not fit the
field `key` of Go type `goType` in struct `structName`. -/
def unmarshalTypeError (value structName key goType : String) : GoError :=
  "json: cannot unmarshal " ++ value ++ " into Go struct field " ++ structName ++ "." ++ key ++
    " of type " ++ goType

/-- The field of a struct with the JSON names `names` that the object key
`key` is decoded into: the field of exactly that name, else the first one the
key matches without regard to case, else none (the member is skipped). -/
def fieldOfKey (lib : Libraries) (names : List String) (key : String) : Option String :=
  if key ∈ names then some key else names.find? (fun name => lib.foldMatch key name)

/-- Decoding of one member value into a `string` field: the new value of the
field, and the error to report if the value does not fit. For a number the
error names the kind of the value only (`number`), without the literal. -/
def decodeString (structName key : String) (old : String) (v : JSONField) :
    String × Option GoError :=
  match v with
  | JSONField.null => (old, none)
  | JSONField.string s => (s, none)
  | JSONField.integer _ => (old, some (unmarshalTypeError "number" structName key "string"))
  | JSONField.other desc => (old, some (unmarshalTypeError desc structName key "string"))

/-- Decoding of one member value into an `int32` field. -/
def decodeInt32 (structName key : String) (old : Int) (v : JSONField) : Int × Option GoError :=
  match v with
  | JSONField.null => (old, none)
  | JSONField.integer n =>
    if isInt32 n then (n, none)
    else (old, some (unmarshalTypeError v.describe structName key "int32"))
  | _ => (old, some (unmarshalTypeError v.describe structName key "int32"))

/-- Decoding of one member value into an `int64` field. -/
def decodeInt64 (structName key : String) (old : Int) (v : JSONField) : Int × Option GoError :=
  match v with
  | JSONField.null => (old, none)
  | JSONField.integer n =>
    if isInt64 n then (n, none)
    else (old, some (unmarshalTypeError v.describe structName key "int64"))
  | _ => (old, some (unmarshalTypeError v.describe structName key "int64"))

namespace InferenceRequest

/-- The zero value `InferenceRequest{}`, with the zero `time.Time` written 0. -/
def zero : InferenceRequest :=
  { Cluster := "", RequestId := "", PromptLength := 0, Ip := "", TimeStamp := 0,
    CreateTime := 0 }

/-- The JSON names of the fields, from the `json` tags; `CreateTime` has the
tag `json:"-"` and no name. -/
def jsonNames : List String := ["cluster", "request_id", "prompt_length", "ip", "timestamp"]

/-- `json.Marshal(req)` as a document: the fields in the order of the struct,
`prompt_length` and `timestamp` left out when zero (`omitempty`), `CreateTime`
never written. -/
def toJSON (req : InferenceRequest) : JSONDoc :=
  JSONDoc.object
    ([("cluster", JSONField.string req.Cluster),
      ("request_id", JSONField.string req.RequestId)] ++
     (if req.PromptLength = 0 then [] else [("prompt_length", JSONField.integer req.PromptLength)]) ++
     [("ip", JSONField.string req.Ip)] ++
     (if req.TimeStamp = 0 then [] else [("timestamp", JSONField.integer req.TimeStamp)]))

/-- Decoding of one object member into the struct: the struct afterwards and
the first error saved so far. A member whose key matches no field is
skipped; a value that does not fit leaves the field as it was. -/
def decodeMember (lib : Libraries) (acc : InferenceRequest × Option GoError)
    (kv : String × JSONField) : InferenceRequest × Option GoError :=
  match fieldOfKey lib jsonNames kv.1 with
  | none => acc
  | some name =>
    if name = "cluster" then
      let r := decodeString "InferenceRequest" name acc.1.Cluster kv.2
      ({ acc.1 with Cluster := r.1 }, acc.2.orElse (fun _ => r.2))
    else if name = "request_id" then
      let r := decodeString "InferenceRequest" name acc.1.RequestId kv.2
      ({ acc.1 with RequestId := r.1 }, acc.2.orElse (fun _ => r.2))
    else if name = "prompt_length" then
      let r := decodeInt32 "InferenceRequest" name acc.1.PromptLength kv.2
      ({ acc.1 with PromptLength := r.1 }, acc.2.orElse (fun _ => r.2))
    else if name = "ip" then
      let r := decodeString "InferenceRequest" name acc.1.Ip kv.2
      ({ acc.1 with Ip := r.1 }, acc.2.orElse (fun _ => r.2))
    else
      let r := decodeInt64 "InferenceRequest" name acc.1.TimeStamp kv.2
      ({ acc.1 with TimeStamp := r.1 }, acc.2.orElse (fun _ => r.2))

/-- `json.Unmarshal(payload, &req)` for `var req InferenceRequest`. -/
def Unmarshal (lib : Libraries) (payload : RawMessage) : Except GoError InferenceRequest :=
  match lib.decode payload with
  | Except.error err => Except.error err
  | Except.ok (JSONDoc.object members) =>
    match members.foldl (decodeMember lib) (zero, none) with
    | (_, some err) => Except.error err
    | (req, none) => Except.ok req
  | Except.ok JSONDoc.null => Except.ok zero
  | Except.ok (JSONDoc.other desc) =>
    Except.error ("json: cannot unmarshal " ++ desc ++ " into Go value of type load.InferenceRequest")

/-- `json.NewDecoder(body).Decode(&req)` for `var req InferenceRequest`: the
first JSON value of the body is decoded into the struct as `json.Unmarshal`
decodes a whole text; the rest of the body is not read. -/
def Decode (lib : Libraries) (body : RawMessage) : Except GoError InferenceRequest :=
  match lib.decodeFirst body with
  | Except.error err => Except.error err
  | Except.ok (JSONDoc.object members) =>
    match members.foldl (decodeMember lib) (zero, none) with
    | (_, some err) => Except.error err
    | (req, none) => Except.ok req
  | Except.ok JSONDoc.null => Except.ok zero
  | Except.ok (JSONDoc.other desc) =>
    Except.error ("json: cannot unmarshal " ++ desc ++ " into Go value of type load.InferenceRequest")

/-- `json.Marshal(req)`: the bytes written. It does not fail on this struct. -/
def Marshal (lib : Libraries) (req : InferenceRequest) : RawMessage := lib.print req.toJSON

end InferenceRequest

namespace DeletionInferenceRequest

/-- The zero value `DeletionInferenceRequest{}`. -/
def zero : DeletionInferenceRequest := { RequestId := "", TimeStamp := 0 }

/-- The JSON names of the fields. -/
def jsonNames : List String := ["request_id", "timestamp"]

/-- `json.Marshal(req)` as a document. -/
def toJSON (req : DeletionInferenceRequest) : JSONDoc :=
  JSONDoc.object
    ([("request_id", JSONField.string req.RequestId)] ++
     (if req.TimeStamp = 0 then [] else [("timestamp", JSONField.integer req.TimeStamp)]))

/-- Decoding of one object member into the struct. -/
def decodeMember (lib : Libraries) (acc : DeletionInferenceRequest × Option GoError)
    (kv : String × JSONField) : DeletionInferenceRequest × Option GoError :=
  match fieldOfKey lib jsonNames kv.1 with
  | none => acc
  | some name =>
    if name = "request_id" then
      let r := decodeString "DeletionInferenceRequest" name acc.1.RequestId kv.2
      ({ acc.1 with RequestId := r.1 }, acc.2.orElse (fun _ => r.2))
    else
      let r := decodeInt64 "DeletionInferenceRequest" name acc.1.TimeStamp kv.2
      ({ acc.1 with TimeStamp := r.1 }, acc.2.orElse (fun _ => r.2))

/-- `json.Unmarshal(payload, &req)` for `var req DeletionInferenceRequest`. -/
def Unmarshal (lib : Libraries) (payload : RawMessage) :
    Except GoError DeletionInferenceRequest :=
  match lib.decode payload with
  | Except.error err => Except.error err
  | Except.ok (JSONDoc.object members) =>
    match members.foldl (decodeMember lib) (zero, none) with
    | (_, some err) => Except.error err
    | (req, none) => Except.ok req
  | Except.ok JSONDoc.null => Except.ok zero
  | Except.ok (JSONDoc.other desc) =>
    Except.error
      ("json: cannot unmarshal " ++ desc ++ " into Go value of type load.DeletionInferenceRequest")

/-- `json.NewDecoder(body).Decode(&req)` for `var req DeletionInferenceRequest`. -/
def Decode (lib : Libraries) (body : RawMessage) : Except GoError DeletionInferenceRequest :=
  match lib.decodeFirst body with
  | Except.error err => Except.error err
  | Except.ok (JSONDoc.object members) =>
    match members.foldl (decodeMember lib) (zero, none) with
    | (_, some err) => Except.error err
    | (req, none) => Except.ok req
  | Except.ok JSONDoc.null => Except.ok zero
  | Except.ok (JSONDoc.other desc) =>
    Except.error
      ("json: cannot unmarshal " ++ desc ++ " into Go value of type load.DeletionInferenceRequest")

/-- `json.Marshal(req)`: the bytes written. -/
def Marshal (lib : Libraries) (req : DeletionInferenceRequest) : RawMessage :=
  lib.print req.toJSON

end DeletionInferenceRequest

/-! ### The replica handlers (`pkg/meta/load/replicator.go`) -/

/-- What a replica handler leaves behind: the store, whether a delayed retry
of a deletion has been scheduled, and the error returned (`none` for nil). -/
structure HandlerResult where
  store : LoadStats
  retryScheduled : Bool
  err : Option GoError
  deriving DecidableEq, Repr

namespace load

/-- The event type of a replicated `Set`. -/
def LoadStatsSet : String := "load.stats.set"

/-- The event type of a replicated `Delete`. -/
def LoadStatsDelete : String := "load.stats.delete"

/-- The event type of a replicated `DeletePrompt`. -/
def LoadPromptDelete : String := "load.prompt.delete"

/-- `HandleLoadSet(payload)` on the store `s` at clock reading `now`. -/
def HandleLoadSet (lib : Libraries) (payload : RawMessage) (s : LoadStats) (now : Int) :
    HandlerResult :=
  match InferenceRequest.Unmarshal lib payload with
  | Except.error err =>
    { store := s, retryScheduled := false,
      err := some ("failed to unmarshal payload for handleLoadSet: " ++ err) }
  | Except.ok req => { store := s.AddRequest req now, retryScheduled := false, err := none }

/-- `HandleLoadDelete(payload)`. -/
def HandleLoadDelete (lib : Libraries) (payload : RawMessage) (s : LoadStats) (now : Int) :
    HandlerResult :=
  match DeletionInferenceRequest.Unmarshal lib payload with
  | Except.error err =>
    { store := s, retryScheduled := false,
      err := some ("failed to unmarshal payload for handleLoadDelete: " ++ err) }
  | Except.ok req =>
    { store := (s.DeleteRequest req.RequestId now).1,
      retryScheduled := (s.DeleteRequest req.RequestId now).2, err := none }

/-- `HandleLoadPromptDelete(payload)`. -/
def HandleLoadPromptDelete (lib : Libraries) (payload : RawMessage) (s : LoadStats)
    (now : Int) : HandlerResult :=
  match DeletionInferenceRequest.Unmarshal lib payload with
  | Except.error err =>
    { store := s, retryScheduled := false,
      err := some ("failed to unmarshal payload for handleLoadPromptDelete: " ++ err) }
  | Except.ok req =>
    { store := (s.DeletePromptLength req.RequestId now).1,
      retryScheduled := (s.DeletePromptLength req.RequestId now).2, err := none }

end load

/-! ### Binding errors (`pkg/utils/errors/bindjson.go`) -/

/-- A piece of the two patterns of `bindjson.go`: a literal text, or the
group `(.+?)`. -/
inductive PatternPiece where
  | lit (text : List Char)
  | group
  deriving DecidableEq, Repr

namespace PatternPiece

/-- The group `(.+?)` followed by the rest of a pattern, `rest` telling how the
rest matches a text: the shortest non-empty run of characters other than the
line feed after which the rest matches. `taken` is the run tried so far. -/
def matchGroup (rest : List Char → Option (List (List Char))) :
    List Char → List Char → Option (List (List Char))
  | _, [] => none
  | taken, ch :: text =>
    if ch = '\n' then none
    else
      match rest text with
      | some groups => some ((taken ++ [ch]) :: groups)
      | none => matchGroup rest (taken ++ [ch]) text

/-- A match of the pieces followed by `$` at the start of the text: the
texts of the groups. -/
def matchHere : List PatternPiece → List Char → Option (List (List Char))
  | [], text => if text = [] then some [] else none
  | lit l :: pieces, text =>
    if l.isPrefixOf text then matchHere pieces (text.drop l.length) else none
  | group :: pieces, text => matchGroup (matchHere pieces) [] text

/-- `FindStringSubmatch` for the pattern `pieces` followed by `$`: the groups
of the leftmost match, `none` when the text has no match. -/
def find (pieces : List PatternPiece) : List Char → Option (List (List Char))
  | [] => matchHere pieces []
  | ch :: text =>
    match matchHere pieces (ch :: text) with
    | some groups => some groups
    | none => find pieces text

end PatternPiece

/-- `strings.Contains(s, sub)`. -/
def stringsContains (s sub : String) : Bool :=
  s.data.tails.any (fun t => sub.data.isPrefixOf t)

/-- Modelled from the spec: the constant `ParseJsonFieldMsg`, declared outside
the sources; `TestDeletePrompt_InvalidJSON` expects the message
"Invalid input parameters: invalid JSON format" for a syntax error. -/
def ParseJsonFieldMsg : String := "Invalid input parameters"

/-- Modelled from the spec: the constant `ServerErrorCode`, declared outside
the sources; the spec gives the server-error code `50001500`. -/
def ServerErrorCode : Int := 50001500

/-- `typeRegexp`:
`cannot unmarshal (.+?) into Go struct field (.+?) of type (.+?)$`. -/
def typeRegexp : List PatternPiece :=
  [PatternPiece.lit "cannot unmarshal ".data, PatternPiece.group,
   PatternPiece.lit " into Go struct field ".data, PatternPiece.group,
   PatternPiece.lit " of type ".data, PatternPiece.group]

/-- `extractTypeErr(message)`. -/
def extractTypeErr (message : String) : String :=
  match PatternPiece.find typeRegexp message.data with
  | some [g1, g2, g3] =>
    "field " ++ String.mk g2 ++ " should be " ++ String.mk g3 ++ ", not " ++ String.mk g1
  | _ => ""

/-- `tagErrMap`. -/
def tagErrMap : SyncMap String :=
  [("max", "exceeds maximum value"), ("min", "below minimum value"),
   ("lte", "exceeds maximum value"), ("gte", "below minimum value"),
   ("required", "is required"), ("required_if", "is required"),
   ("lowercase", "only lowercase characters allowed"), ("alpha", "invalid input"),
   ("oneof", "invalid input"), ("unique", "duplicate values not allowed"),
   ("fqdn", "invalid domain"), ("ip", "invalid IP address")]

/-- `tagRegexp`:
`AddError:Field validation for '(.+?)' failed on the '(.+?)' tag$`. -/
def tagRegexp : List PatternPiece :=
  [PatternPiece.lit "AddError:Field validation for '".data, PatternPiece.group,
   PatternPiece.lit "' failed on the '".data, PatternPiece.group,
   PatternPiece.lit "' tag".data]

/-- `extractTagErr(message)`. -/
def extractTagErr (message : String) : String :=
  match PatternPiece.find tagRegexp message.data with
  | some [g1, g2] =>
    match tagErrMap.Load (String.mk g2) with
    | none => "field " ++ String.mk g1 ++ " failed validation: " ++ String.mk g2
    | some tagErr => "field " ++ String.mk g1 ++ " " ++ tagErr
  | _ => ""

/-- `ParseJSONFailed(err)`, with `reason` the text `err.Error()`. -/
def ParseJSONFailed (reason : String) : ErrorInfo :=
  if stringsContains reason "looking for beginning of" then
    { Code := InvalidInputCode, Message := ParseJsonFieldMsg ++ ": invalid JSON format",
      Reason := reason }
  else if extractTypeErr reason ≠ "" then
    { Code := InvalidInputCode, Message := ParseJsonFieldMsg ++ ": " ++ extractTypeErr reason,
      Reason := reason }
  else if extractTagErr reason ≠ "" then
    { Code := InvalidInputCode, Message := ParseJsonFieldMsg ++ ": " ++ extractTagErr reason,
      Reason := reason }
  else { Code := InvalidInputCode, Message := ParseJsonFieldMsg, Reason := reason }

/-! ### Request binding and the HTTP handlers (`pkg/ginx`, `pkg/api/load.go`) -/

/-- The text of one field error of the validator. -/
def fieldError (ns field tag : String) : String :=
  "Key: '" ++ ns ++ "' Error:Field validation for '" ++ field ++ "' failed on the '" ++ tag ++
    "' tag"

namespace InferenceRequest

/-- The field errors of the `binding` tags of `InferenceRequest`, in the
order of the fields: `required` on `Cluster` and `RequestId`, `gte=0` on
`PromptLength`, `required,ipv4` on `Ip`. -/
def validationErrors (lib : Libraries) (req : InferenceRequest) : List String :=
  (if req.Cluster = "" then [fieldError "InferenceRequest.Cluster" "Cluster" "required"]
   else []) ++
  (if req.RequestId = "" then [fieldError "InferenceRequest.RequestId" "RequestId" "required"]
   else []) ++
  (if req.PromptLength < 0 then
     [fieldError "InferenceRequest.PromptLength" "PromptLength" "gte"]
   else []) ++
  (if req.Ip = "" then [fieldError "InferenceRequest.Ip" "Ip" "required"]
   else if lib.ipv4 req.Ip then []
   else [fieldError "InferenceRequest.Ip" "Ip" "ipv4"])

/-- `c.ShouldBindJSON(&reqParam)`: `gin` decodes the body with
`json.NewDecoder(body).Decode`, that is the first JSON value of the body, then
validates the struct; the text of the validation error is the field errors,
one per line. -/
def ShouldBindJSON (lib : Libraries) (body : RawMessage) : Except GoError InferenceRequest :=
  match Decode lib body with
  | Except.error err => Except.error err
  | Except.ok req =>
    if validationErrors lib req = [] then Except.ok req
    else Except.error (String.intercalate "\n" (validationErrors lib req))

end InferenceRequest

namespace DeletionInferenceRequest

/-- The field errors of the `binding` tags of `DeletionInferenceRequest`:
`required` on `RequestId`. -/
def validationErrors (req : DeletionInferenceRequest) : List String :=
  if req.RequestId = "" then
    [fieldError "DeletionInferenceRequest.RequestId" "RequestId" "required"]
  else []

/-- `c.ShouldBindJSON(&reqParam)`: the first JSON value of the body is
decoded, then the struct is validated. -/
def ShouldBindJSON (lib : Libraries) (body : RawMessage) :
    Except GoError DeletionInferenceRequest :=
  match Decode lib body with
  | Except.error err => Except.error err
  | Except.ok req =>
    if validationErrors req = [] then Except.ok req
    else Except.error (String.intercalate "\n" (validationErrors req))

end DeletionInferenceRequest

/-- What a handler of `LoadAPI` does: the store afterwards, whether a delayed
retry of a deletion has been scheduled, the send tasks started by
`replicator.Replicate`, and the reply written. -/
structure APIOutcome where
  store : LoadStats
  retryScheduled : Bool
  tasks : List SendTask
  reply : HTTPReply
  deriving DecidableEq, Repr

namespace ginx

/-- `ginx.ResOK(c)`. -/
def ResOK (traceID : String) : HTTPReply :=
  ResJSON { Code := 200, Status := "OK", Error := none, TraceID := traceID }

end ginx

namespace LoadAPI

/-- `LoadAPI.Set(c)` for a request with the given body, on the store `s` at
clock reading `now`. `hosts` is the peer list of the replicator, `traceID`
the result of `ginx.GetTraceID(c)` and `ctxTraceID` that of
`helper.GetTraceIDFromCtx(c)`. -/
def Set (lib : Libraries) (hosts : List String) (traceID ctxTraceID : String)
    (body : RawMessage) (s : LoadStats) (now : Int) : APIOutcome :=
  match InferenceRequest.ShouldBindJSON lib body with
  | Except.error err =>
    { store := s, retryScheduled := false, tasks := [],
      reply := ginx.ResError traceID (ParseJSONFailed err) }
  | Except.ok reqParam =>
    { store := s.AddRequest reqParam now, retryScheduled := false,
      tasks := Replicator.replicate hosts (Except.ok (reqParam.Marshal lib)) ctxTraceID
        load.LoadStatsSet,
      reply := ginx.ResOK traceID }

/-- `LoadAPI.Delete(c)`. -/
def Delete (lib : Libraries) (hosts : List String) (traceID ctxTraceID : String)
    (body : RawMessage) (s : LoadStats) (now : Int) : APIOutcome :=
  match DeletionInferenceRequest.ShouldBindJSON lib body with
  | Except.error err =>
    { store := s, retryScheduled := false, tasks := [],
      reply := ginx.ResError traceID (ParseJSONFailed err) }
  | Except.ok reqParam =>
    { store := (s.DeleteRequest reqParam.RequestId now).1,
      retryScheduled := (s.DeleteRequest reqParam.RequestId now).2,
      tasks := Replicator.replicate hosts (Except.ok (reqParam.Marshal lib)) ctxTraceID
        load.LoadStatsDelete,
      reply := ginx.ResOK traceID }

/-- `LoadAPI.DeletePrompt(c)`. -/
def DeletePrompt (lib : Libraries) (hosts : List String) (traceID ctxTraceID : String)
    (body : RawMessage) (s : LoadStats) (now : Int) : APIOutcome :=
  match DeletionInferenceRequest.ShouldBindJSON lib body with
  | Except.error err =>
    { store := s, retryScheduled := false, tasks := [],
      reply := ginx.ResError traceID (ParseJSONFailed err) }
  | Except.ok reqParam =>
    { store := (s.DeletePromptLength reqParam.RequestId now).1,
      retryScheduled := (s.DeletePromptLength reqParam.RequestId now).2,
      tasks := Replicator.replicate hosts (Except.ok (reqParam.Marshal lib)) ctxTraceID
        load.LoadPromptDelete,
      reply := ginx.ResOK traceID }

end LoadAPI

/-- The request of the examples: cluster `test`, id `12345`, an ip that is
not an address. -/
def exReqBadIp : InferenceRequest :=
  { Cluster := "test", RequestId := "12345", PromptLength := 0, Ip := "not-an-ip",
    TimeStamp := 0, CreateTime := 0 }

/-- The body `{"cluster":"test","request_id":"12345","ip":"not-an-ip"}`. -/
def exBodyBadIp : RawMessage :=
  "\x7b\"cluster\":\"test\",\"request_id\":\"12345\",\"ip\":\"not-an-ip\"\x7d"

/-- The body `{"cluster":"A","request_id":"1","prompt_length":512,"ip":"1.1.1.1"}`. -/
def exBodyReq1 : RawMessage :=
  "\x7b\"cluster\":\"A\",\"request_id\":\"1\",\"prompt_length\":512,\"ip\":\"1.1.1.1\"\x7d"

/-- Engine (A, 1.1.1.1), request `"m1"`, prompt `-1`, as a replica payload
can carry it. -/
def exReqMinusOne : InferenceRequest :=
  { Cluster := "A", RequestId := "m1", PromptLength := -1, Ip := "1.1.1.1",
    TimeStamp := 0, CreateTime := 0 }

/-- The body `{"cluster":"A","request_id":"m1","prompt_length":-1,"ip":"1.1.1.1"}`. -/
def exBodyMinusOne : RawMessage :=
  "\x7b\"cluster\":\"A\",\"request_id\":\"m1\",\"prompt_length\":-1,\"ip\":\"1.1.1.1\"\x7d"

/-- The body of request `"1"` followed by a word, which is not valid JSON:
`{"cluster":"A","request_id":"1","prompt_length":512,"ip":"1.1.1.1"} trailing`. -/
def exBodyTrailing : RawMessage :=
  "\x7b\"cluster\":\"A\",\"request_id\":\"1\",\"prompt_length\":512,\"ip\":\"1.1.1.1\"\x7d trailing"

/-- An instance of the library functions for the examples: `decode` reads the
three example bodies and `null`, rejects the body with a trailing word for
what follows its first value, and rejects every other text as a syntax error;
`decodeFirst` reads what `decode` reads and the first value of the body with a
trailing word; `print` writes the documents of the three example requests, no
key matches a name other than its own, and the `ipv4` test accepts `1.1.1.1`
only. -/
def exLibraries : Libraries :=
  { decode := fun text =>
      if text = exBodyBadIp then Except.ok exReqBadIp.toJSON
      else if text = exBodyReq1 then Except.ok exReq1.toJSON
      else if text = exBodyMinusOne then Except.ok exReqMinusOne.toJSON
      else if text = "null" then Except.ok JSONDoc.null
      else if text = exBodyTrailing then
        Except.error "invalid character 't' after top-level value"
      else Except.error "invalid character 'i' looking for beginning of value",
    decodeFirst := fun text =>
      if text = exBodyBadIp then Except.ok exReqBadIp.toJSON
      else if text = exBodyReq1 then Except.ok exReq1.toJSON
      else if text = exBodyMinusOne then Except.ok exReqMinusOne.toJSON
      else if text = "null" then Except.ok JSONDoc.null
      else if text = exBodyTrailing then Except.ok exReq1.toJSON
      else Except.error "invalid character 'i' looking for beginning of value",
    print := fun doc =>
      if doc = exReqBadIp.toJSON then exBodyBadIp
      else if doc = exReq1.toJSON then exBodyReq1
      else if doc = exReqMinusOne.toJSON then exBodyMinusOne
      else "null",
    foldMatch := fun _ _ => false,
    ipv4 := fun text => text = "1.1.1.1" }

/-! ### Frames of the delete operations -/

namespace LoadStats

/-- The model map `M2` has the keys of `M1`, and each model has the engine
keys, the `Length` and the name it has in `M1`. -/
def SameShape (M1 M2 : SyncMap ModelStats) : Prop :=
  M2.keys = M1.keys ∧
  ∀ c ms, M1.Load c = some ms →
    ∃ ms2, M2.Load c = some ms2 ∧ ms2.Engines.keys = ms.Engines.keys ∧
      ms2.Length = ms.Length ∧ ms2.name = ms.name

end LoadStats
/-! ### An engine touched by the sweeper -/

namespace LoadStats

/-- The model map has unique keys, every engine map has unique keys, and the
model `c` and its engine `ip` exist and were last touched at clock reading `T`
or later. -/
def Kept (T : Int) (c ip : String) (s : LoadStats) : Prop :=
  s.RunningModelStats.keys.Nodup ∧ (∀ kv ∈ s.RunningModelStats, kv.2.Engines.keys.Nodup) ∧
  ∃ ms e, s.RunningModelStats.Load c = some ms ∧ ms.Engines.Load ip = some e ∧
    T ≤ ms.UpdateTime ∧ T ≤ e.UpdatedTime

/-- Every operation of the sequence runs at clock reading `T` or later, and
every sweep among them before `T + expire`. -/
def BeforeExpiry (T expire : Int) (ops : List (Op × Int)) : Prop :=
  ∀ x ∈ ops, T ≤ x.2 ∧ (x.1 = Op.gc → x.2 < T + expire)

instance (T expire : Int) (ops : List (Op × Int)) : Decidable (BeforeExpiry T expire ops) := by
  unfold BeforeExpiry; infer_instance

end LoadStats

/-- Engine (A, 2.2.2.2), request `"old"`, prompt 10. -/
def exReqOld : InferenceRequest :=
  { Cluster := "A", RequestId := "old", PromptLength := 10, Ip := "2.2.2.2",
    TimeStamp := 0, CreateTime := 0 }

/-- A store with two engines of model `A`: engine 2.2.2.2 was used by request
`"old"` (set at 0, deleted at 1) and is idle since; engine 1.1.1.1 holds
request `"1"` (prompt 512), set at 5. -/
def exStoreIdle : LoadStats :=
  ((NewLoadStats.AddRequest exReqOld 0).DeleteRequest "old" 1).1.AddRequest exReq1 5

/-! ### The counters in wrapping arithmetic -/

namespace LoadStats

/-- The store invariant in wrapping arithmetic: request ids are unique, the
engine of every stored request exists, and the counters of every existing
engine are the number of its stored requests and the sum of their current
prompt lengths, each reduced modulo 2^32 into the `int32` range. -/
def WrapConsistent (s : LoadStats) : Prop :=
  s.Requests.keys.Nodup ∧
  (∀ kr ∈ s.Requests, s.engine kr.2.Cluster kr.2.Ip ≠ none) ∧
  (∀ c ip e, s.engine c ip = some e →
    e.QueuedReqNum = wrap32 (s.liveCount c ip) ∧ e.PromptLength = wrap32 (s.livePrompt c ip))

/-- Every stored request has a prompt length `≥ 0`. -/
def NonnegPrompts (s : LoadStats) : Prop := ∀ kr ∈ s.Requests, 0 ≤ kr.2.PromptLength

/-- The operation is a `Set`. -/
def IsSet : Op → Prop
  | Op.set _ => True
  | _ => False

instance (op : Op) : Decidable (IsSet op) := by
  cases op <;> unfold IsSet <;> infer_instance

/-- Every operation of the sequence is a `Set`. -/
def OnlySets (ops : List (Op × Int)) : Prop := ∀ x ∈ ops, IsSet x.1

instance (ops : List (Op × Int)) : Decidable (OnlySets ops) := by
  unfold OnlySets; infer_instance

/-- The operation is a `Set` with a prompt length `≥ 0` (a valid input of the
API), a deletion attempt or a prompt-deletion attempt; not a sweeper pass. -/
def ValidOp : Op → Prop
  | Op.set r => 0 ≤ r.PromptLength
  | Op.gc => False
  | _ => True

instance (op : Op) : Decidable (ValidOp op) := by
  cases op <;> unfold ValidOp <;> infer_instance

/-- The sequence has no sweeper pass and every `Set` of it has a prompt length
`≥ 0`. -/
def ValidSets (ops : List (Op × Int)) : Prop := ∀ x ∈ ops, ValidOp x.1

instance (ops : List (Op × Int)) : Decidable (ValidSets ops) := by
  unfold ValidSets; infer_instance

end LoadStats

/-! ### The model pass of the sweeper in `int64` arithmetic -/

/-- Every sum `UpdateTime + expire` and `UpdatedTime + expire` that the model
pass of `GC` computes for this model is within the `int64` range. -/
def ModelStats.Fits (expire : Int) (ms : ModelStats) : Prop :=
  isInt64 (ms.UpdateTime + expire) ∧ ∀ ke ∈ ms.Engines, isInt64 (ke.2.UpdatedTime + expire)

instance (expire : Int) (ms : ModelStats) : Decidable (ms.Fits expire) := by
  unfold ModelStats.Fits; infer_instance

namespace LoadStats

/-- Every sum of a time stamp of the store and `expire` is within the `int64`
range. -/
def StampsFit (expire : Int) (s : LoadStats) : Prop :=
  ∀ kv ∈ s.RunningModelStats, kv.2.Fits expire

instance (expire : Int) (s : LoadStats) : Decidable (s.StampsFit expire) := by
  unfold StampsFit; infer_instance

end LoadStats

namespace LoadStats.Machine

/-- The callback of the inner `modelStats.Engines.Range` of `ls.GC()`, with
the sum `engineStats.UpdatedTime+expire` as the source computes it: an `int64`
addition, which wraps. -/
def gcEngineVisit (nowStamps expire : Int) (acc : ModelStats) (kv : String × EngineStats) :
    ModelStats :=
  if nowStamps ≥ wrap64 (kv.2.UpdatedTime + expire) then acc.Delete kv.1 nowStamps else acc

/-- The inner `modelStats.Engines.Range` of the model pass of `ls.GC()`. -/
def gcEngines (ms : ModelStats) (nowStamps expire : Int) : ModelStats :=
  ms.Engines.foldl (gcEngineVisit nowStamps expire) ms

/-- The callback of `RunningModelStats.Range` in `ls.GC()`, with the sum
`modelStats.UpdateTime+expire` as an `int64` addition. -/
def gcModelVisit (nowStamps expire : Int) (acc : LoadStats) (kv : String × ModelStats) :
    LoadStats :=
  if nowStamps ≥ wrap64 (kv.2.UpdateTime + expire) then
    { acc with RunningModelStats := acc.RunningModelStats.Delete kv.1 }
  else
    { acc with RunningModelStats :=
        acc.RunningModelStats.put kv.1 (gcEngines kv.2 nowStamps expire) }

/-- The model pass of `ls.GC()`. -/
def gcModels (s : LoadStats) (nowStamps expire : Int) : LoadStats :=
  s.RunningModelStats.foldl (gcModelVisit nowStamps expire) s

/-- `ls.GC()` executed at clock reading `now` with
`requestExpireDuration = expire`: the request pass, whose test
`req.CreateTime.Add(requestExpireDuration).Before(now)` is on `time.Time`
values and does not wrap, then the model pass in `int64` arithmetic. -/
def GC (s : LoadStats) (now expire : Int) : LoadStats :=
  gcModels (s.gcRequests now expire) now expire

/-- The store after operation `op` executed at clock reading `now`, the
sweeper being `Machine.GC`. -/
def step (expire : Int) (s : LoadStats) (op : Op) (now : Int) : LoadStats :=
  match op with
  | Op.set req => s.AddRequest req now
  | Op.delete requestID => (s.tryDeleteRequestStats requestID now).2
  | Op.promptDelete requestID => (s.tryDecPromptLength requestID now).2
  | Op.gc => GC s now expire

/-- The store after a sequence of operations, each with its clock reading. -/
def run (expire : Int) (s : LoadStats) (ops : List (Op × Int)) : LoadStats :=
  ops.foldl (fun acc x => step expire acc x.1 x.2) s

/-- The sequence of operations is executed at non-decreasing clock readings
`t`, starting no earlier than `T`, each with `t + expire` within the `int64`
range, and each operation is `OpAllowed` in the state it runs in. -/
def Admissible (expire : Int) : Int → LoadStats → List (Op × Int) → Prop
  | _, _, [] => True
  | T, s, x :: rest =>
    T ≤ x.2 ∧ isInt64 (x.2 + expire) ∧ OpAllowed expire s x.1 x.2 ∧
      Admissible expire x.2 (step expire s x.1 x.2) rest

/-- `Admissible` is decidable. -/
def decAdmissible (expire : Int) :
    (T : Int) → (s : LoadStats) → (ops : List (Op × Int)) → Decidable (Admissible expire T s ops)
  | _, _, [] => isTrue trivial
  | _, s, x :: rest =>
    @instDecidableAnd _ _ inferInstance
      (@instDecidableAnd _ _ inferInstance
        (@instDecidableAnd _ _ inferInstance
          (decAdmissible expire x.2 (step expire s x.1 x.2) rest)))

instance (expire T : Int) (s : LoadStats) (ops : List (Op × Int)) :
    Decidable (Admissible expire T s ops) := decAdmissible expire T s ops

end LoadStats.Machine

/-! ### Timers: the delayed retry of the delete operations -/

namespace time

/-- `time.Second`, in nanoseconds. -/
def Second : Int := 1000000000

end time

/-- The operation a deletion attempt belongs to: `DeleteRequest` (attempts of
`tryDeleteRequestStats`) or `DeletePromptLength` (attempts of
`tryDecPromptLength`). -/
inductive AttemptKind where
  | request
  | prompt
  deriving DecidableEq, Repr

/-- A timer started by `time.AfterFunc(time.Second, ...)` that has not fired
yet: the clock reading from which it may fire, the number of the call of
`DeleteRequest` or `DeletePromptLength` that started it, and what its body
retries. -/
structure Timer where
  due : Int
  call : Nat
  kind : AttemptKind
  requestID : String
  deriving DecidableEq, Repr

/-- A deletion attempt that has been executed: the number of the call it
belongs to, the operation and the request id, the clock reading it ran at,
whether it is the body of a timer (the delayed retry), and what it
returned. -/
structure Attempt where
  call : Nat
  kind : AttemptKind
  requestID : String
  time : Int
  delayed : Bool
  found : Bool
  deriving DecidableEq, Repr

/-- The store together with the pending timers of the Go runtime. `attempts`
records the deletion attempts executed so far, in order; it is written by the
operations and read by none of them. -/
structure Runtime where
  store : LoadStats
  timers : List Timer
  attempts : List Attempt
  deriving DecidableEq, Repr

namespace Runtime

/-- `ls.DeleteRequest(req)` called at clock reading `now`, as call number
`call`: the immediate attempt; when it finds nothing,
`time.AfterFunc(time.Second, ...)` starts a timer that is due one second
later. -/
def DeleteRequest (rt : Runtime) (call : Nat) (requestID : String) (now : Int) : Runtime :=
  match rt.store.tryDeleteRequestStats requestID now with
  | (true, s1) =>
    { store := s1, timers := rt.timers,
      attempts := rt.attempts ++
        [{ call := call, kind := AttemptKind.request, requestID := requestID, time := now,
           delayed := false, found := true }] }
  | (false, s1) =>
    { store := s1,
      timers := rt.timers ++
        [{ due := now + time.Second, call := call, kind := AttemptKind.request,
           requestID := requestID }],
      attempts := rt.attempts ++
        [{ call := call, kind := AttemptKind.request, requestID := requestID, time := now,
           delayed := false, found := false }] }

/-- `ls.DeletePromptLength(req)` called at clock reading `now`, as call number
`call`. -/
def DeletePromptLength (rt : Runtime) (call : Nat) (requestID : String) (now : Int) :
    Runtime :=
  match rt.store.tryDecPromptLength requestID now with
  | (true, s1) =>
    { store := s1, timers := rt.timers,
      attempts := rt.attempts ++
        [{ call := call, kind := AttemptKind.prompt, requestID := requestID, time := now,
           delayed := false, found := true }] }
  | (false, s1) =>
    { store := s1,
      timers := rt.timers ++
        [{ due := now + time.Second, call := call, kind := AttemptKind.prompt,
           requestID := requestID }],
      attempts := rt.attempts ++
        [{ call := call, kind := AttemptKind.prompt, requestID := requestID, time := now,
           delayed := false, found := false }] }

/-- One call of `DeleteRequest` or of `DeletePromptLength`. -/
def deleteCall (kind : AttemptKind) (rt : Runtime) (call : Nat) (requestID : String)
    (now : Int) : Runtime :=
  match kind with
  | AttemptKind.request => rt.DeleteRequest call requestID now
  | AttemptKind.prompt => rt.DeletePromptLength call requestID now

/-- The runtime fires the pending timer number `i` at clock reading `now`. A
timer fires only when it is due (`due ≤ now`); its body, the function given to
`time.AfterFunc`, makes one attempt and returns, and the timer is gone. When
there is no such timer or it is not due, nothing happens. -/
def fire (rt : Runtime) (i : Nat) (now : Int) : Runtime :=
  match rt.timers[i]? with
  | none => rt
  | some tm =>
    if tm.due ≤ now then
      match tm.kind with
      | AttemptKind.request =>
        { store := (rt.store.tryDeleteRequestStats tm.requestID now).2,
          timers := rt.timers.eraseIdx i,
          attempts := rt.attempts ++
            [{ call := tm.call, kind := AttemptKind.request, requestID := tm.requestID,
               time := now, delayed := true,
               found := (rt.store.tryDeleteRequestStats tm.requestID now).1 }] }
      | AttemptKind.prompt =>
        { store := (rt.store.tryDecPromptLength tm.requestID now).2,
          timers := rt.timers.eraseIdx i,
          attempts := rt.attempts ++
            [{ call := tm.call, kind := AttemptKind.prompt, requestID := tm.requestID,
               time := now, delayed := true,
               found := (rt.store.tryDecPromptLength tm.requestID now).1 }] }
    else rt

/-- The attempts executed so far that belong to call number `call`. -/
def attemptsOf (rt : Runtime) (call : Nat) : List Attempt :=
  rt.attempts.filter (fun a => decide (a.call = call))

/-- The pending timers started by call number `call`. -/
def timersOf (rt : Runtime) (call : Nat) : List Timer :=
  rt.timers.filter (fun tm => decide (tm.call = call))

end Runtime

/-- What happens next: a `Set`, a call of `DeleteRequest` or of
`DeletePromptLength` (with its call number), a sweep, or the firing of a
pending timer. -/
inductive Event where
  | set (req : InferenceRequest)
  | delete (call : Nat) (requestID : String)
  | promptDelete (call : Nat) (requestID : String)
  | gc
  | fire (i : Nat)
  deriving DecidableEq, Repr

namespace Event

/-- The event is a call of `DeleteRequest` or `DeletePromptLength` numbered
`call`. -/
def isCall (ev : Event) (call : Nat) : Prop :=
  match ev with
  | delete c _ => c = call
  | promptDelete c _ => c = call
  | _ => False

instance (ev : Event) (call : Nat) : Decidable (ev.isCall call) := by
  cases ev <;> unfold isCall <;> infer_instance

end Event

namespace Runtime

/-- The runtime after the event `ev` at clock reading `now`. -/
def exec (expire : Int) (rt : Runtime) (ev : Event) (now : Int) : Runtime :=
  match ev with
  | Event.set req => { rt with store := rt.store.AddRequest req now }
  | Event.delete call requestID => rt.DeleteRequest call requestID now
  | Event.promptDelete call requestID => rt.DeletePromptLength call requestID now
  | Event.gc => { rt with store := LoadStats.Machine.GC rt.store now expire }
  | Event.fire i => rt.fire i now

/-- The runtime after a sequence of events, each with its clock reading. -/
def runEvents (expire : Int) (rt : Runtime) (evs : List (Event × Int)) : Runtime :=
  evs.foldl (fun acc x => exec expire acc x.1 x.2) rt

/-- The situation of call number `call` of kind `kind` for `requestID`, made
at clock reading `now`, whose immediate attempt returned `found`: its attempts
are the immediate one followed by delayed retries for the same id, each run
at `now + time.Second` or later; its pending timers are due at
`now + time.Second`; and the retries run and the timers pending are together
none when the immediate attempt found the request, one when it did not. -/
def CallState (call : Nat) (kind : AttemptKind) (requestID : String) (now : Int)
    (found : Bool) (rt : Runtime) : Prop :=
  ∃ rest, rt.attemptsOf call =
      { call := call, kind := kind, requestID := requestID, time := now, delayed := false,
        found := found } :: rest ∧
    (∀ a ∈ rest, a.delayed = true ∧ a.kind = kind ∧ a.requestID = requestID ∧
      now + time.Second ≤ a.time) ∧
    (∀ tm ∈ rt.timersOf call, tm.due = now + time.Second ∧ tm.kind = kind ∧
      tm.requestID = requestID) ∧
    rest.length + (rt.timersOf call).length = (if found then 0 else 1)

end Runtime
namespace Runtime

/-- The runtime after call number `call` of a delete operation, made at clock
reading `now`, and the events `evs` that follow it. -/
def afterCall (expire : Int) (kind : AttemptKind) (rt : Runtime) (call : Nat)
    (requestID : String) (now : Int) (evs : List (Event × Int)) : Runtime :=
  runEvents expire (deleteCall kind rt call requestID now) evs

end Runtime

/-- The store holding request `"1"` (engine (A, 1.1.1.1), prompt 512), no
pending timer: `DeleteRequest("2")` is called at 6 as call 0, `Set` of request
`"2"` on the same engine follows at 7, and the timer of the call fires one
second after the call. -/
def exRuntimeRetry : Runtime :=
  Runtime.afterCall 10 AttemptKind.request { store := exStore1, timers := [], attempts := [] }
    0 "2" 6 [(Event.set exReq2, 7), (Event.fire 0, 1000000006)]

/-! ### Request structs shared between the callers and the store -/

/-- A pointer `*InferenceRequest`: the address of a request struct. -/
abbrev ReqPtr := Nat

namespace Ptr

/-- The memory after the struct at address `p` has been overwritten with `v`. -/
def write (mem : ReqPtr → InferenceRequest) (p : ReqPtr) (v : InferenceRequest) :
    ReqPtr → InferenceRequest :=
  fun q => if q = p then v else mem q

/-- `LoadStats` of `load_stats.go` with the pointers of the source: `Requests`
maps a request id to the pointer that was passed to `AddRequest`, and `mem`
gives the request struct at every address, the structs of the callers
included. A write through a pointer is seen through every copy of the
pointer. The models and engines are held as in `MetadataCenter.LoadStats`. -/
structure LoadStats where
  mem : ReqPtr → InferenceRequest
  RunningModelStats : SyncMap ModelStats
  Requests : SyncMap ReqPtr

/-- `NewLoadStats()`, with the request structs the callers hold. -/
def NewLoadStats (mem : ReqPtr → InferenceRequest) : LoadStats :=
  { mem := mem, RunningModelStats := [], Requests := [] }

namespace LoadStats

/-- The store as a reader finds it: every stored pointer replaced by the
struct it points to. -/
def view (s : LoadStats) : MetadataCenter.LoadStats :=
  { RunningModelStats := s.RunningModelStats,
    Requests := s.Requests.map (fun kv => (kv.1, s.mem kv.2)) }

/-- `ls.AddRequest(req)` executed at clock reading `now`: `req.CreateTime` is
written through the pointer first, then `LoadOrStore(req.RequestId, req)`
stores the pointer unless the id is already a key. -/
def AddRequest (s : LoadStats) (req : ReqPtr) (now : Int) : LoadStats :=
  let mem := write s.mem req { s.mem req with CreateTime := now }
  let promptLength := (mem req).PromptLength
  match s.Requests.Load (mem req).RequestId with
  | some _ => { s with mem := mem }
  | none =>
    let requests := s.Requests.put (mem req).RequestId req
    let key := (mem req).Cluster
    let v := match s.RunningModelStats.Load key with
      | some ms => ms
      | none => NewModelStats key now
    let (modelStats, engineStats) := v.LoadOrStore (mem req).Ip now
    let engineStats := engineStats.IncrementQueuedReqNumAndPromptLength promptLength now
    let modelStats := { modelStats with Engines := modelStats.Engines.put (mem req).Ip engineStats }
    { mem := mem, RunningModelStats := s.RunningModelStats.put key modelStats,
      Requests := requests }

/-- `ls.decEngineStats(req)`: `DecrementPromptLength` sets `req.PromptLength`
to 0 through the pointer when it subtracts. -/
def decEngineStats (s : LoadStats) (req : ReqPtr) (now : Int) : LoadStats :=
  let key := (s.mem req).Cluster
  match s.RunningModelStats.Load key with
  | none => s
  | some v =>
    match v.Load (s.mem req).Ip now with
    | (modelStats, none) =>
      { s with RunningModelStats := s.RunningModelStats.put key modelStats }
    | (modelStats, some engineStats) =>
      let engineStats := engineStats.DecrementQueuedReqNum now
      let r := engineStats.DecrementPromptLength (s.mem req) now
      let modelStats :=
        { modelStats with Engines := modelStats.Engines.put (s.mem req).Ip r.1 }
      { s with mem := write s.mem req r.2,
               RunningModelStats := s.RunningModelStats.put key modelStats }

/-- `ls.tryDeleteRequestStats(requestID)`: one deletion attempt. -/
def tryDeleteRequestStats (s : LoadStats) (requestID : String) (now : Int) :
    Bool × LoadStats :=
  match s.Requests.Load requestID with
  | some req =>
    (true, decEngineStats { s with Requests := s.Requests.Delete requestID } req now)
  | none => (false, s)

end LoadStats

/-- One operation on the store: `AddRequest` with the pointer it is given, or
one deletion attempt of `DeleteRequest` (the immediate one or the delayed
retry). -/
inductive Op where
  | set (req : ReqPtr)
  | delete (requestID : String)
  deriving DecidableEq, Repr

namespace LoadStats

/-- The store after operation `op` executed at clock reading `now`. -/
def step (s : LoadStats) (op : Op) (now : Int) : LoadStats :=
  match op with
  | Op.set req => s.AddRequest req now
  | Op.delete requestID => (s.tryDeleteRequestStats requestID now).2

/-- The store after a sequence of operations, each with its clock reading. -/
def run (s : LoadStats) (ops : List (Op × Int)) : LoadStats :=
  ops.foldl (fun acc x => step acc x.1 x.2) s

/-- The pointers that the `AddRequest` calls of the sequence pass, in order. -/
def setPtrs (ops : List (Op × Int)) : List ReqPtr :=
  ops.filterMap (fun x => match x.1 with
    | Op.set req => some req
    | Op.delete _ => none)

end LoadStats

end Ptr
/-- A memory of request structs for the examples: the struct at address 1
holds `exReq1Other`, every other struct holds `exReq1`. -/
def exMem : ReqPtr → InferenceRequest := fun q => if q = 1 then exReq1Other else exReq1

/-- The store after `AddRequest` at time 5 of the struct at address 0, which
holds request `"1"`. -/
def exPtrStore1 : Ptr.LoadStats := (Ptr.NewLoadStats exMem).AddRequest 0 5

namespace Ptr

/-- An operation of the single-request scenario: `AddRequest` of a struct that
holds `r` in the memory `mem0` the scenario starts from, or a deletion attempt
for the id of `r`. -/
def SingleOp (mem0 : ReqPtr → InferenceRequest) (r : InferenceRequest) : Op → Prop
  | Op.set q => mem0 q = r
  | Op.delete requestID => requestID = r.RequestId

instance (mem0 : ReqPtr → InferenceRequest) (r : InferenceRequest) (op : Op) :
    Decidable (SingleOp mem0 r op) := by
  cases op <;> unfold SingleOp <;> infer_instance

namespace LoadStats

/-- The states of the single-request scenario: every struct that held `r` at
the start still has its cluster, ip and request id, and its prompt length is
the one of `r` or 0; either no request is stored and the engine of `r`, if it
exists, is at `(0, 0)`, or one such struct is stored under the id of `r` and
the engine counts one request with the prompt length the struct has now. -/
def SingleInv (mem0 : ReqPtr → InferenceRequest) (r : InferenceRequest) (s : LoadStats) : Prop :=
  (∀ q, mem0 q = r →
    (s.mem q).Cluster = r.Cluster ∧ (s.mem q).Ip = r.Ip ∧ (s.mem q).RequestId = r.RequestId ∧
      ((s.mem q).PromptLength = r.PromptLength ∨ (s.mem q).PromptLength = 0)) ∧
  ((s.Requests = [] ∧
      ∀ e, s.view.engine r.Cluster r.Ip = some e → e.QueuedReqNum = 0 ∧ e.PromptLength = 0) ∨
    (∃ q e, s.Requests = [(r.RequestId, q)] ∧ mem0 q = r ∧
      s.view.engine r.Cluster r.Ip = some e ∧ e.QueuedReqNum = 1 ∧
      e.PromptLength = (s.mem q).PromptLength))

/-- The structs at the addresses `rest` have not been passed to `AddRequest`
yet: they have the prompt length `p` and are not stored; a stored struct has
the prompt length `p`. -/
def Unused (p : Int) (rest : List ReqPtr) (s : LoadStats) : Prop :=
  (∀ q ∈ rest, (s.mem q).PromptLength = p ∧ ∀ kv ∈ s.Requests, kv.2 ≠ q) ∧
  (∀ kv ∈ s.Requests, (s.mem kv.2).PromptLength = p)

end LoadStats

end Ptr

/-! ## Theorems -/

namespace SyncMap

variable {V : Type}

theorem Load_put_self (m : SyncMap V) (k : String) (v : V) : (m.put k v).Load k = some v := by
  induction m with
  | nil => simp [put, Load]
  | cons hd tl ih =>
    obtain ⟨k1, v1⟩ := hd
    by_cases h : k1 = k
    · simp [put, Load, h]
    · simp [put, Load, h, ih]

theorem Load_put_ne (m : SyncMap V) {k k2 : String} (h : k ≠ k2) (v : V) :
    (m.put k v).Load k2 = m.Load k2 := by
  induction m with
  | nil => simp [put, Load, h]
  | cons hd tl ih =>
    obtain ⟨k1, v1⟩ := hd
    by_cases h1 : k1 = k
    · subst h1; simp [put, Load, h]
    · by_cases h2 : k1 = k2
      · subst h2; simp [put, Load, h1]
      · simp [put, Load, h1, h2, ih]

theorem Load_Delete_self (m : SyncMap V) (k : String) : (m.Delete k).Load k = none := by
  induction m with
  | nil => simp [Delete, Load]
  | cons hd tl ih =>
    obtain ⟨k1, v1⟩ := hd
    by_cases h : k1 = k
    · simpa [Delete, List.filter_cons, h] using ih
    · simpa [Delete, List.filter_cons, h, Load] using ih

theorem Load_Delete_ne (m : SyncMap V) {k k2 : String} (h : k ≠ k2) :
    (m.Delete k).Load k2 = m.Load k2 := by
  induction m with
  | nil => simp [Delete, Load]
  | cons hd tl ih =>
    obtain ⟨k1, v1⟩ := hd
    by_cases h1 : k1 = k
    · subst h1
      simpa [Delete, List.filter_cons, Load, h] using ih
    · by_cases h2 : k1 = k2
      · subst h2; simp [Delete, List.filter_cons, h1, Load]
      · simpa [Delete, List.filter_cons, h1, Load, h2] using ih

theorem Load_eq_none_iff (m : SyncMap V) (k : String) : m.Load k = none ↔ k ∉ m.keys := by
  induction m with
  | nil => simp [Load, keys]
  | cons hd tl ih =>
    obtain ⟨k1, v1⟩ := hd
    by_cases h : k1 = k
    · simp [Load, keys, h]
    · have h2 : ¬ k = k1 := fun e => h e.symm
      simpa [Load, keys, h, h2] using ih

theorem put_of_Load_none (m : SyncMap V) {k : String} (h : m.Load k = none) (v : V) :
    m.put k v = m ++ [(k, v)] := by
  induction m with
  | nil => simp [put]
  | cons hd tl ih =>
    obtain ⟨k1, v1⟩ := hd
    by_cases h1 : k1 = k
    · simp [Load, h1] at h
    · simp [Load, h1] at h
      simp [put, h1, ih h]

theorem keys_put_of_Load_some (m : SyncMap V) {k : String} {v0 : V} (h : m.Load k = some v0)
    (v : V) : (m.put k v).keys = m.keys := by
  induction m with
  | nil => simp [Load] at h
  | cons hd tl ih =>
    obtain ⟨k1, v1⟩ := hd
    by_cases h1 : k1 = k
    · simp [put, keys, h1]
    · simp [Load, h1] at h
      have := ih h
      simp [keys] at this
      simp [put, keys, h1, this]

end SyncMap

namespace ModelStats

theorem LoadOrStore_snd (ms : ModelStats) (ip : String) (now : Int) :
    (ms.LoadOrStore ip now).2 = (ms.Engines.Load ip).getD (NewEngineLoadStats ip now) := by
  unfold LoadOrStore
  cases h : ms.Engines.Load ip <;> simp

theorem LoadOrStore_Load_self (ms : ModelStats) (ip : String) (now : Int) :
    (ms.LoadOrStore ip now).1.Engines.Load ip = some (ms.LoadOrStore ip now).2 := by
  unfold LoadOrStore
  cases h : ms.Engines.Load ip <;> simp [h, SyncMap.Load_put_self]

theorem LoadOrStore_Load_ne (ms : ModelStats) {ip ip2 : String} (hne : ip ≠ ip2) (now : Int) :
    (ms.LoadOrStore ip now).1.Engines.Load ip2 = ms.Engines.Load ip2 := by
  unfold LoadOrStore
  cases h : ms.Engines.Load ip <;> simp [SyncMap.Load_put_ne _ hne]

theorem LoadOrStore_Length (ms : ModelStats) (ip : String) (now : Int) :
    (ms.LoadOrStore ip now).1.Length =
      if ms.Engines.Load ip = none then addInt32 ms.Length 1 else ms.Length := by
  unfold LoadOrStore
  cases h : ms.Engines.Load ip <;> simp

theorem LoadOrStore_UpdateTime (ms : ModelStats) (ip : String) (now : Int) :
    (ms.LoadOrStore ip now).1.UpdateTime = now := by
  unfold LoadOrStore
  cases h : ms.Engines.Load ip <;> simp

theorem LoadOrStore_name (ms : ModelStats) (ip : String) (now : Int) :
    (ms.LoadOrStore ip now).1.name = ms.name := by
  unfold LoadOrStore
  cases h : ms.Engines.Load ip <;> simp

end ModelStats

namespace LoadStats

theorem AddRequest_of_present (s : LoadStats) (r : InferenceRequest) (now : Int)
    (h : s.Requests.Load r.RequestId ≠ none) : s.AddRequest r now = s := by
  unfold AddRequest
  cases hl : s.Requests.Load r.RequestId with
  | none => exact absurd hl h
  | some v => simp [hl]

theorem AddRequest_Requests_of_fresh (s : LoadStats) (r : InferenceRequest) (now : Int)
    (h : s.Requests.Load r.RequestId = none) :
    (s.AddRequest r now).Requests = s.Requests.put r.RequestId { r with CreateTime := now } := by
  unfold AddRequest
  simp [h]

theorem AddRequest_Load_self (s : LoadStats) (r : InferenceRequest) (now : Int) :
    (s.AddRequest r now).Requests.Load r.RequestId ≠ none := by
  cases hl : s.Requests.Load r.RequestId with
  | none =>
    rw [AddRequest_Requests_of_fresh s r now hl, SyncMap.Load_put_self]
    simp
  | some v =>
    rw [AddRequest_of_present s r now (by simp [hl]), hl]
    simp

theorem AddRequest_models_of_fresh (s : LoadStats) (r : InferenceRequest) (now : Int)
    (h : s.Requests.Load r.RequestId = none) :
    (s.AddRequest r now).RunningModelStats =
      s.RunningModelStats.put r.Cluster
        { (((s.RunningModelStats.Load r.Cluster).getD (NewModelStats r.Cluster now)).LoadOrStore
              r.Ip now).1 with
          Engines :=
            (((s.RunningModelStats.Load r.Cluster).getD (NewModelStats r.Cluster now)).LoadOrStore
              r.Ip now).1.Engines.put r.Ip
              ((((s.RunningModelStats.Load r.Cluster).getD
                  (NewModelStats r.Cluster now)).LoadOrStore r.Ip now).2
                |>.IncrementQueuedReqNumAndPromptLength r.PromptLength now) } := by
  unfold AddRequest
  cases hm : s.RunningModelStats.Load r.Cluster <;> simp [h, hm]

theorem engine_AddRequest_self (s : LoadStats) (r : InferenceRequest) (now : Int)
    (h : s.Requests.Load r.RequestId = none) :
    (s.AddRequest r now).engine r.Cluster r.Ip =
      some (((s.engine r.Cluster r.Ip).getD (NewEngineLoadStats r.Ip now))
        |>.IncrementQueuedReqNumAndPromptLength r.PromptLength now) := by
  unfold engine
  rw [AddRequest_models_of_fresh s r now h, SyncMap.Load_put_self]
  simp only [SyncMap.Load_put_self, ModelStats.LoadOrStore_snd]
  cases hm : s.RunningModelStats.Load r.Cluster <;> simp [NewModelStats, SyncMap.Load]

theorem engine_AddRequest_ne (s : LoadStats) (r : InferenceRequest) (now : Int)
    (c ip : String) (hne : ¬ (c = r.Cluster ∧ ip = r.Ip)) :
    (s.AddRequest r now).engine c ip = s.engine c ip := by
  cases h : s.Requests.Load r.RequestId with
  | some v => rw [AddRequest_of_present s r now (by simp [h])]
  | none =>
    unfold engine
    rw [AddRequest_models_of_fresh s r now h]
    by_cases hc : r.Cluster = c
    · subst hc
      have hip : r.Ip ≠ ip := fun e => hne ⟨rfl, e.symm⟩
      rw [SyncMap.Load_put_self]
      simp only [SyncMap.Load_put_ne _ hip, ModelStats.LoadOrStore_Load_ne _ hip]
      cases hm : s.RunningModelStats.Load r.Cluster <;> simp [NewModelStats, SyncMap.Load]
    · rw [SyncMap.Load_put_ne _ hc]

end LoadStats

theorem wrap32_of_isInt32 {x : Int} (h : isInt32 x) : wrap32 x = x := by
  unfold isInt32 at h
  unfold wrap32
  omega

theorem isInt32_wrap32 (x : Int) : isInt32 (wrap32 x) := by
  unfold isInt32 wrap32
  omega

theorem wrap32_add_wrap32 (x y : Int) : wrap32 (wrap32 x + y) = wrap32 (x + y) := by
  unfold wrap32
  omega

namespace LoadStats

/-- `AddRequest` of structs the store does not hold, with an id that is
stored: the store is returned as it is, so any number of further calls with
the request id of a first call `r` leave the store as that first call left
it. -/
theorem AddRequest_copy_idempotent (s : LoadStats) (r : InferenceRequest) (now : Int)
    (rs : List (InferenceRequest × Int)) (hrs : ∀ x ∈ rs, x.1.RequestId = r.RequestId) :
    (s.Requests.Load r.RequestId ≠ none → s.AddRequest r now = s) ∧
    rs.foldl (fun acc x => acc.AddRequest x.1 x.2) (s.AddRequest r now) = s.AddRequest r now ∧
    (s.Requests.Load r.RequestId = none →
      (rs.foldl (fun acc x => acc.AddRequest x.1 x.2) (s.AddRequest r now)).Requests.Load
          r.RequestId = some { r with CreateTime := now } ∧
      (rs.foldl (fun acc x => acc.AddRequest x.1 x.2) (s.AddRequest r now)).engine r.Cluster r.Ip =
        some (((s.engine r.Cluster r.Ip).getD (NewEngineLoadStats r.Ip now))
          |>.IncrementQueuedReqNumAndPromptLength r.PromptLength now) ∧
      ∀ c ip, ¬ (c = r.Cluster ∧ ip = r.Ip) →
        (rs.foldl (fun acc x => acc.AddRequest x.1 x.2) (s.AddRequest r now)).engine c ip =
          s.engine c ip) := by
  have hfold : rs.foldl (fun acc x => acc.AddRequest x.1 x.2) (s.AddRequest r now) =
      s.AddRequest r now := by
    induction rs with
    | nil => rfl
    | cons x xs ih =>
      have hx : x.1.RequestId = r.RequestId := hrs x (List.mem_cons_self _ _)
      have hstep : (s.AddRequest r now).AddRequest x.1 x.2 = s.AddRequest r now := by
        apply AddRequest_of_present
        rw [hx]
        exact AddRequest_Load_self s r now
      rw [List.foldl_cons, hstep]
      exact ih (fun y hy => hrs y (List.mem_cons_of_mem _ hy))
  refine ⟨AddRequest_of_present s r now, hfold, fun hfresh => ?_⟩
  rw [hfold]
  refine ⟨?_, engine_AddRequest_self s r now hfresh, engine_AddRequest_ne s r now⟩
  rw [AddRequest_Requests_of_fresh s r now hfresh, SyncMap.Load_put_self]

end LoadStats

namespace LoadStats

theorem addInt32_of_isInt32 {a d : Int} (h : isInt32 (a + d)) : addInt32 a d = a + d :=
  wrap32_of_isInt32 h

theorem queued_AddRequest_self (s : LoadStats) (r : InferenceRequest) (now : Int)
    (h : s.Requests.Load r.RequestId = none) :
    (s.AddRequest r now).queued r.Cluster r.Ip = addInt32 (s.queued r.Cluster r.Ip) 1 := by
  unfold queued
  rw [engine_AddRequest_self s r now h]
  cases s.engine r.Cluster r.Ip <;>
    simp [EngineStats.IncrementQueuedReqNumAndPromptLength, NewEngineLoadStats]

theorem aggregate_AddRequest_self (s : LoadStats) (r : InferenceRequest) (now : Int)
    (h : s.Requests.Load r.RequestId = none) :
    (s.AddRequest r now).aggregate r.Cluster r.Ip =
      addInt32 (s.aggregate r.Cluster r.Ip) r.PromptLength := by
  unfold aggregate
  rw [engine_AddRequest_self s r now h]
  cases s.engine r.Cluster r.Ip <;>
    simp [EngineStats.IncrementQueuedReqNumAndPromptLength, NewEngineLoadStats]

theorem engineCount_AddRequest_self (s : LoadStats) (r : InferenceRequest) (now : Int)
    (h : s.Requests.Load r.RequestId = none) :
    (s.AddRequest r now).engineCount r.Cluster =
      if s.engine r.Cluster r.Ip = none then addInt32 (s.engineCount r.Cluster) 1
      else s.engineCount r.Cluster := by
  unfold engineCount GetModelStats engine ModelStats.Size
  rw [AddRequest_models_of_fresh s r now h, SyncMap.Load_put_self]
  simp only [ModelStats.LoadOrStore_Length]
  cases hm : s.RunningModelStats.Load r.Cluster <;> simp [NewModelStats, SyncMap.Load]

theorem GetModelStats_AddRequest_ne (s : LoadStats) (r : InferenceRequest) (now : Int)
    (c : String) (hne : c ≠ r.Cluster) :
    (s.AddRequest r now).GetModelStats c = s.GetModelStats c := by
  cases h : s.Requests.Load r.RequestId with
  | some v => rw [AddRequest_of_present s r now (by simp [h])]
  | none =>
    unfold GetModelStats
    rw [AddRequest_models_of_fresh s r now h, SyncMap.Load_put_ne _ (Ne.symm hne)]

/-- C2, as stated, fails: on the store holding one request of prompt length
2147483647 on engine (A, 1.1.1.1), `Set` of a fresh request of prompt length 1
on that engine takes the aggregate from 2147483647 to -2147483648, which is
not an increase by 1. -/
theorem AddRequest_aggregate_not_exact :
    exStoreMax.Requests.Load exReqOne.RequestId = none ∧
    exStoreMax.aggregate "A" "1.1.1.1" = 2147483647 ∧
    (exStoreMax.AddRequest exReqOne 1).aggregate "A" "1.1.1.1" = -2147483648 ∧
    (exStoreMax.AddRequest exReqOne 1).aggregate exReqOne.Cluster exReqOne.Ip ≠
      exStoreMax.aggregate exReqOne.Cluster exReqOne.Ip + exReqOne.PromptLength := by
  decide

/-- C2, amended. For a request `r` whose id is not a key of `s.Requests`,
`AddRequest r` stores `r` (stamped with `now`) under its id and leaves every
other request as it was; the model `r.Cluster` and its engine `r.Ip` exist
afterwards; the engine's `QueuedReqNum` is the old one (0 for a new engine)
plus 1 and its aggregate the old one (0 for a new engine) plus
`r.PromptLength`, both in wrapping signed 32-bit arithmetic, hence exactly
those sums whenever they lie in the int32 range; the model's `Length` grows by
1 (same arithmetic) when the engine is new and is unchanged otherwise; every
other engine and every other model is unchanged. -/
theorem AddRequest_fresh_effect (s : LoadStats) (r : InferenceRequest) (now : Int)
    (h : s.Requests.Load r.RequestId = none) :
    (s.AddRequest r now).Requests.Load r.RequestId = some { r with CreateTime := now } ∧
    (∀ id, id ≠ r.RequestId → (s.AddRequest r now).Requests.Load id = s.Requests.Load id) ∧
    ((s.AddRequest r now).GetModelStats r.Cluster ≠ none ∧
      (s.AddRequest r now).engine r.Cluster r.Ip ≠ none) ∧
    ((s.AddRequest r now).queued r.Cluster r.Ip = addInt32 (s.queued r.Cluster r.Ip) 1 ∧
      (s.AddRequest r now).aggregate r.Cluster r.Ip =
        addInt32 (s.aggregate r.Cluster r.Ip) r.PromptLength) ∧
    ((isInt32 (s.queued r.Cluster r.Ip + 1) →
        (s.AddRequest r now).queued r.Cluster r.Ip = s.queued r.Cluster r.Ip + 1) ∧
      (isInt32 (s.aggregate r.Cluster r.Ip + r.PromptLength) →
        (s.AddRequest r now).aggregate r.Cluster r.Ip =
          s.aggregate r.Cluster r.Ip + r.PromptLength)) ∧
    ((s.engine r.Cluster r.Ip = none →
        (s.AddRequest r now).engineCount r.Cluster = addInt32 (s.engineCount r.Cluster) 1 ∧
        (isInt32 (s.engineCount r.Cluster + 1) →
          (s.AddRequest r now).engineCount r.Cluster = s.engineCount r.Cluster + 1)) ∧
      (s.engine r.Cluster r.Ip ≠ none →
        (s.AddRequest r now).engineCount r.Cluster = s.engineCount r.Cluster)) ∧
    (∀ c ip, ¬ (c = r.Cluster ∧ ip = r.Ip) → (s.AddRequest r now).engine c ip = s.engine c ip) ∧
    (∀ c, c ≠ r.Cluster → (s.AddRequest r now).GetModelStats c = s.GetModelStats c) := by
  have hq := queued_AddRequest_self s r now h
  have ha := aggregate_AddRequest_self s r now h
  have he := engine_AddRequest_self s r now h
  have hc := engineCount_AddRequest_self s r now h
  refine ⟨?_, ?_, ⟨?_, ?_⟩, ⟨hq, ha⟩, ⟨?_, ?_⟩, ⟨?_, ?_⟩,
    engine_AddRequest_ne s r now, GetModelStats_AddRequest_ne s r now⟩
  · rw [AddRequest_Requests_of_fresh s r now h, SyncMap.Load_put_self]
  · intro id hid
    rw [AddRequest_Requests_of_fresh s r now h, SyncMap.Load_put_ne _ (Ne.symm hid)]
  · unfold GetModelStats
    rw [AddRequest_models_of_fresh s r now h, SyncMap.Load_put_self]
    simp
  · rw [he]; simp
  · intro hr; rw [hq, addInt32_of_isInt32 hr]
  · intro hr; rw [ha, addInt32_of_isInt32 hr]
  · intro hn
    rw [hc, if_pos hn]
    exact ⟨rfl, fun hr => addInt32_of_isInt32 hr⟩
  · intro hn; rw [hc, if_neg hn]

/-- Witness for C2 (amended): `Set(2, A, 1.1.1.1, 512)` on the store that holds
request "1" on the same engine gives `queued = 2`, `prompt = 1024`. -/
theorem AddRequest_fresh_effect_witness :
    exStore1.Requests.Load exReq2.RequestId = none ∧
    (exStore1.AddRequest exReq2 6).queued "A" "1.1.1.1" = 2 ∧
    (exStore1.AddRequest exReq2 6).aggregate "A" "1.1.1.1" = 1024 :=
  ⟨by decide,
    (AddRequest_fresh_effect exStore1 exReq2 6 (by decide)).2.2.2.2.1.1 (by decide),
    (AddRequest_fresh_effect exStore1 exReq2 6 (by decide)).2.2.2.2.1.2 (by decide)⟩

end LoadStats


namespace SyncMap

variable {V : Type}

theorem mem_of_Load_eq_some {m : SyncMap V} {k : String} {v : V} (h : m.Load k = some v) :
    (k, v) ∈ m := by
  induction m with
  | nil => simp [Load] at h
  | cons hd tl ih =>
    obtain ⟨k1, v1⟩ := hd
    by_cases h1 : k1 = k
    · simp [Load, h1] at h
      simp [h1, h]
    · simp [Load, h1] at h
      exact List.mem_cons_of_mem _ (ih h)

theorem Delete_put_of_Load_none (m : SyncMap V) {k : String} (h : m.Load k = none) (v : V) :
    (m.put k v).Delete k = m := by
  induction m with
  | nil => simp [put, Delete]
  | cons hd tl ih =>
    obtain ⟨k1, v1⟩ := hd
    by_cases h1 : k1 = k
    · simp [Load, h1] at h
    · simp [Load, h1] at h
      have := ih h
      simp [Delete] at this
      simp [put, h1, Delete, this]

end SyncMap

namespace LoadStats

theorem engine_wellTyped {s : LoadStats} (hs : s.WellTyped) {c ip : String} {e : EngineStats}
    (h : s.engine c ip = some e) : e.WellTyped := by
  unfold engine at h
  cases hm : s.RunningModelStats.Load c with
  | none => simp [hm] at h
  | some ms =>
    simp [hm] at h
    exact (hs.1 _ (SyncMap.mem_of_Load_eq_some hm)).2 _ (SyncMap.mem_of_Load_eq_some h)

theorem decEngineStats_of_no_model (s : LoadStats) (req : InferenceRequest) (now : Int)
    (hm : s.RunningModelStats.Load req.Cluster = none) : s.decEngineStats req now = s := by
  unfold decEngineStats
  simp [hm]

theorem decEngineStats_of_no_engine (s : LoadStats) (req : InferenceRequest) (now : Int)
    {ms : ModelStats} (hm : s.RunningModelStats.Load req.Cluster = some ms)
    (he : ms.Engines.Load req.Ip = none) :
    s.decEngineStats req now =
      { s with RunningModelStats :=
          s.RunningModelStats.put req.Cluster { ms with UpdateTime := now } } := by
  unfold decEngineStats
  simp [hm, he, ModelStats.Load]

theorem decEngineStats_of_engine (s : LoadStats) (req : InferenceRequest) (now : Int)
    {ms : ModelStats} {e : EngineStats} (hm : s.RunningModelStats.Load req.Cluster = some ms)
    (he : ms.Engines.Load req.Ip = some e) :
    s.decEngineStats req now =
      { s with RunningModelStats := s.RunningModelStats.put req.Cluster { ms with
          UpdateTime := now,
          Engines := ms.Engines.put req.Ip
            ((e.DecrementQueuedReqNum now).DecrementPromptLength req now).1 } } := by
  unfold decEngineStats
  simp [hm, he, ModelStats.Load]

theorem decEngineStats_Requests (s : LoadStats) (req : InferenceRequest) (now : Int) :
    (s.decEngineStats req now).Requests = s.Requests := by
  cases hm : s.RunningModelStats.Load req.Cluster with
  | none => rw [decEngineStats_of_no_model s req now hm]
  | some ms =>
    cases he : ms.Engines.Load req.Ip with
    | none => rw [decEngineStats_of_no_engine s req now hm he]
    | some e => rw [decEngineStats_of_engine s req now hm he]

theorem engine_decEngineStats_self (s : LoadStats) (req : InferenceRequest) (now : Int) :
    (s.decEngineStats req now).engine req.Cluster req.Ip =
      (s.engine req.Cluster req.Ip).map
        (fun e => ((e.DecrementQueuedReqNum now).DecrementPromptLength req now).1) := by
  cases hm : s.RunningModelStats.Load req.Cluster with
  | none => rw [decEngineStats_of_no_model s req now hm]; simp [engine, hm]
  | some ms =>
    cases he : ms.Engines.Load req.Ip with
    | none =>
      rw [decEngineStats_of_no_engine s req now hm he]
      simp [engine, hm, he, SyncMap.Load_put_self]
    | some e =>
      rw [decEngineStats_of_engine s req now hm he]
      simp [engine, hm, he, SyncMap.Load_put_self]

theorem engine_decEngineStats_ne (s : LoadStats) (req : InferenceRequest) (now : Int)
    (c ip : String) (hne : ¬ (c = req.Cluster ∧ ip = req.Ip)) :
    (s.decEngineStats req now).engine c ip = s.engine c ip := by
  cases hm : s.RunningModelStats.Load req.Cluster with
  | none => rw [decEngineStats_of_no_model s req now hm]
  | some ms =>
    by_cases hc : req.Cluster = c
    · subst hc
      have hip : req.Ip ≠ ip := fun e => hne ⟨rfl, e.symm⟩
      cases he : ms.Engines.Load req.Ip with
      | none =>
        rw [decEngineStats_of_no_engine s req now hm he]
        simp [engine, hm, SyncMap.Load_put_self]
      | some e =>
        rw [decEngineStats_of_engine s req now hm he]
        simp [engine, hm, SyncMap.Load_put_self, SyncMap.Load_put_ne _ hip]
    · cases he : ms.Engines.Load req.Ip with
      | none =>
        rw [decEngineStats_of_no_engine s req now hm he]
        simp [engine, SyncMap.Load_put_ne _ hc]
      | some e =>
        rw [decEngineStats_of_engine s req now hm he]
        simp [engine, SyncMap.Load_put_ne _ hc]

theorem tryDeleteRequestStats_of_some (s : LoadStats) (id : String) (now : Int)
    {req : InferenceRequest} (h : s.Requests.Load id = some req) :
    s.tryDeleteRequestStats id now =
      (true, decEngineStats { s with Requests := s.Requests.Delete id } req now) := by
  unfold tryDeleteRequestStats
  simp [h]

theorem tryDeleteRequestStats_of_none (s : LoadStats) (id : String) (now : Int)
    (h : s.Requests.Load id = none) : s.tryDeleteRequestStats id now = (false, s) := by
  unfold tryDeleteRequestStats
  simp [h]

theorem engine_with_Requests (s : LoadStats) (m : SyncMap InferenceRequest) (c ip : String) :
    LoadStats.engine { s with Requests := m } c ip = s.engine c ip := rfl

/-- The counters of an engine after a queue decrement followed by a prompt
decrement that undo one increment. -/
theorem decrement_increment (e : EngineStats) (he : e.WellTyped) (r : InferenceRequest)
    (hp : 0 ≤ r.PromptLength) (t1 t2 : Int) :
    ((((e.IncrementQueuedReqNumAndPromptLength r.PromptLength t1).DecrementQueuedReqNum
        t2).DecrementPromptLength { r with CreateTime := t1 } t2).1).QueuedReqNum = e.QueuedReqNum ∧
    ((((e.IncrementQueuedReqNumAndPromptLength r.PromptLength t1).DecrementQueuedReqNum
        t2).DecrementPromptLength { r with CreateTime := t1 } t2).1).PromptLength =
      e.PromptLength := by
  obtain ⟨⟨q1, q2⟩, ⟨a1, a2⟩⟩ := he
  unfold EngineStats.DecrementPromptLength EngineStats.DecrementQueuedReqNum
    EngineStats.IncrementQueuedReqNumAndPromptLength addInt32 wrap32
  by_cases h0 : r.PromptLength ≤ 0
  · have : r.PromptLength = 0 := le_antisymm h0 hp
    simp [this]
    constructor <;> omega
  · simp [h0]
    constructor <;> omega

end LoadStats

namespace LoadStats

theorem NewEngineLoadStats_wellTyped (ip : String) (now : Int) :
    (NewEngineLoadStats ip now).WellTyped := by
  unfold NewEngineLoadStats EngineStats.WellTyped isInt32
  simp

theorem DeleteRequest_fst (s : LoadStats) (id : String) (now : Int) :
    (s.DeleteRequest id now).1 = (s.tryDeleteRequestStats id now).2 := by
  unfold DeleteRequest
  cases h : s.tryDeleteRequestStats id now with
  | mk b s1 => cases b <;> rfl

theorem DeleteRequest_snd (s : LoadStats) (id : String) (now : Int) :
    (s.DeleteRequest id now).2 = !(s.tryDeleteRequestStats id now).1 := by
  unfold DeleteRequest
  cases h : s.tryDeleteRequestStats id now with
  | mk b s1 => cases b <;> rfl

/-- C3. `Set` followed by `DeleteRequest` is a round trip on the counters. For
a well-typed store `s` and a request `r` with a fresh id and
`PromptLength ≥ 0`: the immediate attempt of `DeleteRequest` after
`AddRequest r` succeeds (no retry is scheduled), `Requests` is again
`s.Requests` (in particular `r` is absent), every engine other than
`(r.Cluster, r.Ip)` is untouched, and the engine `(r.Cluster, r.Ip)` exists
with the `QueuedReqNum` and aggregate `PromptLength` it had in `s`, or with 0
and 0 when it did not exist in `s`. -/
theorem AddRequest_DeleteRequest_roundtrip (s : LoadStats) (hs : s.WellTyped)
    (r : InferenceRequest) (t1 t2 : Int) (hfresh : s.Requests.Load r.RequestId = none)
    (hp : 0 ≤ r.PromptLength) :
    ((s.AddRequest r t1).DeleteRequest r.RequestId t2).2 = false ∧
    ((s.AddRequest r t1).DeleteRequest r.RequestId t2).1.Requests.Load r.RequestId = none ∧
    ((s.AddRequest r t1).DeleteRequest r.RequestId t2).1.Requests = s.Requests ∧
    (∀ c ip, ¬ (c = r.Cluster ∧ ip = r.Ip) →
      ((s.AddRequest r t1).DeleteRequest r.RequestId t2).1.engine c ip = s.engine c ip) ∧
    (∀ e, s.engine r.Cluster r.Ip = some e →
      ∃ e3, ((s.AddRequest r t1).DeleteRequest r.RequestId t2).1.engine r.Cluster r.Ip = some e3 ∧
        e3.QueuedReqNum = e.QueuedReqNum ∧ e3.PromptLength = e.PromptLength) ∧
    (s.engine r.Cluster r.Ip = none →
      ∃ e3, ((s.AddRequest r t1).DeleteRequest r.RequestId t2).1.engine r.Cluster r.Ip = some e3 ∧
        e3.QueuedReqNum = 0 ∧ e3.PromptLength = 0) ∧
    (∀ c ip,
      ((s.AddRequest r t1).DeleteRequest r.RequestId t2).1.queued c ip = s.queued c ip ∧
      ((s.AddRequest r t1).DeleteRequest r.RequestId t2).1.aggregate c ip = s.aggregate c ip) := by
  have hload : (s.AddRequest r t1).Requests.Load r.RequestId = some { r with CreateTime := t1 } := by
    rw [AddRequest_Requests_of_fresh s r t1 hfresh, SyncMap.Load_put_self]
  have htry := tryDeleteRequestStats_of_some (s.AddRequest r t1) r.RequestId t2 hload
  have hreq : ((s.AddRequest r t1).DeleteRequest r.RequestId t2).1.Requests = s.Requests := by
    rw [DeleteRequest_fst, htry]
    simp only [decEngineStats_Requests]
    rw [AddRequest_Requests_of_fresh s r t1 hfresh, SyncMap.Delete_put_of_Load_none _ hfresh]
  have hne : ∀ c ip, ¬ (c = r.Cluster ∧ ip = r.Ip) →
      ((s.AddRequest r t1).DeleteRequest r.RequestId t2).1.engine c ip = s.engine c ip := by
    intro c ip hcip
    rw [DeleteRequest_fst, htry]
    simp only []
    rw [engine_decEngineStats_ne _ { r with CreateTime := t1 } _ c ip hcip, engine_with_Requests,
      engine_AddRequest_ne s r t1 c ip hcip]
  have hself : ((s.AddRequest r t1).DeleteRequest r.RequestId t2).1.engine r.Cluster r.Ip =
      some ((((((s.engine r.Cluster r.Ip).getD (NewEngineLoadStats r.Ip t1))
        |>.IncrementQueuedReqNumAndPromptLength r.PromptLength t1).DecrementQueuedReqNum
          t2).DecrementPromptLength { r with CreateTime := t1 } t2).1) := by
    rw [DeleteRequest_fst, htry]
    simp only []
    have := engine_decEngineStats_self
      { s.AddRequest r t1 with Requests := (s.AddRequest r t1).Requests.Delete r.RequestId }
      { r with CreateTime := t1 } t2
    simp only [engine_with_Requests] at this
    rw [this, engine_AddRequest_self s r t1 hfresh]
    rfl
  have hsome : ∀ e, s.engine r.Cluster r.Ip = some e →
      ∃ e3, ((s.AddRequest r t1).DeleteRequest r.RequestId t2).1.engine r.Cluster r.Ip = some e3 ∧
        e3.QueuedReqNum = e.QueuedReqNum ∧ e3.PromptLength = e.PromptLength := by
    intro e he
    refine ⟨_, hself, ?_⟩
    rw [he]
    exact decrement_increment e (engine_wellTyped hs he) r hp t1 t2
  have hnone : s.engine r.Cluster r.Ip = none →
      ∃ e3, ((s.AddRequest r t1).DeleteRequest r.RequestId t2).1.engine r.Cluster r.Ip = some e3 ∧
        e3.QueuedReqNum = 0 ∧ e3.PromptLength = 0 := by
    intro he
    refine ⟨_, hself, ?_⟩
    rw [he]
    exact decrement_increment (NewEngineLoadStats r.Ip t1)
      (NewEngineLoadStats_wellTyped r.Ip t1) r hp t1 t2
  refine ⟨?_, ?_, hreq, hne, hsome, hnone, ?_⟩
  · rw [DeleteRequest_snd, htry]; rfl
  · rw [hreq]; exact hfresh
  · intro c ip
    by_cases hcip : c = r.Cluster ∧ ip = r.Ip
    · obtain ⟨rfl, rfl⟩ := hcip
      cases he : s.engine r.Cluster r.Ip with
      | none =>
        obtain ⟨e3, h3, hq, ha⟩ := hnone he
        simp [queued, aggregate, h3, he, hq, ha]
      | some e =>
        obtain ⟨e3, h3, hq, ha⟩ := hsome e he
        simp [queued, aggregate, h3, he, hq, ha]
    · simp [queued, aggregate, hne c ip hcip]

/-- Witness for C3: on the store holding request "1" on engine (A, 1.1.1.1),
`Set(2, A, 1.1.1.1, 512)` followed by `DeleteRequest(2)` leaves `queued = 1`
and `prompt = 512`. -/
theorem AddRequest_DeleteRequest_roundtrip_witness :
    exStore1.WellTyped ∧ exStore1.Requests.Load exReq2.RequestId = none ∧
    ((exStore1.AddRequest exReq2 6).DeleteRequest "2" 7).1.Requests = exStore1.Requests ∧
    ((exStore1.AddRequest exReq2 6).DeleteRequest "2" 7).1.queued "A" "1.1.1.1" = 1 ∧
    ((exStore1.AddRequest exReq2 6).DeleteRequest "2" 7).1.aggregate "A" "1.1.1.1" = 512 :=
  ⟨by decide, by decide,
    (AddRequest_DeleteRequest_roundtrip exStore1 (by decide) exReq2 6 7 (by decide)
      (by decide)).2.2.1,
    ((AddRequest_DeleteRequest_roundtrip exStore1 (by decide) exReq2 6 7 (by decide)
      (by decide)).2.2.2.2.2.2 "A" "1.1.1.1").1,
    ((AddRequest_DeleteRequest_roundtrip exStore1 (by decide) exReq2 6 7 (by decide)
      (by decide)).2.2.2.2.2.2 "A" "1.1.1.1").2⟩

end LoadStats

namespace LoadStats

theorem decEnginePromptLength_of_no_model (s : LoadStats) (req : InferenceRequest) (now : Int)
    (hm : s.RunningModelStats.Load req.Cluster = none) :
    s.decEnginePromptLength req now = (s, req) := by
  unfold decEnginePromptLength
  simp [hm]

theorem decEnginePromptLength_of_no_engine (s : LoadStats) (req : InferenceRequest) (now : Int)
    {ms : ModelStats} (hm : s.RunningModelStats.Load req.Cluster = some ms)
    (he : ms.Engines.Load req.Ip = none) :
    s.decEnginePromptLength req now =
      ({ s with RunningModelStats :=
          s.RunningModelStats.put req.Cluster { ms with UpdateTime := now } }, req) := by
  unfold decEnginePromptLength
  simp [hm, he, ModelStats.Load]

theorem decEnginePromptLength_of_engine (s : LoadStats) (req : InferenceRequest) (now : Int)
    {ms : ModelStats} {e : EngineStats} (hm : s.RunningModelStats.Load req.Cluster = some ms)
    (he : ms.Engines.Load req.Ip = some e) :
    s.decEnginePromptLength req now =
      ({ s with RunningModelStats := s.RunningModelStats.put req.Cluster { ms with
          UpdateTime := now,
          Engines := ms.Engines.put req.Ip (e.DecrementPromptLength req now).1 } },
       (e.DecrementPromptLength req now).2) := by
  unfold decEnginePromptLength
  simp [hm, he, ModelStats.Load]

theorem decEnginePromptLength_Requests (s : LoadStats) (req : InferenceRequest) (now : Int) :
    (s.decEnginePromptLength req now).1.Requests = s.Requests := by
  cases hm : s.RunningModelStats.Load req.Cluster with
  | none => rw [decEnginePromptLength_of_no_model s req now hm]
  | some ms =>
    cases he : ms.Engines.Load req.Ip with
    | none => rw [decEnginePromptLength_of_no_engine s req now hm he]
    | some e => rw [decEnginePromptLength_of_engine s req now hm he]

theorem engine_decEnginePromptLength_self (s : LoadStats) (req : InferenceRequest) (now : Int) :
    (s.decEnginePromptLength req now).1.engine req.Cluster req.Ip =
      (s.engine req.Cluster req.Ip).map (fun e => (e.DecrementPromptLength req now).1) := by
  cases hm : s.RunningModelStats.Load req.Cluster with
  | none => rw [decEnginePromptLength_of_no_model s req now hm]; simp [engine, hm]
  | some ms =>
    cases he : ms.Engines.Load req.Ip with
    | none =>
      rw [decEnginePromptLength_of_no_engine s req now hm he]
      simp [engine, hm, he, SyncMap.Load_put_self]
    | some e =>
      rw [decEnginePromptLength_of_engine s req now hm he]
      simp [engine, hm, he, SyncMap.Load_put_self]

theorem engine_decEnginePromptLength_ne (s : LoadStats) (req : InferenceRequest) (now : Int)
    (c ip : String) (hne : ¬ (c = req.Cluster ∧ ip = req.Ip)) :
    (s.decEnginePromptLength req now).1.engine c ip = s.engine c ip := by
  cases hm : s.RunningModelStats.Load req.Cluster with
  | none => rw [decEnginePromptLength_of_no_model s req now hm]
  | some ms =>
    by_cases hc : req.Cluster = c
    · subst hc
      have hip : req.Ip ≠ ip := fun e => hne ⟨rfl, e.symm⟩
      cases he : ms.Engines.Load req.Ip with
      | none =>
        rw [decEnginePromptLength_of_no_engine s req now hm he]
        simp [engine, hm, SyncMap.Load_put_self]
      | some e =>
        rw [decEnginePromptLength_of_engine s req now hm he]
        simp [engine, hm, SyncMap.Load_put_self, SyncMap.Load_put_ne _ hip]
    · cases he : ms.Engines.Load req.Ip with
      | none =>
        rw [decEnginePromptLength_of_no_engine s req now hm he]
        simp [engine, SyncMap.Load_put_ne _ hc]
      | some e =>
        rw [decEnginePromptLength_of_engine s req now hm he]
        simp [engine, SyncMap.Load_put_ne _ hc]

/-- The request `decEnginePromptLength` hands back: its prompt length is 0 when
the engine exists and the prompt length was positive; otherwise it is `req`. -/
theorem decEnginePromptLength_snd (s : LoadStats) (req : InferenceRequest) (now : Int) :
    (s.decEnginePromptLength req now).2 =
      if (s.engine req.Cluster req.Ip).isSome ∧ 0 < req.PromptLength then
        { req with PromptLength := 0 }
      else req := by
  cases hm : s.RunningModelStats.Load req.Cluster with
  | none => rw [decEnginePromptLength_of_no_model s req now hm]; simp [engine, hm]
  | some ms =>
    cases he : ms.Engines.Load req.Ip with
    | none =>
      rw [decEnginePromptLength_of_no_engine s req now hm he]
      simp [engine, hm, he]
    | some e =>
      rw [decEnginePromptLength_of_engine s req now hm he]
      by_cases hp : req.PromptLength ≤ 0
      · have : ¬ 0 < req.PromptLength := not_lt.mpr hp
        simp [engine, hm, he, EngineStats.DecrementPromptLength, hp, this]
      · have : 0 < req.PromptLength := not_le.mp hp
        simp [engine, hm, he, EngineStats.DecrementPromptLength, hp, this]

theorem tryDecPromptLength_of_some (s : LoadStats) (id : String) (now : Int)
    {req : InferenceRequest} (h : s.Requests.Load id = some req) :
    s.tryDecPromptLength id now =
      (true, { (s.decEnginePromptLength req now).1 with
        Requests := s.Requests.put id (s.decEnginePromptLength req now).2 }) := by
  unfold tryDecPromptLength
  simp [h, decEnginePromptLength_Requests]

theorem tryDecPromptLength_of_none (s : LoadStats) (id : String) (now : Int)
    (h : s.Requests.Load id = none) : s.tryDecPromptLength id now = (false, s) := by
  unfold tryDecPromptLength
  simp [h]

theorem DeletePromptLength_fst (s : LoadStats) (id : String) (now : Int) :
    (s.DeletePromptLength id now).1 = (s.tryDecPromptLength id now).2 := by
  unfold DeletePromptLength
  cases h : s.tryDecPromptLength id now with
  | mk b s1 => cases b <;> rfl

theorem DeletePromptLength_snd (s : LoadStats) (id : String) (now : Int) :
    (s.DeletePromptLength id now).2 = !(s.tryDecPromptLength id now).1 := by
  unfold DeletePromptLength
  cases h : s.tryDecPromptLength id now with
  | mk b s1 => cases b <;> rfl

end LoadStats

namespace LoadStats

/-- The keys of the model map, and for every model its engine keys and its
`Length`, are the same in `s2` as in `s1`. -/
theorem shape_decEnginePromptLength (s : LoadStats) (req : InferenceRequest) (now : Int) :
    (s.decEnginePromptLength req now).1.RunningModelStats.keys = s.RunningModelStats.keys ∧
    ∀ c, ((s.decEnginePromptLength req now).1.GetModelStats c).map
        (fun ms => (ms.Engines.keys, ms.Length)) =
      (s.GetModelStats c).map (fun ms => (ms.Engines.keys, ms.Length)) := by
  cases hm : s.RunningModelStats.Load req.Cluster with
  | none => rw [decEnginePromptLength_of_no_model s req now hm]; simp
  | some ms =>
    have hother : ∀ (c : String) (v : ModelStats), req.Cluster ≠ c →
        ((s.RunningModelStats.put req.Cluster v).Load c) = s.RunningModelStats.Load c :=
      fun c v hc => SyncMap.Load_put_ne _ hc v
    cases he : ms.Engines.Load req.Ip with
    | none =>
      rw [decEnginePromptLength_of_no_engine s req now hm he]
      refine ⟨SyncMap.keys_put_of_Load_some _ hm _, fun c => ?_⟩
      by_cases hc : req.Cluster = c
      · subst hc; simp [GetModelStats, SyncMap.Load_put_self, hm]
      · simp [GetModelStats, hother c _ hc]
    | some e =>
      rw [decEnginePromptLength_of_engine s req now hm he]
      refine ⟨SyncMap.keys_put_of_Load_some _ hm _, fun c => ?_⟩
      by_cases hc : req.Cluster = c
      · subst hc
        simp [GetModelStats, SyncMap.Load_put_self, hm, SyncMap.keys_put_of_Load_some _ he]
      · simp [GetModelStats, hother c _ hc]

/-- C4, as stated, fails: on the store reached by two `Set`s of prompt length
2^30 on one engine (aggregate -2147483648), `DeletePromptLength` of the first
request takes the aggregate to 1073741824, which is not a decrease by 2^30. -/
theorem DeletePromptLength_aggregate_not_exact :
    exStoreHalves.Requests.Load "halfA" = some exReqHalfA ∧
    exStoreHalves.aggregate "A" "1.1.1.1" = -2147483648 ∧
    (exStoreHalves.DeletePromptLength "halfA" 6).1.aggregate "A" "1.1.1.1" = 1073741824 ∧
    (exStoreHalves.DeletePromptLength "halfA" 6).1.aggregate exReqHalfA.Cluster exReqHalfA.Ip ≠
      exStoreHalves.aggregate exReqHalfA.Cluster exReqHalfA.Ip - exReqHalfA.PromptLength := by
  decide

/-- C4, amended. When request `id` is present with current prompt length
`p > 0` and its engine exists, the immediate attempt of `DeletePromptLength`
succeeds (no retry is scheduled) and: the request stays in `Requests` with
`PromptLength = 0` and its other fields unchanged; every other request is
unchanged; the engine's aggregate becomes the old aggregate minus `p` in
wrapping signed 32-bit arithmetic, hence exactly `old - p` whenever that lies
in the int32 range; the engine's `QueuedReqNum` is unchanged; every other
engine is unchanged; the key sets of `Requests`, of the model map and of every
engine map, and every `Length`, are unchanged. -/
theorem DeletePromptLength_effect (s : LoadStats) (id : String) (now : Int)
    (req : InferenceRequest) (e : EngineStats) (hreq : s.Requests.Load id = some req)
    (hp : 0 < req.PromptLength) (he : s.engine req.Cluster req.Ip = some e) :
    (s.DeletePromptLength id now).2 = false ∧
    (s.DeletePromptLength id now).1.Requests.Load id = some { req with PromptLength := 0 } ∧
    (∀ id2, id2 ≠ id → (s.DeletePromptLength id now).1.Requests.Load id2 = s.Requests.Load id2) ∧
    (s.DeletePromptLength id now).1.engine req.Cluster req.Ip =
      some { e with PromptLength := addInt32 e.PromptLength (-req.PromptLength),
                    UpdatedTime := now } ∧
    (isInt32 (e.PromptLength - req.PromptLength) →
      (s.DeletePromptLength id now).1.aggregate req.Cluster req.Ip =
        e.PromptLength - req.PromptLength) ∧
    (s.DeletePromptLength id now).1.queued req.Cluster req.Ip = e.QueuedReqNum ∧
    (∀ c ip, ¬ (c = req.Cluster ∧ ip = req.Ip) →
      (s.DeletePromptLength id now).1.engine c ip = s.engine c ip) ∧
    (s.DeletePromptLength id now).1.Requests.keys = s.Requests.keys ∧
    (s.DeletePromptLength id now).1.RunningModelStats.keys = s.RunningModelStats.keys ∧
    (∀ c, ((s.DeletePromptLength id now).1.GetModelStats c).map
        (fun ms => (ms.Engines.keys, ms.Length)) =
      (s.GetModelStats c).map (fun ms => (ms.Engines.keys, ms.Length))) := by
  have htry := tryDecPromptLength_of_some s id now hreq
  have hfst : (s.DeletePromptLength id now).1 =
      { (s.decEnginePromptLength req now).1 with
        Requests := s.Requests.put id (s.decEnginePromptLength req now).2 } := by
    rw [DeletePromptLength_fst, htry]
  have hnp : ¬ req.PromptLength ≤ 0 := not_le.mpr hp
  have heng : (s.DeletePromptLength id now).1.engine req.Cluster req.Ip =
      some { e with PromptLength := addInt32 e.PromptLength (-req.PromptLength),
                    UpdatedTime := now } := by
    rw [hfst, engine_with_Requests, engine_decEnginePromptLength_self, he]
    simp [EngineStats.DecrementPromptLength, hnp]
  have hshape := shape_decEnginePromptLength s req now
  refine ⟨?_, ?_, ?_, heng, ?_, ?_, ?_, ?_, ?_, ?_⟩
  · rw [DeletePromptLength_snd, htry]; rfl
  · rw [hfst]
    simp only [SyncMap.Load_put_self, decEnginePromptLength_snd, he]
    simp [hp]
  · intro id2 hid
    rw [hfst]
    exact SyncMap.Load_put_ne _ (Ne.symm hid) _
  · intro hr
    unfold aggregate
    rw [heng]
    have := addInt32_of_isInt32 (a := e.PromptLength) (d := -req.PromptLength)
      (by simpa [sub_eq_add_neg] using hr)
    simp [this, sub_eq_add_neg]
  · unfold queued
    rw [heng]
  · intro c ip hne
    rw [hfst, engine_with_Requests, engine_decEnginePromptLength_ne s req now c ip hne]
  · rw [hfst]
    exact SyncMap.keys_put_of_Load_some _ hreq _
  · rw [hfst]
    exact hshape.1
  · intro c
    rw [hfst]
    exact hshape.2 c

/-- Witness for C4 (amended): scenario 2 of the specification. After
`Set(1, A, 1.1.1.1, 512)`, `DeletePromptLength(1)` gives `queued = 1`,
`prompt = 0`. -/
theorem DeletePromptLength_effect_witness :
    exStore1.Requests.Load "1" = some { exReq1 with CreateTime := 5 } ∧
    (exStore1.DeletePromptLength "1" 6).1.aggregate "A" "1.1.1.1" = 0 ∧
    (exStore1.DeletePromptLength "1" 6).1.queued "A" "1.1.1.1" = 1 :=
  ⟨by decide,
    (DeletePromptLength_effect exStore1 "1" 6 { exReq1 with CreateTime := 5 }
      { Ip := "1.1.1.1", QueuedReqNum := 1, PromptLength := 512, UpdatedTime := 5 }
      (by decide) (by decide) (by decide)).2.2.2.2.1 (by decide),
    (DeletePromptLength_effect exStore1 "1" 6 { exReq1 with CreateTime := 5 }
      { Ip := "1.1.1.1", QueuedReqNum := 1, PromptLength := 512, UpdatedTime := 5 }
      (by decide) (by decide) (by decide)).2.2.2.2.2.1⟩

end LoadStats

namespace LoadStats

theorem run_nil (expire : Int) (s : LoadStats) : run expire s [] = s := rfl

theorem run_cons (expire : Int) (s : LoadStats) (x : Op × Int) (ops : List (Op × Int)) :
    run expire s (x :: ops) = run expire (step expire s x.1 x.2) ops := rfl

theorem run_append (expire : Int) (s : LoadStats) (ops1 ops2 : List (Op × Int)) :
    run expire s (ops1 ++ ops2) = run expire (run expire s ops1) ops2 := by
  unfold run
  rw [List.foldl_append]

/-- A property kept by every allowed operation holds after every sequence of
allowed operations. -/
theorem run_preserves (expire : Int) (allowed : Op → Prop) (P : LoadStats → Prop)
    (hstep : ∀ x op t, allowed op → P x → P (step expire x op t))
    (ops : List (Op × Int)) (hops : ∀ x ∈ ops, allowed x.1) (s : LoadStats) (hs : P s) :
    P (run expire s ops) := by
  induction ops generalizing s with
  | nil => exact hs
  | cons x xs ih =>
    rw [run_cons]
    exact ih (fun y hy => hops y (List.mem_cons_of_mem _ hy)) _
      (hstep s x.1 x.2 (hops x (List.mem_cons_self _ _)) hs)

/-- A property `Q` that operation `op0` establishes from `P`-states, and that
every allowed operation keeps on `P`-states, holds after every allowed
sequence that contains `op0`. -/
theorem run_establishes (expire : Int) (allowed : Op → Prop) (P Q : LoadStats → Prop)
    (op0 : Op)
    (hP : ∀ x op t, allowed op → P x → P (step expire x op t))
    (hQ0 : ∀ x t, P x → Q (step expire x op0 t))
    (hQ : ∀ x op t, allowed op → P x → Q x → Q (step expire x op t))
    (ops : List (Op × Int)) (hops : ∀ x ∈ ops, allowed x.1) (hmem : ∃ x ∈ ops, x.1 = op0)
    (s : LoadStats) (hs : P s) : Q (run expire s ops) := by
  induction ops generalizing s with
  | nil => obtain ⟨x, hx, _⟩ := hmem; cases hx
  | cons x xs ih =>
    rw [run_cons]
    have hxa := hops x (List.mem_cons_self _ _)
    have hxs : ∀ y ∈ xs, allowed y.1 := fun y hy => hops y (List.mem_cons_of_mem _ hy)
    have hPx := hP s x.1 x.2 hxa hs
    by_cases hin : ∃ y ∈ xs, y.1 = op0
    · exact ih hxs hin _ hPx
    · obtain ⟨y, hy, hy0⟩ := hmem
      rcases List.mem_cons.mp hy with rfl | hy2
      · have hq : Q (step expire s y.1 y.2) := by rw [hy0]; exact hQ0 s y.2 hs
        have hboth : P (run expire (step expire s y.1 y.2) xs) ∧
            Q (run expire (step expire s y.1 y.2) xs) :=
          run_preserves expire allowed (fun z => P z ∧ Q z)
            (fun z op t ha hz => ⟨hP z op t ha hz.1, hQ z op t ha hz.1 hz.2⟩) xs hxs _ ⟨hPx, hq⟩
        exact hboth.2
      · exact absurd ⟨y, hy2, hy0⟩ hin

end LoadStats

namespace LoadStats

theorem addInt32_add_neg {a d : Int} (ha : isInt32 a) : addInt32 (addInt32 a d) (-d) = a := by
  unfold isInt32 at ha
  unfold addInt32 wrap32
  omega

theorem addInt32_zero {a : Int} (ha : isInt32 a) : addInt32 a 0 = a := by
  unfold isInt32 at ha
  unfold addInt32 wrap32
  omega

theorem step_delete_of_some (expire : Int) (x : LoadStats) (id : String) (t : Int)
    {y : InferenceRequest} (h : x.Requests.Load id = some y) :
    step expire x (Op.delete id) t =
      decEngineStats { x with Requests := x.Requests.Delete id } y t := by
  simp [step, tryDeleteRequestStats_of_some x id t h]

theorem step_delete_of_none (expire : Int) (x : LoadStats) (id : String) (t : Int)
    (h : x.Requests.Load id = none) : step expire x (Op.delete id) t = x := by
  simp [step, tryDeleteRequestStats_of_none x id t h]

theorem step_promptDelete_of_some (expire : Int) (x : LoadStats) (id : String) (t : Int)
    {y : InferenceRequest} (h : x.Requests.Load id = some y) :
    step expire x (Op.promptDelete id) t =
      { (x.decEnginePromptLength y t).1 with
        Requests := x.Requests.put id (x.decEnginePromptLength y t).2 } := by
  simp [step, tryDecPromptLength_of_some x id t h]

theorem step_promptDelete_of_none (expire : Int) (x : LoadStats) (id : String) (t : Int)
    (h : x.Requests.Load id = none) : step expire x (Op.promptDelete id) t = x := by
  simp [step, tryDecPromptLength_of_none x id t h]

theorem Requests_Load_step_delete_self (expire : Int) (x : LoadStats) (id : String) (t : Int) :
    (step expire x (Op.delete id) t).Requests.Load id = none := by
  cases h : x.Requests.Load id with
  | none => rw [step_delete_of_none expire x id t h]; exact h
  | some y =>
    rw [step_delete_of_some expire x id t h, decEngineStats_Requests]
    exact SyncMap.Load_Delete_self _ _

theorem DeletePhase_AddRequest (s : LoadStats) (r : InferenceRequest) (t1 : Int)
    (hfresh : s.Requests.Load r.RequestId = none) :
    DeletePhase r.Cluster r.Ip r.RequestId r.PromptLength (s.queued r.Cluster r.Ip)
      (s.aggregate r.Cluster r.Ip) (s.AddRequest r t1) := by
  refine ⟨_, engine_AddRequest_self s r t1 hfresh, Or.inl ⟨{ r with CreateTime := t1 }, ?_, rfl,
    rfl, ?_, Or.inl ⟨rfl, ?_⟩⟩⟩
  · rw [AddRequest_Requests_of_fresh s r t1 hfresh, SyncMap.Load_put_self]
  · unfold queued
    cases s.engine r.Cluster r.Ip <;>
      simp [EngineStats.IncrementQueuedReqNumAndPromptLength, NewEngineLoadStats]
  · unfold aggregate
    cases s.engine r.Cluster r.Ip <;>
      simp [EngineStats.IncrementQueuedReqNumAndPromptLength, NewEngineLoadStats]

theorem DeletePhase_step_delete (expire : Int) {c ip id : String} {p q0 a0 : Int}
    (hq : isInt32 q0) (ha : isInt32 a0) (hp : 0 ≤ p) (x : LoadStats) (t : Int)
    (hx : DeletePhase c ip id p q0 a0 x) :
    DeletePhase c ip id p q0 a0 (step expire x (Op.delete id) t) := by
  obtain ⟨e, he, hcase⟩ := hx
  rcases hcase with ⟨y, hy, hc, hip, hqe, hpe⟩ | ⟨hnone, hqe, hae⟩
  · subst hc; subst hip
    have heng : (step expire x (Op.delete id) t).engine y.Cluster y.Ip =
        some ((e.DecrementQueuedReqNum t).DecrementPromptLength y t).1 := by
      rw [step_delete_of_some expire x id t hy, engine_decEngineStats_self,
        engine_with_Requests, he]
      rfl
    refine ⟨_, heng, Or.inr ⟨Requests_Load_step_delete_self expire x id t, ?_, ?_⟩⟩
    · have : (((e.DecrementQueuedReqNum t).DecrementPromptLength y t).1).QueuedReqNum =
          addInt32 e.QueuedReqNum (-1) := by
        unfold EngineStats.DecrementPromptLength EngineStats.DecrementQueuedReqNum
        by_cases h0 : y.PromptLength ≤ 0 <;> simp [h0]
      rw [this, hqe]
      exact addInt32_add_neg hq
    · rcases hpe with ⟨hyp, hea⟩ | ⟨hyp, hea⟩
      · by_cases h0 : y.PromptLength ≤ 0
        · have hp0 : p = 0 := by omega
          simp only [EngineStats.DecrementPromptLength, EngineStats.DecrementQueuedReqNum, h0,
            if_true]
          rw [hea, hp0]
          exact addInt32_zero ha
        · simp only [EngineStats.DecrementPromptLength, EngineStats.DecrementQueuedReqNum, h0,
            if_false]
          rw [hea, hyp]
          exact addInt32_add_neg ha
      · have h0 : y.PromptLength ≤ 0 := by omega
        simp only [EngineStats.DecrementPromptLength, EngineStats.DecrementQueuedReqNum, h0,
          if_true]
        exact hea
  · rw [step_delete_of_none expire x id t hnone]
    exact ⟨e, he, Or.inr ⟨hnone, hqe, hae⟩⟩

theorem DeletePhase_step_promptDelete (expire : Int) {c ip id : String} {p q0 a0 : Int}
    (ha : isInt32 a0) (x : LoadStats) (t : Int)
    (hx : DeletePhase c ip id p q0 a0 x) :
    DeletePhase c ip id p q0 a0 (step expire x (Op.promptDelete id) t) := by
  obtain ⟨e, he, hcase⟩ := hx
  rcases hcase with ⟨y, hy, hc, hip, hqe, hpe⟩ | ⟨hnone, hqe, hae⟩
  · subst hc; subst hip
    have heng : (step expire x (Op.promptDelete id) t).engine y.Cluster y.Ip =
        some (e.DecrementPromptLength y t).1 := by
      rw [step_promptDelete_of_some expire x id t hy, engine_with_Requests,
        engine_decEnginePromptLength_self, he]
      rfl
    have hreq : (step expire x (Op.promptDelete id) t).Requests.Load id =
        some (if 0 < y.PromptLength then { y with PromptLength := 0 } else y) := by
      rw [step_promptDelete_of_some expire x id t hy]
      simp only [SyncMap.Load_put_self, decEnginePromptLength_snd, he]
      simp
    by_cases h0 : y.PromptLength ≤ 0
    · have hlt : ¬ 0 < y.PromptLength := not_lt.mpr h0
      refine ⟨_, heng, Or.inl ⟨y, ?_, rfl, rfl, ?_, ?_⟩⟩
      · rw [hreq, if_neg hlt]
      · simp only [EngineStats.DecrementPromptLength, h0, if_true]; exact hqe
      · simp only [EngineStats.DecrementPromptLength, h0, if_true]; exact hpe
    · have hlt : 0 < y.PromptLength := not_le.mp h0
      refine ⟨_, heng, Or.inl ⟨{ y with PromptLength := 0 }, ?_, rfl, rfl, ?_, Or.inr ⟨rfl, ?_⟩⟩⟩
      · rw [hreq, if_pos hlt]
      · simp only [EngineStats.DecrementPromptLength, h0, if_false]; exact hqe
      · simp only [EngineStats.DecrementPromptLength, h0, if_false]
        rcases hpe with ⟨hyp, hea⟩ | ⟨hyp, hea⟩
        · rw [hea, hyp]; exact addInt32_add_neg ha
        · omega
  · rw [step_promptDelete_of_none expire x id t hnone]
    exact ⟨e, he, Or.inr ⟨hnone, hqe, hae⟩⟩

end LoadStats

namespace LoadStats

theorem isInt32_queued {s : LoadStats} (hs : s.WellTyped) (c ip : String) :
    isInt32 (s.queued c ip) := by
  unfold queued
  cases h : s.engine c ip with
  | none => exact ⟨by decide, by decide⟩
  | some e => exact (engine_wellTyped hs h).1

theorem isInt32_aggregate {s : LoadStats} (hs : s.WellTyped) (c ip : String) :
    isInt32 (s.aggregate c ip) := by
  unfold aggregate
  cases h : s.engine c ip with
  | none => exact ⟨by decide, by decide⟩
  | some e => exact (engine_wellTyped hs h).2

/-- In a `DeletePhase` state, and once the stored prompt length of `id` is not
positive, a deletion attempt leaves the aggregate of the engine unchanged. -/
theorem aggregate_step_delete_of_prompt_done (expire : Int) {c ip id : String} {p q0 a0 : Int}
    (x : LoadStats) (t : Int) (hx : DeletePhase c ip id p q0 a0 x)
    (hdone : ∀ y, x.Requests.Load id = some y → y.PromptLength ≤ 0) :
    (step expire x (Op.delete id) t).aggregate c ip = x.aggregate c ip := by
  obtain ⟨e, he, hcase⟩ := hx
  rcases hcase with ⟨y, hy, hc, hip, -, -⟩ | ⟨hnone, -, -⟩
  · subst hc; subst hip
    have h0 := hdone y hy
    unfold aggregate
    rw [step_delete_of_some expire x id t hy, engine_decEngineStats_self,
      engine_with_Requests, he]
    simp [EngineStats.DecrementPromptLength, EngineStats.DecrementQueuedReqNum, h0]
  · rw [step_delete_of_none expire x id t hnone]

theorem Requests_Load_step_promptDelete_self (expire : Int) (x : LoadStats) (id : String)
    (t : Int) :
    (step expire x (Op.promptDelete id) t).Requests.Load id =
      (x.Requests.Load id).map (fun y => (x.decEnginePromptLength y t).2) := by
  cases h : x.Requests.Load id with
  | none => rw [step_promptDelete_of_none expire x id t h]; simp [h]
  | some y =>
    rw [step_promptDelete_of_some expire x id t h]
    simp [SyncMap.Load_put_self]

end LoadStats

namespace LoadStats

/-- C5, as stated, fails: after `Set` of a request of prompt length 1 on the
engine whose aggregate is 2147483647 (the aggregate wraps to -2147483648), one
`DeleteRequest` attempt takes the aggregate to 2147483647: the aggregate has
been decreased neither by 0 nor by exactly 1. -/
theorem delete_attempts_aggregate_not_exact :
    exStoreMax.Requests.Load exReqOne.RequestId = none ∧
    (exStoreMax.AddRequest exReqOne 1).aggregate "A" "1.1.1.1" = -2147483648 ∧
    (run 660000000000 (exStoreMax.AddRequest exReqOne 1)
      [(Op.delete "one", 2)]).aggregate "A" "1.1.1.1" = 2147483647 ∧
    ¬ ((exStoreMax.AddRequest exReqOne 1).aggregate "A" "1.1.1.1" -
          (run 660000000000 (exStoreMax.AddRequest exReqOne 1)
            [(Op.delete "one", 2)]).aggregate "A" "1.1.1.1" = 0 ∨
        (exStoreMax.AddRequest exReqOne 1).aggregate "A" "1.1.1.1" -
          (run 660000000000 (exStoreMax.AddRequest exReqOne 1)
            [(Op.delete "one", 2)]).aggregate "A" "1.1.1.1" = exReqOne.PromptLength) := by
  decide

/-- C5, amended. After `AddRequest r` of a fresh request with
`PromptLength = p ≥ 0` on a well-typed store, for every finite sequence `ops`
of deletion attempts and prompt-deletion attempts for `r.RequestId`: the engine
`(r.Cluster, r.Ip)` still exists; its `QueuedReqNum` is either the value after
the `Set` or that value decremented once (wrapping signed 32-bit arithmetic),
and its aggregate either the value after the `Set` or that value reduced once
by `p` (same arithmetic); if `ops` contains a deletion attempt the request is
gone and both counters have been reduced once, which is their value before the
`Set`; whenever the `Set` did not overflow the reductions are by 0 or 1 and by
0 or exactly `p` as integers, and exactly 1 and `p` when `ops` contains a
deletion attempt; and once `ops` contains a prompt-deletion attempt, a further
deletion attempt leaves the aggregate unchanged. -/
theorem delete_attempts_at_most_once (expire : Int) (s : LoadStats) (hs : s.WellTyped)
    (r : InferenceRequest) (t1 : Int) (hfresh : s.Requests.Load r.RequestId = none)
    (hp : 0 ≤ r.PromptLength) (ops : List (Op × Int))
    (hops : ∀ x ∈ ops, x.1 = Op.delete r.RequestId ∨ x.1 = Op.promptDelete r.RequestId) :
    (run expire (s.AddRequest r t1) ops).engine r.Cluster r.Ip ≠ none ∧
    ((run expire (s.AddRequest r t1) ops).queued r.Cluster r.Ip =
        (s.AddRequest r t1).queued r.Cluster r.Ip ∨
      (run expire (s.AddRequest r t1) ops).queued r.Cluster r.Ip =
        addInt32 ((s.AddRequest r t1).queued r.Cluster r.Ip) (-1)) ∧
    ((run expire (s.AddRequest r t1) ops).aggregate r.Cluster r.Ip =
        (s.AddRequest r t1).aggregate r.Cluster r.Ip ∨
      (run expire (s.AddRequest r t1) ops).aggregate r.Cluster r.Ip =
        addInt32 ((s.AddRequest r t1).aggregate r.Cluster r.Ip) (-r.PromptLength)) ∧
    ((∃ x ∈ ops, x.1 = Op.delete r.RequestId) →
      (run expire (s.AddRequest r t1) ops).Requests.Load r.RequestId = none ∧
      (run expire (s.AddRequest r t1) ops).queued r.Cluster r.Ip =
        addInt32 ((s.AddRequest r t1).queued r.Cluster r.Ip) (-1) ∧
      (run expire (s.AddRequest r t1) ops).aggregate r.Cluster r.Ip =
        addInt32 ((s.AddRequest r t1).aggregate r.Cluster r.Ip) (-r.PromptLength) ∧
      (run expire (s.AddRequest r t1) ops).queued r.Cluster r.Ip = s.queued r.Cluster r.Ip ∧
      (run expire (s.AddRequest r t1) ops).aggregate r.Cluster r.Ip =
        s.aggregate r.Cluster r.Ip) ∧
    (isInt32 (s.queued r.Cluster r.Ip + 1) →
      isInt32 (s.aggregate r.Cluster r.Ip + r.PromptLength) →
      ((s.AddRequest r t1).queued r.Cluster r.Ip -
            (run expire (s.AddRequest r t1) ops).queued r.Cluster r.Ip = 0 ∨
        (s.AddRequest r t1).queued r.Cluster r.Ip -
            (run expire (s.AddRequest r t1) ops).queued r.Cluster r.Ip = 1) ∧
      ((s.AddRequest r t1).aggregate r.Cluster r.Ip -
            (run expire (s.AddRequest r t1) ops).aggregate r.Cluster r.Ip = 0 ∨
        (s.AddRequest r t1).aggregate r.Cluster r.Ip -
            (run expire (s.AddRequest r t1) ops).aggregate r.Cluster r.Ip = r.PromptLength) ∧
      ((∃ x ∈ ops, x.1 = Op.delete r.RequestId) →
        (s.AddRequest r t1).queued r.Cluster r.Ip -
            (run expire (s.AddRequest r t1) ops).queued r.Cluster r.Ip = 1 ∧
        (s.AddRequest r t1).aggregate r.Cluster r.Ip -
            (run expire (s.AddRequest r t1) ops).aggregate r.Cluster r.Ip = r.PromptLength)) ∧
    ((∃ x ∈ ops, x.1 = Op.promptDelete r.RequestId) → ∀ t,
      (step expire (run expire (s.AddRequest r t1) ops) (Op.delete r.RequestId) t).aggregate
          r.Cluster r.Ip =
        (run expire (s.AddRequest r t1) ops).aggregate r.Cluster r.Ip) := by
  have hq0 := isInt32_queued hs r.Cluster r.Ip
  have ha0 := isInt32_aggregate hs r.Cluster r.Ip
  have hq1 := queued_AddRequest_self s r t1 hfresh
  have ha1 := aggregate_AddRequest_self s r t1 hfresh
  have hstep : ∀ x op t, (op = Op.delete r.RequestId ∨ op = Op.promptDelete r.RequestId) →
      DeletePhase r.Cluster r.Ip r.RequestId r.PromptLength (s.queued r.Cluster r.Ip)
        (s.aggregate r.Cluster r.Ip) x →
      DeletePhase r.Cluster r.Ip r.RequestId r.PromptLength (s.queued r.Cluster r.Ip)
        (s.aggregate r.Cluster r.Ip) (step expire x op t) := by
    intro x op t hop hx
    rcases hop with rfl | rfl
    · exact DeletePhase_step_delete expire hq0 ha0 hp x t hx
    · exact DeletePhase_step_promptDelete expire ha0 x t hx
  have hphase := run_preserves expire _ _ hstep ops hops _ (DeletePhase_AddRequest s r t1 hfresh)
  have hgone : (∃ x ∈ ops, x.1 = Op.delete r.RequestId) →
      (run expire (s.AddRequest r t1) ops).Requests.Load r.RequestId = none := by
    intro hmem
    refine run_establishes expire _ _ (fun x => x.Requests.Load r.RequestId = none)
      (Op.delete r.RequestId) hstep ?_ ?_ ops hops hmem _ (DeletePhase_AddRequest s r t1 hfresh)
    · intro x t _
      exact Requests_Load_step_delete_self expire x r.RequestId t
    · intro x op t hop _ hx
      rcases hop with rfl | rfl
      · exact Requests_Load_step_delete_self expire x r.RequestId t
      · rw [step_promptDelete_of_none expire x r.RequestId t hx]; exact hx
  have hdone : (∃ x ∈ ops, x.1 = Op.promptDelete r.RequestId) →
      ∀ y, (run expire (s.AddRequest r t1) ops).Requests.Load r.RequestId = some y →
        y.PromptLength ≤ 0 := by
    intro hmem
    refine run_establishes expire _ _
      (fun x => ∀ y, x.Requests.Load r.RequestId = some y → y.PromptLength ≤ 0)
      (Op.promptDelete r.RequestId) hstep ?_ ?_ ops hops hmem _
      (DeletePhase_AddRequest s r t1 hfresh)
    · intro x t hx y hy
      obtain ⟨e, he, hcase⟩ := hx
      rw [Requests_Load_step_promptDelete_self] at hy
      rcases hcase with ⟨z, hz, hc, hip, -, -⟩ | ⟨hnone, -, -⟩
      · rw [hz] at hy
        simp only [Option.map_some', decEnginePromptLength_snd, hc, hip, he,
          Option.some.injEq] at hy
        by_cases hz0 : 0 < z.PromptLength
        · simp [hz0] at hy; rw [← hy]
        · simp [hz0] at hy; rw [← hy]; exact not_lt.mp hz0
      · rw [hnone] at hy; simp at hy
    · intro x op t hop _ hx y hy
      rcases hop with rfl | rfl
      · rw [Requests_Load_step_delete_self] at hy; simp at hy
      · rw [Requests_Load_step_promptDelete_self] at hy
        cases hz : x.Requests.Load r.RequestId with
        | none => rw [hz] at hy; simp at hy
        | some z =>
          rw [hz] at hy
          simp only [Option.map_some', decEnginePromptLength_snd, Option.some.injEq] at hy
          have hz0 := hx z hz
          have : ¬ 0 < z.PromptLength := not_lt.mpr hz0
          simp [this] at hy
          rw [← hy]; exact hz0
  have hback_q : addInt32 ((s.AddRequest r t1).queued r.Cluster r.Ip) (-1) =
      s.queued r.Cluster r.Ip := by rw [hq1]; exact addInt32_add_neg hq0
  have hback_a : addInt32 ((s.AddRequest r t1).aggregate r.Cluster r.Ip) (-r.PromptLength) =
      s.aggregate r.Cluster r.Ip := by rw [ha1]; exact addInt32_add_neg ha0
  obtain ⟨e, he, hcase⟩ := hphase
  have hqe : (run expire (s.AddRequest r t1) ops).queued r.Cluster r.Ip = e.QueuedReqNum := by
    simp [queued, he]
  have hae : (run expire (s.AddRequest r t1) ops).aggregate r.Cluster r.Ip = e.PromptLength := by
    simp [aggregate, he]
  have hqcases : e.QueuedReqNum = addInt32 (s.queued r.Cluster r.Ip) 1 ∨
      e.QueuedReqNum = s.queued r.Cluster r.Ip := by
    rcases hcase with ⟨y, -, -, -, h, -⟩ | ⟨-, h, -⟩
    · exact Or.inl h
    · exact Or.inr h
  have hacases : e.PromptLength = addInt32 (s.aggregate r.Cluster r.Ip) r.PromptLength ∨
      e.PromptLength = s.aggregate r.Cluster r.Ip := by
    rcases hcase with ⟨y, -, -, -, -, ⟨-, h⟩ | ⟨-, h⟩⟩ | ⟨-, -, h⟩
    · exact Or.inl h
    · exact Or.inr h
    · exact Or.inr h
  have hdel : (∃ x ∈ ops, x.1 = Op.delete r.RequestId) →
      e.QueuedReqNum = s.queued r.Cluster r.Ip ∧ e.PromptLength = s.aggregate r.Cluster r.Ip := by
    intro hmem
    have hn := hgone hmem
    rcases hcase with ⟨y, hy, -⟩ | ⟨-, h1, h2⟩
    · rw [hn] at hy; cases hy
    · exact ⟨h1, h2⟩
  refine ⟨by rw [he]; simp, ?_, ?_, ?_, ?_, ?_⟩
  · rw [hqe, hback_q, hq1]; exact hqcases
  · rw [hae, hback_a, ha1]; exact hacases
  · intro hmem
    obtain ⟨h1, h2⟩ := hdel hmem
    exact ⟨hgone hmem, by rw [hqe, hback_q, h1], by rw [hae, hback_a, h2], by rw [hqe, h1],
      by rw [hae, h2]⟩
  · intro hrq hra
    rw [hqe, hae, hq1, ha1, addInt32_of_isInt32 hrq, addInt32_of_isInt32 hra]
    rw [addInt32_of_isInt32 hrq] at hqcases
    rw [addInt32_of_isInt32 hra] at hacases
    refine ⟨?_, ?_, ?_⟩
    · rcases hqcases with h | h <;> rw [h] <;> omega
    · rcases hacases with h | h <;> rw [h] <;> omega
    · intro hmem
      obtain ⟨h1, h2⟩ := hdel hmem
      rw [h1, h2]
      constructor <;> omega
  · intro hmem t
    exact aggregate_step_delete_of_prompt_done expire _ t ⟨e, he, hcase⟩ (hdone hmem)

/-- Witness for C5 (amended): scenarios 1 to 3 of the specification. After
`Set(1, A, 1.1.1.1, 512)`: `DeletePromptLength(1)`, `DeleteRequest(1)`, and both
attempts once more, leave `queued = 0` and `prompt = 0`, and the request is
gone. -/
theorem delete_attempts_at_most_once_witness :
    NewLoadStats.WellTyped ∧ NewLoadStats.Requests.Load exReq1.RequestId = none ∧
    (run 660000000000 (NewLoadStats.AddRequest exReq1 5)
      [(Op.promptDelete "1", 6), (Op.delete "1", 7), (Op.delete "1", 8),
        (Op.promptDelete "1", 9)]).Requests.Load "1" = none ∧
    (run 660000000000 (NewLoadStats.AddRequest exReq1 5)
      [(Op.promptDelete "1", 6), (Op.delete "1", 7), (Op.delete "1", 8),
        (Op.promptDelete "1", 9)]).queued "A" "1.1.1.1" = 0 ∧
    (run 660000000000 (NewLoadStats.AddRequest exReq1 5)
      [(Op.promptDelete "1", 6), (Op.delete "1", 7), (Op.delete "1", 8),
        (Op.promptDelete "1", 9)]).aggregate "A" "1.1.1.1" = 0 := by
  have h := (delete_attempts_at_most_once 660000000000 NewLoadStats (by decide) exReq1 5
    (by decide) (by decide)
    [(Op.promptDelete "1", 6), (Op.delete "1", 7), (Op.delete "1", 8), (Op.promptDelete "1", 9)]
    (by decide)).2.2.2.1 (by decide)
  exact ⟨by decide, by decide, h.1, h.2.2.2.1, h.2.2.2.2⟩

end LoadStats

namespace LoadStats

theorem step_set (expire : Int) (x : LoadStats) (r : InferenceRequest) (t : Int) :
    step expire x (Op.set r) t = x.AddRequest r t := rfl

/-- The single-request scenario when every `AddRequest` passes a struct of
its own holding `r`: after every prefix, the engine `(r.Cluster, r.Ip)`, if it
exists, is at `(1, p)` when `r.RequestId` is in `Requests` and at `(0, 0)`
when it is not. -/
theorem single_request_copies (expire : Int) (r : InferenceRequest)
    (hp : 0 ≤ r.PromptLength) (hr : isInt32 r.PromptLength) (ops : List (Op × Int))
    (hops : ∀ x ∈ ops, x.1 = Op.set r ∨ x.1 = Op.delete r.RequestId) (n : Nat) :
    ∀ e, (run expire NewLoadStats (ops.take n)).engine r.Cluster r.Ip = some e →
      ((run expire NewLoadStats (ops.take n)).Requests.Load r.RequestId ≠ none →
        e.QueuedReqNum = 1 ∧ e.PromptLength = r.PromptLength) ∧
      ((run expire NewLoadStats (ops.take n)).Requests.Load r.RequestId = none →
        e.QueuedReqNum = 0 ∧ e.PromptLength = 0) ∧
      0 ≤ e.QueuedReqNum ∧ 0 ≤ e.PromptLength := by
  have hz : isInt32 (0 : Int) := ⟨by decide, by decide⟩
  have hinv := run_preserves expire (fun op => op = Op.set r ∨ op = Op.delete r.RequestId)
    (fun x => x = NewLoadStats ∨
      (DeletePhase r.Cluster r.Ip r.RequestId r.PromptLength 0 0 x ∧
        ∀ y, x.Requests.Load r.RequestId = some y → y.PromptLength = r.PromptLength))
    (by
      intro x op t hop hx
      rcases hop with rfl | rfl
      · rw [step_set]
        rcases hx with rfl | ⟨hph, hq⟩
        · right
          have hfresh : NewLoadStats.Requests.Load r.RequestId = none := rfl
          refine ⟨DeletePhase_AddRequest NewLoadStats r t hfresh, ?_⟩
          intro y hy
          rw [AddRequest_Requests_of_fresh _ r t hfresh, SyncMap.Load_put_self] at hy
          cases hy; rfl
        · right
          cases hl : x.Requests.Load r.RequestId with
          | some y =>
            rw [AddRequest_of_present x r t (by simp [hl])]
            exact ⟨hph, hq⟩
          | none =>
            obtain ⟨e, he, hcase⟩ := hph
            rcases hcase with ⟨y, hy, -⟩ | ⟨-, hqe, hae⟩
            · rw [hl] at hy; cases hy
            · have h := DeletePhase_AddRequest x r t hl
              have hq0 : x.queued r.Cluster r.Ip = 0 := by simp [queued, he, hqe]
              have ha0 : x.aggregate r.Cluster r.Ip = 0 := by simp [aggregate, he, hae]
              rw [hq0, ha0] at h
              refine ⟨h, ?_⟩
              intro y hy
              rw [AddRequest_Requests_of_fresh _ r t hl, SyncMap.Load_put_self] at hy
              cases hy; rfl
      · rcases hx with rfl | ⟨hph, hq⟩
        · left
          exact step_delete_of_none expire NewLoadStats r.RequestId t rfl
        · right
          refine ⟨DeletePhase_step_delete expire hz hz hp x t hph, ?_⟩
          intro y hy
          rw [Requests_Load_step_delete_self] at hy
          cases hy)
    (ops.take n) (fun x hx => hops x (List.mem_of_mem_take hx)) NewLoadStats (Or.inl rfl)
  intro e he
  rcases hinv with h0 | ⟨⟨e2, he2, hcase⟩, hq⟩
  · rw [h0] at he; cases he
  · rw [he] at he2
    cases he2
    have h1 : addInt32 0 1 = 1 := by decide
    have hpp : addInt32 0 r.PromptLength = r.PromptLength := by
      rw [addInt32_of_isInt32 (by simpa using hr)]; simp
    rcases hcase with ⟨y, hy, -, -, hqe, hpe⟩ | ⟨hnone, hqe, hae⟩
    · have hyp := hq y hy
      have hea : e.PromptLength = r.PromptLength := by
        rcases hpe with ⟨-, h⟩ | ⟨h1, h2⟩
        · rw [h, hpp]
        · rw [h2, ← hyp, h1]
      refine ⟨fun _ => ⟨by rw [hqe, h1], hea⟩, fun hn => ?_, by rw [hqe, h1]; decide,
        by rw [hea]; exact hp⟩
      rw [hn] at hy; cases hy
    · refine ⟨fun hn => absurd hnone hn, fun _ => ⟨hqe, hae⟩, by rw [hqe], by rw [hae]⟩

end LoadStats

namespace SyncMap

variable {V : Type}

theorem total_nil (g : V → Int) : total g ([] : SyncMap V) = 0 := rfl

theorem total_cons (g : V → Int) (kv : String × V) (m : SyncMap V) :
    total g (kv :: m) = g kv.2 + total g m := by
  simp [total]

theorem total_append_singleton (g : V → Int) (m : SyncMap V) (k : String) (v : V) :
    total g (m ++ [(k, v)]) = total g m + g v := by
  simp [total]

theorem Delete_nil (k : String) : Delete ([] : SyncMap V) k = [] := rfl

theorem Delete_cons (k1 : String) (v1 : V) (tl : SyncMap V) (k : String) :
    Delete ((k1, v1) :: tl) k = if k1 = k then Delete tl k else (k1, v1) :: Delete tl k := by
  unfold Delete
  by_cases h : k1 = k <;> simp [List.filter_cons, h]

theorem Delete_of_not_mem_keys (m : SyncMap V) {k : String} (h : k ∉ m.keys) :
    m.Delete k = m := by
  induction m with
  | nil => rfl
  | cons hd tl ih =>
    obtain ⟨k1, v1⟩ := hd
    have h1 : ¬ k1 = k := fun e => h (by simp [keys, e])
    have h2 : k ∉ keys tl := fun hm => h (by simp [keys] at hm ⊢; exact Or.inr hm)
    rw [Delete_cons, if_neg h1, ih h2]

theorem total_Delete (g : V → Int) (m : SyncMap V) {k : String} {v : V}
    (hnd : m.keys.Nodup) (h : m.Load k = some v) :
    total g (m.Delete k) = total g m - g v := by
  induction m with
  | nil => simp [Load] at h
  | cons hd tl ih =>
    obtain ⟨k1, v1⟩ := hd
    have hnd2 : (keys tl).Nodup := (List.nodup_cons.mp hnd).2
    have hk : k1 ∉ keys tl := (List.nodup_cons.mp hnd).1
    by_cases h1 : k1 = k
    · subst h1
      simp [Load] at h
      subst h
      rw [Delete_cons, if_pos rfl, Delete_of_not_mem_keys tl hk, total_cons]
      simp
    · simp [Load, h1] at h
      rw [Delete_cons, if_neg h1, total_cons, total_cons, ih hnd2 h]
      ring

theorem total_put_of_Load_some (g : V → Int) (m : SyncMap V) {k : String} {v : V}
    (h : m.Load k = some v) (v2 : V) :
    total g (m.put k v2) = total g m - g v + g v2 := by
  induction m with
  | nil => simp [Load] at h
  | cons hd tl ih =>
    obtain ⟨k1, v1⟩ := hd
    by_cases h1 : k1 = k
    · subst h1
      simp [Load] at h
      subst h
      simp [put, total_cons]
      ring
    · simp [Load, h1] at h
      simp [put, h1, total_cons, ih h]
      ring

theorem mem_put (m : SyncMap V) (k : String) (v : V) (kv : String × V)
    (h : kv ∈ m.put k v) : kv ∈ m ∨ kv = (k, v) := by
  induction m with
  | nil => simp [put] at h; exact Or.inr h
  | cons hd tl ih =>
    obtain ⟨k1, v1⟩ := hd
    by_cases h1 : k1 = k
    · simp [put, h1] at h
      rcases h with h | h
      · exact Or.inr h
      · exact Or.inl (List.mem_cons_of_mem _ h)
    · simp [put, h1] at h
      rcases h with h | h
      · exact Or.inl (by rw [h]; exact List.mem_cons_self _ _)
      · rcases ih h with h2 | h2
        · exact Or.inl (List.mem_cons_of_mem _ h2)
        · exact Or.inr h2

theorem mem_Delete (m : SyncMap V) (k : String) (kv : String × V) (h : kv ∈ m.Delete k) :
    kv ∈ m := by
  unfold Delete at h
  exact (List.mem_filter.mp h).1

theorem keys_Delete_nodup (m : SyncMap V) (k : String) (h : m.keys.Nodup) :
    (m.Delete k).keys.Nodup := by
  unfold keys Delete
  exact List.Nodup.sublist (List.Sublist.map _ (List.filter_sublist _)) h

theorem keys_put_nodup (m : SyncMap V) (k : String) (v : V) (h : m.keys.Nodup) :
    (m.put k v).keys.Nodup := by
  cases hl : m.Load k with
  | some v0 => rw [keys_put_of_Load_some m hl]; exact h
  | none =>
    rw [put_of_Load_none m hl]
    have hk := (Load_eq_none_iff m k).mp hl
    unfold keys at *
    rw [List.map_append]
    simp only [List.map_cons, List.map_nil]
    exact List.Nodup.append h (List.nodup_singleton _) (by simpa using hk)

end SyncMap

namespace SyncMap

variable {V : Type}

theorem total_nonneg (g : V → Int) (m : SyncMap V) (h : ∀ kv ∈ m, 0 ≤ g kv.2) :
    0 ≤ total g m := by
  induction m with
  | nil => simp [total]
  | cons hd tl ih =>
    rw [total_cons]
    have h1 := h hd (List.mem_cons_self _ _)
    have h2 := ih (fun kv hkv => h kv (List.mem_cons_of_mem _ hkv))
    omega

theorem total_eq_zero (g : V → Int) (m : SyncMap V) (h : ∀ kv ∈ m, g kv.2 = 0) :
    total g m = 0 := by
  induction m with
  | nil => simp [total]
  | cons hd tl ih =>
    rw [total_cons, h hd (List.mem_cons_self _ _),
      ih (fun kv hkv => h kv (List.mem_cons_of_mem _ hkv))]
    rfl

end SyncMap

namespace LoadStats

theorem liveCount_eq_total (s : LoadStats) (c ip : String) :
    s.liveCount c ip = SyncMap.total (countW c ip) s.Requests := by
  unfold liveCount liveOn
  generalize s.Requests = m
  induction m with
  | nil => simp [SyncMap.total]
  | cons hd tl ih =>
    rw [SyncMap.total_cons, ← ih]
    by_cases h : hd.2.Cluster = c ∧ hd.2.Ip = ip
    · simp [countW, h, List.filter_cons]
      ring
    · simp [countW, h, List.filter_cons]

theorem livePrompt_eq_total (s : LoadStats) (c ip : String) :
    s.livePrompt c ip = SyncMap.total (promptW c ip) s.Requests := by
  unfold livePrompt liveOn
  generalize s.Requests = m
  induction m with
  | nil => simp [SyncMap.total]
  | cons hd tl ih =>
    rw [SyncMap.total_cons, ← ih]
    by_cases h : hd.2.Cluster = c ∧ hd.2.Ip = ip
    · simp [promptW, h, List.filter_cons]
    · simp [promptW, h, List.filter_cons]

theorem liveCount_nonneg (s : LoadStats) (c ip : String) : 0 ≤ s.liveCount c ip := by
  unfold liveCount
  exact Int.natCast_nonneg _

theorem livePrompt_nonneg (s : LoadStats) (c ip : String)
    (h : ∀ kr ∈ s.Requests, 0 ≤ kr.2.PromptLength) : 0 ≤ s.livePrompt c ip := by
  rw [livePrompt_eq_total]
  apply SyncMap.total_nonneg
  intro kv hkv
  unfold promptW
  split
  · exact h kv hkv
  · exact le_refl _

theorem live_eq_zero_of_no_engine {s : LoadStats}
    (hE : ∀ kr ∈ s.Requests, s.engine kr.2.Cluster kr.2.Ip ≠ none ∧ 0 ≤ kr.2.PromptLength)
    {c ip : String} (h : s.engine c ip = none) :
    s.liveCount c ip = 0 ∧ s.livePrompt c ip = 0 := by
  have hno : ∀ kr ∈ s.Requests, ¬ (kr.2.Cluster = c ∧ kr.2.Ip = ip) := by
    intro kr hkr hc
    apply (hE kr hkr).1
    rw [hc.1, hc.2]
    exact h
  rw [liveCount_eq_total, livePrompt_eq_total]
  constructor
  · apply SyncMap.total_eq_zero
    intro kv hkv
    simp [countW, hno kv hkv]
  · apply SyncMap.total_eq_zero
    intro kv hkv
    simp [promptW, hno kv hkv]

theorem Consistent_NewLoadStats : Consistent NewLoadStats := by
  refine ⟨by simp [NewLoadStats, SyncMap.keys], by simp [NewLoadStats], ?_, ?_⟩
  · intro c ip
    simp [liveCount, livePrompt, liveOn, NewLoadStats]
  · intro c ip e h
    simp [engine, NewLoadStats, SyncMap.Load] at h

theorem Consistent_AddRequest {s : LoadStats} (hs : Consistent s) (r : InferenceRequest)
    (t : Int) (hb : s.Requests.Load r.RequestId = none → SetBounded s r) :
    Consistent (s.AddRequest r t) := by
  cases hl : s.Requests.Load r.RequestId with
  | some y => rw [AddRequest_of_present s r t (by simp [hl])]; exact hs
  | none =>
    obtain ⟨hK, hE, hB, hC⟩ := hs
    obtain ⟨hp, hbc, hbp⟩ := hb hl
    have hreq := AddRequest_Requests_of_fresh s r t hl
    have hreq2 : (s.AddRequest r t).Requests =
        s.Requests ++ [(r.RequestId, { r with CreateTime := t })] := by
      rw [hreq, SyncMap.put_of_Load_none _ hl]
    have hcount : ∀ c ip, (s.AddRequest r t).liveCount c ip =
        s.liveCount c ip + countW c ip r := by
      intro c ip
      rw [liveCount_eq_total, liveCount_eq_total, hreq2, SyncMap.total_append_singleton]
      rfl
    have hprompt : ∀ c ip, (s.AddRequest r t).livePrompt c ip =
        s.livePrompt c ip + promptW c ip r := by
      intro c ip
      rw [livePrompt_eq_total, livePrompt_eq_total, hreq2, SyncMap.total_append_singleton]
      rfl
    have hself := engine_AddRequest_self s r t hl
    refine ⟨?_, ?_, ?_, ?_⟩
    · rw [hreq]; exact SyncMap.keys_put_nodup _ _ _ hK
    · intro kr hkr
      rw [hreq2] at hkr
      rcases List.mem_append.mp hkr with hold | hnew
      · refine ⟨?_, (hE kr hold).2⟩
        by_cases hc : kr.2.Cluster = r.Cluster ∧ kr.2.Ip = r.Ip
        · rw [hc.1, hc.2, hself]; simp
        · rw [engine_AddRequest_ne s r t _ _ hc]; exact (hE kr hold).1
      · simp only [List.mem_singleton] at hnew
        subst hnew
        exact ⟨by rw [hself]; simp, hp⟩
    · intro c ip
      rw [hcount, hprompt]
      have h1 := hB c ip
      by_cases hc : r.Cluster = c ∧ r.Ip = ip
      · obtain ⟨rfl, rfl⟩ := hc
        simp only [countW, promptW, and_self, if_true]
        exact ⟨hbc, hbp⟩
      · simp only [countW, promptW, hc, if_false]
        simpa using h1
    · intro c ip e he
      rw [hcount, hprompt]
      by_cases hc : c = r.Cluster ∧ ip = r.Ip
      · obtain ⟨rfl, rfl⟩ := hc
        rw [hself] at he
        simp only [Option.some.injEq] at he
        subst he
        simp only [countW, promptW, and_self, if_true]
        have hlc := liveCount_nonneg s r.Cluster r.Ip
        have hlp := livePrompt_nonneg s r.Cluster r.Ip (fun kr hkr => (hE kr hkr).2)
        have hold : ((s.engine r.Cluster r.Ip).getD (NewEngineLoadStats r.Ip t)).QueuedReqNum =
            s.liveCount r.Cluster r.Ip ∧
            ((s.engine r.Cluster r.Ip).getD (NewEngineLoadStats r.Ip t)).PromptLength =
              s.livePrompt r.Cluster r.Ip := by
          cases h0 : s.engine r.Cluster r.Ip with
          | none =>
            obtain ⟨z1, z2⟩ := live_eq_zero_of_no_engine hE h0
            simp [NewEngineLoadStats, z1, z2]
          | some e0 => simpa using hC _ _ e0 h0
        simp only [EngineStats.IncrementQueuedReqNumAndPromptLength, hold.1, hold.2]
        constructor
        · apply addInt32_of_isInt32
          unfold isInt32; omega
        · apply addInt32_of_isInt32
          unfold isInt32; omega
      · rw [engine_AddRequest_ne s r t c ip hc] at he
        have hc2 : ¬ (r.Cluster = c ∧ r.Ip = ip) := fun h => hc ⟨h.1.symm, h.2.symm⟩
        simp only [countW, promptW, hc2, if_false, add_zero]
        exact hC c ip e he

end LoadStats

namespace EngineStats

theorem DecrementPromptLength_QueuedReqNum (e : EngineStats) (req : InferenceRequest)
    (t : Int) : (e.DecrementPromptLength req t).1.QueuedReqNum = e.QueuedReqNum := by
  unfold DecrementPromptLength
  by_cases h : req.PromptLength ≤ 0 <;> simp [h]

theorem DecrementPromptLength_PromptLength (e : EngineStats) (req : InferenceRequest)
    (t : Int) :
    (e.DecrementPromptLength req t).1.PromptLength =
      if req.PromptLength ≤ 0 then e.PromptLength
      else addInt32 e.PromptLength (-req.PromptLength) := by
  unfold DecrementPromptLength
  by_cases h : req.PromptLength ≤ 0 <;> simp [h]

theorem DecrementQueuedReqNum_QueuedReqNum (e : EngineStats) (t : Int) :
    (e.DecrementQueuedReqNum t).QueuedReqNum = addInt32 e.QueuedReqNum (-1) := rfl

theorem DecrementQueuedReqNum_PromptLength (e : EngineStats) (t : Int) :
    (e.DecrementQueuedReqNum t).PromptLength = e.PromptLength := rfl

end EngineStats

namespace LoadStats

theorem engine_decEngineStats_ne_none (s : LoadStats) (req : InferenceRequest) (now : Int)
    (c ip : String) (h : s.engine c ip ≠ none) : (s.decEngineStats req now).engine c ip ≠ none := by
  by_cases hc : c = req.Cluster ∧ ip = req.Ip
  · obtain ⟨rfl, rfl⟩ := hc
    rw [engine_decEngineStats_self]
    cases h0 : s.engine req.Cluster req.Ip with
    | none => exact absurd h0 h
    | some e => simp
  · rw [engine_decEngineStats_ne s req now c ip hc]; exact h

theorem engine_decEnginePromptLength_ne_none (s : LoadStats) (req : InferenceRequest)
    (now : Int) (c ip : String) (h : s.engine c ip ≠ none) :
    (s.decEnginePromptLength req now).1.engine c ip ≠ none := by
  by_cases hc : c = req.Cluster ∧ ip = req.Ip
  · obtain ⟨rfl, rfl⟩ := hc
    rw [engine_decEnginePromptLength_self]
    cases h0 : s.engine req.Cluster req.Ip with
    | none => exact absurd h0 h
    | some e => simp
  · rw [engine_decEnginePromptLength_ne s req now c ip hc]; exact h

theorem Consistent_step_delete (expire : Int) {s : LoadStats} (hs : Consistent s) (id : String)
    (t : Int) : Consistent (step expire s (Op.delete id) t) := by
  cases hl : s.Requests.Load id with
  | none => rw [step_delete_of_none expire s id t hl]; exact hs
  | some y =>
    obtain ⟨hK, hE, hB, hC⟩ := hs
    rw [step_delete_of_some expire s id t hl]
    have hmem := SyncMap.mem_of_Load_eq_some hl
    have hyp : 0 ≤ y.PromptLength := (hE _ hmem).2
    have hcount : ∀ c ip,
        (decEngineStats { s with Requests := s.Requests.Delete id } y t).liveCount c ip =
          s.liveCount c ip - countW c ip y := by
      intro c ip
      rw [liveCount_eq_total, liveCount_eq_total, decEngineStats_Requests]
      exact SyncMap.total_Delete _ _ hK hl
    have hprompt : ∀ c ip,
        (decEngineStats { s with Requests := s.Requests.Delete id } y t).livePrompt c ip =
          s.livePrompt c ip - promptW c ip y := by
      intro c ip
      rw [livePrompt_eq_total, livePrompt_eq_total, decEngineStats_Requests]
      exact SyncMap.total_Delete _ _ hK hl
    have hE2 : ∀ kr ∈ (decEngineStats { s with Requests := s.Requests.Delete id } y t).Requests,
        (decEngineStats { s with Requests := s.Requests.Delete id } y t).engine
            kr.2.Cluster kr.2.Ip ≠ none ∧ 0 ≤ kr.2.PromptLength := by
      intro kr hkr
      rw [decEngineStats_Requests] at hkr
      have hold := SyncMap.mem_Delete _ _ _ hkr
      exact ⟨engine_decEngineStats_ne_none _ _ _ _ _ (hE kr hold).1, (hE kr hold).2⟩
    refine ⟨?_, hE2, ?_, ?_⟩
    · rw [decEngineStats_Requests]
      exact SyncMap.keys_Delete_nodup _ _ hK
    · intro c ip
      rw [hcount, hprompt]
      have h1 := hB c ip
      unfold countW promptW
      split <;> constructor <;> omega
    · intro c ip e he
      have hlc := liveCount_nonneg (decEngineStats { s with Requests := s.Requests.Delete id } y t)
        c ip
      have hlp := livePrompt_nonneg
        (decEngineStats { s with Requests := s.Requests.Delete id } y t) c ip
        (fun kr hkr => (hE2 kr hkr).2)
      rw [hcount] at hlc
      rw [hprompt] at hlp
      rw [hcount, hprompt]
      have hb := hB c ip
      by_cases hc : c = y.Cluster ∧ ip = y.Ip
      · obtain ⟨rfl, rfl⟩ := hc
        rw [engine_decEngineStats_self, engine_with_Requests] at he
        cases h0 : s.engine y.Cluster y.Ip with
        | none => rw [h0] at he; simp at he
        | some e0 =>
          rw [h0] at he
          simp only [Option.map_some', Option.some.injEq] at he
          subst he
          obtain ⟨hq0, ha0⟩ := hC _ _ e0 h0
          simp only [countW, promptW, and_self, if_true] at hlc hlp ⊢
          rw [EngineStats.DecrementPromptLength_QueuedReqNum,
            EngineStats.DecrementPromptLength_PromptLength,
            EngineStats.DecrementQueuedReqNum_QueuedReqNum,
            EngineStats.DecrementQueuedReqNum_PromptLength, hq0, ha0]
          constructor
          · rw [addInt32_of_isInt32 (by unfold isInt32; omega)]
            ring
          · split
            · omega
            · rw [addInt32_of_isInt32 (by unfold isInt32; omega)]
              ring
      · rw [engine_decEngineStats_ne _ y t c ip hc, engine_with_Requests] at he
        have hc2 : ¬ (y.Cluster = c ∧ y.Ip = ip) := fun h => hc ⟨h.1.symm, h.2.symm⟩
        simp only [countW, promptW, hc2, if_false, sub_zero]
        exact hC c ip e he

theorem Consistent_step_promptDelete (expire : Int) {s : LoadStats} (hs : Consistent s)
    (id : String) (t : Int) : Consistent (step expire s (Op.promptDelete id) t) := by
  cases hl : s.Requests.Load id with
  | none => rw [step_promptDelete_of_none expire s id t hl]; exact hs
  | some y =>
    obtain ⟨hK, hE, hB, hC⟩ := hs
    rw [step_promptDelete_of_some expire s id t hl]
    have hmem := SyncMap.mem_of_Load_eq_some hl
    have hyp : 0 ≤ y.PromptLength := (hE _ hmem).2
    have hyE : s.engine y.Cluster y.Ip ≠ none := (hE _ hmem).1
    have hy2 : (s.decEnginePromptLength y t).2 = { y with PromptLength := 0 } := by
      rw [decEnginePromptLength_snd]
      by_cases h0 : 0 < y.PromptLength
      · have : (s.engine y.Cluster y.Ip).isSome = true := by
          cases h1 : s.engine y.Cluster y.Ip with
          | none => exact absurd h1 hyE
          | some e => rfl
        simp [this, h0]
      · have hz : y.PromptLength = 0 := le_antisymm (not_lt.mp h0) hyp
        simp only [h0, and_false, if_false]
        cases y
        simp only at hz
        simp [hz]
    rw [hy2]
    have hcount : ∀ c ip,
        LoadStats.liveCount { (s.decEnginePromptLength y t).1 with
            Requests := s.Requests.put id { y with PromptLength := 0 } } c ip =
          s.liveCount c ip := by
      intro c ip
      rw [liveCount_eq_total, liveCount_eq_total]
      simp only []
      rw [SyncMap.total_put_of_Load_some _ _ hl]
      simp [countW]
    have hprompt : ∀ c ip,
        LoadStats.livePrompt { (s.decEnginePromptLength y t).1 with
            Requests := s.Requests.put id { y with PromptLength := 0 } } c ip =
          s.livePrompt c ip - promptW c ip y := by
      intro c ip
      rw [livePrompt_eq_total, livePrompt_eq_total]
      simp only []
      rw [SyncMap.total_put_of_Load_some _ _ hl]
      simp only [promptW]
      split <;> simp
    have hE2 : ∀ kr ∈ s.Requests.put id { y with PromptLength := 0 },
        (s.decEnginePromptLength y t).1.engine kr.2.Cluster kr.2.Ip ≠ none ∧
          0 ≤ kr.2.PromptLength := by
      intro kr hkr
      rcases SyncMap.mem_put _ _ _ _ hkr with hold | hnew
      · exact ⟨engine_decEnginePromptLength_ne_none _ _ _ _ _ (hE kr hold).1, (hE kr hold).2⟩
      · subst hnew
        exact ⟨engine_decEnginePromptLength_ne_none _ _ _ _ _ hyE, le_refl _⟩
    refine ⟨SyncMap.keys_put_nodup _ _ _ hK, hE2, ?_, ?_⟩
    · intro c ip
      rw [hcount, hprompt]
      have h1 := hB c ip
      unfold promptW
      split <;> constructor <;> omega
    · intro c ip e he
      rw [engine_with_Requests] at he
      have hlp := livePrompt_nonneg
        { (s.decEnginePromptLength y t).1 with
            Requests := s.Requests.put id { y with PromptLength := 0 } } c ip
        (fun kr hkr => (hE2 kr hkr).2)
      rw [hprompt] at hlp
      rw [hcount, hprompt]
      have hb := hB c ip
      by_cases hc : c = y.Cluster ∧ ip = y.Ip
      · obtain ⟨rfl, rfl⟩ := hc
        rw [engine_decEnginePromptLength_self] at he
        cases h0 : s.engine y.Cluster y.Ip with
        | none => rw [h0] at he; simp at he
        | some e0 =>
          rw [h0] at he
          simp only [Option.map_some', Option.some.injEq] at he
          subst he
          obtain ⟨hq0, ha0⟩ := hC _ _ e0 h0
          simp only [promptW, and_self, if_true] at hlp ⊢
          rw [EngineStats.DecrementPromptLength_QueuedReqNum,
            EngineStats.DecrementPromptLength_PromptLength, hq0, ha0]
          refine ⟨rfl, ?_⟩
          split
          · omega
          · rw [addInt32_of_isInt32 (by unfold isInt32; omega)]
            ring
      · rw [engine_decEnginePromptLength_ne _ y t c ip hc] at he
        have hc2 : ¬ (y.Cluster = c ∧ y.Ip = ip) := fun h => hc ⟨h.1.symm, h.2.symm⟩
        simp only [promptW, hc2, if_false, sub_zero]
        exact hC c ip e he

end LoadStats

namespace LoadStats

theorem Consistent_run_without_gc (expire : Int) (ops : List (Op × Int))
    (hops : ∀ x ∈ ops, x.1 ≠ Op.gc) (s : LoadStats) (hs : Consistent s)
    (hb : SetsBounded expire s ops) : Consistent (run expire s ops) := by
  induction ops generalizing s with
  | nil => exact hs
  | cons x xs ih =>
    obtain ⟨op, t⟩ := x
    rw [run_cons]
    have hxs : ∀ y ∈ xs, y.1 ≠ Op.gc := fun y hy => hops y (List.mem_cons_of_mem _ hy)
    cases op with
    | set r =>
      obtain ⟨h1, h2⟩ := hb
      exact ih hxs _ (Consistent_AddRequest hs r t h1) h2
    | delete id => exact ih hxs _ (Consistent_step_delete expire hs id t) hb
    | promptDelete id => exact ih hxs _ (Consistent_step_promptDelete expire hs id t) hb
    | gc => exact absurd rfl (hops (Op.gc, t) (List.mem_cons_self _ _))

/-- C7. In every state reached from the empty store by a sequence of `Set`,
deletion attempts and prompt-deletion attempts (no sweeper pass) in which every
`Set` that adds a request has `PromptLength ≥ 0` and keeps the number of
requests of its engine and the sum of their prompt lengths below 2^31, every
existing engine `(c, ip)` has `QueuedReqNum` equal to the number of entries of
`Requests` with cluster `c` and ip `ip`, and aggregate `PromptLength` equal to
the sum of the current prompt lengths of those entries; both are `≥ 0`. -/
theorem counters_match_requests (expire : Int) (ops : List (Op × Int))
    (hops : ∀ x ∈ ops, x.1 ≠ Op.gc) (hb : SetsBounded expire NewLoadStats ops)
    (c ip : String) (e : EngineStats)
    (he : (run expire NewLoadStats ops).engine c ip = some e) :
    e.QueuedReqNum = (run expire NewLoadStats ops).liveCount c ip ∧
    e.PromptLength = (run expire NewLoadStats ops).livePrompt c ip ∧
    0 ≤ e.QueuedReqNum ∧ 0 ≤ e.PromptLength := by
  have hcons := Consistent_run_without_gc expire ops hops NewLoadStats Consistent_NewLoadStats hb
  obtain ⟨-, hE, -, hC⟩ := hcons
  obtain ⟨hq, ha⟩ := hC c ip e he
  refine ⟨hq, ha, ?_, ?_⟩
  · rw [hq]; exact liveCount_nonneg _ c ip
  · rw [ha]; exact livePrompt_nonneg _ c ip (fun kr hkr => (hE kr hkr).2)

/-- Witness for C7: two `Set`s of prompt 512 on engine (A, 1.1.1.1), a prompt
deletion of the first and a deletion of the second leave one stored request
with current prompt length 0: `queued = 1`, `prompt = 0`. -/
theorem counters_match_requests_witness :
    (run 660000000000 NewLoadStats
      [(Op.set exReq1, 5), (Op.set exReq2, 6), (Op.promptDelete "1", 7),
        (Op.delete "2", 8)]).liveCount "A" "1.1.1.1" = 1 ∧
    (run 660000000000 NewLoadStats
      [(Op.set exReq1, 5), (Op.set exReq2, 6), (Op.promptDelete "1", 7),
        (Op.delete "2", 8)]).livePrompt "A" "1.1.1.1" = 0 ∧
    (1 : Int) = (run 660000000000 NewLoadStats
      [(Op.set exReq1, 5), (Op.set exReq2, 6), (Op.promptDelete "1", 7),
        (Op.delete "2", 8)]).liveCount "A" "1.1.1.1" ∧
    (0 : Int) = (run 660000000000 NewLoadStats
      [(Op.set exReq1, 5), (Op.set exReq2, 6), (Op.promptDelete "1", 7),
        (Op.delete "2", 8)]).livePrompt "A" "1.1.1.1" :=
  ⟨by decide, by decide,
    (counters_match_requests 660000000000
      [(Op.set exReq1, 5), (Op.set exReq2, 6), (Op.promptDelete "1", 7), (Op.delete "2", 8)]
      (by decide) (by decide) "A" "1.1.1.1"
      { Ip := "1.1.1.1", QueuedReqNum := 1, PromptLength := 0, UpdatedTime := 8 }
      (by decide)).1,
    (counters_match_requests 660000000000
      [(Op.set exReq1, 5), (Op.set exReq2, 6), (Op.promptDelete "1", 7), (Op.delete "2", 8)]
      (by decide) (by decide) "A" "1.1.1.1"
      { Ip := "1.1.1.1", QueuedReqNum := 1, PromptLength := 0, UpdatedTime := 8 }
      (by decide)).2.1⟩

end LoadStats

namespace SyncMap

variable {V : Type}

theorem Load_of_mem_of_nodup {m : SyncMap V} (hnd : m.keys.Nodup) {kv : String × V}
    (h : kv ∈ m) : m.Load kv.1 = some kv.2 := by
  induction m with
  | nil => cases h
  | cons hd tl ih =>
    obtain ⟨k1, v1⟩ := hd
    have hnd2 : (keys tl).Nodup := (List.nodup_cons.mp hnd).2
    have hk : k1 ∉ keys tl := (List.nodup_cons.mp hnd).1
    rcases List.mem_cons.mp h with h1 | h1
    · subst h1; simp [Load]
    · have hne : ¬ k1 = kv.1 := by
        intro e
        apply hk
        rw [e]
        exact List.mem_map_of_mem Prod.fst h1
      simp [Load, hne, ih hnd2 h1]

end SyncMap

namespace LoadStats

theorem gcRequests_fold (now expire : Int) (L : SyncMap InferenceRequest) (acc : LoadStats)
    (hnd : L.keys.Nodup) (hacc : ∀ kv ∈ L, acc.Requests.Load kv.1 = some kv.2) :
    L.foldl (gcRequestVisit now expire) acc =
      run expire acc
        (((L.filter (fun kv => decide (expired now expire kv.2))).map Prod.fst).map
          (fun id => (Op.delete id, now))) := by
  induction L generalizing acc with
  | nil => rfl
  | cons hd tl ih =>
    obtain ⟨k, v⟩ := hd
    have hnd2 : (SyncMap.keys tl).Nodup := (List.nodup_cons.mp hnd).2
    have hk : k ∉ SyncMap.keys tl := (List.nodup_cons.mp hnd).1
    have hkv : acc.Requests.Load k = some v := hacc (k, v) (List.mem_cons_self _ _)
    rw [List.foldl_cons]
    by_cases hexp : v.CreateTime + expire < now
    · have hne : ∀ kv ∈ tl, k ≠ kv.1 := by
        intro kv hkv2 e
        apply hk
        rw [e]
        exact List.mem_map_of_mem Prod.fst hkv2
      have hacc2 : ∀ kv ∈ tl,
          (decEngineStats { acc with Requests := acc.Requests.Delete k } v now).Requests.Load
            kv.1 = some kv.2 := by
        intro kv hkv2
        rw [decEngineStats_Requests]
        simp only []
        rw [SyncMap.Load_Delete_ne _ (hne kv hkv2)]
        exact hacc kv (List.mem_cons_of_mem _ hkv2)
      simp only [gcRequestVisit, hexp, if_true]
      rw [ih _ hnd2 hacc2]
      simp only [List.filter_cons, expired, hexp, decide_True, if_true, List.map_cons, run_cons]
      rw [step_delete_of_some expire acc k now hkv]
    · simp only [gcRequestVisit, hexp, if_false]
      rw [ih acc hnd2 (fun kv hkv2 => hacc kv (List.mem_cons_of_mem _ hkv2))]
      simp [List.filter_cons, expired, hexp]

/-- The request pass of `GC` is one deletion attempt (the attempt
`DeleteRequest` makes) for each expired request id. -/
theorem gcRequests_eq_run (s : LoadStats) (now expire : Int) (hnd : s.Requests.keys.Nodup) :
    s.gcRequests now expire =
      run expire s ((s.expiredKeys now expire).map (fun id => (Op.delete id, now))) := by
  unfold gcRequests expiredKeys
  exact gcRequests_fold now expire s.Requests s hnd
    (fun kv hkv => SyncMap.Load_of_mem_of_nodup hnd hkv)

end LoadStats

namespace SyncMap

variable {V : Type}

theorem foldl_Delete_eq_filter (ids : List String) (m : SyncMap V) :
    ids.foldl (fun acc id => acc.Delete id) m = m.filter (fun x => decide (x.1 ∉ ids)) := by
  induction ids generalizing m with
  | nil => simp
  | cons id tl ih =>
    rw [List.foldl_cons, ih]
    unfold Delete
    rw [List.filter_filter]
    apply List.filter_congr
    intro x _
    by_cases h1 : x.1 = id <;> by_cases h2 : x.1 ∈ tl <;> simp [h1, h2]

theorem eq_of_mem_of_fst_eq {m : SyncMap V} (hnd : m.keys.Nodup) {x y : String × V}
    (hx : x ∈ m) (hy : y ∈ m) (h : x.1 = y.1) : x = y :=
  List.inj_on_of_nodup_map hnd hx hy h

end SyncMap

namespace LoadStats

theorem step_delete_Requests (expire : Int) (x : LoadStats) (id : String) (t : Int) :
    (step expire x (Op.delete id) t).Requests = x.Requests.Delete id := by
  cases h : x.Requests.Load id with
  | none =>
    rw [step_delete_of_none expire x id t h,
      SyncMap.Delete_of_not_mem_keys _ ((SyncMap.Load_eq_none_iff _ _).mp h)]
  | some y => rw [step_delete_of_some expire x id t h, decEngineStats_Requests]

theorem run_deletes_Requests (expire now : Int) (ids : List String) (x : LoadStats) :
    (run expire x (ids.map (fun id => (Op.delete id, now)))).Requests =
      ids.foldl (fun acc id => acc.Delete id) x.Requests := by
  induction ids generalizing x with
  | nil => rfl
  | cons id tl ih =>
    rw [List.map_cons, run_cons, ih, List.foldl_cons, step_delete_Requests]

/-- After the request pass exactly the entries that have not expired are
left, in their order and unchanged. -/
theorem gcRequests_Requests (s : LoadStats) (now expire : Int) (hnd : s.Requests.keys.Nodup) :
    (s.gcRequests now expire).Requests =
      s.Requests.filter (fun kv => decide (¬ expired now expire kv.2)) := by
  rw [gcRequests_eq_run s now expire hnd, run_deletes_Requests, SyncMap.foldl_Delete_eq_filter]
  apply List.filter_congr
  intro x hx
  have hiff : x.1 ∈ s.expiredKeys now expire ↔ expired now expire x.2 := by
    unfold expiredKeys
    constructor
    · intro hm
      obtain ⟨y, hy, hyx⟩ := List.mem_map.mp hm
      obtain ⟨hy1, hy2⟩ := List.mem_filter.mp hy
      have := SyncMap.eq_of_mem_of_fst_eq hnd hy1 hx hyx
      subst this
      simpa using hy2
    · intro he
      exact List.mem_map.mpr ⟨x, List.mem_filter.mpr ⟨hx, by simpa using he⟩, rfl⟩
  by_cases h : expired now expire x.2
  · simp [h, hiff.mpr h]
  · have : x.1 ∉ s.expiredKeys now expire := fun hm => h (hiff.mp hm)
    simp [h, this]

end LoadStats

namespace LoadStats

theorem gcRequestVisit_of_expired (now expire : Int) (acc : LoadStats)
    (kv : String × InferenceRequest) (h : expired now expire kv.2) :
    gcRequestVisit now expire acc kv =
      decEngineStats { acc with Requests := acc.Requests.Delete kv.1 } kv.2 now := by
  unfold expired at h
  simp [gcRequestVisit, h]

theorem gcRequestVisit_of_not_expired (now expire : Int) (acc : LoadStats)
    (kv : String × InferenceRequest) (h : ¬ expired now expire kv.2) :
    gcRequestVisit now expire acc kv = acc := by
  unfold expired at h
  simp [gcRequestVisit, h]

theorem countW_nonneg (c ip : String) (r : InferenceRequest) : 0 ≤ countW c ip r := by
  unfold countW
  split <;> decide

theorem expiredCount_total_nonneg (now expire : Int) (c ip : String)
    (L : SyncMap InferenceRequest) :
    0 ≤ SyncMap.total (fun r => if expired now expire r then countW c ip r else 0) L := by
  apply SyncMap.total_nonneg
  intro kv _
  by_cases h : expired now expire kv.2
  · simp only [h, if_true]; exact countW_nonneg c ip kv.2
  · simp only [h, if_false]; exact le_refl _

theorem EngineStats_eta (e : EngineStats) :
    ({ Ip := e.Ip, QueuedReqNum := e.QueuedReqNum, PromptLength := e.PromptLength,
       UpdatedTime := e.UpdatedTime } : EngineStats) = e := by
  cases e; rfl

/-- The engine `(c, ip)` after the request pass has visited the entries `L`:
its counters are reduced, in wrapping arithmetic, by the number of expired
requests of the engine among `L` and by the sum of their positive prompt
lengths, and it is stamped `now` when at least one of them expired. -/
theorem gcRequests_fold_engine (now expire : Int) (c ip : String)
    (L : SyncMap InferenceRequest) (acc : LoadStats) (e : EngineStats) (hty : e.WellTyped)
    (he : acc.engine c ip = some e) :
    (L.foldl (gcRequestVisit now expire) acc).engine c ip =
      some { Ip := e.Ip,
             QueuedReqNum := wrap32 (e.QueuedReqNum -
               SyncMap.total (fun r => if expired now expire r then countW c ip r else 0) L),
             PromptLength := wrap32 (e.PromptLength -
               SyncMap.total (fun r => if expired now expire r ∧ 0 < r.PromptLength then
                 promptW c ip r else 0) L),
             UpdatedTime :=
               if SyncMap.total (fun r => if expired now expire r then countW c ip r else 0) L = 0
               then e.UpdatedTime else now } := by
  induction L generalizing acc e with
  | nil =>
    simp only [List.foldl_nil, SyncMap.total_nil, sub_zero, if_true]
    rw [wrap32_of_isInt32 hty.1, wrap32_of_isInt32 hty.2, EngineStats_eta]
    exact he
  | cons hd tl ih =>
    have hnn := expiredCount_total_nonneg now expire c ip tl
    rw [List.foldl_cons, SyncMap.total_cons, SyncMap.total_cons]
    by_cases hexp : expired now expire hd.2
    · rw [gcRequestVisit_of_expired now expire acc hd hexp]
      by_cases hon : hd.2.Cluster = c ∧ hd.2.Ip = ip
      · obtain ⟨rfl, rfl⟩ := hon
        have he1 : (decEngineStats { acc with Requests := acc.Requests.Delete hd.1 } hd.2
            now).engine hd.2.Cluster hd.2.Ip =
            some ((e.DecrementQueuedReqNum now).DecrementPromptLength hd.2 now).1 := by
          rw [engine_decEngineStats_self, engine_with_Requests, he]
          rfl
        have hty1 : (((e.DecrementQueuedReqNum now).DecrementPromptLength hd.2 now).1).WellTyped := by
          constructor
          · rw [EngineStats.DecrementPromptLength_QueuedReqNum]
            exact isInt32_wrap32 _
          · rw [EngineStats.DecrementPromptLength_PromptLength]
            split
            · exact hty.2
            · exact isInt32_wrap32 _
        rw [ih _ _ hty1 he1]
        have hIp : (((e.DecrementQueuedReqNum now).DecrementPromptLength hd.2 now).1).Ip =
            e.Ip := by
          unfold EngineStats.DecrementPromptLength EngineStats.DecrementQueuedReqNum
          by_cases h : hd.2.PromptLength ≤ 0 <;> simp [h]
        have hUp : (((e.DecrementQueuedReqNum now).DecrementPromptLength hd.2 now).1).UpdatedTime =
            now := by
          unfold EngineStats.DecrementPromptLength EngineStats.DecrementQueuedReqNum
          by_cases h : hd.2.PromptLength ≤ 0 <;> simp [h]
        rw [hIp, hUp, EngineStats.DecrementPromptLength_QueuedReqNum,
          EngineStats.DecrementPromptLength_PromptLength,
          EngineStats.DecrementQueuedReqNum_QueuedReqNum,
          EngineStats.DecrementQueuedReqNum_PromptLength]
        simp only [hexp, if_true, countW, promptW, and_self, true_and]
        have hq : wrap32 (addInt32 e.QueuedReqNum (-1) -
            SyncMap.total (fun r => if expired now expire r then
              (if r.Cluster = hd.2.Cluster ∧ r.Ip = hd.2.Ip then 1 else 0) else 0) tl) =
            wrap32 (e.QueuedReqNum - (1 +
              SyncMap.total (fun r => if expired now expire r then
                (if r.Cluster = hd.2.Cluster ∧ r.Ip = hd.2.Ip then 1 else 0) else 0) tl)) := by
          unfold addInt32 wrap32; omega
        have hne : ¬ (1 + SyncMap.total (fun r => if expired now expire r then
              (if r.Cluster = hd.2.Cluster ∧ r.Ip = hd.2.Ip then 1 else 0) else 0) tl = 0) := by
          unfold countW at hnn; omega
        rw [hq, if_neg hne]
        by_cases hp : hd.2.PromptLength ≤ 0
        · have hp2 : ¬ 0 < hd.2.PromptLength := not_lt.mpr hp
          simp only [hp, hp2, if_true, if_false, zero_add, ite_self]
        · have hp2 : 0 < hd.2.PromptLength := not_le.mp hp
          simp only [hp, hp2, if_true, if_false, ite_self]
          have ha : wrap32 (addInt32 e.PromptLength (-hd.2.PromptLength) -
              SyncMap.total (fun r => if expired now expire r ∧ 0 < r.PromptLength then
                (if r.Cluster = hd.2.Cluster ∧ r.Ip = hd.2.Ip then r.PromptLength else 0)
                else 0) tl) =
              wrap32 (e.PromptLength - (hd.2.PromptLength +
                SyncMap.total (fun r => if expired now expire r ∧ 0 < r.PromptLength then
                  (if r.Cluster = hd.2.Cluster ∧ r.Ip = hd.2.Ip then r.PromptLength else 0)
                  else 0) tl)) := by
            unfold addInt32 wrap32; omega
          rw [ha]
      · have he1 : (decEngineStats { acc with Requests := acc.Requests.Delete hd.1 } hd.2
            now).engine c ip = some e := by
          rw [engine_decEngineStats_ne _ _ _ c ip (fun h => hon ⟨h.1.symm, h.2.symm⟩),
            engine_with_Requests, he]
        rw [ih _ _ hty he1]
        simp [countW, promptW, hon]
    · rw [gcRequestVisit_of_not_expired now expire acc hd hexp, ih _ _ hty he]
      simp [hexp]

theorem gcRequests_fold_engine_none (now expire : Int) (c ip : String)
    (L : SyncMap InferenceRequest) (acc : LoadStats) (he : acc.engine c ip = none) :
    (L.foldl (gcRequestVisit now expire) acc).engine c ip = none := by
  induction L generalizing acc with
  | nil => exact he
  | cons hd tl ih =>
    rw [List.foldl_cons]
    apply ih
    by_cases hexp : expired now expire hd.2
    · rw [gcRequestVisit_of_expired now expire acc hd hexp]
      by_cases hon : c = hd.2.Cluster ∧ ip = hd.2.Ip
      · obtain ⟨rfl, rfl⟩ := hon
        rw [engine_decEngineStats_self, engine_with_Requests, he]
        rfl
      · rw [engine_decEngineStats_ne _ _ _ c ip hon, engine_with_Requests, he]
    · rw [gcRequestVisit_of_not_expired now expire acc hd hexp]
      exact he

end LoadStats

namespace SyncMap

variable {V : Type}

theorem Load_cons (k1 : String) (v1 : V) (tl : SyncMap V) (k : String) :
    Load ((k1, v1) :: tl) k = if k1 = k then some v1 else Load tl k := rfl

theorem Load_eq_none_of_not_mem_keys {m : SyncMap V} {k : String} (h : k ∉ m.keys) :
    m.Load k = none := (Load_eq_none_iff m k).mpr h

theorem Load_Delete (m : SyncMap V) (k k2 : String) :
    (m.Delete k).Load k2 = if k = k2 then none else m.Load k2 := by
  by_cases h : k = k2
  · subst h; simp [Load_Delete_self]
  · simp [h, Load_Delete_ne m h]

end SyncMap

namespace ModelStats

theorem Delete_Engines_Load (ms : ModelStats) (k : String) (now : Int) (ip : String) :
    (ms.Delete k now).Engines.Load ip = if k = ip then none else ms.Engines.Load ip := by
  unfold Delete
  cases h : ms.Engines.Load k with
  | none =>
    by_cases hk : k = ip
    · subst hk; simp [h]
    · simp [hk]
  | some e => simp [SyncMap.Load_Delete]

theorem Delete_Length (ms : ModelStats) (k : String) (now : Int) :
    (ms.Delete k now).Length =
      if ms.Engines.Load k = none then ms.Length else addInt32 ms.Length (-1) := by
  unfold Delete
  cases h : ms.Engines.Load k <;> simp

end ModelStats

namespace LoadStats

theorem gcEngineVisit_of_stale (now expire : Int) (acc : ModelStats)
    (kv : String × EngineStats) (h : now ≥ kv.2.UpdatedTime + expire) :
    gcEngineVisit now expire acc kv = acc.Delete kv.1 now := by
  simp [gcEngineVisit, h]

theorem gcEngineVisit_of_not_stale (now expire : Int) (acc : ModelStats)
    (kv : String × EngineStats) (h : ¬ now ≥ kv.2.UpdatedTime + expire) :
    gcEngineVisit now expire acc kv = acc := by
  simp [gcEngineVisit, h]

theorem gcEngines_fold_Load (now expire : Int) (L : SyncMap EngineStats) (acc : ModelStats)
    (hnd : L.keys.Nodup) (ip : String) :
    (L.foldl (gcEngineVisit now expire) acc).Engines.Load ip =
      match L.Load ip with
      | some e => if now ≥ e.UpdatedTime + expire then none else acc.Engines.Load ip
      | none => acc.Engines.Load ip := by
  induction L generalizing acc with
  | nil => rfl
  | cons hd tl ih =>
    obtain ⟨k, e0⟩ := hd
    have hnd2 : (SyncMap.keys tl).Nodup := (List.nodup_cons.mp hnd).2
    have hk : k ∉ SyncMap.keys tl := (List.nodup_cons.mp hnd).1
    rw [List.foldl_cons, ih _ hnd2, SyncMap.Load_cons]
    by_cases hkip : k = ip
    · subst hkip
      rw [SyncMap.Load_eq_none_of_not_mem_keys hk]
      simp only [if_true]
      by_cases hst : now ≥ e0.UpdatedTime + expire
      · rw [gcEngineVisit_of_stale now expire acc (k, e0) hst, ModelStats.Delete_Engines_Load]
        simp [hst]
      · rw [gcEngineVisit_of_not_stale now expire acc (k, e0) hst]
        simp [hst]
    · simp only [hkip, if_false]
      have hacc : (gcEngineVisit now expire acc (k, e0)).Engines.Load ip = acc.Engines.Load ip := by
        by_cases hst : now ≥ e0.UpdatedTime + expire
        · rw [gcEngineVisit_of_stale now expire acc (k, e0) hst, ModelStats.Delete_Engines_Load]
          simp [hkip]
        · rw [gcEngineVisit_of_not_stale now expire acc (k, e0) hst]
      rw [hacc]

theorem gcEngines_fold_Length (now expire : Int) (L : SyncMap EngineStats) (acc : ModelStats)
    (hnd : L.keys.Nodup) (hpres : ∀ kv ∈ L, acc.Engines.Load kv.1 ≠ none)
    (hty : isInt32 acc.Length) :
    (L.foldl (gcEngineVisit now expire) acc).Length =
      wrap32 (acc.Length -
        SyncMap.total (fun e => if now ≥ e.UpdatedTime + expire then 1 else 0) L) := by
  induction L generalizing acc with
  | nil => simp [SyncMap.total_nil, wrap32_of_isInt32 hty]
  | cons hd tl ih =>
    obtain ⟨k, e0⟩ := hd
    have hnd2 : (SyncMap.keys tl).Nodup := (List.nodup_cons.mp hnd).2
    have hk : k ∉ SyncMap.keys tl := (List.nodup_cons.mp hnd).1
    have hne : ∀ kv ∈ tl, ¬ k = kv.1 := by
      intro kv hkv e
      apply hk
      rw [e]
      exact List.mem_map_of_mem Prod.fst hkv
    rw [List.foldl_cons, SyncMap.total_cons]
    by_cases hst : now ≥ e0.UpdatedTime + expire
    · rw [gcEngineVisit_of_stale now expire acc (k, e0) hst]
      have hk0 := hpres (k, e0) (List.mem_cons_self _ _)
      have hlen : (acc.Delete k now).Length = addInt32 acc.Length (-1) := by
        rw [ModelStats.Delete_Length, if_neg hk0]
      rw [ih (acc.Delete k now) hnd2
        (fun kv hkv => by
          rw [ModelStats.Delete_Engines_Load, if_neg (hne kv hkv)]
          exact hpres kv (List.mem_cons_of_mem _ hkv))
        (by rw [hlen]; exact isInt32_wrap32 _), hlen]
      simp only [hst, if_true]
      unfold addInt32 wrap32
      omega
    · rw [gcEngineVisit_of_not_stale now expire acc (k, e0) hst,
        ih acc hnd2 (fun kv hkv => hpres kv (List.mem_cons_of_mem _ hkv)) hty]
      simp [hst]

theorem gcEngines_fold_UpdateTime (now expire : Int) (L : SyncMap EngineStats)
    (acc : ModelStats) :
    (L.foldl (gcEngineVisit now expire) acc).UpdateTime = acc.UpdateTime ∨
      (L.foldl (gcEngineVisit now expire) acc).UpdateTime = now := by
  induction L generalizing acc with
  | nil => exact Or.inl rfl
  | cons hd tl ih =>
    rw [List.foldl_cons]
    by_cases hst : now ≥ hd.2.UpdatedTime + expire
    · rw [gcEngineVisit_of_stale now expire acc hd hst]
      have hU : (acc.Delete hd.1 now).UpdateTime = now := by
        unfold ModelStats.Delete
        cases acc.Engines.Load hd.1 <;> rfl
      rcases ih (acc.Delete hd.1 now) with h | h
      · exact Or.inr (by rw [h, hU])
      · exact Or.inr h
    · rw [gcEngineVisit_of_not_stale now expire acc hd hst]
      exact ih acc

/-- The engines of a model after the inner sweep: an engine is gone exactly
when it is stale, and a surviving engine is unchanged. -/
theorem gcEngines_Load (ms : ModelStats) (now expire : Int) (hnd : ms.Engines.keys.Nodup)
    (ip : String) :
    (gcEngines ms now expire).Engines.Load ip =
      match ms.Engines.Load ip with
      | some e => if now ≥ e.UpdatedTime + expire then none else some e
      | none => none := by
  unfold gcEngines
  rw [gcEngines_fold_Load now expire ms.Engines ms hnd ip]
  cases h : ms.Engines.Load ip <;> simp

theorem gcEngines_Length (ms : ModelStats) (now expire : Int) (hnd : ms.Engines.keys.Nodup)
    (hty : isInt32 ms.Length) :
    (gcEngines ms now expire).Length = wrap32 (ms.Length - ms.staleCount now expire) := by
  unfold gcEngines ModelStats.staleCount
  exact gcEngines_fold_Length now expire ms.Engines ms hnd
    (fun kv hkv => by rw [SyncMap.Load_of_mem_of_nodup hnd hkv]; simp) hty

end LoadStats

namespace LoadStats

theorem gcModelVisit_of_stale (now expire : Int) (acc : LoadStats)
    (kv : String × ModelStats) (h : now ≥ kv.2.UpdateTime + expire) :
    gcModelVisit now expire acc kv =
      { acc with RunningModelStats := acc.RunningModelStats.Delete kv.1 } := by
  simp [gcModelVisit, h]

theorem gcModelVisit_of_not_stale (now expire : Int) (acc : LoadStats)
    (kv : String × ModelStats) (h : ¬ now ≥ kv.2.UpdateTime + expire) :
    gcModelVisit now expire acc kv =
      { acc with RunningModelStats :=
          acc.RunningModelStats.put kv.1 (gcEngines kv.2 now expire) } := by
  simp [gcModelVisit, h]

theorem gcModelVisit_Requests (now expire : Int) (acc : LoadStats) (kv : String × ModelStats) :
    (gcModelVisit now expire acc kv).Requests = acc.Requests := by
  unfold gcModelVisit
  split <;> rfl

theorem gcModels_fold_Requests (now expire : Int) (L : SyncMap ModelStats) (acc : LoadStats) :
    (L.foldl (gcModelVisit now expire) acc).Requests = acc.Requests := by
  induction L generalizing acc with
  | nil => rfl
  | cons hd tl ih => rw [List.foldl_cons, ih, gcModelVisit_Requests]

theorem gcModels_fold_Load (now expire : Int) (L : SyncMap ModelStats) (acc : LoadStats)
    (hnd : L.keys.Nodup) (c : String) :
    (L.foldl (gcModelVisit now expire) acc).RunningModelStats.Load c =
      match L.Load c with
      | some ms => if now ≥ ms.UpdateTime + expire then none else some (gcEngines ms now expire)
      | none => acc.RunningModelStats.Load c := by
  induction L generalizing acc with
  | nil => rfl
  | cons hd tl ih =>
    obtain ⟨k, m0⟩ := hd
    have hnd2 : (SyncMap.keys tl).Nodup := (List.nodup_cons.mp hnd).2
    have hk : k ∉ SyncMap.keys tl := (List.nodup_cons.mp hnd).1
    rw [List.foldl_cons, ih _ hnd2, SyncMap.Load_cons]
    by_cases hkc : k = c
    · subst hkc
      rw [SyncMap.Load_eq_none_of_not_mem_keys hk]
      simp only [if_true]
      by_cases hst : now ≥ m0.UpdateTime + expire
      · rw [gcModelVisit_of_stale now expire acc (k, m0) hst]
        simp [hst, SyncMap.Load_Delete_self]
      · rw [gcModelVisit_of_not_stale now expire acc (k, m0) hst]
        simp [hst, SyncMap.Load_put_self]
    · simp only [hkc, if_false]
      have hacc : (gcModelVisit now expire acc (k, m0)).RunningModelStats.Load c =
          acc.RunningModelStats.Load c := by
        by_cases hst : now ≥ m0.UpdateTime + expire
        · rw [gcModelVisit_of_stale now expire acc (k, m0) hst]
          exact SyncMap.Load_Delete_ne _ hkc
        · rw [gcModelVisit_of_not_stale now expire acc (k, m0) hst]
          exact SyncMap.Load_put_ne _ hkc _
      rw [hacc]

/-- The model map after the model pass: a model is gone exactly when it is
stale; a surviving model has been swept by `gcEngines`. -/
theorem gcModels_Load (s : LoadStats) (now expire : Int) (hnd : s.RunningModelStats.keys.Nodup)
    (c : String) :
    (s.gcModels now expire).RunningModelStats.Load c =
      match s.RunningModelStats.Load c with
      | some ms => if now ≥ ms.UpdateTime + expire then none else some (gcEngines ms now expire)
      | none => none := by
  unfold gcModels
  rw [gcModels_fold_Load now expire s.RunningModelStats s hnd c]
  cases h : s.RunningModelStats.Load c <;> simp

theorem gcModels_Requests (s : LoadStats) (now expire : Int) :
    (s.gcModels now expire).Requests = s.Requests :=
  gcModels_fold_Requests now expire s.RunningModelStats s

/-- The request pass changes nothing when no request has expired. -/
theorem gcRequests_of_none_expired (s : LoadStats) (now expire : Int)
    (h : ∀ kr ∈ s.Requests, ¬ expired now expire kr.2) : s.gcRequests now expire = s := by
  unfold gcRequests
  generalize hL : s.Requests = L at h
  clear hL
  induction L with
  | nil => rfl
  | cons hd tl ih =>
    rw [List.foldl_cons, gcRequestVisit_of_not_expired now expire s hd
      (h hd (List.mem_cons_self _ _))]
    exact ih (fun kr hkr => h kr (List.mem_cons_of_mem _ hkr))

end LoadStats

namespace SyncMap

variable {V : Type}

theorem total_indicator (p : V → Prop) [DecidablePred p] (m : SyncMap V) :
    total (fun v => if p v then 1 else 0) m =
      (m.length : Int) - ((m.filter (fun kv => decide (¬ p kv.2))).length : Int) := by
  induction m with
  | nil => simp [total]
  | cons hd tl ih =>
    rw [total_cons, ih]
    by_cases h : p hd.2
    · simp [h, List.filter_cons]
      ring
    · simp [h, List.filter_cons]

end SyncMap

namespace ModelStats

theorem Delete_Engines (ms : ModelStats) (k : String) (now : Int) :
    (ms.Delete k now).Engines = ms.Engines.Delete k := by
  unfold Delete
  cases h : ms.Engines.Load k with
  | none =>
    simp only []
    rw [SyncMap.Delete_of_not_mem_keys _ ((SyncMap.Load_eq_none_iff _ _).mp h)]
  | some e => rfl

end ModelStats

namespace LoadStats

theorem gcEngines_fold_Engines (now expire : Int) (L : SyncMap EngineStats) (acc : ModelStats) :
    (L.foldl (gcEngineVisit now expire) acc).Engines =
      ((L.filter (fun kv => decide (now ≥ kv.2.UpdatedTime + expire))).map Prod.fst).foldl
        (fun m id => m.Delete id) acc.Engines := by
  induction L generalizing acc with
  | nil => rfl
  | cons hd tl ih =>
    rw [List.foldl_cons, ih]
    by_cases hst : now ≥ hd.2.UpdatedTime + expire
    · rw [gcEngineVisit_of_stale now expire acc hd hst, ModelStats.Delete_Engines]
      simp [List.filter_cons, hst]
    · rw [gcEngineVisit_of_not_stale now expire acc hd hst]
      simp [List.filter_cons, hst]

/-- The engine map of a model after the inner sweep is the old one without
its stale entries. -/
theorem gcEngines_Engines (ms : ModelStats) (now expire : Int) (hnd : ms.Engines.keys.Nodup) :
    (gcEngines ms now expire).Engines =
      ms.Engines.filter (fun kv => decide (¬ now ≥ kv.2.UpdatedTime + expire)) := by
  unfold gcEngines
  rw [gcEngines_fold_Engines, SyncMap.foldl_Delete_eq_filter]
  apply List.filter_congr
  intro x hx
  have hiff : x.1 ∈ (ms.Engines.filter
      (fun kv => decide (now ≥ kv.2.UpdatedTime + expire))).map Prod.fst ↔
      now ≥ x.2.UpdatedTime + expire := by
    constructor
    · intro hm
      obtain ⟨y, hy, hyx⟩ := List.mem_map.mp hm
      obtain ⟨hy1, hy2⟩ := List.mem_filter.mp hy
      have := SyncMap.eq_of_mem_of_fst_eq hnd hy1 hx hyx
      subst this
      simpa using hy2
    · intro he
      exact List.mem_map.mpr ⟨x, List.mem_filter.mpr ⟨hx, by simpa using he⟩, rfl⟩
  by_cases h : now ≥ x.2.UpdatedTime + expire
  · simp only [hiff.mpr h, not_true_eq_false, h, decide_False]
  · have : x.1 ∉ (ms.Engines.filter
        (fun kv => decide (now ≥ kv.2.UpdatedTime + expire))).map Prod.fst :=
      fun hm => h (hiff.mp hm)
    simp only [this, not_false_eq_true, h, decide_True]

end LoadStats

namespace LoadStats

/-- The model pass of `GC` with the sums `UpdateTime + expire` taken on the
integers. For a store with unique map keys, int32 fields and `Length` equal
to the number of engines of each model, and a sweep time `now` at which no
request expires: `Requests` is unchanged; a model that did not exist does not
exist afterwards; a model `ms` is absent afterwards iff
`now ≥ ms.UpdateTime + expire`; in a model that survives, the engine map is the
old one without the engines `e` with `now ≥ e.UpdatedTime + expire`, and
`Size()` has decreased by exactly the number of engines removed. -/
theorem gcModels_pass_exact (s : LoadStats) (now expire : Int) (hwf : s.WellFormed)
    (hty : s.WellTyped) (hsz : s.SizesCorrect)
    (hnone : ∀ kr ∈ s.Requests, ¬ expired now expire kr.2) :
    (s.GC now expire).Requests = s.Requests ∧
    (∀ c, s.GetModelStats c = none → (s.GC now expire).GetModelStats c = none) ∧
    (∀ c ms, s.GetModelStats c = some ms →
      ((s.GC now expire).GetModelStats c = none ↔ now ≥ ms.UpdateTime + expire) ∧
      (¬ now ≥ ms.UpdateTime + expire →
        ∃ ms2, (s.GC now expire).GetModelStats c = some ms2 ∧
          ms2.Engines =
            ms.Engines.filter (fun kv => decide (¬ now ≥ kv.2.UpdatedTime + expire)) ∧
          (∀ ip, ms.Engines.Load ip = none → ms2.Engines.Load ip = none) ∧
          (∀ ip e, ms.Engines.Load ip = some e →
            (ms2.Engines.Load ip = none ↔ now ≥ e.UpdatedTime + expire) ∧
            (¬ now ≥ e.UpdatedTime + expire → ms2.Engines.Load ip = some e)) ∧
          ms2.Size = ms.Size - ((ms.Engines.length : Int) - (ms2.Engines.length : Int)) ∧
          ms2.Size = (ms2.Engines.length : Int))) := by
  have hGC : s.GC now expire = s.gcModels now expire := by
    unfold GC
    rw [gcRequests_of_none_expired s now expire hnone]
  rw [hGC]
  refine ⟨gcModels_Requests s now expire, ?_, ?_⟩
  · intro c hc
    unfold GetModelStats at hc ⊢
    rw [gcModels_Load s now expire hwf.2.1 c, hc]
  · intro c ms hc
    unfold GetModelStats at hc ⊢
    have hmem := SyncMap.mem_of_Load_eq_some hc
    have hnd : ms.Engines.keys.Nodup := hwf.2.2 _ hmem
    have htyL : isInt32 ms.Length := (hty.1 _ hmem).1
    have hlen : ms.Length = (ms.Engines.length : Int) := hsz _ hmem
    rw [gcModels_Load s now expire hwf.2.1 c, hc]
    constructor
    · by_cases hst : now ≥ ms.UpdateTime + expire <;> simp [hst]
    · intro hst
      refine ⟨gcEngines ms now expire, by simp [hst], gcEngines_Engines ms now expire hnd, ?_, ?_,
        ?_, ?_⟩
      · intro ip hip
        rw [gcEngines_Load ms now expire hnd ip, hip]
      · intro ip e hip
        rw [gcEngines_Load ms now expire hnd ip, hip]
        by_cases hse : now ≥ e.UpdatedTime + expire <;> simp [hse]
      · unfold ModelStats.Size
        rw [gcEngines_Length ms now expire hnd htyL, gcEngines_Engines ms now expire hnd]
        unfold ModelStats.staleCount
        rw [SyncMap.total_indicator (fun e : EngineStats => now ≥ e.UpdatedTime + expire)]
        have hle := List.length_filter_le
          (fun kv : String × EngineStats => decide (¬ now ≥ kv.2.UpdatedTime + expire))
          ms.Engines
        apply wrap32_of_isInt32
        unfold isInt32 at htyL ⊢
        omega
      · unfold ModelStats.Size
        rw [gcEngines_Length ms now expire hnd htyL, gcEngines_Engines ms now expire hnd]
        unfold ModelStats.staleCount
        rw [SyncMap.total_indicator (fun e : EngineStats => now ≥ e.UpdatedTime + expire)]
        have hle := List.length_filter_le
          (fun kv : String × EngineStats => decide (¬ now ≥ kv.2.UpdatedTime + expire))
          ms.Engines
        rw [wrap32_of_isInt32 (by unfold isInt32 at htyL ⊢; omega)]
        omega

end LoadStats

namespace ModelStats

theorem TouchedFrom_refl (t : Int) (ms : ModelStats) : ms.TouchedFrom t ms :=
  ⟨Or.inl rfl, fun h => h, fun _ e h => ⟨e, h, Or.inl rfl⟩⟩

/-- Writing time stamp `t` and putting an engine stamped `t` or keeping the
time stamp of the engine it replaces. -/
theorem TouchedFrom_put (t : Int) (ms : ModelStats) (ip : String) (e2 : EngineStats)
    (u : Int) (hu : u = ms.UpdateTime ∨ u = t)
    (he : e2.UpdatedTime = t ∨ ∀ e, ms.Engines.Load ip = some e → e2.UpdatedTime = e.UpdatedTime)
    (ms2 : ModelStats) (hE : ms2.Engines = ms.Engines.put ip e2) (hU : ms2.UpdateTime = u) :
    ms.TouchedFrom t ms2 := by
  refine ⟨by rw [hU]; exact hu, ?_, ?_⟩
  · intro hnd
    rw [hE]
    exact SyncMap.keys_put_nodup _ _ _ hnd
  · intro ip2 e hload
    rw [hE]
    by_cases hip : ip = ip2
    · subst hip
      refine ⟨e2, SyncMap.Load_put_self _ _ _, ?_⟩
      rcases he with h | h
      · exact Or.inr h
      · exact Or.inl (h e hload)
    · exact ⟨e, by rw [SyncMap.Load_put_ne _ hip]; exact hload, Or.inl rfl⟩

end ModelStats

namespace LoadStats

theorem TouchedModels_refl (t : Int) (M : SyncMap ModelStats) : TouchedModels t M M :=
  ⟨fun h => h, fun h => h, fun _ ms h => ⟨ms, h, ModelStats.TouchedFrom_refl t ms⟩⟩

theorem TouchedModels_put (t : Int) (M : SyncMap ModelStats) (key : String) (ms2 : ModelStats)
    (h1 : ∀ ms, M.Load key = some ms → ms.TouchedFrom t ms2)
    (h2 : M.Load key = none → ms2.Engines.keys.Nodup) : TouchedModels t M (M.put key ms2) := by
  refine ⟨fun hnd => SyncMap.keys_put_nodup _ _ _ hnd, ?_, ?_⟩
  · intro hall kv hkv
    rcases SyncMap.mem_put _ _ _ _ hkv with hold | hnew
    · exact hall kv hold
    · subst hnew
      cases hl : M.Load key with
      | none => exact h2 hl
      | some ms => exact (h1 ms hl).2.1 (hall _ (SyncMap.mem_of_Load_eq_some hl))
  · intro c ms hc
    by_cases hk : key = c
    · subst hk
      exact ⟨ms2, SyncMap.Load_put_self _ _ _, h1 ms hc⟩
    · exact ⟨ms, by rw [SyncMap.Load_put_ne _ hk]; exact hc, ModelStats.TouchedFrom_refl t ms⟩

theorem TouchedModels_decEngineStats (s : LoadStats) (req : InferenceRequest) (t : Int) :
    TouchedModels t s.RunningModelStats (s.decEngineStats req t).RunningModelStats := by
  cases hm : s.RunningModelStats.Load req.Cluster with
  | none => rw [decEngineStats_of_no_model s req t hm]; exact TouchedModels_refl t _
  | some ms =>
    cases he : ms.Engines.Load req.Ip with
    | none =>
      rw [decEngineStats_of_no_engine s req t hm he]
      apply TouchedModels_put
      · intro ms0 h0
        rw [hm] at h0; cases h0
        exact ⟨Or.inr rfl, fun h => h, fun _ e h => ⟨e, h, Or.inl rfl⟩⟩
      · intro h0; rw [hm] at h0; cases h0
    | some e =>
      rw [decEngineStats_of_engine s req t hm he]
      apply TouchedModels_put
      · intro ms0 h0
        rw [hm] at h0; cases h0
        refine ModelStats.TouchedFrom_put t ms req.Ip _ t (Or.inr rfl) (Or.inl ?_) _ rfl rfl
        unfold EngineStats.DecrementPromptLength EngineStats.DecrementQueuedReqNum
        by_cases h : req.PromptLength ≤ 0 <;> simp [h]
      · intro h0; rw [hm] at h0; cases h0

theorem TouchedModels_decEnginePromptLength (s : LoadStats) (req : InferenceRequest) (t : Int) :
    TouchedModels t s.RunningModelStats (s.decEnginePromptLength req t).1.RunningModelStats := by
  cases hm : s.RunningModelStats.Load req.Cluster with
  | none => rw [decEnginePromptLength_of_no_model s req t hm]; exact TouchedModels_refl t _
  | some ms =>
    cases he : ms.Engines.Load req.Ip with
    | none =>
      rw [decEnginePromptLength_of_no_engine s req t hm he]
      apply TouchedModels_put
      · intro ms0 h0
        rw [hm] at h0; cases h0
        exact ⟨Or.inr rfl, fun h => h, fun _ e h => ⟨e, h, Or.inl rfl⟩⟩
      · intro h0; rw [hm] at h0; cases h0
    | some e =>
      rw [decEnginePromptLength_of_engine s req t hm he]
      apply TouchedModels_put
      · intro ms0 h0
        rw [hm] at h0; cases h0
        refine ModelStats.TouchedFrom_put t ms req.Ip _ t (Or.inr rfl) ?_ _ rfl rfl
        unfold EngineStats.DecrementPromptLength
        by_cases h : req.PromptLength ≤ 0
        · right
          intro e0 h0
          rw [he] at h0; cases h0
          simp [h]
        · left
          simp [h]
      · intro h0; rw [hm] at h0; cases h0

theorem TouchedModels_AddRequest (s : LoadStats) (r : InferenceRequest) (t : Int) :
    TouchedModels t s.RunningModelStats (s.AddRequest r t).RunningModelStats := by
  cases hl : s.Requests.Load r.RequestId with
  | some y => rw [AddRequest_of_present s r t (by simp [hl])]; exact TouchedModels_refl t _
  | none =>
    rw [AddRequest_models_of_fresh s r t hl]
    apply TouchedModels_put
    · intro ms hm
      rw [hm]
      simp only [Option.getD_some]
      refine ⟨Or.inr (ModelStats.LoadOrStore_UpdateTime ms r.Ip t), ?_, ?_⟩
      · intro hnd
        apply SyncMap.keys_put_nodup
        unfold ModelStats.LoadOrStore
        cases h : ms.Engines.Load r.Ip with
        | none => exact SyncMap.keys_put_nodup _ _ _ hnd
        | some e => exact hnd
      · intro ip e he
        by_cases hip : r.Ip = ip
        · subst hip
          exact ⟨_, SyncMap.Load_put_self _ _ _, Or.inr rfl⟩
        · refine ⟨e, ?_, Or.inl rfl⟩
          rw [SyncMap.Load_put_ne _ hip, ModelStats.LoadOrStore_Load_ne _ hip]
          exact he
    · intro hm
      rw [hm]
      simp only [Option.getD_none]
      apply SyncMap.keys_put_nodup
      unfold ModelStats.LoadOrStore NewModelStats
      simp [SyncMap.Load, SyncMap.put, SyncMap.keys]

theorem Anchored_of_touched {t : Int} {s s2 : LoadStats}
    (h : TouchedModels t s.RunningModelStats s2.RunningModelStats) {r : InferenceRequest}
    (ht : r.CreateTime ≤ t) (ha : Anchored s r) : Anchored s2 r := by
  obtain ⟨ms, e, hm, he, h1, h2⟩ := ha
  obtain ⟨ms2, hm2, hU, -, hE⟩ := h.2.2 _ ms hm
  obtain ⟨e2, he2, hU2⟩ := hE _ e he
  refine ⟨ms2, e2, hm2, he2, ?_, ?_⟩
  · rcases hU with h | h <;> rw [h] <;> assumption
  · rcases hU2 with h | h <;> rw [h] <;> assumption

end LoadStats

namespace LoadStats

theorem Anchored_of_fields {s : LoadStats} {r1 r2 : InferenceRequest}
    (hc : r2.Cluster = r1.Cluster) (hi : r2.Ip = r1.Ip) (ht : r2.CreateTime = r1.CreateTime)
    (h : Anchored s r1) : Anchored s r2 := by
  unfold Anchored at h ⊢
  rw [hc, hi, ht]
  exact h

theorem SweepInv_mono {T T2 : Int} (h : T ≤ T2) {s : LoadStats} (hs : SweepInv T s) :
    SweepInv T2 s :=
  ⟨hs.1, hs.2.1, hs.2.2.1, fun kr hkr => ⟨le_trans (hs.2.2.2 kr hkr).1 h, (hs.2.2.2 kr hkr).2⟩⟩

theorem SweepInv_NewLoadStats (T : Int) : SweepInv T NewLoadStats :=
  ⟨Consistent_NewLoadStats, by simp [NewLoadStats, SyncMap.keys], by simp [NewLoadStats],
    by simp [NewLoadStats]⟩

theorem Anchored_AddRequest_self (s : LoadStats) (r : InferenceRequest) (t : Int)
    (hl : s.Requests.Load r.RequestId = none) :
    Anchored (s.AddRequest r t) { r with CreateTime := t } := by
  unfold Anchored
  rw [AddRequest_models_of_fresh s r t hl]
  refine ⟨_, _, SyncMap.Load_put_self _ _ _, SyncMap.Load_put_self _ _ _, ?_, ?_⟩
  · simp only [ModelStats.LoadOrStore_UpdateTime]; exact le_refl _
  · exact le_refl _

theorem SweepInv_step_set (expire : Int) {T : Int} {s : LoadStats} (hs : SweepInv T s)
    (r : InferenceRequest) (t : Int) (ht : T ≤ t)
    (hb : s.Requests.Load r.RequestId = none → SetBounded s r) :
    SweepInv t (step expire s (Op.set r) t) := by
  rw [step_set]
  obtain ⟨hC, hM, hEk, hR⟩ := hs
  have htouch := TouchedModels_AddRequest s r t
  refine ⟨Consistent_AddRequest hC r t hb, htouch.1 hM, htouch.2.1 hEk, ?_⟩
  intro kr hkr
  cases hl : s.Requests.Load r.RequestId with
  | some y =>
    rw [AddRequest_of_present s r t (by simp [hl])] at hkr ⊢
    exact ⟨le_trans (hR kr hkr).1 ht, (hR kr hkr).2⟩
  | none =>
    rw [AddRequest_Requests_of_fresh s r t hl] at hkr
    rcases SyncMap.mem_put _ _ _ _ hkr with hold | hnew
    · exact ⟨le_trans (hR kr hold).1 ht,
        Anchored_of_touched htouch (le_trans (hR kr hold).1 ht) (hR kr hold).2⟩
    · subst hnew
      exact ⟨le_refl _, Anchored_AddRequest_self s r t hl⟩

theorem SweepInv_step_delete (expire : Int) {T : Int} {s : LoadStats} (hs : SweepInv T s)
    (id : String) (t : Int) (ht : T ≤ t) : SweepInv t (step expire s (Op.delete id) t) := by
  obtain ⟨hC, hM, hEk, hR⟩ := hs
  have hC2 := Consistent_step_delete expire hC id t
  cases hl : s.Requests.Load id with
  | none =>
    rw [step_delete_of_none expire s id t hl]
    exact SweepInv_mono ht ⟨hC, hM, hEk, hR⟩
  | some y =>
    rw [step_delete_of_some expire s id t hl] at hC2 ⊢
    have htouch : TouchedModels t s.RunningModelStats
        (decEngineStats { s with Requests := s.Requests.Delete id } y t).RunningModelStats :=
      TouchedModels_decEngineStats { s with Requests := s.Requests.Delete id } y t
    refine ⟨hC2, htouch.1 hM, htouch.2.1 hEk, ?_⟩
    intro kr hkr
    rw [decEngineStats_Requests] at hkr
    have hold := SyncMap.mem_Delete _ _ _ hkr
    exact ⟨le_trans (hR kr hold).1 ht,
      Anchored_of_touched (s := s) htouch (le_trans (hR kr hold).1 ht) (hR kr hold).2⟩

theorem SweepInv_step_promptDelete (expire : Int) {T : Int} {s : LoadStats}
    (hs : SweepInv T s) (id : String) (t : Int) (ht : T ≤ t) :
    SweepInv t (step expire s (Op.promptDelete id) t) := by
  obtain ⟨hC, hM, hEk, hR⟩ := hs
  have hC2 := Consistent_step_promptDelete expire hC id t
  cases hl : s.Requests.Load id with
  | none =>
    rw [step_promptDelete_of_none expire s id t hl]
    exact SweepInv_mono ht ⟨hC, hM, hEk, hR⟩
  | some y =>
    rw [step_promptDelete_of_some expire s id t hl] at hC2 ⊢
    have htouch : TouchedModels t s.RunningModelStats
        (s.decEnginePromptLength y t).1.RunningModelStats :=
      TouchedModels_decEnginePromptLength s y t
    have hmem := SyncMap.mem_of_Load_eq_some hl
    refine ⟨hC2, htouch.1 hM, htouch.2.1 hEk, ?_⟩
    intro kr hkr
    rcases SyncMap.mem_put _ _ _ _ hkr with hold | hnew
    · exact ⟨le_trans (hR kr hold).1 ht,
        Anchored_of_touched (s := s) htouch (le_trans (hR kr hold).1 ht) (hR kr hold).2⟩
    · subst hnew
      have hy := hR _ hmem
      have hfields : (s.decEnginePromptLength y t).2.Cluster = y.Cluster ∧
          (s.decEnginePromptLength y t).2.Ip = y.Ip ∧
          (s.decEnginePromptLength y t).2.CreateTime = y.CreateTime := by
        rw [decEnginePromptLength_snd]
        split <;> exact ⟨rfl, rfl, rfl⟩
      refine ⟨by rw [hfields.2.2]; exact le_trans hy.1 ht, ?_⟩
      apply Anchored_of_fields hfields.1 hfields.2.1 hfields.2.2
      exact Anchored_of_touched (s := s) htouch (le_trans hy.1 ht) hy.2

theorem SweepInv_run_deletes (expire now : Int) (ids : List String) (x : LoadStats)
    (hx : SweepInv now x) :
    SweepInv now (run expire x (ids.map (fun id => (Op.delete id, now)))) := by
  induction ids generalizing x with
  | nil => exact hx
  | cons id tl ih =>
    rw [List.map_cons, run_cons]
    exact ih _ (SweepInv_step_delete expire hx id now (le_refl _))

end LoadStats

namespace LoadStats

theorem gcEngines_keys_nodup (ms : ModelStats) (now expire : Int)
    (hnd : ms.Engines.keys.Nodup) : (gcEngines ms now expire).Engines.keys.Nodup := by
  rw [gcEngines_Engines ms now expire hnd]
  unfold SyncMap.keys at hnd ⊢
  exact List.Nodup.sublist (List.Sublist.map _ (List.filter_sublist _)) hnd

theorem gcModels_fold_nodup (now expire : Int) (L : SyncMap ModelStats) (acc : LoadStats)
    (hL : ∀ kv ∈ L, kv.2.Engines.keys.Nodup)
    (hacc : acc.RunningModelStats.keys.Nodup ∧
      ∀ kv ∈ acc.RunningModelStats, kv.2.Engines.keys.Nodup) :
    (L.foldl (gcModelVisit now expire) acc).RunningModelStats.keys.Nodup ∧
      ∀ kv ∈ (L.foldl (gcModelVisit now expire) acc).RunningModelStats,
        kv.2.Engines.keys.Nodup := by
  induction L generalizing acc with
  | nil => exact hacc
  | cons hd tl ih =>
    rw [List.foldl_cons]
    apply ih _ (fun kv hkv => hL kv (List.mem_cons_of_mem _ hkv))
    by_cases hst : now ≥ hd.2.UpdateTime + expire
    · rw [gcModelVisit_of_stale now expire acc hd hst]
      exact ⟨SyncMap.keys_Delete_nodup _ _ hacc.1,
        fun kv hkv => hacc.2 kv (SyncMap.mem_Delete _ _ _ hkv)⟩
    · rw [gcModelVisit_of_not_stale now expire acc hd hst]
      refine ⟨SyncMap.keys_put_nodup _ _ _ hacc.1, ?_⟩
      intro kv hkv
      rcases SyncMap.mem_put _ _ _ _ hkv with hold | hnew
      · exact hacc.2 kv hold
      · subst hnew
        exact gcEngines_keys_nodup hd.2 now expire (hL hd (List.mem_cons_self _ _))

theorem gcModels_nodup (s : LoadStats) (now expire : Int)
    (hM : s.RunningModelStats.keys.Nodup)
    (hE : ∀ kv ∈ s.RunningModelStats, kv.2.Engines.keys.Nodup) :
    (s.gcModels now expire).RunningModelStats.keys.Nodup ∧
      ∀ kv ∈ (s.gcModels now expire).RunningModelStats, kv.2.Engines.keys.Nodup :=
  gcModels_fold_nodup now expire s.RunningModelStats s hE ⟨hM, hE⟩

/-- An engine that exists after the model pass existed before it, unchanged. -/
theorem engine_gcModels_some (s : LoadStats) (now expire : Int)
    (hM : s.RunningModelStats.keys.Nodup)
    (hE : ∀ kv ∈ s.RunningModelStats, kv.2.Engines.keys.Nodup) {c ip : String}
    {e : EngineStats} (h : (s.gcModels now expire).engine c ip = some e) :
    s.engine c ip = some e := by
  unfold engine at h ⊢
  rw [gcModels_Load s now expire hM c] at h
  cases hm : s.RunningModelStats.Load c with
  | none => rw [hm] at h; simp at h
  | some ms =>
    rw [hm] at h
    simp only []
    by_cases hst : now ≥ ms.UpdateTime + expire
    · simp [hst] at h
    · simp only [hst, if_false] at h
      rw [gcEngines_Load ms now expire (hE _ (SyncMap.mem_of_Load_eq_some hm)) ip] at h
      cases he : ms.Engines.Load ip with
      | none => rw [he] at h; simp at h
      | some e0 =>
        rw [he] at h
        by_cases hse : now ≥ e0.UpdatedTime + expire
        · simp [hse] at h
        · simpa [hse] using h

/-- A request created strictly less than `expire` before `now` stays anchored
through the model pass. -/
theorem Anchored_gcModels (s : LoadStats) (now expire : Int)
    (hM : s.RunningModelStats.keys.Nodup)
    (hE : ∀ kv ∈ s.RunningModelStats, kv.2.Engines.keys.Nodup) {r : InferenceRequest}
    (hnow : r.CreateTime ≤ now) (hlive : now < r.CreateTime + expire) (ha : Anchored s r) :
    Anchored (s.gcModels now expire) r := by
  obtain ⟨ms, e, hm, he, h1, h2⟩ := ha
  have hst : ¬ now ≥ ms.UpdateTime + expire := by omega
  have hse : ¬ now ≥ e.UpdatedTime + expire := by omega
  have hnd := hE _ (SyncMap.mem_of_Load_eq_some hm)
  refine ⟨gcEngines ms now expire, e, ?_, ?_, ?_, h2⟩
  · rw [gcModels_Load s now expire hM, hm]
    simp [hst]
  · rw [gcEngines_Load ms now expire hnd, he]
    simp [hse]
  · rcases gcEngines_fold_UpdateTime now expire ms.Engines ms with h | h
    · unfold gcEngines; rw [h]; exact h1
    · unfold gcEngines; rw [h]; exact hnow

theorem liveCount_congr {s1 s2 : LoadStats} (h : s1.Requests = s2.Requests) (c ip : String) :
    s1.liveCount c ip = s2.liveCount c ip := by
  unfold liveCount liveOn; rw [h]

theorem livePrompt_congr {s1 s2 : LoadStats} (h : s1.Requests = s2.Requests) (c ip : String) :
    s1.livePrompt c ip = s2.livePrompt c ip := by
  unfold livePrompt liveOn; rw [h]

theorem SweepInv_step_gc (expire : Int) {T : Int} {s : LoadStats} (hs : SweepInv T s)
    (t : Int) (ht : T ≤ t) (hoff : ∀ kr ∈ s.Requests, kr.2.CreateTime + expire ≠ t) :
    SweepInv t (step expire s Op.gc t) := by
  have hK : s.Requests.keys.Nodup := hs.1.1
  have h1 : SweepInv t (s.gcRequests t expire) := by
    rw [gcRequests_eq_run s t expire hK]
    exact SweepInv_run_deletes expire t _ s (SweepInv_mono ht hs)
  have hreq1 := gcRequests_Requests s t expire hK
  have hlive : ∀ kr ∈ (s.gcRequests t expire).Requests, t < kr.2.CreateTime + expire := by
    intro kr hkr
    rw [hreq1] at hkr
    obtain ⟨hmem, hne⟩ := List.mem_filter.mp hkr
    have hne2 : ¬ expired t expire kr.2 := by simpa using hne
    unfold expired at hne2
    have := hoff kr hmem
    omega
  obtain ⟨hC, hM, hEk, hR⟩ := h1
  have hreq2 := gcModels_Requests (s.gcRequests t expire) t expire
  have hnd2 := gcModels_nodup (s.gcRequests t expire) t expire hM hEk
  have hanch : ∀ kr ∈ ((s.gcRequests t expire).gcModels t expire).Requests,
      kr.2.CreateTime ≤ t ∧ Anchored ((s.gcRequests t expire).gcModels t expire) kr.2 := by
    intro kr hkr
    rw [hreq2] at hkr
    exact ⟨(hR kr hkr).1,
      Anchored_gcModels _ t expire hM hEk (hR kr hkr).1 (hlive kr hkr) (hR kr hkr).2⟩
  show SweepInv t ((s.gcRequests t expire).gcModels t expire)
  refine ⟨⟨?_, ?_, ?_, ?_⟩, hnd2.1, hnd2.2, hanch⟩
  · rw [hreq2]; exact hC.1
  · intro kr hkr
    obtain ⟨ms, e, hm, he, -, -⟩ := (hanch kr hkr).2
    rw [hreq2] at hkr
    refine ⟨?_, (hC.2.1 kr hkr).2⟩
    unfold engine
    rw [hm]
    simp only []
    rw [he]
    simp
  · intro c ip
    rw [liveCount_congr hreq2, livePrompt_congr hreq2]
    exact hC.2.2.1 c ip
  · intro c ip e he
    rw [liveCount_congr hreq2, livePrompt_congr hreq2]
    exact hC.2.2.2 c ip e (engine_gcModels_some _ t expire hM hEk he)

end LoadStats

namespace LoadStats

theorem SweepInv_run (expire : Int) (ops : List (Op × Int)) (T : Int) (s : LoadStats)
    (hs : SweepInv T s) (hadm : Admissible expire T s ops) :
    ∃ T2, SweepInv T2 (run expire s ops) := by
  induction ops generalizing T s with
  | nil => exact ⟨T, hs⟩
  | cons x xs ih =>
    obtain ⟨op, t⟩ := x
    obtain ⟨ht, hop, hrest⟩ := hadm
    rw [run_cons]
    refine ih t _ ?_ hrest
    cases op with
    | set r => exact SweepInv_step_set expire hs r t ht hop
    | delete id => exact SweepInv_step_delete expire hs id t ht
    | promptDelete id => exact SweepInv_step_promptDelete expire hs id t ht
    | gc => exact SweepInv_step_gc expire hs t ht hop

/-- The store invariant with the sweeper whose model pass compares on the
integers. In every state reached from the empty store by an `Admissible`
sequence of operations, for every request present in `Requests` the model of
its cluster and the engine of its ip exist, and that engine's `QueuedReqNum`
is the number of stored requests of the engine and its aggregate
`PromptLength` the sum of their current prompt lengths. -/
theorem store_invariant_exact (expire T : Int) (ops : List (Op × Int))
    (hadm : Admissible expire T NewLoadStats ops) :
    ∀ kr ∈ (run expire NewLoadStats ops).Requests,
      ∃ ms e, (run expire NewLoadStats ops).GetModelStats kr.2.Cluster = some ms ∧
        ms.Engines.Load kr.2.Ip = some e ∧
        e.QueuedReqNum = (run expire NewLoadStats ops).liveCount kr.2.Cluster kr.2.Ip ∧
        e.PromptLength = (run expire NewLoadStats ops).livePrompt kr.2.Cluster kr.2.Ip := by
  obtain ⟨T2, hC, -, -, hR⟩ := SweepInv_run expire ops T NewLoadStats (SweepInv_NewLoadStats T) hadm
  intro kr hkr
  obtain ⟨ms, e, hm, he, -, -⟩ := (hR kr hkr).2
  have heng : (run expire NewLoadStats ops).engine kr.2.Cluster kr.2.Ip = some e := by
    unfold engine
    rw [hm]
    exact he
  obtain ⟨hq, ha⟩ := hC.2.2.2 _ _ e heng
  exact ⟨ms, e, hm, he, hq, ha⟩

end LoadStats

namespace SyncMap

variable {V : Type}

theorem exists_ne_zero_of_total_ne_zero (g : V → Int) (m : SyncMap V) (h : total g m ≠ 0) :
    ∃ kv ∈ m, g kv.2 ≠ 0 := by
  by_contra hcon
  apply h
  apply total_eq_zero
  intro kv hkv
  by_contra hne
  exact hcon ⟨kv, hkv, hne⟩

end SyncMap

namespace LoadStats

theorem gcRequestVisit_touched (now expire : Int) (acc : LoadStats)
    (kv : String × InferenceRequest) :
    TouchedModels now acc.RunningModelStats
      (gcRequestVisit now expire acc kv).RunningModelStats := by
  by_cases hexp : expired now expire kv.2
  · rw [gcRequestVisit_of_expired now expire acc kv hexp]
    exact TouchedModels_decEngineStats { acc with Requests := acc.Requests.Delete kv.1 } kv.2 now
  · rw [gcRequestVisit_of_not_expired now expire acc kv hexp]
    exact TouchedModels_refl now _

/-- The request pass keeps the keys of the model map and of the engine maps
unique. -/
theorem gcRequests_fold_nodup (now expire : Int) (L : SyncMap InferenceRequest)
    (acc : LoadStats)
    (hacc : acc.RunningModelStats.keys.Nodup ∧
      ∀ kv ∈ acc.RunningModelStats, kv.2.Engines.keys.Nodup) :
    (L.foldl (gcRequestVisit now expire) acc).RunningModelStats.keys.Nodup ∧
      ∀ kv ∈ (L.foldl (gcRequestVisit now expire) acc).RunningModelStats,
        kv.2.Engines.keys.Nodup := by
  induction L generalizing acc with
  | nil => exact hacc
  | cons hd tl ih =>
    rw [List.foldl_cons]
    have ht := gcRequestVisit_touched now expire acc hd
    exact ih _ ⟨ht.1 hacc.1, ht.2.1 hacc.2⟩

/-- A model stamped `now` stays stamped `now` through the request pass. -/
theorem gcRequests_fold_model_stamped (now expire : Int) (c : String)
    (L : SyncMap InferenceRequest) (acc : LoadStats)
    (h : ∃ ms, acc.RunningModelStats.Load c = some ms ∧ ms.UpdateTime = now) :
    ∃ ms, (L.foldl (gcRequestVisit now expire) acc).RunningModelStats.Load c = some ms ∧
      ms.UpdateTime = now := by
  induction L generalizing acc with
  | nil => exact h
  | cons hd tl ih =>
    rw [List.foldl_cons]
    apply ih
    obtain ⟨ms, hm, hU⟩ := h
    obtain ⟨ms2, hm2, hU2, -, -⟩ := (gcRequestVisit_touched now expire acc hd).2.2 c ms hm
    refine ⟨ms2, hm2, ?_⟩
    rcases hU2 with h1 | h1
    · rw [h1, hU]
    · exact h1

theorem decEngineStats_model_stamped (s : LoadStats) (req : InferenceRequest) (now : Int)
    (h : s.RunningModelStats.Load req.Cluster ≠ none) :
    ∃ ms, (s.decEngineStats req now).RunningModelStats.Load req.Cluster = some ms ∧
      ms.UpdateTime = now := by
  cases hm : s.RunningModelStats.Load req.Cluster with
  | none => exact absurd hm h
  | some ms =>
    cases he : ms.Engines.Load req.Ip with
    | none =>
      rw [decEngineStats_of_no_engine s req now hm he]
      exact ⟨_, SyncMap.Load_put_self _ _ _, rfl⟩
    | some e =>
      rw [decEngineStats_of_engine s req now hm he]
      exact ⟨_, SyncMap.Load_put_self _ _ _, rfl⟩

/-- The model of an expired request among the visited entries is stamped
`now` by the request pass, when it exists. -/
theorem gcRequests_fold_model_touched (now expire : Int) (c : String)
    (L : SyncMap InferenceRequest) (acc : LoadStats)
    (hm : acc.RunningModelStats.Load c ≠ none)
    (hex : ∃ kv ∈ L, expired now expire kv.2 ∧ kv.2.Cluster = c) :
    ∃ ms, (L.foldl (gcRequestVisit now expire) acc).RunningModelStats.Load c = some ms ∧
      ms.UpdateTime = now := by
  induction L generalizing acc with
  | nil => obtain ⟨kv, hkv, -⟩ := hex; cases hkv
  | cons hd tl ih =>
    rw [List.foldl_cons]
    by_cases hhd : expired now expire hd.2 ∧ hd.2.Cluster = c
    · apply gcRequests_fold_model_stamped
      rw [gcRequestVisit_of_expired now expire acc hd hhd.1]
      have := decEngineStats_model_stamped
        { acc with Requests := acc.Requests.Delete hd.1 } hd.2 now (by rw [hhd.2]; exact hm)
      rw [hhd.2] at this
      exact this
    · apply ih
      · cases hm0 : acc.RunningModelStats.Load c with
        | none => exact absurd hm0 hm
        | some ms =>
          obtain ⟨ms2, hm2, -⟩ := (gcRequestVisit_touched now expire acc hd).2.2 c ms hm0
          rw [hm2]; simp
      · obtain ⟨kv, hkv, hkv2⟩ := hex
        rcases List.mem_cons.mp hkv with h1 | h1
        · subst h1; exact absurd hkv2 hhd
        · exact ⟨kv, h1, hkv2⟩

end LoadStats

namespace LoadStats

/-- C9, as stated, fails in two ways. (i) On the store reached by `Set`s of
prompt length 2^30 at times 0 and 5 on one engine (aggregate -2147483648), the
sweep at time 12 with expiry 10 removes the first request only, and the
aggregate becomes 1073741824, which is not the old aggregate decreased by
2^30. (ii) On the store holding one request of prompt length -5 (aggregate
-5), the sweep at time 12 removes the request and leaves the aggregate at -5:
it has not been decreased by the request's current prompt length. -/
theorem GC_aggregate_not_exact :
    (exStoreHalves.aggregate "A" "1.1.1.1" = -2147483648 ∧
      (exStoreHalves.GC 12 10).Requests.keys = ["halfB"] ∧
      (exStoreHalves.GC 12 10).aggregate "A" "1.1.1.1" = 1073741824 ∧
      (exStoreHalves.GC 12 10).aggregate exReqHalfA.Cluster exReqHalfA.Ip ≠
        exStoreHalves.aggregate exReqHalfA.Cluster exReqHalfA.Ip - exReqHalfA.PromptLength) ∧
    ((NewLoadStats.AddRequest exReqNeg 0).aggregate "A" "1.1.1.1" = -5 ∧
      ((NewLoadStats.AddRequest exReqNeg 0).GC 12 10).Requests = [] ∧
      ((NewLoadStats.AddRequest exReqNeg 0).GC 12 10).queued "A" "1.1.1.1" = 0 ∧
      ((NewLoadStats.AddRequest exReqNeg 0).GC 12 10).aggregate "A" "1.1.1.1" = -5 ∧
      ((NewLoadStats.AddRequest exReqNeg 0).GC 12 10).aggregate exReqNeg.Cluster exReqNeg.Ip ≠
        (NewLoadStats.AddRequest exReqNeg 0).aggregate exReqNeg.Cluster exReqNeg.Ip -
          exReqNeg.PromptLength) := by
  decide

/-- C9, amended. For a store with unique map keys and int32 fields and every
sweep time `now`: after `GC` the entries of `Requests` are exactly the prior
entries with `¬ (CreateTime + expire < now)`, unchanged (an entry with
`CreateTime + expire = now` is kept); the request pass is one deletion attempt
of `DeleteRequest` for each expired id; after it every engine that existed
still exists, with `QueuedReqNum` reduced by the number of its expired
requests and aggregate reduced by the sum of their current prompt lengths that
are positive (a prompt length ≤ 0 subtracts nothing), both in wrapping signed
32-bit arithmetic and hence exactly whenever the results lie in the int32
range; and when `expire > 0`, an engine with at least one expired request is
still present after the whole `GC`, as the request pass left it. -/
theorem GC_request_pass (s : LoadStats) (now expire : Int) (hwf : s.WellFormed)
    (hty : s.WellTyped) :
    (s.GC now expire).Requests =
      s.Requests.filter (fun kv => decide (¬ expired now expire kv.2)) ∧
    s.gcRequests now expire =
      run expire s ((s.expiredKeys now expire).map (fun id => (Op.delete id, now))) ∧
    (∀ c ip e, s.engine c ip = some e →
      (s.gcRequests now expire).engine c ip =
        some { Ip := e.Ip,
               QueuedReqNum := wrap32 (e.QueuedReqNum - s.expiredCount now expire c ip),
               PromptLength := wrap32 (e.PromptLength - s.expiredPrompt now expire c ip),
               UpdatedTime := if s.expiredCount now expire c ip = 0 then e.UpdatedTime
                              else now } ∧
      (isInt32 (e.QueuedReqNum - s.expiredCount now expire c ip) →
        (s.gcRequests now expire).queued c ip =
          e.QueuedReqNum - s.expiredCount now expire c ip) ∧
      (isInt32 (e.PromptLength - s.expiredPrompt now expire c ip) →
        (s.gcRequests now expire).aggregate c ip =
          e.PromptLength - s.expiredPrompt now expire c ip) ∧
      (0 < expire → 0 < s.expiredCount now expire c ip →
        (s.GC now expire).engine c ip = (s.gcRequests now expire).engine c ip)) := by
  refine ⟨?_, gcRequests_eq_run s now expire hwf.1, ?_⟩
  · unfold GC
    rw [gcModels_Requests, gcRequests_Requests s now expire hwf.1]
  · intro c ip e he
    have hety := engine_wellTyped hty he
    have heng : (s.gcRequests now expire).engine c ip =
        some { Ip := e.Ip,
               QueuedReqNum := wrap32 (e.QueuedReqNum - s.expiredCount now expire c ip),
               PromptLength := wrap32 (e.PromptLength - s.expiredPrompt now expire c ip),
               UpdatedTime := if s.expiredCount now expire c ip = 0 then e.UpdatedTime
                              else now } :=
      gcRequests_fold_engine now expire c ip s.Requests s e hety he
    refine ⟨heng, ?_, ?_, ?_⟩
    · intro hr
      unfold queued
      rw [heng]
      exact wrap32_of_isInt32 hr
    · intro hr
      unfold aggregate
      rw [heng]
      exact wrap32_of_isInt32 hr
    · intro hexp hcnt
      have hne : s.expiredCount now expire c ip ≠ 0 := ne_of_gt hcnt
      obtain ⟨kv, hkv, hkv0⟩ := SyncMap.exists_ne_zero_of_total_ne_zero _ _ hne
      have hkv1 : expired now expire kv.2 ∧ kv.2.Cluster = c := by
        by_cases h1 : expired now expire kv.2
        · simp only [h1, if_true] at hkv0
          unfold countW at hkv0
          by_cases h2 : kv.2.Cluster = c ∧ kv.2.Ip = ip
          · exact ⟨h1, h2.1⟩
          · simp [h2] at hkv0
        · simp [h1] at hkv0
      have hmodel : s.RunningModelStats.Load c ≠ none := by
        intro hn
        unfold engine at he
        rw [hn] at he
        cases he
      obtain ⟨ms1, hm1, hU1⟩ := gcRequests_fold_model_touched now expire c s.Requests s hmodel
        ⟨kv, hkv, hkv1⟩
      have hnd : (s.gcRequests now expire).RunningModelStats.keys.Nodup ∧
          ∀ kv ∈ (s.gcRequests now expire).RunningModelStats, kv.2.Engines.keys.Nodup :=
        gcRequests_fold_nodup now expire s.Requests s ⟨hwf.2.1, hwf.2.2⟩
      have hm1 : (s.gcRequests now expire).RunningModelStats.Load c = some ms1 := hm1
      have he1 : ms1.Engines.Load ip = some
          { Ip := e.Ip,
            QueuedReqNum := wrap32 (e.QueuedReqNum - s.expiredCount now expire c ip),
            PromptLength := wrap32 (e.PromptLength - s.expiredPrompt now expire c ip),
            UpdatedTime := now } := by
        have h2 := heng
        unfold engine at h2
        rw [hm1] at h2
        simp only [hne, if_false] at h2
        exact h2
      rw [heng]
      simp only [hne, if_false]
      unfold GC engine
      rw [gcModels_Load _ now expire hnd.1 c, hm1]
      have hst : ¬ now ≥ ms1.UpdateTime + expire := by rw [hU1]; omega
      simp only [hst, if_false]
      rw [gcEngines_Load ms1 now expire (hnd.2 _ (SyncMap.mem_of_Load_eq_some hm1)) ip, he1]
      have hse : ¬ now ≥ now + expire := by omega
      simp only [hse, if_false]

/-- Witness for C9 (amended): with expiry 10, after `Set` of "1" at 5 and of
"2" at 8 (prompt 512 each, engine (A, 1.1.1.1)) the sweep at 16 removes "1"
only; the engine goes from `queued = 2`, `prompt = 1024` to `queued = 1`,
`prompt = 512`. -/
theorem GC_request_pass_witness :
    ((NewLoadStats.AddRequest exReq1 5).AddRequest exReq2 8).WellFormed ∧
    ((NewLoadStats.AddRequest exReq1 5).AddRequest exReq2 8).WellTyped ∧
    (((NewLoadStats.AddRequest exReq1 5).AddRequest exReq2 8).GC 16 10).Requests =
      [("2", { exReq2 with CreateTime := 8 })] ∧
    (((NewLoadStats.AddRequest exReq1 5).AddRequest exReq2 8).gcRequests 16 10).queued
      "A" "1.1.1.1" = 1 ∧
    (((NewLoadStats.AddRequest exReq1 5).AddRequest exReq2 8).gcRequests 16 10).aggregate
      "A" "1.1.1.1" = 512 ∧
    (((NewLoadStats.AddRequest exReq1 5).AddRequest exReq2 8).GC 16 10).engine "A" "1.1.1.1" =
      (((NewLoadStats.AddRequest exReq1 5).AddRequest exReq2 8).gcRequests 16 10).engine
        "A" "1.1.1.1" := by
  have h := GC_request_pass ((NewLoadStats.AddRequest exReq1 5).AddRequest exReq2 8) 16 10
    (by decide) (by decide)
  have h2 := h.2.2 "A" "1.1.1.1"
    { Ip := "1.1.1.1", QueuedReqNum := 2, PromptLength := 1024, UpdatedTime := 8 } (by decide)
  exact ⟨by decide, by decide, h.1.trans (by decide), (h2.2.1 (by decide)).trans (by decide),
    (h2.2.2.1 (by decide)).trans (by decide), h2.2.2.2 (by decide) (by decide)⟩

end LoadStats

namespace LoadStats

/-- C11. Deleting an unknown request changes nothing. For every store `s` and
every id that is not a key of `Requests`: the immediate attempt of
`DeleteRequest` (`tryDeleteRequestStats`) and of `DeletePromptLength`
(`tryDecPromptLength`) reports not-found and returns the store `s` itself
(requests, models, engine maps and counters are all unchanged), the delayed
retry is scheduled, and the retry, fired at any later reading with the id
still absent, again returns `s`. In particular the empty store stays empty
through the immediate attempt and through the retry. -/
theorem delete_absent_is_noop (s : LoadStats) (id : String) (now later : Int)
    (h : id ∉ s.Requests.keys) :
    s.tryDeleteRequestStats id now = (false, s) ∧
    s.tryDecPromptLength id now = (false, s) ∧
    s.DeleteRequest id now = (s, true) ∧
    s.DeletePromptLength id now = (s, true) ∧
    (s.DeleteRequest id now).1.DeleteRequestRetry id later = s ∧
    (s.DeletePromptLength id now).1.DeletePromptLengthRetry id later = s ∧
    NewLoadStats.DeleteRequest id now = (NewLoadStats, true) ∧
    NewLoadStats.DeletePromptLength id now = (NewLoadStats, true) ∧
    (NewLoadStats.DeleteRequest id now).1.DeleteRequestRetry id later = NewLoadStats ∧
    (NewLoadStats.DeletePromptLength id now).1.DeletePromptLengthRetry id later =
      NewLoadStats := by
  have hn : s.Requests.Load id = none := SyncMap.Load_eq_none_of_not_mem_keys h
  have h0 : NewLoadStats.Requests.Load id = none := rfl
  have key : ∀ (x : LoadStats) (t t2 : Int), x.Requests.Load id = none →
      x.tryDeleteRequestStats id t = (false, x) ∧
      x.tryDecPromptLength id t = (false, x) ∧
      x.DeleteRequest id t = (x, true) ∧
      x.DeletePromptLength id t = (x, true) ∧
      (x.DeleteRequest id t).1.DeleteRequestRetry id t2 = x ∧
      (x.DeletePromptLength id t).1.DeletePromptLengthRetry id t2 = x := by
    intro x t t2 hx
    have a1 := tryDeleteRequestStats_of_none x id t hx
    have a2 := tryDecPromptLength_of_none x id t hx
    have b1 : x.DeleteRequest id t = (x, true) := by
      unfold DeleteRequest; rw [a1]
    have b2 : x.DeletePromptLength id t = (x, true) := by
      unfold DeletePromptLength; rw [a2]
    refine ⟨a1, a2, b1, b2, ?_, ?_⟩
    · rw [b1]; unfold DeleteRequestRetry
      rw [tryDeleteRequestStats_of_none x id t2 hx]
    · rw [b2]; unfold DeletePromptLengthRetry
      rw [tryDecPromptLength_of_none x id t2 hx]
  obtain ⟨k1, k2, k3, k4, k5, k6⟩ := key s now later hn
  obtain ⟨_, _, z3, z4, z5, z6⟩ := key NewLoadStats now later h0
  exact ⟨k1, k2, k3, k4, k5, k6, z3, z4, z5, z6⟩

/-- The statement of `delete_absent_is_noop` at the store holding request
`"1"`, for the unknown id `"X"`. -/
theorem delete_absent_is_noop_witness :
    "X" ∉ exStore1.Requests.keys ∧
    exStore1.DeleteRequest "X" 7 = (exStore1, true) ∧
    (exStore1.DeletePromptLength "X" 7).1.DeletePromptLengthRetry "X" 1000000007 = exStore1 :=
  ⟨by decide, (delete_absent_is_noop exStore1 "X" 7 1000000007 (by decide)).2.2.1,
    (delete_absent_is_noop exStore1 "X" 7 1000000007 (by decide)).2.2.2.2.2.1⟩

end LoadStats
/-! ### The shape of the store is invariant -/

namespace SyncMap

variable {V : Type}

theorem length_put_of_Load_some (m : SyncMap V) {k : String} {v0 : V} (h : m.Load k = some v0)
    (v : V) : (m.put k v).keys.length = m.keys.length := by
  rw [keys_put_of_Load_some m h v]

theorem keys_put_of_Load_none (m : SyncMap V) {k : String} (h : m.Load k = none) (v : V) :
    (m.put k v).keys = m.keys ++ [k] := by
  rw [put_of_Load_none m h v]
  simp [keys]

theorem length_Delete_of_Load_some (m : SyncMap V) (hnd : m.keys.Nodup) {k : String} {v0 : V}
    (h : m.Load k = some v0) : ((m.Delete k).keys.length : Int) = (m.keys.length : Int) - 1 := by
  induction m with
  | nil => simp [Load] at h
  | cons hd tl ih =>
    obtain ⟨k1, v1⟩ := hd
    have hnd2 : k1 ∉ keys tl ∧ (keys tl).Nodup := by
      simpa [keys] using hnd
    rw [Delete_cons]
    by_cases h1 : k1 = k
    · subst h1
      simp only [if_true]
      rw [Delete_of_not_mem_keys tl hnd2.1]
      simp [keys]
    · simp only [h1, if_false]
      rw [Load_cons] at h
      simp only [h1, if_false] at h
      have := ih hnd2.2 h
      simp only [keys, List.map_cons, List.length_cons, List.length_map] at this ⊢
      push_cast
      omega

end SyncMap
namespace ModelStats

theorem Shaped_NewModelStats (name : String) (now : Int) : (NewModelStats name now).Shaped := by
  unfold Shaped NewModelStats
  simp [SyncMap.keys, wrap32]

theorem Shaped_touch {ms : ModelStats} (h : ms.Shaped) (t : Int) :
    ({ ms with UpdateTime := t } : ModelStats).Shaped := h

theorem Ip_of_Load {ms : ModelStats} (h : ms.Shaped) {ip : String} {e : EngineStats}
    (he : ms.Engines.Load ip = some e) : e.Ip = ip :=
  h.2.2 (ip, e) (SyncMap.mem_of_Load_eq_some he)

theorem Shaped_put_engine {ms : ModelStats} (h : ms.Shaped) {ip : String} {e0 : EngineStats}
    (he : ms.Engines.Load ip = some e0) (e : EngineStats) (hip : e.Ip = ip) (t : Int) :
    ({ ms with Engines := ms.Engines.put ip e, UpdateTime := t } : ModelStats).Shaped := by
  obtain ⟨h1, h2, h3⟩ := h
  refine ⟨?_, ?_, ?_⟩
  · exact SyncMap.keys_put_nodup _ _ _ h1
  · show ms.Length = wrap32 ((ms.Engines.put ip e).keys.length : Int)
    rw [SyncMap.length_put_of_Load_some _ he]
    exact h2
  · intro kv hkv
    rcases SyncMap.mem_put _ _ _ _ hkv with hm | hm
    · exact h3 kv hm
    · rw [hm]; exact hip

theorem Shaped_LoadOrStore {ms : ModelStats} (h : ms.Shaped) (ip : String) (now : Int) :
    (ms.LoadOrStore ip now).1.Shaped ∧ (ms.LoadOrStore ip now).2.Ip = ip ∧
      (ms.LoadOrStore ip now).1.Engines.Load ip = some (ms.LoadOrStore ip now).2 := by
  refine ⟨?_, ?_, LoadOrStore_Load_self ms ip now⟩
  · unfold LoadOrStore
    cases he : ms.Engines.Load ip with
    | some e => exact h
    | none =>
      obtain ⟨h1, h2, h3⟩ := h
      refine ⟨?_, ?_, ?_⟩
      · exact SyncMap.keys_put_nodup _ _ _ h1
      · show addInt32 ms.Length 1 =
          wrap32 ((ms.Engines.put ip (NewEngineLoadStats ip now)).keys.length : Int)
        rw [SyncMap.keys_put_of_Load_none _ he, h2]
        unfold addInt32
        rw [wrap32_add_wrap32]
        simp
      · intro kv hkv
        rcases SyncMap.mem_put _ _ _ _ hkv with hm | hm
        · exact h3 kv hm
        · rw [hm]; rfl
  · unfold LoadOrStore
    cases he : ms.Engines.Load ip with
    | some e => exact Ip_of_Load h he
    | none => rfl

theorem Shaped_Delete {ms : ModelStats} (h : ms.Shaped) (ip : String) (now : Int) :
    (ms.Delete ip now).Shaped := by
  unfold Delete
  cases he : ms.Engines.Load ip with
  | none => exact h
  | some e =>
    obtain ⟨h1, h2, h3⟩ := h
    refine ⟨?_, ?_, ?_⟩
    · exact SyncMap.keys_Delete_nodup _ _ h1
    · show addInt32 ms.Length (-1) = wrap32 ((ms.Engines.Delete ip).keys.length : Int)
      rw [SyncMap.length_Delete_of_Load_some _ h1 he, h2]
      unfold addInt32
      rw [wrap32_add_wrap32]
      rfl
    · intro kv hkv
      exact h3 kv (SyncMap.mem_Delete _ _ _ hkv)

theorem Shaped_applyOp {ms : ModelStats} (h : ms.Shaped) (op : ModelOp) (now : Int) :
    (ms.applyOp op now).Shaped := by
  cases op with
  | loadOrStore ip => exact (Shaped_LoadOrStore h ip now).1
  | load ip => exact h
  | delete ip => exact Shaped_Delete h ip now

theorem Shaped_runOps (ops : List (ModelOp × Int)) {ms : ModelStats} (h : ms.Shaped) :
    (ms.runOps ops).Shaped := by
  induction ops generalizing ms with
  | nil => exact h
  | cons x rest ih => exact ih (Shaped_applyOp h x.1 x.2)

theorem Size_of_Shaped {ms : ModelStats} (h : ms.Shaped)
    (hb : ms.Engines.keys.length < 2147483648) : ms.Size = (ms.Engines.keys.length : Int) := by
  unfold Size
  rw [h.2.1]
  apply wrap32_of_isInt32
  unfold isInt32
  omega

end ModelStats

namespace LoadStats

theorem Shaped_gcEngines_fold (now expire : Int) (L : SyncMap EngineStats) {acc : ModelStats}
    (h : acc.Shaped) : (L.foldl (gcEngineVisit now expire) acc).Shaped := by
  induction L generalizing acc with
  | nil => exact h
  | cons kv rest ih =>
    apply ih
    unfold gcEngineVisit
    split
    · exact ModelStats.Shaped_Delete h _ _
    · exact h

theorem Shaped_put_model {s : LoadStats} (h : s.Shaped) (key : String) {ms : ModelStats}
    (hms : ms.Shaped) (R : SyncMap InferenceRequest) :
    ({ RunningModelStats := s.RunningModelStats.put key ms, Requests := R } : LoadStats).Shaped := by
  refine ⟨SyncMap.keys_put_nodup _ _ _ h.1, ?_⟩
  intro kv hkv
  rcases SyncMap.mem_put _ _ _ _ hkv with hm | hm
  · exact h.2 kv hm
  · rw [hm]; exact hms

theorem Shaped_of_Load {s : LoadStats} (h : s.Shaped) {c : String} {ms : ModelStats}
    (hm : s.RunningModelStats.Load c = some ms) : ms.Shaped :=
  h.2 (c, ms) (SyncMap.mem_of_Load_eq_some hm)

end LoadStats
namespace EngineStats

theorem DecrementPromptLength_Ip (e : EngineStats) (req : InferenceRequest) (t : Int) :
    (e.DecrementPromptLength req t).1.Ip = e.Ip := by
  unfold DecrementPromptLength
  by_cases h : req.PromptLength ≤ 0 <;> simp [h]

end EngineStats

namespace LoadStats

theorem Shaped_of_models_eq {s s2 : LoadStats} (h : s.Shaped)
    (heq : s2.RunningModelStats = s.RunningModelStats) : s2.Shaped := by
  unfold Shaped
  rw [heq]
  exact h

theorem Shaped_of_models_put {s s2 : LoadStats} (h : s.Shaped) (key : String) {ms : ModelStats}
    (hms : ms.Shaped) (heq : s2.RunningModelStats = s.RunningModelStats.put key ms) :
    s2.Shaped :=
  Shaped_of_models_eq (Shaped_put_model h key hms s2.Requests) heq

theorem Shaped_NewLoadStats : NewLoadStats.Shaped := by
  unfold Shaped NewLoadStats
  simp [SyncMap.keys]

theorem Shaped_AddRequest {s : LoadStats} (h : s.Shaped) (r : InferenceRequest) (now : Int) :
    (s.AddRequest r now).Shaped := by
  cases hl : s.Requests.Load r.RequestId with
  | some v => rw [AddRequest_of_present s r now (by simp [hl])]; exact h
  | none =>
    have hv : ((s.RunningModelStats.Load r.Cluster).getD (NewModelStats r.Cluster now)).Shaped := by
      cases hm : s.RunningModelStats.Load r.Cluster with
      | none => exact ModelStats.Shaped_NewModelStats _ _
      | some ms => exact Shaped_of_Load h hm
    obtain ⟨a1, a2, a3⟩ := ModelStats.Shaped_LoadOrStore hv r.Ip now
    refine Shaped_of_models_put h r.Cluster ?_ (AddRequest_models_of_fresh s r now hl)
    refine ModelStats.Shaped_put_engine a1 a3 _ ?_ _
    exact a2

theorem Shaped_decEngineStats {s : LoadStats} (h : s.Shaped) (req : InferenceRequest)
    (now : Int) : (s.decEngineStats req now).Shaped := by
  cases hm : s.RunningModelStats.Load req.Cluster with
  | none => rw [decEngineStats_of_no_model s req now hm]; exact h
  | some ms =>
    have hms := Shaped_of_Load h hm
    cases he : ms.Engines.Load req.Ip with
    | none =>
      rw [decEngineStats_of_no_engine s req now hm he]
      exact Shaped_of_models_put h req.Cluster (ModelStats.Shaped_touch hms now) rfl
    | some e =>
      rw [decEngineStats_of_engine s req now hm he]
      refine Shaped_of_models_put h req.Cluster
        (ModelStats.Shaped_put_engine hms he
          ((e.DecrementQueuedReqNum now).DecrementPromptLength req now).1 ?_ now) rfl
      rw [EngineStats.DecrementPromptLength_Ip]
      show e.Ip = req.Ip
      exact ModelStats.Ip_of_Load hms he

theorem Shaped_decEnginePromptLength {s : LoadStats} (h : s.Shaped) (req : InferenceRequest)
    (now : Int) : (s.decEnginePromptLength req now).1.Shaped := by
  cases hm : s.RunningModelStats.Load req.Cluster with
  | none => rw [decEnginePromptLength_of_no_model s req now hm]; exact h
  | some ms =>
    have hms := Shaped_of_Load h hm
    cases he : ms.Engines.Load req.Ip with
    | none =>
      rw [decEnginePromptLength_of_no_engine s req now hm he]
      exact Shaped_of_models_put h req.Cluster (ModelStats.Shaped_touch hms now) rfl
    | some e =>
      rw [decEnginePromptLength_of_engine s req now hm he]
      refine Shaped_of_models_put h req.Cluster
        (ModelStats.Shaped_put_engine hms he (e.DecrementPromptLength req now).1 ?_ now) rfl
      rw [EngineStats.DecrementPromptLength_Ip]
      exact ModelStats.Ip_of_Load hms he

theorem Shaped_gcRequests_fold (now expire : Int) (L : SyncMap InferenceRequest)
    {acc : LoadStats} (h : acc.Shaped) : (L.foldl (gcRequestVisit now expire) acc).Shaped := by
  induction L generalizing acc with
  | nil => exact h
  | cons kv rest ih =>
    apply ih
    unfold gcRequestVisit
    split
    · have h2 : ({ acc with Requests := acc.Requests.Delete kv.1 } : LoadStats).Shaped :=
        Shaped_of_models_eq h rfl
      exact Shaped_decEngineStats h2 _ _
    · exact h

theorem Shaped_gcModels_fold (now expire : Int) (L : SyncMap ModelStats)
    (hL : ∀ kv ∈ L, kv.2.Shaped) {acc : LoadStats} (h : acc.Shaped) :
    (L.foldl (gcModelVisit now expire) acc).Shaped := by
  induction L generalizing acc with
  | nil => exact h
  | cons kv rest ih =>
    apply ih (fun x hx => hL x (List.mem_cons_of_mem _ hx))
    unfold gcModelVisit
    split
    · refine ⟨SyncMap.keys_Delete_nodup _ _ h.1, ?_⟩
      intro x hx
      exact h.2 x (SyncMap.mem_Delete _ _ _ hx)
    · exact Shaped_of_models_put h kv.1
        (Shaped_gcEngines_fold now expire _ (hL kv (List.mem_cons_self _ _))) rfl

theorem Shaped_GC {s : LoadStats} (h : s.Shaped) (now expire : Int) :
    (s.GC now expire).Shaped := by
  have h1 : (s.gcRequests now expire).Shaped := Shaped_gcRequests_fold now expire _ h
  exact Shaped_gcModels_fold now expire _ h1.2 h1

theorem Shaped_step (expire : Int) {s : LoadStats} (h : s.Shaped) (op : Op) (now : Int) :
    (step expire s op now).Shaped := by
  cases op with
  | set r => exact Shaped_AddRequest h r now
  | delete id =>
    show (s.tryDeleteRequestStats id now).2.Shaped
    cases hl : s.Requests.Load id with
    | none => rw [tryDeleteRequestStats_of_none s id now hl]; exact h
    | some req =>
      rw [tryDeleteRequestStats_of_some s id now hl]
      have h2 : ({ s with Requests := s.Requests.Delete id } : LoadStats).Shaped :=
        Shaped_of_models_eq h rfl
      exact Shaped_decEngineStats h2 _ _
  | promptDelete id =>
    show (s.tryDecPromptLength id now).2.Shaped
    cases hl : s.Requests.Load id with
    | none => rw [tryDecPromptLength_of_none s id now hl]; exact h
    | some req =>
      rw [tryDecPromptLength_of_some s id now hl]
      exact Shaped_of_models_eq (Shaped_decEnginePromptLength h req now) rfl
  | gc => exact Shaped_GC h now expire

theorem Shaped_run (expire : Int) (ops : List (Op × Int)) {s : LoadStats} (h : s.Shaped) :
    (run expire s ops).Shaped := by
  induction ops generalizing s with
  | nil => exact h
  | cons x rest ih => exact ih (Shaped_step expire h x.1 x.2)

end LoadStats
/-! ### Query and the cached engine count -/

namespace ModelStats

theorem ToEngines_fold (L : SyncMap EngineStats) (acc : List EngineStats) :
    L.foldl (fun engines kv => engines ++ [kv.2]) acc = acc ++ L.map Prod.snd := by
  induction L generalizing acc with
  | nil => simp
  | cons kv rest ih => rw [List.foldl_cons, ih]; simp

theorem ToEngines_some (ms : ModelStats) (h : 0 ≤ ms.Size) :
    ToEngines (some ms) = some (ms.Engines.map Prod.snd) := by
  have hn : ¬ ms.Size < 0 := by omega
  show (if ms.Size < 0 then none
    else some (ms.Engines.foldl (fun engines kv => engines ++ [kv.2]) [])) = _
  rw [if_neg hn, ToEngines_fold]
  simp

theorem ToEngines_negative (ms : ModelStats) (h : ms.Size < 0) : ToEngines (some ms) = none := by
  show (if ms.Size < 0 then none
    else some (ms.Engines.foldl (fun engines kv => engines ++ [kv.2]) [])) = _
  rw [if_pos h]

theorem map_Ip_of_Shaped {ms : ModelStats} (h : ms.Shaped) :
    (ms.Engines.map Prod.snd).map (fun e => e.Ip) = ms.Engines.keys := by
  unfold SyncMap.keys
  rw [List.map_map]
  apply List.map_congr_left
  intro kv hkv
  exact h.2.2 kv hkv

theorem LoadOrStore_of_present (ms : ModelStats) {ip : String} {e : EngineStats}
    (h : ms.Engines.Load ip = some e) (now : Int) :
    ms.LoadOrStore ip now = ({ ms with UpdateTime := now }, e) := by
  unfold LoadOrStore
  simp [h]

theorem Delete_of_absent (ms : ModelStats) {ip : String} (h : ms.Engines.Load ip = none)
    (now : Int) : ms.Delete ip now = { ms with UpdateTime := now } := by
  unfold Delete
  simp [h]

end ModelStats

namespace LoadAPI

open LoadStats

/-- `Query` on the store holding request `"1"` of engine (A, 1.1.1.1): one
engine with one queued request and aggregate 512 for model `A`, the empty
list for the unknown model `B`. -/
theorem Query_example :
    (Query exStore1 ⟨"A"⟩).2 =
      some [{ Ip := "1.1.1.1", QueuedReqNum := 1, PromptLength := 512, UpdatedTime := 5 }] ∧
    (Query exStore1 ⟨"B"⟩).2 = some [] ∧ (Query exStore1 ⟨"A"⟩).1 = exStore1 := by
  decide

/-- C12. `Query` is a read-only snapshot of one model. For every store `s`
and cluster name `c`: the store after `Query` is `s` itself (requests, models,
engines, counters and time stamps are unchanged); the result is the empty list
when `c` is not a key of the models; and when `c` is a key, with model `ms`
whose `Size()` is not negative, the result lists the stored engines of `ms` in
map order, so its length is the number of engine keys. In a store that is
`Shaped` (as every store reachable from the empty one by `Set`, delete
attempts and sweeps is) and for a model with fewer than `2^31` engines,
`Query` returns a list whose `Ip` fields are exactly the engine keys, each
once, and an engine value `e` is in the list for `ip` iff it is the engine
currently stored under `ip`, with its current `QueuedReqNum` and
`PromptLength`. -/
theorem Query_snapshot (s : LoadStats) (c : String) :
    (Query s ⟨c⟩).1 = s ∧
    (c ∉ s.RunningModelStats.keys → (Query s ⟨c⟩).2 = some []) ∧
    (∀ ms, s.RunningModelStats.Load c = some ms → 0 ≤ ms.Size →
      (Query s ⟨c⟩).2 = some (ms.Engines.map Prod.snd) ∧
      (ms.Engines.map Prod.snd).length = ms.Engines.keys.length) ∧
    ((s.Shaped ∨ ∃ expire ops, s = run expire NewLoadStats ops) →
      ∀ ms, s.RunningModelStats.Load c = some ms → ms.Engines.keys.length < 2147483648 →
        ∃ engines, (Query s ⟨c⟩).2 = some engines ∧
          engines.length = ms.Engines.keys.length ∧
          engines.map (fun e => e.Ip) = ms.Engines.keys ∧
          (engines.map (fun e => e.Ip)).Nodup ∧
          (∀ ip e, (e ∈ engines ∧ e.Ip = ip) ↔ s.engine c ip = some e) ∧
          (∀ e ∈ engines,
            e.QueuedReqNum = s.queued c e.Ip ∧ e.PromptLength = s.aggregate c e.Ip)) := by
  have hq : ∀ ms, s.RunningModelStats.Load c = some ms → 0 ≤ ms.Size →
      (Query s ⟨c⟩).2 = some (ms.Engines.map Prod.snd) := by
    intro ms hm hsz
    show ModelStats.ToEngines (s.RunningModelStats.Load c) = _
    rw [hm, ModelStats.ToEngines_some ms hsz]
  refine ⟨rfl, ?_, ?_, ?_⟩
  · intro hc
    show ModelStats.ToEngines (s.RunningModelStats.Load c) = _
    rw [SyncMap.Load_eq_none_of_not_mem_keys hc]
    rfl
  · intro ms hm hsz
    refine ⟨hq ms hm hsz, ?_⟩
    simp [SyncMap.keys]
  · intro hs ms hm hb
    have hsh : s.Shaped := by
      rcases hs with h | ⟨expire, ops, h⟩
      · exact h
      · rw [h]; exact Shaped_run expire ops Shaped_NewLoadStats
    have hms : ms.Shaped := Shaped_of_Load hsh hm
    have hsz : 0 ≤ ms.Size := by
      rw [ModelStats.Size_of_Shaped hms hb]
      exact Int.ofNat_nonneg _
    have heng : ∀ ip, s.engine c ip = ms.Engines.Load ip := by
      intro ip
      unfold engine
      rw [hm]
    have hmem : ∀ ip e, (e ∈ ms.Engines.map Prod.snd ∧ e.Ip = ip) ↔ s.engine c ip = some e := by
      intro ip e
      rw [heng]
      constructor
      · rintro ⟨he, hip⟩
        obtain ⟨kv, hkv, rfl⟩ := List.mem_map.mp he
        have h1 := SyncMap.Load_of_mem_of_nodup hms.1 hkv
        have h2 := hms.2.2 kv hkv
        rw [← hip, h2]
        exact h1
      · intro he
        refine ⟨List.mem_map.mpr ⟨(ip, e), SyncMap.mem_of_Load_eq_some he, rfl⟩, ?_⟩
        exact ModelStats.Ip_of_Load hms he
    refine ⟨ms.Engines.map Prod.snd, hq ms hm hsz, ?_, ?_, ?_, hmem, ?_⟩
    · simp [SyncMap.keys]
    · exact ModelStats.map_Ip_of_Shaped hms
    · rw [ModelStats.map_Ip_of_Shaped hms]
      exact hms.1
    · intro e he
      have h1 := (hmem e.Ip e).mp ⟨he, rfl⟩
      unfold queued aggregate
      rw [h1]
      exact ⟨rfl, rfl⟩

end LoadAPI
namespace ModelStats

/-- C13. The cached engine count follows the engine map. Let `ms` be the
model reached from `NewModelStats` by any sequence of `LoadOrStore`, `Load`
and `Delete` calls. The engine keys of `ms` are unique and `Size()` is their
number as an `int32`; with fewer than `2^31` engines, as assumed here,
`Size()` equals the number of keys. `LoadOrStore` of an ip that is present
returns the stored engine and leaves `Size()` and the engine map unchanged;
`Delete` of an absent ip leaves them unchanged. The same count holds for
every model of every store reached from the empty store by `Set`, delete
attempts and sweeps. -/
theorem Size_eq_number_of_engines (name : String) (t0 : Int) (ops : List (ModelOp × Int))
    (ms : ModelStats) (hreach : ms = (NewModelStats name t0).runOps ops)
    (hbound : ms.Engines.keys.length < 2147483648) :
    ms.Size = (ms.Engines.keys.length : Int) ∧
    ms.Engines.keys.Nodup ∧
    (∀ ip e now, ms.Engines.Load ip = some e →
      (ms.LoadOrStore ip now).2 = e ∧ (ms.LoadOrStore ip now).1.Size = ms.Size ∧
      (ms.LoadOrStore ip now).1.Engines = ms.Engines) ∧
    (∀ ip now, ip ∉ ms.Engines.keys →
      (ms.Delete ip now).Size = ms.Size ∧ (ms.Delete ip now).Engines = ms.Engines) ∧
    (∀ ops2, ((NewModelStats name t0).runOps ops2).Size =
      wrap32 (((NewModelStats name t0).runOps ops2).Engines.keys.length : Int)) ∧
    (∀ expire sops c m,
      (LoadStats.run expire NewLoadStats sops).RunningModelStats.Load c = some m →
      m.Size = wrap32 (m.Engines.keys.length : Int) ∧
      (m.Engines.keys.length < 2147483648 → m.Size = (m.Engines.keys.length : Int))) := by
  have hsh : ms.Shaped := by
    rw [hreach]
    exact Shaped_runOps ops (Shaped_NewModelStats name t0)
  refine ⟨Size_of_Shaped hsh hbound, hsh.1, ?_, ?_, ?_, ?_⟩
  · intro ip e now he
    rw [LoadOrStore_of_present ms he now]
    exact ⟨rfl, rfl, rfl⟩
  · intro ip now hip
    rw [Delete_of_absent ms (SyncMap.Load_eq_none_of_not_mem_keys hip) now]
    exact ⟨rfl, rfl⟩
  · intro ops2
    exact (Shaped_runOps ops2 (Shaped_NewModelStats name t0)).2.1
  · intro expire sops c m hm
    have h1 : m.Shaped :=
      LoadStats.Shaped_of_Load (LoadStats.Shaped_run expire sops LoadStats.Shaped_NewLoadStats) hm
    exact ⟨h1.2.1, fun hb => Size_of_Shaped h1 hb⟩

/-- The statement of `Size_eq_number_of_engines` on the call sequence of
`TestNewModelStats` up to its first two deletions: two engines are stored,
one is deleted, `Size()` is 1. -/
theorem Size_eq_number_of_engines_witness :
    ((NewModelStats "unit-test" 0).runOps
      [(ModelOp.loadOrStore "192.168.100.1", 1), (ModelOp.loadOrStore "192.168.100.1", 2),
       (ModelOp.loadOrStore "192.168.100.2", 3), (ModelOp.delete "192.168.100.1", 4),
       (ModelOp.delete "192.168.100.1", 5)]).Size = 1 :=
  (Size_eq_number_of_engines "unit-test" 0
    [(ModelOp.loadOrStore "192.168.100.1", 1), (ModelOp.loadOrStore "192.168.100.1", 2),
     (ModelOp.loadOrStore "192.168.100.2", 3), (ModelOp.delete "192.168.100.1", 4),
     (ModelOp.delete "192.168.100.1", 5)] _ rfl (by decide)).1.trans (by decide)

end ModelStats

/-! ### The handler registry and the replica-event endpoint -/

namespace replicator

variable {σ : Type}

theorem Register_of_fresh (g : SyncMap (EventHandler σ)) {t : String} (f : EventHandler σ)
    (ht : t ≠ "") (hg : g.Load t = none) : Register g t (some f) = g.put t f := by
  unfold Register
  simp [ht, hg]

theorem Register_of_present (g : SyncMap (EventHandler σ)) {t : String}
    (h : Option (EventHandler σ)) (hg : g.Load t ≠ none) : Register g t h = g := by
  unfold Register
  cases hl : g.Load t with
  | none => exact absurd hl hg
  | some f0 =>
    by_cases ht : t = ""
    · simp [ht]
    · cases h <;> simp [ht, hl]

theorem Register_of_empty (g : SyncMap (EventHandler σ)) (h : Option (EventHandler σ)) :
    Register g "" h = g := by
  unfold Register
  simp

theorem Register_of_nil (g : SyncMap (EventHandler σ)) (t : String) :
    Register g t none = g := by
  unfold Register
  by_cases ht : t = "" <;> simp [ht]

theorem HandleReplicateEvent_of_handler (msg : String) (g : SyncMap (EventHandler σ))
    {t : String} {f : EventHandler σ} (ht : t ≠ "") (hg : g.Load t = some f) (b : RawMessage)
    (tr : String) (w : σ) :
    HandleReplicateEvent msg g t (Except.ok b) tr w =
      ((f b w).1,
        match (f b w).2 with
        | some _ => ginx.ResError tr (InvalidInput msg "handler execute error")
        | none => ginx.ResSuccess tr) := by
  unfold HandleReplicateEvent
  simp only [ht, if_false, hg]
  cases hf : f b w with
  | mk w1 r => cases r <;> rfl

end replicator

namespace replicator

variable {σ : Type}

theorem ResError_InvalidInput (msg reason tr : String) :
    ginx.ResError tr (InvalidInput msg reason) = badRequest msg reason tr := by
  unfold ginx.ResError ginx.ResJSON InvalidInput badRequest Response.GetStatusCode
    ErrorInfo.GetStatusCode InvalidInputCode
  have : Int.tdiv 40001400 100000 = 400 := by decide
  simp [this]

/-- C14. `Register` only ever adds a handler for a new, non-empty event type.
For every registry `g`, event type `t` and handler `h` (`none` for nil):
when `t` is non-empty, `h` is a handler `f` and `t` is not a key of `g`, the
registry afterwards is `g` with the entry `t ↦ f` added; in every other case
it is `g`. Hence a second registration of the same event type changes
nothing, after a duplicate registration the first handler is the one stored
and the one `HandleReplicateEvent` runs, and every entry of `g` is still
there, unchanged, after any call of `Register`. -/
theorem Register_contract (g : SyncMap (EventHandler σ)) (t : String)
    (h : Option (EventHandler σ)) :
    (∀ f, t ≠ "" → h = some f → t ∉ g.keys →
      Register g t h = g.put t f ∧ (Register g t h).Load t = some f ∧
      (Register g t h).keys = g.keys ++ [t]) ∧
    ((t = "" ∨ h = none ∨ t ∈ g.keys) → Register g t h = g) ∧
    (∀ f f2, Register (Register g t (some f)) t f2 = Register g t (some f)) ∧
    (∀ f f2 msg b tr w, t ≠ "" → t ∉ g.keys →
      (Register (Register g t (some f)) t (some f2)).Load t = some f ∧
      (HandleReplicateEvent msg (Register (Register g t (some f)) t (some f2)) t
        (Except.ok b) tr w).1 = (f b w).1) ∧
    (∀ t2 f0, g.Load t2 = some f0 → (Register g t h).Load t2 = some f0) := by
  have hsecond : ∀ f f2, Register (Register g t (some f)) t f2 = Register g t (some f) := by
    intro f f2
    by_cases ht : t = ""
    · subst ht
      rw [Register_of_empty, Register_of_empty]
    · apply Register_of_present
      cases hg : g.Load t with
      | none => rw [Register_of_fresh g f ht hg, SyncMap.Load_put_self]; simp
      | some f0 => rw [Register_of_present g _ (by simp [hg]), hg]; simp
  refine ⟨?_, ?_, hsecond, ?_, ?_⟩
  · intro f ht hh hk
    have hg := SyncMap.Load_eq_none_of_not_mem_keys hk
    rw [hh, Register_of_fresh g f ht hg]
    exact ⟨rfl, SyncMap.Load_put_self _ _ _, SyncMap.keys_put_of_Load_none _ hg _⟩
  · rintro (ht | hh | hk)
    · rw [ht]; exact Register_of_empty g h
    · rw [hh]; exact Register_of_nil g t
    · exact Register_of_present g h (fun hn => (SyncMap.Load_eq_none_iff g t).mp hn hk)
  · intro f f2 msg b tr w ht hk
    have hg := SyncMap.Load_eq_none_of_not_mem_keys hk
    have hl : (Register (Register g t (some f)) t (some f2)).Load t = some f := by
      rw [hsecond, Register_of_fresh g f ht hg]
      exact SyncMap.Load_put_self _ _ _
    refine ⟨hl, ?_⟩
    rw [HandleReplicateEvent_of_handler msg _ ht hl]
  · intro t2 f0 h0
    by_cases hchg : t ≠ "" ∧ h ≠ none ∧ g.Load t = none
    · obtain ⟨ht, hh, hg⟩ := hchg
      obtain ⟨f, rfl⟩ := Option.ne_none_iff_exists'.mp hh
      rw [Register_of_fresh g f ht hg]
      have hne : t ≠ t2 := by
        intro heq
        rw [heq, h0] at hg
        exact Option.noConfusion hg
      rw [SyncMap.Load_put_ne _ hne]
      exact h0
    · have : Register g t h = g := by
        by_cases ht : t = ""
        · rw [ht]; exact Register_of_empty g h
        · by_cases hh : h = none
          · rw [hh]; exact Register_of_nil g t
          · exact Register_of_present g h (fun hn => hchg ⟨ht, hh, hn⟩)
      rw [this]
      exact h0

/-- C15. The replies of `HandleReplicateEvent`. For every registry, header
value `t`, body read result and state `w`: an empty header gives 400
"missing Event-Type header"; otherwise an event type without handler gives
400 "Unsupported event type"; otherwise a failed body read gives 400
"invalid body"; in these three cases the state is `w`: no handler has run.
Otherwise the state afterwards is that of one run of the registered handler
on the body as read, and the reply is 400 "handler execute error", the same
for every error the handler returns, or 200 when it returns nil. -/
theorem HandleReplicateEvent_contract (msg : String) (g : SyncMap (EventHandler σ))
    (t : String) (body : Except GoError RawMessage) (tr : String) (w : σ) :
    (t = "" → HandleReplicateEvent msg g t body tr w =
      (w, badRequest msg "missing Event-Type header" tr)) ∧
    (t ≠ "" → t ∉ g.keys → HandleReplicateEvent msg g t body tr w =
      (w, badRequest msg "Unsupported event type" tr)) ∧
    (∀ f e, t ≠ "" → g.Load t = some f → body = Except.error e →
      HandleReplicateEvent msg g t body tr w = (w, badRequest msg "invalid body" tr)) ∧
    (∀ f b, t ≠ "" → g.Load t = some f → body = Except.ok b →
      (HandleReplicateEvent msg g t body tr w).1 = (f b w).1 ∧
      (∀ e, (f b w).2 = some e → (HandleReplicateEvent msg g t body tr w).2 =
        badRequest msg "handler execute error" tr) ∧
      ((f b w).2 = none → (HandleReplicateEvent msg g t body tr w).2 = okReply tr)) := by
  refine ⟨?_, ?_, ?_, ?_⟩
  · intro ht
    unfold HandleReplicateEvent
    simp only [ht, if_true, ResError_InvalidInput]
  · intro ht hk
    unfold HandleReplicateEvent
    simp only [ht, if_false, SyncMap.Load_eq_none_of_not_mem_keys hk, ResError_InvalidInput]
  · intro f e ht hg hb
    unfold HandleReplicateEvent
    simp only [ht, if_false, hg, hb, ResError_InvalidInput]
  · intro f b ht hg hb
    rw [hb, HandleReplicateEvent_of_handler msg g ht hg]
    refine ⟨rfl, ?_, ?_⟩
    · intro e he
      simp only [he, ResError_InvalidInput]
    · intro he
      simp only [he]
      rfl

end replicator

namespace replicator

/-- After a duplicate registration the endpoint runs the first handler: the
recording handler sees the body once, and a body it rejects is answered with
status 400. -/
theorem HandleReplicateEvent_first_handler_example :
    (HandleReplicateEvent "m" (Register (Register [] "e" (some exRecorder)) "e" (some exSilent))
      "e" (Except.ok "x") "tr" []).1 = ["x"] ∧
    (HandleReplicateEvent "m" (Register (Register [] "e" (some exRecorder)) "e" (some exSilent))
      "e" (Except.ok "bad") "tr" []).2 = badRequest "m" "handler execute error" "tr" := by
  decide

end replicator

/-! ### Service discovery -/

namespace StringSet

theorem mem_insert (m : StringSet) (k h : String) : h ∈ insert m k ↔ h ∈ m ∨ h = k := by
  unfold insert
  by_cases hk : k ∈ m
  · simp only [hk, if_true]
    constructor
    · exact Or.inl
    · rintro (h1 | h1)
      · exact h1
      · rw [h1]; exact hk
  · simp [hk]

theorem nodup_insert (m : StringSet) (k : String) (hm : m.Nodup) : (insert m k).Nodup := by
  unfold insert
  by_cases hk : k ∈ m
  · simp only [hk, if_true]; exact hm
  · simp only [hk, if_false]
    rw [List.nodup_append]
    refine ⟨hm, List.nodup_singleton k, ?_⟩
    intro a ha hb
    rw [List.mem_singleton] at hb
    rw [hb] at ha
    exact hk ha

theorem mem_foldl_insert (L : List String) (acc : StringSet) (h : String) :
    h ∈ L.foldl insert acc ↔ h ∈ acc ∨ h ∈ L := by
  induction L generalizing acc with
  | nil => simp
  | cons a rest ih =>
    rw [List.foldl_cons, ih, mem_insert, List.mem_cons]
    tauto

theorem nodup_foldl_insert (L : List String) (acc : StringSet) (hacc : acc.Nodup) :
    (L.foldl insert acc).Nodup := by
  induction L generalizing acc with
  | nil => exact hacc
  | cons a rest ih => exact ih (insert acc a) (nodup_insert acc a hacc)

theorem foldl_delete (N L : List String) (acc : StringSet) :
    L.foldl (fun nl oldHost => if oldHost ∈ N then nl else delete nl oldHost) acc =
      acc.filter (fun x => decide (x ∈ N ∨ x ∉ L)) := by
  induction L generalizing acc with
  | nil => simp
  | cons a rest ih =>
    rw [List.foldl_cons, ih]
    by_cases ha : a ∈ N
    · simp only [ha, if_true]
      apply List.filter_congr
      intro x _
      by_cases hx : x = a
      · subst hx; simp [ha]
      · simp [hx]
    · simp only [ha, if_false]
      unfold delete
      rw [List.filter_filter]
      apply List.filter_congr
      intro x _
      by_cases hx : x = a
      · subst hx; simp [ha]
      · simp [hx]

theorem foldl_add (L : List String) (acc : StringSet) :
    L.foldl (fun nl newHost => if newHost ∈ nl then nl else insert nl newHost) acc =
      L.foldl insert acc := by
  have : (fun (nl : StringSet) (newHost : String) =>
      if newHost ∈ nl then nl else insert nl newHost) = insert := by
    funext nl newHost
    unfold insert
    by_cases h : newHost ∈ nl <;> simp [h]
  rw [this]

theorem foldl_exclude (lh : String) (L acc : List String) :
    L.foldl (fun acc host => if host = lh then acc else acc ++ [host]) acc =
      acc ++ L.filter (fun x => decide (x ≠ lh)) := by
  induction L generalizing acc with
  | nil => simp
  | cons a rest ih =>
    rw [List.foldl_cons, ih]
    by_cases ha : a = lh
    · simp [ha]
    · simp [ha, List.filter_cons]

end StringSet

namespace dnsServiceDiscovery

theorem dnsLookUp_error (sd : dnsServiceDiscovery) (e : GoError) :
    sd.dnsLookUp (Except.error e) = sd := rfl

theorem dnsLookUp_localHost (sd : dnsServiceDiscovery) (r : Except GoError (List String)) :
    (sd.dnsLookUp r).localHost = sd.localHost := by
  cases r <;> rfl

theorem dnsLookUp_hosts (sd : dnsServiceDiscovery) (L : List String) :
    (sd.dnsLookUp (Except.ok L)).hosts =
      (sd.dnsLookUp (Except.ok L)).nodeList.filter (fun x => decide (x ≠ sd.localHost)) := by
  show List.foldl _ [] _ = _
  rw [StringSet.foldl_exclude]
  simp
  rfl

theorem dnsLookUp_nodeList (sd : dnsServiceDiscovery) (L : List String) :
    (sd.dnsLookUp (Except.ok L)).nodeList =
      List.foldl StringSet.insert
        (sd.nodeList.filter (fun x => decide (x ∈ L.foldl StringSet.insert []))) 
        (L.foldl StringSet.insert []) := by
  show List.foldl _ (List.foldl _ sd.nodeList sd.nodeList) _ = _
  rw [StringSet.foldl_add, StringSet.foldl_delete]
  congr 1
  apply List.filter_congr
  intro x hx
  simp [hx]

theorem mem_nodeList_dnsLookUp (sd : dnsServiceDiscovery) (L : List String) (h : String) :
    h ∈ (sd.dnsLookUp (Except.ok L)).nodeList ↔ h ∈ L := by
  have hnew : ∀ x, x ∈ L.foldl StringSet.insert [] ↔ x ∈ L := by
    intro x
    rw [StringSet.mem_foldl_insert]
    simp
  rw [dnsLookUp_nodeList, StringSet.mem_foldl_insert, List.mem_filter]
  simp only [decide_eq_true_eq]
  constructor
  · rintro (⟨_, h2⟩ | h2) <;> exact (hnew h).mp h2
  · intro h2
    exact Or.inr ((hnew h).mpr h2)

theorem nodup_nodeList_dnsLookUp (sd : dnsServiceDiscovery) (L : List String)
    (hnd : sd.nodeList.Nodup) : (sd.dnsLookUp (Except.ok L)).nodeList.Nodup := by
  rw [dnsLookUp_nodeList]
  exact StringSet.nodup_foldl_insert _ _ (hnd.filter _)

theorem mem_hosts_dnsLookUp (sd : dnsServiceDiscovery) (L : List String) (h : String) :
    h ∈ (sd.dnsLookUp (Except.ok L)).GetHosts ↔ h ∈ L ∧ h ≠ sd.localHost := by
  unfold GetHosts
  rw [dnsLookUp_hosts, List.mem_filter, mem_nodeList_dnsLookUp]
  simp

theorem nodup_hosts_dnsLookUp (sd : dnsServiceDiscovery) (L : List String)
    (hnd : sd.nodeList.Nodup) : (sd.dnsLookUp (Except.ok L)).GetHosts.Nodup := by
  unfold GetHosts
  rw [dnsLookUp_hosts]
  exact (nodup_nodeList_dnsLookUp sd L hnd).filter _

theorem lookups_invariant (lh : String) (results : List (Except GoError (List String)))
    (sd : dnsServiceDiscovery)
    (h : sd.localHost = lh ∧ sd.nodeList.Nodup ∧ sd.hosts.Nodup ∧ lh ∉ sd.hosts ∧
      ∀ x ∈ sd.hosts, x ∈ sd.nodeList) :
    (sd.lookups results).localHost = lh ∧ (sd.lookups results).nodeList.Nodup ∧
      (sd.lookups results).hosts.Nodup ∧ lh ∉ (sd.lookups results).hosts ∧
      ∀ x ∈ (sd.lookups results).hosts, x ∈ (sd.lookups results).nodeList := by
  induction results generalizing sd with
  | nil => exact h
  | cons r rest ih =>
    apply ih
    obtain ⟨h1, h2, h3, h4, h5⟩ := h
    cases r with
    | error e => exact ⟨h1, h2, h3, h4, h5⟩
    | ok L =>
      refine ⟨h1, nodup_nodeList_dnsLookUp sd L h2, nodup_hosts_dnsLookUp sd L h2, ?_, ?_⟩
      · intro hmem
        have := (mem_hosts_dnsLookUp sd L lh).mp hmem
        exact this.2 h1.symm
      · intro x hx
        rw [mem_nodeList_dnsLookUp]
        exact ((mem_hosts_dnsLookUp sd L x).mp hx).1

theorem lookups_invariant_new (lh : String) (results : List (Except GoError (List String))) :
    ((NewDNSDiscovery lh).lookups results).localHost = lh ∧
      ((NewDNSDiscovery lh).lookups results).nodeList.Nodup ∧
      ((NewDNSDiscovery lh).lookups results).hosts.Nodup ∧
      lh ∉ ((NewDNSDiscovery lh).lookups results).hosts ∧
      ∀ x ∈ ((NewDNSDiscovery lh).lookups results).hosts,
        x ∈ ((NewDNSDiscovery lh).lookups results).nodeList := by
  apply lookups_invariant
  unfold NewDNSDiscovery
  simp

end dnsServiceDiscovery

namespace dnsServiceDiscovery

/-- C16. The peer list after DNS lookups. In every state reached from
`NewDNSDiscovery` by lookups (failed or successful), `GetHosts` does not
contain the local host. After a further lookup that resolves to the address
list `L`, `GetHosts` has no duplicates and contains exactly the addresses of
`L` other than the local host: a host of the previous list that is not in `L`
is gone, and every host of `L` other than the local host is listed. -/
theorem GetHosts_after_lookups (localHost : String)
    (results : List (Except GoError (List String))) (L : List String) :
    localHost ∉ ((NewDNSDiscovery localHost).lookups results).GetHosts ∧
    (((NewDNSDiscovery localHost).lookups results).dnsLookUp (Except.ok L)).GetHosts.Nodup ∧
    (∀ h, h ∈ (((NewDNSDiscovery localHost).lookups results).dnsLookUp (Except.ok L)).GetHosts ↔
      h ∈ L ∧ h ≠ localHost) ∧
    (∀ h, h ∈ ((NewDNSDiscovery localHost).lookups results).GetHosts → h ∉ L →
      h ∉ (((NewDNSDiscovery localHost).lookups results).dnsLookUp (Except.ok L)).GetHosts) ∧
    (∀ h, h ∉ ((NewDNSDiscovery localHost).lookups results).GetHosts → h ∈ L → h ≠ localHost →
      h ∈ (((NewDNSDiscovery localHost).lookups results).dnsLookUp (Except.ok L)).GetHosts) := by
  obtain ⟨h1, h2, _, h4, _⟩ := lookups_invariant_new localHost results
  have hmem : ∀ h,
      h ∈ (((NewDNSDiscovery localHost).lookups results).dnsLookUp (Except.ok L)).GetHosts ↔
        h ∈ L ∧ h ≠ localHost := by
    intro h
    rw [mem_hosts_dnsLookUp, h1]
  refine ⟨h4, nodup_hosts_dnsLookUp _ L h2, hmem, ?_, ?_⟩
  · intro h _ hL hmem2
    exact hL ((hmem h).mp hmem2).1
  · intro h _ hL hne
    exact (hmem h).mpr ⟨hL, hne⟩

/-- C18. A lookup whose resolver returns an error changes nothing: the state
afterwards is the state before, so the set of known nodes and the list that
`GetHosts` returns are the ones of the last successful lookup. -/
theorem dnsLookUp_resolver_error (sd : dnsServiceDiscovery) (e : GoError) :
    sd.dnsLookUp (Except.error e) = sd ∧
    (sd.dnsLookUp (Except.error e)).nodeList = sd.nodeList ∧
    (sd.dnsLookUp (Except.error e)).GetHosts = sd.GetHosts ∧
    (∀ results, (sd.lookups (results ++ [Except.error e])).GetHosts =
      (sd.lookups results).GetHosts) := by
  refine ⟨rfl, rfl, rfl, ?_⟩
  intro results
  unfold lookups
  rw [List.foldl_append]
  rfl

end dnsServiceDiscovery

/-! ### The sender -/

namespace Replicator

theorem replicate_fold (traceID eventType : String) (body : RawMessage) (hosts : List String)
    (acc : List SendTask) :
    hosts.foldl
        (fun tasks host =>
          tasks ++ [{ targetHost := host, traceID := traceID, eventType := eventType,
                      body := body }])
        acc =
      acc ++ hosts.map (fun host =>
        { targetHost := host, traceID := traceID, eventType := eventType, body := body }) := by
  induction hosts generalizing acc with
  | nil => simp
  | cons h rest ih => rw [List.foldl_cons, ih]; simp

theorem length_sendLoop_le (newRequestOk : Bool) (doResult : Nat → DoResult)
    (remaining attempt : Nat) :
    (sendLoop newRequestOk doResult remaining attempt).length ≤ remaining := by
  induction remaining generalizing attempt with
  | zero => simp [sendLoop]
  | succ n ih =>
    unfold sendLoop
    cases newRequestOk with
    | false => simp
    | true =>
      simp only [if_true]
      cases h : doResult attempt with
      | transportError e =>
        simp only [List.length_cons]
        exact Nat.succ_le_succ (ih (attempt + 1))
      | response code =>
        simp only []
        by_cases hc : code = 200
        · simp [hc]
        · simp only [hc, if_false, List.length_cons]
          exact Nat.succ_le_succ (ih (attempt + 1))

/-- C19. One task per peer, at most two attempts per task. `replicate`
starts no task when the host list is empty; for a non-empty host list and a
payload marshalled to `body` it starts one task per entry of the list, in
order, all with that same `body` (and none when marshalling fails). A task
whose request can be built sends exactly one POST when the first attempt is
answered with status 200, and exactly two, attempts 0 and 1, when the first
attempt fails with a transport error or is answered with another status,
whatever the result of the second attempt; no task sends more than two. -/
theorem replicate_attempts (hosts : List String) (marshal : Except GoError RawMessage)
    (traceID eventType : String) (newRequestOk : Bool) (doResult : Nat → DoResult) :
    (hosts = [] → replicate hosts marshal traceID eventType = []) ∧
    (∀ body, hosts ≠ [] → marshal = Except.ok body →
      replicate hosts marshal traceID eventType =
        hosts.map (fun host =>
          { targetHost := host, traceID := traceID, eventType := eventType, body := body }) ∧
      (replicate hosts marshal traceID eventType).length = hosts.length ∧
      (replicate hosts marshal traceID eventType).map (fun task => task.targetHost) = hosts ∧
      ∀ task ∈ replicate hosts marshal traceID eventType, task.body = body) ∧
    (∀ e, marshal = Except.error e → replicate hosts marshal traceID eventType = []) ∧
    (doResult 0 = DoResult.response 200 → sendRequestWithRetry true doResult = [0]) ∧
    (∀ e, doResult 0 = DoResult.transportError e → sendRequestWithRetry true doResult = [0, 1]) ∧
    (∀ code, code ≠ 200 → doResult 0 = DoResult.response code →
      sendRequestWithRetry true doResult = [0, 1]) ∧
    (sendRequestWithRetry newRequestOk doResult).length ≤ 2 := by
  have hsecond : sendLoop true doResult 1 1 = [1] := by
    unfold sendLoop
    simp only [if_true]
    cases h : doResult 1 with
    | transportError e => simp [sendLoop]
    | response code =>
      simp only []
      by_cases hc : code = 200 <;> simp [hc, sendLoop]
  refine ⟨?_, ?_, ?_, ?_, ?_, ?_, ?_⟩
  · intro h
    rw [h]
    rfl
  · intro body hne hm
    have hlen : ¬ hosts.length = 0 := fun h0 => hne (List.length_eq_zero.mp h0)
    have heq : replicate hosts marshal traceID eventType =
        hosts.map (fun host =>
          { targetHost := host, traceID := traceID, eventType := eventType, body := body }) := by
      unfold replicate
      simp only [hlen, if_false, hm]
      rw [replicate_fold]
      simp
    refine ⟨heq, ?_, ?_, ?_⟩
    · rw [heq]; simp
    · rw [heq, List.map_map]
      exact List.map_id _
    · intro task htask
      rw [heq] at htask
      obtain ⟨host, _, rfl⟩ := List.mem_map.mp htask
      rfl
  · intro e hm
    unfold replicate
    by_cases h0 : hosts.length = 0 <;> simp [h0, hm]
  · intro h
    unfold sendRequestWithRetry maxAttempts sendLoop
    simp [h]
  · intro e h
    unfold sendRequestWithRetry maxAttempts sendLoop
    simp only [if_true, h, Nat.zero_add, hsecond]
  · intro code hc h
    unfold sendRequestWithRetry maxAttempts sendLoop
    simp only [if_true, h, hc, if_false, Nat.zero_add, hsecond]
  · exact length_sendLoop_le newRequestOk doResult 2 0

end Replicator

/-! ### The replication latency metric -/

namespace prom

theorem wrap64_of_isInt64 {x : Int} (h : isInt64 x) : wrap64 x = x := by
  unfold isInt64 at h
  unfold wrap64
  omega

/-- C20. For an `int64` origin timestamp `ts` and a clock reading `now ≥ 0`
of `time.Now().UnixNano()` (an `int64`, a time not before 1970) the difference
`now - ts` computed for a timestamp `ts > 0` does not wrap, and
`SetReplicationLatencyMillisecond` records exactly one sample, the one of
`now - ts` nanoseconds, that is `(now - ts) / 1,000,000` milliseconds, iff
`ts > 0` and `now - ts ≥ 0`; it records nothing when `ts ≤ 0` or `now < ts`,
and never more than one sample. -/
theorem latency_sample (ts now : Int) (hts : isInt64 ts) (hnow : isInt64 now)
    (h0 : 0 ≤ now) :
    SetReplicationLatencyMillisecond ts now =
      (if ts > 0 ∧ now - ts ≥ 0 then [{ nanos := now - ts }] else []) ∧
    (SetReplicationLatencyMillisecond ts now = [{ nanos := now - ts }] ↔
      ts > 0 ∧ now - ts ≥ 0) ∧
    (SetReplicationLatencyMillisecond ts now ≠ [] ↔ ts > 0 ∧ now - ts ≥ 0) ∧
    (ts ≤ 0 ∨ now < ts → SetReplicationLatencyMillisecond ts now = []) ∧
    (SetReplicationLatencyMillisecond ts now).length ≤ 1 := by
  have hw : ts > 0 → wrap64 (now - ts) = now - ts := by
    intro hpos
    apply wrap64_of_isInt64
    unfold isInt64 at *
    omega
  have hdef : SetReplicationLatencyMillisecond ts now =
      (if ts > 0 ∧ now - ts ≥ 0 then [{ nanos := now - ts }] else []) := by
    unfold SetReplicationLatencyMillisecond
    by_cases h1 : ts > 0
    · simp only [h1, if_true, true_and, hw h1]
    · simp [h1]
  refine ⟨hdef, ?_, ?_, ?_, ?_⟩
  · rw [hdef]
    by_cases h : ts > 0 ∧ now - ts ≥ 0 <;> simp [h]
  · rw [hdef]
    by_cases h : ts > 0 ∧ now - ts ≥ 0 <;> simp [h]
  · intro h
    rw [hdef]
    have : ¬ (ts > 0 ∧ now - ts ≥ 0) := by omega
    rw [if_neg this]
  · rw [hdef]
    split <;> simp

/-- The statement of `latency_sample` for a timestamp 50 ms before the clock
reading: one sample of 50,000,000 ns; and for a timestamp 50 ms after it:
none. -/
theorem latency_sample_witness :
    isInt64 1700000000000000000 ∧ isInt64 1700000000050000000 ∧
    (0 : Int) ≤ 1700000000050000000 ∧
    SetReplicationLatencyMillisecond 1700000000000000000 1700000000050000000 =
      [{ nanos := 50000000 }] ∧
    SetReplicationLatencyMillisecond 1700000000050000000 1700000000000000000 = [] :=
  ⟨by decide, by decide, by decide,
    (latency_sample 1700000000000000000 1700000000050000000 (by decide) (by decide)
      (by decide)).1.trans (by decide),
    (latency_sample 1700000000050000000 1700000000000000000 (by decide) (by decide)
      (by decide)).2.2.2.1 (Or.inr (by decide))⟩

end prom

/-! ### Binding, replies and replica payloads -/

theorem ParseJSONFailed_Code (reason : String) :
    (ParseJSONFailed reason).Code = InvalidInputCode := by
  unfold ParseJSONFailed
  split
  · rfl
  · split
    · rfl
    · split <;> rfl

theorem ParseJSONFailed_Reason (reason : String) : (ParseJSONFailed reason).Reason = reason := by
  unfold ParseJSONFailed
  split
  · rfl
  · split
    · rfl
    · split <;> rfl

theorem ParseJSONFailed_GetStatusCode (reason : String) :
    (ParseJSONFailed reason).GetStatusCode = 400 := by
  unfold ErrorInfo.GetStatusCode
  rw [ParseJSONFailed_Code]
  decide

theorem ResError_ParseJSONFailed (traceID reason : String) :
    ginx.ResError traceID (ParseJSONFailed reason) =
      { status := 400,
        body := { Code := 400, Status := "ERROR", Error := some (ParseJSONFailed reason),
                  TraceID := traceID } } := by
  unfold ginx.ResError ginx.ResJSON Response.GetStatusCode
  rw [ParseJSONFailed_GetStatusCode]

namespace InferenceRequest

theorem ShouldBindJSON_of_decode_error (lib : Libraries) (body : RawMessage) {err : GoError}
    (h : lib.decodeFirst body = Except.error err) :
    ShouldBindJSON lib body = Except.error err := by
  unfold ShouldBindJSON Decode
  rw [h]

theorem ShouldBindJSON_of_invalid (lib : Libraries) (body : RawMessage) {req : InferenceRequest}
    (h : Decode lib body = Except.ok req) (hv : validationErrors lib req ≠ []) :
    ShouldBindJSON lib body =
      Except.error (String.intercalate "\n" (validationErrors lib req)) := by
  unfold ShouldBindJSON
  rw [h]
  simp only [hv, if_false]

theorem ShouldBindJSON_of_valid (lib : Libraries) (body : RawMessage) {req : InferenceRequest}
    (h : Decode lib body = Except.ok req) (hv : validationErrors lib req = []) :
    ShouldBindJSON lib body = Except.ok req := by
  unfold ShouldBindJSON
  rw [h]
  simp only [hv, if_true]

theorem validationErrors_ne_nil (lib : Libraries) (req : InferenceRequest)
    (h : req.Cluster = "" ∨ req.RequestId = "" ∨ req.Ip = "" ∨ lib.ipv4 req.Ip = false ∨
      req.PromptLength < 0) : validationErrors lib req ≠ [] := by
  unfold validationErrors
  intro hnil
  simp only [List.append_eq_nil] at hnil
  obtain ⟨⟨⟨h1, h2⟩, h3⟩, h4⟩ := hnil
  rcases h with h | h | h | h | h
  · simp [h] at h1
  · simp [h] at h2
  · simp [h] at h4
  · by_cases hip : req.Ip = ""
    · simp [hip] at h4
    · simp [hip, h] at h4
  · simp [h] at h3

theorem validationErrors_eq_nil (lib : Libraries) (req : InferenceRequest)
    (h1 : req.Cluster ≠ "") (h2 : req.RequestId ≠ "") (h3 : req.Ip ≠ "")
    (h4 : lib.ipv4 req.Ip = true) (h5 : 0 ≤ req.PromptLength) :
    validationErrors lib req = [] := by
  unfold validationErrors
  have h6 : ¬ req.PromptLength < 0 := by omega
  simp [h1, h2, h3, h4, h6]

end InferenceRequest

namespace DeletionInferenceRequest

theorem ShouldBindJSON_deletion_of_decode_error (lib : Libraries) (body : RawMessage)
    {err : GoError}
    (h : lib.decodeFirst body = Except.error err) :
    ShouldBindJSON lib body = Except.error err := by
  unfold ShouldBindJSON Decode
  rw [h]

theorem ShouldBindJSON_deletion_of_invalid (lib : Libraries) (body : RawMessage)
    {req : DeletionInferenceRequest} (h : Decode lib body = Except.ok req)
    (hv : req.RequestId = "") :
    ShouldBindJSON lib body =
      Except.error (fieldError "DeletionInferenceRequest.RequestId" "RequestId" "required") := by
  unfold ShouldBindJSON
  rw [h]
  simp [validationErrors, hv, String.intercalate, String.intercalate.go]

end DeletionInferenceRequest

namespace InferenceRequest

theorem decodeMember_Cluster (lib : Libraries) (acc : InferenceRequest × Option GoError)
    (kv : String × JSONField) (h : fieldOfKey lib jsonNames kv.1 ≠ some "cluster") :
    (decodeMember lib acc kv).1.Cluster = acc.1.Cluster := by
  unfold decodeMember
  cases hf : fieldOfKey lib jsonNames kv.1 with
  | none => rfl
  | some name =>
    have hne : name ≠ "cluster" := by
      intro heq
      rw [hf, heq] at h
      exact h rfl
    simp only [hne, if_false]
    split
    · rfl
    · split
      · rfl
      · split <;> rfl

theorem decodeMember_RequestId (lib : Libraries) (acc : InferenceRequest × Option GoError)
    (kv : String × JSONField) (h : fieldOfKey lib jsonNames kv.1 ≠ some "request_id") :
    (decodeMember lib acc kv).1.RequestId = acc.1.RequestId := by
  unfold decodeMember
  cases hf : fieldOfKey lib jsonNames kv.1 with
  | none => rfl
  | some name =>
    have hne : name ≠ "request_id" := by
      intro heq
      rw [hf, heq] at h
      exact h rfl
    simp only [hne, if_false]
    split
    · rfl
    · split
      · rfl
      · split <;> rfl

theorem decodeMember_Ip (lib : Libraries) (acc : InferenceRequest × Option GoError)
    (kv : String × JSONField) (h : fieldOfKey lib jsonNames kv.1 ≠ some "ip") :
    (decodeMember lib acc kv).1.Ip = acc.1.Ip := by
  unfold decodeMember
  cases hf : fieldOfKey lib jsonNames kv.1 with
  | none => rfl
  | some name =>
    have hne : name ≠ "ip" := by
      intro heq
      rw [hf, heq] at h
      exact h rfl
    simp only [hne, if_false]
    split
    · rfl
    · split
      · rfl
      · split <;> rfl

theorem foldl_decodeMember_keeps (lib : Libraries) (f : InferenceRequest → String)
    (name : String)
    (hstep : ∀ acc kv, fieldOfKey lib jsonNames kv.1 ≠ some name →
      f (decodeMember lib acc kv).1 = f acc.1)
    (members : List (String × JSONField)) (acc : InferenceRequest × Option GoError)
    (h : ∀ kv ∈ members, fieldOfKey lib jsonNames kv.1 ≠ some name) :
    f (members.foldl (decodeMember lib) acc).1 = f acc.1 := by
  induction members generalizing acc with
  | nil => rfl
  | cons kv rest ih =>
    rw [List.foldl_cons, ih _ (fun x hx => h x (List.mem_cons_of_mem _ hx)),
      hstep acc kv (h kv (List.mem_cons_self _ _))]

theorem Decode_object (lib : Libraries) (body : RawMessage)
    {members : List (String × JSONField)} {req : InferenceRequest}
    (hd : lib.decodeFirst body = Except.ok (JSONDoc.object members))
    (hu : Decode lib body = Except.ok req) :
    req = (members.foldl (decodeMember lib) (zero, none)).1 := by
  unfold Decode at hu
  rw [hd] at hu
  simp only [] at hu
  cases hf : members.foldl (decodeMember lib) (zero, none) with
  | mk r e =>
    rw [hf] at hu
    cases e with
    | none =>
      simp only [Except.ok.injEq] at hu
      exact hu.symm
    | some err => cases hu

end InferenceRequest

namespace DeletionInferenceRequest

theorem decodeMember_deletion_RequestId (lib : Libraries)
    (acc : DeletionInferenceRequest × Option GoError) (kv : String × JSONField)
    (h : fieldOfKey lib jsonNames kv.1 ≠ some "request_id") :
    (decodeMember lib acc kv).1.RequestId = acc.1.RequestId := by
  unfold decodeMember
  cases hf : fieldOfKey lib jsonNames kv.1 with
  | none => rfl
  | some name =>
    have hne : name ≠ "request_id" := by
      intro heq
      rw [hf, heq] at h
      exact h rfl
    simp only [hne, if_false]

theorem foldl_decodeMember_RequestId (lib : Libraries) (members : List (String × JSONField))
    (acc : DeletionInferenceRequest × Option GoError)
    (h : ∀ kv ∈ members, fieldOfKey lib jsonNames kv.1 ≠ some "request_id") :
    (members.foldl (decodeMember lib) acc).1.RequestId = acc.1.RequestId := by
  induction members generalizing acc with
  | nil => rfl
  | cons kv rest ih =>
    rw [List.foldl_cons, ih _ (fun x hx => h x (List.mem_cons_of_mem _ hx)),
      decodeMember_deletion_RequestId lib acc kv (h kv (List.mem_cons_self _ _))]

theorem Decode_deletion_object (lib : Libraries) (body : RawMessage)
    {members : List (String × JSONField)} {req : DeletionInferenceRequest}
    (hd : lib.decodeFirst body = Except.ok (JSONDoc.object members))
    (hu : Decode lib body = Except.ok req) :
    req = (members.foldl (decodeMember lib) (zero, none)).1 := by
  unfold Decode at hu
  rw [hd] at hu
  simp only [] at hu
  cases hf : members.foldl (decodeMember lib) (zero, none) with
  | mk r e =>
    rw [hf] at hu
    cases e with
    | none =>
      simp only [Except.ok.injEq] at hu
      exact hu.symm
    | some err => cases hu

end DeletionInferenceRequest

namespace LoadAPI

theorem Set_of_bind_error (lib : Libraries) (hosts : List String) (traceID ctxTraceID : String)
    (body : RawMessage) (s : LoadStats) (now : Int) {err : GoError}
    (h : InferenceRequest.ShouldBindJSON lib body = Except.error err) :
    Set lib hosts traceID ctxTraceID body s now =
      { store := s, retryScheduled := false, tasks := [],
        reply := ginx.ResError traceID (ParseJSONFailed err) } := by
  unfold Set
  rw [h]

theorem Delete_of_bind_error (lib : Libraries) (hosts : List String)
    (traceID ctxTraceID : String) (body : RawMessage) (s : LoadStats) (now : Int)
    {err : GoError} (h : DeletionInferenceRequest.ShouldBindJSON lib body = Except.error err) :
    Delete lib hosts traceID ctxTraceID body s now =
      { store := s, retryScheduled := false, tasks := [],
        reply := ginx.ResError traceID (ParseJSONFailed err) } := by
  unfold Delete
  rw [h]

theorem DeletePrompt_of_bind_error (lib : Libraries) (hosts : List String)
    (traceID ctxTraceID : String) (body : RawMessage) (s : LoadStats) (now : Int)
    {err : GoError} (h : DeletionInferenceRequest.ShouldBindJSON lib body = Except.error err) :
    DeletePrompt lib hosts traceID ctxTraceID body s now =
      { store := s, retryScheduled := false, tasks := [],
        reply := ginx.ResError traceID (ParseJSONFailed err) } := by
  unfold DeletePrompt
  rw [h]

/-- C21, as stated, fails for a body that is not valid JSON but starts with a
valid object. The body of request `"1"` followed by the word `trailing` is
rejected by `json.Unmarshal`, yet the decoder `gin` binds with reads its first
value and nothing more: the `Set` handler answers 200, stores request `"1"`
and replicates it. -/
theorem trailing_bytes_accepted :
    exLibraries.decode exBodyTrailing =
      Except.error "invalid character 't' after top-level value" ∧
    InferenceRequest.ShouldBindJSON exLibraries exBodyTrailing = Except.ok exReq1 ∧
    (Set exLibraries ["10.0.0.2"] "t" "t" exBodyTrailing NewLoadStats 5).reply.status = 200 ∧
    (Set exLibraries ["10.0.0.2"] "t" "t" exBodyTrailing NewLoadStats 5).store = exStore1 ∧
    (Set exLibraries ["10.0.0.2"] "t" "t" exBodyTrailing NewLoadStats 5).store ≠ NewLoadStats ∧
    (Set exLibraries ["10.0.0.2"] "t" "t" exBodyTrailing NewLoadStats 5).tasks =
      [{ targetHost := "10.0.0.2", traceID := "t", eventType := "load.stats.set",
         body := exBodyReq1 }] := by
  set_option maxRecDepth 100000 in
  exact ⟨by rfl, by rfl, by decide, by decide, by decide, by decide⟩

/-- C21, amended. A body that fails binding is rejected before any mutation.
For the `Set` handler: when the first JSON value of the body cannot be decoded
(`gin` reads the first value of the body and not what follows it), or it
decodes to a request with an empty `Cluster`, an empty `RequestId`, an empty
`Ip`, an `Ip` that fails the `ipv4` test, or `PromptLength < 0` (a member that
is missing leaves its field empty), the reply has status 400, the store is
the one before, no retry is scheduled and no send task is started; the same
holds for every other binding error. For the `Delete` and `DeletePrompt`
handlers the same holds when the first JSON value cannot be decoded or decodes
to a request with an empty `RequestId`, in particular when `request_id` is
missing. -/
theorem binding_failure_rejected (lib : Libraries) (hosts : List String)
    (traceID ctxTraceID : String) (body : RawMessage) (s : LoadStats) (now : Int) :
    (((∃ err, lib.decodeFirst body = Except.error err) ∨
        ∃ req, InferenceRequest.Decode lib body = Except.ok req ∧
          (req.Cluster = "" ∨ req.RequestId = "" ∨ req.Ip = "" ∨ lib.ipv4 req.Ip = false ∨
            req.PromptLength < 0)) →
      (Set lib hosts traceID ctxTraceID body s now).reply.status = 400 ∧
      (Set lib hosts traceID ctxTraceID body s now).store = s ∧
      (Set lib hosts traceID ctxTraceID body s now).tasks = [] ∧
      (Set lib hosts traceID ctxTraceID body s now).retryScheduled = false) ∧
    (∀ err, InferenceRequest.ShouldBindJSON lib body = Except.error err →
      Set lib hosts traceID ctxTraceID body s now =
        { store := s, retryScheduled := false, tasks := [],
          reply := { status := 400,
                     body := { Code := 400, Status := "ERROR",
                               Error := some (ParseJSONFailed err), TraceID := traceID } } }) ∧
    (∀ members req, lib.decodeFirst body = Except.ok (JSONDoc.object members) →
      InferenceRequest.Decode lib body = Except.ok req →
      ((∀ kv ∈ members, fieldOfKey lib InferenceRequest.jsonNames kv.1 ≠ some "cluster") →
        req.Cluster = "") ∧
      ((∀ kv ∈ members, fieldOfKey lib InferenceRequest.jsonNames kv.1 ≠ some "request_id") →
        req.RequestId = "") ∧
      ((∀ kv ∈ members, fieldOfKey lib InferenceRequest.jsonNames kv.1 ≠ some "ip") →
        req.Ip = "")) ∧
    (((∃ err, lib.decodeFirst body = Except.error err) ∨
        ∃ req, DeletionInferenceRequest.Decode lib body = Except.ok req ∧
          req.RequestId = "") →
      ((Delete lib hosts traceID ctxTraceID body s now).reply.status = 400 ∧
        (Delete lib hosts traceID ctxTraceID body s now).store = s ∧
        (Delete lib hosts traceID ctxTraceID body s now).tasks = [] ∧
        (Delete lib hosts traceID ctxTraceID body s now).retryScheduled = false) ∧
      ((DeletePrompt lib hosts traceID ctxTraceID body s now).reply.status = 400 ∧
        (DeletePrompt lib hosts traceID ctxTraceID body s now).store = s ∧
        (DeletePrompt lib hosts traceID ctxTraceID body s now).tasks = [] ∧
        (DeletePrompt lib hosts traceID ctxTraceID body s now).retryScheduled = false)) ∧
    (∀ members req, lib.decodeFirst body = Except.ok (JSONDoc.object members) →
      DeletionInferenceRequest.Decode lib body = Except.ok req →
      (∀ kv ∈ members,
        fieldOfKey lib DeletionInferenceRequest.jsonNames kv.1 ≠ some "request_id") →
      req.RequestId = "") := by
  refine ⟨?_, ?_, ?_, ?_, ?_⟩
  · intro hfail
    have hb : ∃ err, InferenceRequest.ShouldBindJSON lib body = Except.error err := by
      rcases hfail with ⟨err, he⟩ | ⟨req, hu, hv⟩
      · exact ⟨err, InferenceRequest.ShouldBindJSON_of_decode_error lib body he⟩
      · exact ⟨_, InferenceRequest.ShouldBindJSON_of_invalid lib body hu
          (InferenceRequest.validationErrors_ne_nil lib req hv)⟩
    obtain ⟨err, he⟩ := hb
    rw [Set_of_bind_error lib hosts traceID ctxTraceID body s now he, ResError_ParseJSONFailed]
    exact ⟨rfl, rfl, rfl, rfl⟩
  · intro err he
    rw [Set_of_bind_error lib hosts traceID ctxTraceID body s now he, ResError_ParseJSONFailed]
  · intro members req hd hu
    have hreq := InferenceRequest.Decode_object lib body hd hu
    refine ⟨?_, ?_, ?_⟩
    · intro h
      rw [hreq]
      exact InferenceRequest.foldl_decodeMember_keeps lib (fun r => r.Cluster) "cluster"
        (InferenceRequest.decodeMember_Cluster lib) members _ h
    · intro h
      rw [hreq]
      exact InferenceRequest.foldl_decodeMember_keeps lib (fun r => r.RequestId) "request_id"
        (InferenceRequest.decodeMember_RequestId lib) members _ h
    · intro h
      rw [hreq]
      exact InferenceRequest.foldl_decodeMember_keeps lib (fun r => r.Ip) "ip"
        (InferenceRequest.decodeMember_Ip lib) members _ h
  · intro hfail
    have hb : ∃ err, DeletionInferenceRequest.ShouldBindJSON lib body = Except.error err := by
      rcases hfail with ⟨err, he⟩ | ⟨req, hu, hv⟩
      · exact ⟨err, DeletionInferenceRequest.ShouldBindJSON_deletion_of_decode_error lib body he⟩
      · exact ⟨_, DeletionInferenceRequest.ShouldBindJSON_deletion_of_invalid lib body hu hv⟩
    obtain ⟨err, he⟩ := hb
    rw [Delete_of_bind_error lib hosts traceID ctxTraceID body s now he,
      DeletePrompt_of_bind_error lib hosts traceID ctxTraceID body s now he,
      ResError_ParseJSONFailed]
    exact ⟨⟨rfl, rfl, rfl, rfl⟩, ⟨rfl, rfl, rfl, rfl⟩⟩
  · intro members req hd hu h
    rw [DeletionInferenceRequest.Decode_deletion_object lib body hd hu]
    exact DeletionInferenceRequest.foldl_decodeMember_RequestId lib members _ h

/-- The handlers on example bodies: a body with an ip that is not an address
and a body that does not start with a JSON value are answered with 400 and leave the store and
the peers alone; the body of request `"1"` is applied and replicated. -/
theorem binding_examples :
    (Set exLibraries ["10.0.0.2"] "t" "t" exBodyBadIp exStore1 7).reply.status = 400 ∧
    (Set exLibraries ["10.0.0.2"] "t" "t" exBodyBadIp exStore1 7).store = exStore1 ∧
    (Set exLibraries ["10.0.0.2"] "t" "t" exBodyBadIp exStore1 7).tasks = [] ∧
    (Delete exLibraries ["10.0.0.2"] "t" "t" "invalid-json" exStore1 7).reply.status = 400 ∧
    (Delete exLibraries ["10.0.0.2"] "t" "t" "invalid-json" exStore1 7).store = exStore1 ∧
    (DeletePrompt exLibraries ["10.0.0.2"] "t" "t" "null" exStore1 7).reply.status = 400 ∧
    (Set exLibraries ["10.0.0.2"] "t" "t" exBodyReq1 NewLoadStats 5).reply.status = 200 ∧
    (Set exLibraries ["10.0.0.2"] "t" "t" exBodyReq1 NewLoadStats 5).store = exStore1 ∧
    (Set exLibraries ["10.0.0.2"] "t" "t" exBodyReq1 NewLoadStats 5).tasks =
      [{ targetHost := "10.0.0.2", traceID := "t", eventType := "load.stats.set",
         body := exBodyReq1 }] := by
  set_option maxRecDepth 100000 in decide

/-- The statement of `binding_failure_rejected` on example bodies: the body
with an ip that is not an address decodes and fails the `ipv4` test, and the
`Set` handler answers 400 and leaves the store holding request `"1"` alone;
the text `invalid-json` does not start with a JSON value, and the `Delete` and
`DeletePrompt` handlers answer 400 and leave the store alone. -/
theorem binding_failure_rejected_witness :
    (∃ req, InferenceRequest.Decode exLibraries exBodyBadIp = Except.ok req ∧
      exLibraries.ipv4 req.Ip = false) ∧
    (Set exLibraries ["10.0.0.2"] "t" "t" exBodyBadIp exStore1 7).reply.status = 400 ∧
    (Set exLibraries ["10.0.0.2"] "t" "t" exBodyBadIp exStore1 7).store = exStore1 ∧
    (Set exLibraries ["10.0.0.2"] "t" "t" exBodyBadIp exStore1 7).tasks = [] ∧
    (∃ err, exLibraries.decodeFirst "invalid-json" = Except.error err) ∧
    (Delete exLibraries ["10.0.0.2"] "t" "t" "invalid-json" exStore1 7).reply.status = 400 ∧
    (Delete exLibraries ["10.0.0.2"] "t" "t" "invalid-json" exStore1 7).store = exStore1 ∧
    (DeletePrompt exLibraries ["10.0.0.2"] "t" "t" "invalid-json" exStore1 7).reply.status =
      400 :=
  have h1 := (binding_failure_rejected exLibraries ["10.0.0.2"] "t" "t" exBodyBadIp exStore1
    7).1 (Or.inr ⟨exReqBadIp, by rfl, Or.inr (Or.inr (Or.inr (Or.inl (by decide))))⟩)
  have h2 := (binding_failure_rejected exLibraries ["10.0.0.2"] "t" "t" "invalid-json" exStore1
    7).2.2.2.1 (Or.inl ⟨_, by rfl⟩)
  ⟨⟨exReqBadIp, by rfl, by decide⟩, h1.1, h1.2.1, h1.2.2.1, ⟨_, by rfl⟩, h2.1.1, h2.1.2.1,
    h2.2.1⟩

end LoadAPI

/-- C22, at an ip that is not an address. The body
`{"cluster":"test","request_id":"12345","ip":"not-an-ip"}` is answered with
status 400 and error code 40001400; the reason is the text of the validator,
and the message is "Invalid input parameters" alone, which does not contain
"invalid IP address": `tagRegexp` does not match the text of the validator,
and `tagErrMap` has no entry for the tag `ipv4`. -/
theorem invalid_ip_reply :
    (LoadAPI.Set exLibraries [] "" "" exBodyBadIp NewLoadStats 0).reply =
      { status := 400,
        body := { Code := 400, Status := "ERROR",
                  Error := some
                    { Code := 40001400, Message := "Invalid input parameters",
                      Reason := "Key: 'InferenceRequest.Ip' Error:Field validation for 'Ip' failed on the 'ipv4' tag" },
                  TraceID := "" } } ∧
    stringsContains "Invalid input parameters" "invalid IP address" = false ∧
    PatternPiece.find tagRegexp
      "Key: 'InferenceRequest.Ip' Error:Field validation for 'Ip' failed on the 'ipv4' tag".data =
        none ∧
    tagErrMap.Load "ipv4" = none ∧
    (LoadAPI.Set exLibraries [] "" "" exBodyBadIp NewLoadStats 0).store = NewLoadStats := by
  set_option maxRecDepth 100000 in decide

/-- C23. The error of a failed binding. For every error text `reason`,
`ParseJSONFailed` returns an `ErrorInfo` with code 40001400, whose
`GetStatusCode` (the code divided by 100000) is 400 and whose reason is
`reason`; when `reason` contains "looking for beginning of" the message is
"Invalid input parameters: invalid JSON format". An `ErrorInfo` with the
server-error code 50001500 has `GetStatusCode` 500. -/
theorem ParseJSONFailed_contract (reason : String) :
    (ParseJSONFailed reason).Code = 40001400 ∧
    (ParseJSONFailed reason).GetStatusCode = 400 ∧
    (ParseJSONFailed reason).GetStatusCode = Int.tdiv (ParseJSONFailed reason).Code 100000 ∧
    (ParseJSONFailed reason).Reason = reason ∧
    (stringsContains reason "looking for beginning of" = true →
      (ParseJSONFailed reason).Message = "Invalid input parameters: invalid JSON format") ∧
    ServerErrorCode = 50001500 ∧
    (∀ message text : String,
      ErrorInfo.GetStatusCode { Code := ServerErrorCode, Message := message, Reason := text } =
        500) := by
  refine ⟨ParseJSONFailed_Code reason, ParseJSONFailed_GetStatusCode reason, rfl,
    ParseJSONFailed_Reason reason, ?_, rfl, ?_⟩
  · intro h
    unfold ParseJSONFailed
    rw [if_pos h]
    show ParseJsonFieldMsg ++ ": invalid JSON format" = _
    decide
  · intro message text
    show Int.tdiv ServerErrorCode 100000 = 500
    decide

/-- The statement of `ParseJSONFailed_contract` on the syntax error of
`TestDeletePrompt_InvalidJSON`, which contains "looking for beginning of". -/
theorem ParseJSONFailed_contract_witness :
    stringsContains "invalid character 'i' looking for beginning of value"
      "looking for beginning of" = true ∧
    ParseJSONFailed "invalid character 'i' looking for beginning of value" =
      { Code := 40001400, Message := "Invalid input parameters: invalid JSON format",
        Reason := "invalid character 'i' looking for beginning of value" } :=
  have h := ParseJSONFailed_contract "invalid character 'i' looking for beginning of value"
  have hc : stringsContains "invalid character 'i' looking for beginning of value"
      "looking for beginning of" = true := by
    set_option maxRecDepth 100000 in decide
  have hm := h.2.2.2.2.1 hc
  ⟨hc, by
    have e1 := h.1
    have e3 := h.2.2.2.1
    cases hp : ParseJSONFailed "invalid character 'i' looking for beginning of value" with
    | mk c m r =>
      rw [hp] at e1 e3 hm
      simp only at e1 e3 hm
      rw [e1, e3, hm]⟩

namespace InferenceRequest

theorem AddRequest_ignores_CreateTime (s : LoadStats) (r r2 : InferenceRequest) (now : Int)
    (h1 : r2.Cluster = r.Cluster) (h2 : r2.RequestId = r.RequestId)
    (h3 : r2.PromptLength = r.PromptLength) (h4 : r2.Ip = r.Ip)
    (h5 : r2.TimeStamp = r.TimeStamp) : s.AddRequest r2 now = s.AddRequest r now := by
  cases r
  cases r2
  simp only at h1 h2 h3 h4 h5
  subst h1 h2 h3 h4 h5
  rfl

theorem foldl_decodeMember_toJSON (lib : Libraries) (r : InferenceRequest)
    (hp : isInt32 r.PromptLength) (ht : isInt64 r.TimeStamp) :
    (match r.toJSON with
      | JSONDoc.object members => members.foldl (decodeMember lib) (zero, none)
      | _ => (zero, none)) = ({ r with CreateTime := 0 }, none) := by
  cases r with
  | mk c id p ip ts ct =>
    simp only at hp ht
    unfold toJSON
    by_cases h1 : p = 0 <;> by_cases h2 : ts = 0 <;>
      simp [h1, h2, decodeMember, fieldOfKey, jsonNames, decodeString, decodeInt32, decodeInt64,
        hp, ht, zero, Option.orElse]

end InferenceRequest

namespace load

theorem Unmarshal_Marshal (lib : Libraries) (r : InferenceRequest)
    (hp : isInt32 r.PromptLength) (ht : isInt64 r.TimeStamp)
    (hcodec : lib.decode (lib.print r.toJSON) = Except.ok r.toJSON) :
    InferenceRequest.Unmarshal lib (r.Marshal lib) = Except.ok { r with CreateTime := 0 } := by
  have hfold := InferenceRequest.foldl_decodeMember_toJSON lib r hp ht
  unfold InferenceRequest.Unmarshal InferenceRequest.Marshal
  rw [hcodec]
  cases hj : r.toJSON with
  | object members =>
    rw [hj] at hfold
    simp only [] at hfold ⊢
    rw [hfold]
  | null => simp [InferenceRequest.toJSON] at hj
  | other desc => simp [InferenceRequest.toJSON] at hj

/-- C24. A replayed `Set` passes through the replica payload unchanged. For
every request `r` with an `int32` prompt length and an `int64` time stamp,
and library functions that read back the document `json.Marshal` writes for
`r`: decoding the encoding of `r` gives `r` with its five fields `Cluster`,
`RequestId`, `PromptLength`, `Ip` and `TimeStamp` and with `CreateTime` reset
(a `PromptLength` or `TimeStamp` of 0 is not written and is read back as 0);
`HandleLoadSet` on that payload returns no error and leaves the store that
`Set` of `r` leaves, which is the store `Set` leaves for any request with the
same five fields, whatever its `CreateTime`. -/
theorem HandleLoadSet_roundtrip (lib : Libraries) (r : InferenceRequest) (s : LoadStats)
    (now : Int) (hp : isInt32 r.PromptLength) (ht : isInt64 r.TimeStamp)
    (hcodec : lib.decode (lib.print r.toJSON) = Except.ok r.toJSON) :
    InferenceRequest.Unmarshal lib (r.Marshal lib) = Except.ok { r with CreateTime := 0 } ∧
    HandleLoadSet lib (r.Marshal lib) s now =
      { store := s.AddRequest r now, retryScheduled := false, err := none } ∧
    (∀ r2 : InferenceRequest, r2.Cluster = r.Cluster → r2.RequestId = r.RequestId →
      r2.PromptLength = r.PromptLength → r2.Ip = r.Ip → r2.TimeStamp = r.TimeStamp →
      s.AddRequest r2 now = s.AddRequest r now) ∧
    (r.PromptLength = 0 → r.TimeStamp = 0 →
      r.toJSON = JSONDoc.object
        [("cluster", JSONField.string r.Cluster), ("request_id", JSONField.string r.RequestId),
         ("ip", JSONField.string r.Ip)]) := by
  have hu := Unmarshal_Marshal lib r hp ht hcodec
  refine ⟨hu, ?_, ?_, ?_⟩
  · unfold HandleLoadSet
    rw [hu]
    simp only []
    rw [InferenceRequest.AddRequest_ignores_CreateTime s r { r with CreateTime := 0 } now
      rfl rfl rfl rfl rfl]
  · intro r2 h1 h2 h3 h4 h5
    exact InferenceRequest.AddRequest_ignores_CreateTime s r r2 now h1 h2 h3 h4 h5
  · intro h1 h2
    unfold InferenceRequest.toJSON
    simp [h1, h2]

/-- The statement of `HandleLoadSet_roundtrip` for request `"1"` (engine
(A, 1.1.1.1), prompt 512) on the empty store at clock reading 5. -/
theorem HandleLoadSet_roundtrip_witness :
    isInt32 exReq1.PromptLength ∧ isInt64 exReq1.TimeStamp ∧
    exLibraries.decode (exLibraries.print exReq1.toJSON) = Except.ok exReq1.toJSON ∧
    HandleLoadSet exLibraries (exReq1.Marshal exLibraries) NewLoadStats 5 =
      { store := exStore1, retryScheduled := false, err := none } :=
  ⟨by decide, by decide, by rfl,
    (HandleLoadSet_roundtrip exLibraries exReq1 NewLoadStats 5 (by decide) (by decide)
      (by rfl)).2.1.trans (by decide)⟩

/-- C25. A payload that does not decode is rejected without touching the
store; one that decodes is accepted. When `json.Unmarshal` fails with the
text `e`, `HandleLoadSet`, `HandleLoadDelete` and `HandleLoadPromptDelete`
return the store unchanged, schedule no retry, and return the error
"failed to unmarshal payload for handleLoadSet: " (`handleLoadDelete`,
`handleLoadPromptDelete`) followed by `e`; when it succeeds they return no
error, also for a `request_id` that is not in the store. -/
theorem replica_handlers_errors (lib : Libraries) (payload : RawMessage) (s : LoadStats)
    (now : Int) :
    (∀ e, InferenceRequest.Unmarshal lib payload = Except.error e →
      HandleLoadSet lib payload s now =
        { store := s, retryScheduled := false,
          err := some ("failed to unmarshal payload for handleLoadSet: " ++ e) } ∧
      "failed to unmarshal payload for handleLoadSet".data <+:
        ("failed to unmarshal payload for handleLoadSet: " ++ e).data) ∧
    (∀ e, DeletionInferenceRequest.Unmarshal lib payload = Except.error e →
      (HandleLoadDelete lib payload s now =
        { store := s, retryScheduled := false,
          err := some ("failed to unmarshal payload for handleLoadDelete: " ++ e) } ∧
       "failed to unmarshal payload for handleLoadDelete".data <+:
        ("failed to unmarshal payload for handleLoadDelete: " ++ e).data) ∧
      (HandleLoadPromptDelete lib payload s now =
        { store := s, retryScheduled := false,
          err := some ("failed to unmarshal payload for handleLoadPromptDelete: " ++ e) } ∧
       "failed to unmarshal payload for handleLoadPromptDelete".data <+:
        ("failed to unmarshal payload for handleLoadPromptDelete: " ++ e).data)) ∧
    (∀ req, InferenceRequest.Unmarshal lib payload = Except.ok req →
      (HandleLoadSet lib payload s now).err = none ∧
      (HandleLoadSet lib payload s now).store = s.AddRequest req now) ∧
    (∀ req, DeletionInferenceRequest.Unmarshal lib payload = Except.ok req →
      (HandleLoadDelete lib payload s now).err = none ∧
      (HandleLoadPromptDelete lib payload s now).err = none ∧
      (req.RequestId ∉ s.Requests.keys →
        (HandleLoadDelete lib payload s now).store = s ∧
        (HandleLoadPromptDelete lib payload s now).store = s)) := by
  have hpre : ∀ (p e : String), p.data <+: ((p ++ ": ") ++ e).data := by
    intro p e
    simp only [String.data_append, List.append_assoc]
    exact List.prefix_append _ _
  refine ⟨?_, ?_, ?_, ?_⟩
  · intro e he
    refine ⟨?_, hpre "failed to unmarshal payload for handleLoadSet" e⟩
    unfold HandleLoadSet
    rw [he]
  · intro e he
    refine ⟨⟨?_, hpre "failed to unmarshal payload for handleLoadDelete" e⟩,
      ⟨?_, hpre "failed to unmarshal payload for handleLoadPromptDelete" e⟩⟩
    · unfold HandleLoadDelete
      rw [he]
    · unfold HandleLoadPromptDelete
      rw [he]
  · intro req hr
    unfold HandleLoadSet
    rw [hr]
    exact ⟨rfl, rfl⟩
  · intro req hr
    unfold HandleLoadDelete HandleLoadPromptDelete
    rw [hr]
    refine ⟨rfl, rfl, ?_⟩
    intro hk
    have hn := SyncMap.Load_eq_none_of_not_mem_keys hk
    simp only []
    rw [LoadStats.DeleteRequest_fst, LoadStats.DeletePromptLength_fst,
      LoadStats.tryDeleteRequestStats_of_none s _ now hn,
      LoadStats.tryDecPromptLength_of_none s _ now hn]
    exact ⟨rfl, rfl⟩

/-- The statement of `replica_handlers_errors` on example payloads: the text
`invalid json` does not decode and `HandleLoadSet` returns the store as it was
with the error of `handleLoadSet`; the payload of request `"1"` decodes and is
applied. -/
theorem replica_handlers_errors_witness :
    InferenceRequest.Unmarshal exLibraries "invalid json" =
      Except.error "invalid character 'i' looking for beginning of value" ∧
    HandleLoadSet exLibraries "invalid json" exStore1 7 =
      { store := exStore1, retryScheduled := false,
        err := some ("failed to unmarshal payload for handleLoadSet: " ++
          "invalid character 'i' looking for beginning of value") } ∧
    InferenceRequest.Unmarshal exLibraries exBodyReq1 = Except.ok exReq1 ∧
    (HandleLoadSet exLibraries exBodyReq1 NewLoadStats 5).err = none ∧
    (HandleLoadSet exLibraries exBodyReq1 NewLoadStats 5).store = exStore1 :=
  have h2 := (replica_handlers_errors exLibraries exBodyReq1 NewLoadStats 5).2.2.1 exReq1
    (by rfl)
  ⟨by rfl,
    ((replica_handlers_errors exLibraries "invalid json" exStore1 7).1 _ (by rfl)).1,
    by rfl, h2.1, h2.2.trans (by decide)⟩

end load

/-! ### Frames of the delete operations -/

namespace LoadStats

theorem SameShape_refl (M : SyncMap ModelStats) : SameShape M M :=
  ⟨rfl, fun _ ms h => ⟨ms, h, rfl, rfl, rfl⟩⟩

theorem SameShape_trans {M1 M2 M3 : SyncMap ModelStats} (h12 : SameShape M1 M2)
    (h23 : SameShape M2 M3) : SameShape M1 M3 := by
  refine ⟨h23.1.trans h12.1, ?_⟩
  intro c ms hm
  obtain ⟨ms2, hm2, a1, a2, a3⟩ := h12.2 c ms hm
  obtain ⟨ms3, hm3, b1, b2, b3⟩ := h23.2 c ms2 hm2
  exact ⟨ms3, hm3, b1.trans a1, b2.trans a2, b3.trans a3⟩

theorem SameShape_put (M : SyncMap ModelStats) {key : String} {ms ms2 : ModelStats}
    (h : M.Load key = some ms) (hk : ms2.Engines.keys = ms.Engines.keys)
    (hl : ms2.Length = ms.Length) (hn : ms2.name = ms.name) : SameShape M (M.put key ms2) := by
  refine ⟨SyncMap.keys_put_of_Load_some M h ms2, ?_⟩
  intro c m hm
  by_cases hc : key = c
  · subst hc
    rw [h] at hm
    cases hm
    exact ⟨ms2, SyncMap.Load_put_self _ _ _, hk, hl, hn⟩
  · exact ⟨m, by rw [SyncMap.Load_put_ne _ hc]; exact hm, rfl, rfl, rfl⟩

theorem SameShape_Load_none {M1 M2 : SyncMap ModelStats} (h : SameShape M1 M2) {c : String}
    (hc : M1.Load c = none) : M2.Load c = none := by
  rw [SyncMap.Load_eq_none_iff] at hc ⊢
  rw [h.1]
  exact hc

theorem SameShape_decEngineStats (s : LoadStats) (req : InferenceRequest) (now : Int) :
    SameShape s.RunningModelStats (s.decEngineStats req now).RunningModelStats := by
  cases hm : s.RunningModelStats.Load req.Cluster with
  | none => rw [decEngineStats_of_no_model s req now hm]; exact SameShape_refl _
  | some ms =>
    cases he : ms.Engines.Load req.Ip with
    | none =>
      rw [decEngineStats_of_no_engine s req now hm he]
      exact SameShape_put _ hm rfl rfl rfl
    | some e =>
      rw [decEngineStats_of_engine s req now hm he]
      exact SameShape_put _ hm (SyncMap.keys_put_of_Load_some _ he _) rfl rfl

theorem SameShape_decEnginePromptLength (s : LoadStats) (req : InferenceRequest) (now : Int) :
    SameShape s.RunningModelStats (s.decEnginePromptLength req now).1.RunningModelStats := by
  cases hm : s.RunningModelStats.Load req.Cluster with
  | none => rw [decEnginePromptLength_of_no_model s req now hm]; exact SameShape_refl _
  | some ms =>
    cases he : ms.Engines.Load req.Ip with
    | none =>
      rw [decEnginePromptLength_of_no_engine s req now hm he]
      exact SameShape_put _ hm rfl rfl rfl
    | some e =>
      rw [decEnginePromptLength_of_engine s req now hm he]
      exact SameShape_put _ hm (SyncMap.keys_put_of_Load_some _ he _) rfl rfl

theorem SameShape_tryDeleteRequestStats (s : LoadStats) (id : String) (now : Int) :
    SameShape s.RunningModelStats (s.tryDeleteRequestStats id now).2.RunningModelStats := by
  cases hl : s.Requests.Load id with
  | none => rw [tryDeleteRequestStats_of_none s id now hl]; exact SameShape_refl _
  | some req =>
    rw [tryDeleteRequestStats_of_some s id now hl]
    exact SameShape_decEngineStats { s with Requests := s.Requests.Delete id } req now

theorem SameShape_tryDecPromptLength (s : LoadStats) (id : String) (now : Int) :
    SameShape s.RunningModelStats (s.tryDecPromptLength id now).2.RunningModelStats := by
  cases hl : s.Requests.Load id with
  | none => rw [tryDecPromptLength_of_none s id now hl]; exact SameShape_refl _
  | some req =>
    rw [tryDecPromptLength_of_some s id now hl]
    exact SameShape_decEnginePromptLength s req now

theorem SameShape_engine_ne_none {s s2 : LoadStats}
    (h : SameShape s.RunningModelStats s2.RunningModelStats) (c ip : String) :
    s2.engine c ip = none ↔ s.engine c ip = none := by
  unfold engine
  cases hm : s.RunningModelStats.Load c with
  | none => rw [SameShape_Load_none h hm]
  | some ms =>
    obtain ⟨ms2, hm2, hk, -, -⟩ := h.2 c ms hm
    rw [hm2]
    simp only []
    rw [SyncMap.Load_eq_none_iff, SyncMap.Load_eq_none_iff, hk]

end LoadStats

namespace LoadStats

theorem engine_tryDelete_of_no_engine (s : LoadStats) (id : String) (now : Int)
    {req : InferenceRequest} (hl : s.Requests.Load id = some req)
    (hno : s.engine req.Cluster req.Ip = none) (c ip : String) :
    (s.tryDeleteRequestStats id now).2.engine c ip = s.engine c ip := by
  rw [tryDeleteRequestStats_of_some s id now hl]
  simp only []
  by_cases hc : c = req.Cluster ∧ ip = req.Ip
  · obtain ⟨rfl, rfl⟩ := hc
    rw [engine_decEngineStats_self, engine_with_Requests, hno]
    rfl
  · rw [engine_decEngineStats_ne _ req now c ip hc, engine_with_Requests]

theorem engine_tryDecPrompt_of_no_engine (s : LoadStats) (id : String) (now : Int)
    {req : InferenceRequest} (hl : s.Requests.Load id = some req)
    (hno : s.engine req.Cluster req.Ip = none) (c ip : String) :
    (s.tryDecPromptLength id now).2.engine c ip = s.engine c ip := by
  rw [tryDecPromptLength_of_some s id now hl]
  simp only []
  rw [engine_with_Requests]
  by_cases hc : c = req.Cluster ∧ ip = req.Ip
  · obtain ⟨rfl, rfl⟩ := hc
    rw [engine_decEnginePromptLength_self, hno]
    rfl
  · rw [engine_decEnginePromptLength_ne _ req now c ip hc]

/-- C27. The delete operations neither create nor remove model or engine
entries. For every store `s` and request id: after the immediate attempt of
`DeleteRequest` or of `DeletePromptLength`, and after their delayed retries,
the model map has the same keys, and every model has the same engine keys
and the same `Length` (`Size()`), so an engine whose `QueuedReqNum` drops to
0 is still present and an engine that was absent is still absent. When the
request is stored but its model or engine entry is missing, `DeleteRequest`
removes the request from `Requests`, reports success (no retry is scheduled),
creates no entry and leaves every engine as it was; so does
`DeletePromptLength`. -/
theorem delete_keeps_entries (s : LoadStats) (id : String) (now : Int) :
    SameShape s.RunningModelStats (s.DeleteRequest id now).1.RunningModelStats ∧
    SameShape s.RunningModelStats (s.DeletePromptLength id now).1.RunningModelStats ∧
    SameShape s.RunningModelStats (s.DeleteRequestRetry id now).RunningModelStats ∧
    SameShape s.RunningModelStats (s.DeletePromptLengthRetry id now).RunningModelStats ∧
    (∀ c, (s.DeleteRequest id now).1.engineCount c = s.engineCount c ∧
      (s.DeletePromptLength id now).1.engineCount c = s.engineCount c) ∧
    (∀ c ip, ((s.DeleteRequest id now).1.engine c ip = none ↔ s.engine c ip = none) ∧
      ((s.DeletePromptLength id now).1.engine c ip = none ↔ s.engine c ip = none)) ∧
    (∀ req, s.Requests.Load id = some req → s.engine req.Cluster req.Ip = none →
      (s.DeleteRequest id now).2 = false ∧
      (s.DeleteRequest id now).1.Requests = s.Requests.Delete id ∧
      (s.DeleteRequest id now).1.Requests.Load id = none ∧
      (∀ c ip, (s.DeleteRequest id now).1.engine c ip = s.engine c ip) ∧
      (s.DeletePromptLength id now).2 = false ∧
      (∀ c ip, (s.DeletePromptLength id now).1.engine c ip = s.engine c ip)) := by
  have h1 : SameShape s.RunningModelStats (s.DeleteRequest id now).1.RunningModelStats := by
    rw [DeleteRequest_fst]; exact SameShape_tryDeleteRequestStats s id now
  have h2 : SameShape s.RunningModelStats (s.DeletePromptLength id now).1.RunningModelStats := by
    rw [DeletePromptLength_fst]; exact SameShape_tryDecPromptLength s id now
  have hcount : ∀ (s2 : LoadStats), SameShape s.RunningModelStats s2.RunningModelStats →
      ∀ c, s2.engineCount c = s.engineCount c := by
    intro s2 hsh c
    unfold engineCount GetModelStats ModelStats.Size
    cases hm : s.RunningModelStats.Load c with
    | none => rw [SameShape_Load_none hsh hm]
    | some ms =>
      obtain ⟨ms2, hm2, -, hl, -⟩ := hsh.2 c ms hm
      rw [hm2]
      exact hl
  refine ⟨h1, h2, SameShape_tryDeleteRequestStats s id now, SameShape_tryDecPromptLength s id now,
    fun c => ⟨hcount _ h1 c, hcount _ h2 c⟩,
    fun c ip => ⟨SameShape_engine_ne_none h1 c ip, SameShape_engine_ne_none h2 c ip⟩, ?_⟩
  intro req hl hno
  refine ⟨?_, ?_, ?_, ?_, ?_, ?_⟩
  · rw [DeleteRequest_snd, tryDeleteRequestStats_of_some s id now hl]; rfl
  · rw [DeleteRequest_fst, tryDeleteRequestStats_of_some s id now hl]
    exact decEngineStats_Requests _ _ _
  · rw [DeleteRequest_fst, tryDeleteRequestStats_of_some s id now hl]
    simp only []
    rw [decEngineStats_Requests]
    exact SyncMap.Load_Delete_self _ _
  · intro c ip
    rw [DeleteRequest_fst]
    exact engine_tryDelete_of_no_engine s id now hl hno c ip
  · rw [DeletePromptLength_snd, tryDecPromptLength_of_some s id now hl]; rfl
  · intro c ip
    rw [DeletePromptLength_fst]
    exact engine_tryDecPrompt_of_no_engine s id now hl hno c ip

/-- The statement of `delete_keeps_entries` on a store that holds request
`"1"` but no model: `DeleteRequest` removes the request, reports success and
creates no model or engine; so does `DeletePromptLength`, which keeps the
request. -/
theorem delete_keeps_entries_witness :
    LoadStats.engine { RunningModelStats := [], Requests := [("1", exReq1)] }
      exReq1.Cluster exReq1.Ip = none ∧
    (LoadStats.DeleteRequest { RunningModelStats := [], Requests := [("1", exReq1)] }
      "1" 7).2 = false ∧
    (LoadStats.DeleteRequest { RunningModelStats := [], Requests := [("1", exReq1)] }
      "1" 7).1.Requests.Load "1" = none ∧
    (LoadStats.DeleteRequest { RunningModelStats := [], Requests := [("1", exReq1)] }
      "1" 7).1.RunningModelStats = [] ∧
    (LoadStats.DeletePromptLength { RunningModelStats := [], Requests := [("1", exReq1)] }
      "1" 7).2 = false :=
  have h := (delete_keeps_entries { RunningModelStats := [], Requests := [("1", exReq1)] }
    "1" 7).2.2.2.2.2.2 exReq1 (by decide) (by decide)
  ⟨by decide, h.1, h.2.2.1, by decide, h.2.2.2.2.1⟩

end LoadStats
/-! ### An engine touched by the sweeper -/

namespace SyncMap

variable {V : Type}

theorem total_congr (f g : V → Int) (m : SyncMap V) (h : ∀ kv ∈ m, f kv.2 = g kv.2) :
    total f m = total g m := by
  induction m with
  | nil => rfl
  | cons kv rest ih =>
    rw [total_cons, total_cons, h kv (List.mem_cons_self _ _),
      ih (fun x hx => h x (List.mem_cons_of_mem _ hx))]

end SyncMap

namespace LoadStats

theorem SameShape_gcRequests_fold (now expire : Int) (L : SyncMap InferenceRequest)
    (acc : LoadStats) :
    SameShape acc.RunningModelStats (L.foldl (gcRequestVisit now expire) acc).RunningModelStats := by
  induction L generalizing acc with
  | nil => exact SameShape_refl _
  | cons kv rest ih =>
    rw [List.foldl_cons]
    refine SameShape_trans ?_ (ih _)
    by_cases hexp : expired now expire kv.2
    · rw [gcRequestVisit_of_expired now expire acc kv hexp]
      exact SameShape_decEngineStats { acc with Requests := acc.Requests.Delete kv.1 } kv.2 now
    · rw [gcRequestVisit_of_not_expired now expire acc kv hexp]
      exact SameShape_refl _

theorem exists_expired_of_count_pos {s : LoadStats} {now expire : Int} {c ip : String}
    (h : 0 < s.expiredCount now expire c ip) :
    ∃ kv ∈ s.Requests, expired now expire kv.2 ∧ kv.2.Cluster = c := by
  have hne : s.expiredCount now expire c ip ≠ 0 := ne_of_gt h
  obtain ⟨kv, hkv, hkv0⟩ := SyncMap.exists_ne_zero_of_total_ne_zero _ _ hne
  refine ⟨kv, hkv, ?_⟩
  by_cases h1 : expired now expire kv.2
  · simp only [h1, if_true] at hkv0
    unfold countW at hkv0
    by_cases h2 : kv.2.Cluster = c ∧ kv.2.Ip = ip
    · exact ⟨h1, h2.1⟩
    · simp [h2] at hkv0
  · simp [h1] at hkv0

/-- The model and the engine of an expiring request after the sweep. -/
theorem GC_keeps_touched_engine (s : LoadStats) (now expire : Int) (hwf : s.WellFormed)
    (hty : s.WellTyped) (hexp : 0 < expire) {c ip : String} {ms : ModelStats}
    {e : EngineStats} (hm : s.RunningModelStats.Load c = some ms)
    (he : ms.Engines.Load ip = some e) (hcnt : 0 < s.expiredCount now expire c ip) :
    ∃ ms1, (s.gcRequests now expire).RunningModelStats.Load c = some ms1 ∧
      ms1.UpdateTime = now ∧ ms1.Length = ms.Length ∧ ms1.Engines.keys = ms.Engines.keys ∧
      (s.GC now expire).RunningModelStats.Load c = some (gcEngines ms1 now expire) ∧
      (gcEngines ms1 now expire).UpdateTime = now ∧
      (gcEngines ms1 now expire).Engines.Load ip = some
        { Ip := e.Ip,
          QueuedReqNum := wrap32 (e.QueuedReqNum - s.expiredCount now expire c ip),
          PromptLength := wrap32 (e.PromptLength - s.expiredPrompt now expire c ip),
          UpdatedTime := now } := by
  have heng0 : s.engine c ip = some e := by
    unfold engine; rw [hm]; exact he
  have hety := engine_wellTyped hty heng0
  have hne : s.expiredCount now expire c ip ≠ 0 := ne_of_gt hcnt
  have heng : (s.gcRequests now expire).engine c ip =
      some { Ip := e.Ip,
             QueuedReqNum := wrap32 (e.QueuedReqNum - s.expiredCount now expire c ip),
             PromptLength := wrap32 (e.PromptLength - s.expiredPrompt now expire c ip),
             UpdatedTime := if s.expiredCount now expire c ip = 0 then e.UpdatedTime
                            else now } :=
    gcRequests_fold_engine now expire c ip s.Requests s e hety heng0
  have hmodel : s.RunningModelStats.Load c ≠ none := by rw [hm]; simp
  obtain ⟨ms1, hm1, hU1⟩ := gcRequests_fold_model_touched now expire c s.Requests s hmodel
    (exists_expired_of_count_pos hcnt)
  have hm1 : (s.gcRequests now expire).RunningModelStats.Load c = some ms1 := hm1
  have hsh : SameShape s.RunningModelStats (s.gcRequests now expire).RunningModelStats :=
    SameShape_gcRequests_fold now expire s.Requests s
  obtain ⟨ms1b, hm1b, hk1, hl1, -⟩ := hsh.2 c ms hm
  rw [hm1] at hm1b
  cases hm1b
  have hnd : (s.gcRequests now expire).RunningModelStats.keys.Nodup ∧
      ∀ kv ∈ (s.gcRequests now expire).RunningModelStats, kv.2.Engines.keys.Nodup :=
    gcRequests_fold_nodup now expire s.Requests s ⟨hwf.2.1, hwf.2.2⟩
  have he1 : ms1.Engines.Load ip = some
      { Ip := e.Ip,
        QueuedReqNum := wrap32 (e.QueuedReqNum - s.expiredCount now expire c ip),
        PromptLength := wrap32 (e.PromptLength - s.expiredPrompt now expire c ip),
        UpdatedTime := now } := by
    have h2 := heng
    unfold engine at h2
    rw [hm1] at h2
    simp only [hne, if_false] at h2
    exact h2
  have hst : ¬ now ≥ ms1.UpdateTime + expire := by rw [hU1]; omega
  refine ⟨ms1, hm1, hU1, hl1, hk1, ?_, ?_, ?_⟩
  · unfold GC
    rw [gcModels_Load _ now expire hnd.1 c, hm1]
    simp only [hst, if_false]
  · rcases gcEngines_fold_UpdateTime now expire ms1.Engines ms1 with h | h
    · exact h.trans hU1
    · exact h
  · rw [gcEngines_Load ms1 now expire (hnd.2 _ (SyncMap.mem_of_Load_eq_some hm1)) ip, he1]
    have hse : ¬ now ≥ now + expire := by omega
    simp only [hse, if_false]

end LoadStats

namespace LoadStats

theorem staleCount_eq_zero_after_requests (s : LoadStats) (now expire : Int)
    (hwf : s.WellFormed) (hty : s.WellTyped) (hexp : 0 < expire) {c : String}
    {ms ms1 : ModelStats} (hm : s.RunningModelStats.Load c = some ms)
    (hm1 : (s.gcRequests now expire).RunningModelStats.Load c = some ms1)
    (hidle : ∀ kv ∈ ms.Engines, s.expiredCount now expire c kv.1 = 0 →
      ¬ now ≥ kv.2.UpdatedTime + expire) :
    ms1.staleCount now expire = 0 := by
  have hsh : SameShape s.RunningModelStats (s.gcRequests now expire).RunningModelStats :=
    SameShape_gcRequests_fold now expire s.Requests s
  obtain ⟨ms1b, hm1b, hk1, -, -⟩ := hsh.2 c ms hm
  rw [hm1] at hm1b
  cases hm1b
  have hnd := gcRequests_fold_nodup now expire s.Requests s ⟨hwf.2.1, hwf.2.2⟩
  have hnd1 : ms1.Engines.keys.Nodup := hnd.2 _ (SyncMap.mem_of_Load_eq_some hm1)
  unfold ModelStats.staleCount
  apply SyncMap.total_eq_zero
  intro kv hkv
  have hl1 : ms1.Engines.Load kv.1 = some kv.2 := SyncMap.Load_of_mem_of_nodup hnd1 hkv
  have hin : kv.1 ∈ ms.Engines.keys := by
    rw [← hk1]
    exact List.mem_map.mpr ⟨kv, hkv, rfl⟩
  cases hl0 : ms.Engines.Load kv.1 with
  | none => exact absurd hin ((SyncMap.Load_eq_none_iff _ _).mp hl0)
  | some e0 =>
    have heng0 : s.engine c kv.1 = some e0 := by
      unfold engine; rw [hm]; exact hl0
    have heng := gcRequests_fold_engine now expire c kv.1 s.Requests s e0
      (engine_wellTyped hty heng0) heng0
    have heng1 : (s.gcRequests now expire).engine c kv.1 = some kv.2 := by
      unfold engine; rw [hm1]; exact hl1
    have heq : kv.2 =
        { Ip := e0.Ip,
          QueuedReqNum := wrap32 (e0.QueuedReqNum - s.expiredCount now expire c kv.1),
          PromptLength := wrap32 (e0.PromptLength - s.expiredPrompt now expire c kv.1),
          UpdatedTime := if s.expiredCount now expire c kv.1 = 0 then e0.UpdatedTime
                         else now } := by
      have h2 : (s.gcRequests now expire).engine c kv.1 = _ := heng
      rw [heng1] at h2
      exact Option.some.inj h2
    have hU : kv.2.UpdatedTime =
        if s.expiredCount now expire c kv.1 = 0 then e0.UpdatedTime else now := by
      rw [heq]
    have hns : ¬ now ≥ kv.2.UpdatedTime + expire := by
      rw [hU]
      by_cases h0 : s.expiredCount now expire c kv.1 = 0
      · simp only [h0, if_true]
        exact hidle (kv.1, e0) (SyncMap.mem_of_Load_eq_some hl0) h0
      · simp only [h0, if_false]
        omega
    simp only [hns, if_false]

theorem TouchedModels_step (expire : Int) (s : LoadStats) (op : Op) (t : Int)
    (hop : op ≠ Op.gc) :
    TouchedModels t s.RunningModelStats (step expire s op t).RunningModelStats := by
  cases op with
  | set r => exact TouchedModels_AddRequest s r t
  | delete id =>
    cases hl : s.Requests.Load id with
    | none => rw [step_delete_of_none expire s id t hl]; exact TouchedModels_refl t _
    | some y =>
      rw [step_delete_of_some expire s id t hl]
      exact TouchedModels_decEngineStats { s with Requests := s.Requests.Delete id } y t
  | promptDelete id =>
    cases hl : s.Requests.Load id with
    | none => rw [step_promptDelete_of_none expire s id t hl]; exact TouchedModels_refl t _
    | some y =>
      rw [step_promptDelete_of_some expire s id t hl]
      exact TouchedModels_decEnginePromptLength s y t
  | gc => exact absurd rfl hop

theorem Kept_of_touched {T t : Int} {c ip : String} {s s2 : LoadStats}
    (h : TouchedModels t s.RunningModelStats s2.RunningModelStats) (ht : T ≤ t)
    (hk : Kept T c ip s) : Kept T c ip s2 := by
  obtain ⟨hM, hE, ms, e, hm, he, h1, h2⟩ := hk
  refine ⟨h.1 hM, h.2.1 hE, ?_⟩
  obtain ⟨ms2, hm2, hU, -, hEng⟩ := h.2.2 c ms hm
  obtain ⟨e2, he2, hU2⟩ := hEng ip e he
  refine ⟨ms2, e2, hm2, he2, ?_, ?_⟩
  · rcases hU with hU | hU <;> omega
  · rcases hU2 with hU2 | hU2 <;> omega

theorem Kept_gcRequests_fold (now expire : Int) {T : Int} {c ip : String} (hT : T ≤ now)
    (L : SyncMap InferenceRequest) (acc : LoadStats) (hk : Kept T c ip acc) :
    Kept T c ip (L.foldl (gcRequestVisit now expire) acc) := by
  induction L generalizing acc with
  | nil => exact hk
  | cons kv rest ih =>
    rw [List.foldl_cons]
    exact ih _ (Kept_of_touched (gcRequestVisit_touched now expire acc kv) hT hk)

theorem Kept_gcModels (now expire : Int) {T : Int} {c ip : String} (s : LoadStats)
    (hT : T ≤ now) (hlive : now < T + expire) (hk : Kept T c ip s) :
    Kept T c ip (s.gcModels now expire) := by
  obtain ⟨hM, hE, ms, e, hm, he, h1, h2⟩ := hk
  have hnd := gcModels_nodup s now expire hM hE
  refine ⟨hnd.1, hnd.2, gcEngines ms now expire, e, ?_, ?_, ?_, h2⟩
  · rw [gcModels_Load s now expire hM c, hm]
    have hst : ¬ now ≥ ms.UpdateTime + expire := by omega
    simp only [hst, if_false]
  · rw [gcEngines_Load ms now expire (hE _ (SyncMap.mem_of_Load_eq_some hm)) ip, he]
    have hse : ¬ now ≥ e.UpdatedTime + expire := by omega
    simp only [hse, if_false]
  · rcases gcEngines_fold_UpdateTime now expire ms.Engines ms with h | h
    · exact le_trans h1 (le_of_eq h.symm)
    · exact le_trans hT (le_of_eq h.symm)

theorem Kept_step (expire : Int) {T : Int} {c ip : String} {s : LoadStats}
    (hk : Kept T c ip s) (op : Op) (t : Int) (hT : T ≤ t)
    (hgc : op = Op.gc → t < T + expire) : Kept T c ip (step expire s op t) := by
  by_cases hop : op = Op.gc
  · subst hop
    show Kept T c ip ((s.gcRequests t expire).gcModels t expire)
    exact Kept_gcModels t expire _ hT (hgc rfl) (Kept_gcRequests_fold t expire hT _ s hk)
  · exact Kept_of_touched (TouchedModels_step expire s op t hop) hT hk

theorem Kept_run (expire : Int) {T : Int} {c ip : String} (ops : List (Op × Int))
    {s : LoadStats} (hk : Kept T c ip s) (hops : BeforeExpiry T expire ops) :
    Kept T c ip (run expire s ops) := by
  induction ops generalizing s with
  | nil => exact hk
  | cons x rest ih =>
    rw [run_cons]
    apply ih
    · exact Kept_step expire hk x.1 x.2 (hops x (List.mem_cons_self _ _)).1
        (hops x (List.mem_cons_self _ _)).2
    · intro y hy
      exact hops y (List.mem_cons_of_mem _ hy)

end LoadStats

namespace LoadStats

theorem expired_all_counts (s : LoadStats) (now expire : Int) (c ip : String)
    (hall : ∀ kr ∈ s.Requests, kr.2.Cluster = c → kr.2.Ip = ip →
      expired now expire kr.2 ∧ 0 ≤ kr.2.PromptLength) :
    s.expiredCount now expire c ip = s.liveCount c ip ∧
    s.expiredPrompt now expire c ip = s.livePrompt c ip := by
  rw [liveCount_eq_total, livePrompt_eq_total]
  unfold expiredCount expiredPrompt
  constructor
  · apply SyncMap.total_congr
    intro kv hkv
    by_cases hon : kv.2.Cluster = c ∧ kv.2.Ip = ip
    · simp only [(hall kv hkv hon.1 hon.2).1, if_true]
    · simp only [countW, hon, if_false, ite_self]
  · apply SyncMap.total_congr
    intro kv hkv
    by_cases hon : kv.2.Cluster = c ∧ kv.2.Ip = ip
    · obtain ⟨h1, h2⟩ := hall kv hkv hon.1 hon.2
      by_cases hp : 0 < kv.2.PromptLength
      · simp only [h1, hp, and_self, if_true]
      · have hz : kv.2.PromptLength = 0 := by omega
        simp [h1, promptW, hon, hz]
    · simp only [promptW, hon, if_false, ite_self]

/-- C26, as stated, fails. (i) In `exStoreIdle` request `"1"` of engine
(A, 1.1.1.1) expires in the sweep at 16 (expiry 10); the same sweep removes
the idle engine (A, 2.2.2.2), so the engine count of model `A` goes from 2 to
1. (ii) A request of prompt length -1, the only one of its engine, expires
with the aggregate left at -1, not 0. -/
theorem GC_engine_count_changes :
    (0 < exStoreIdle.expiredCount 16 10 "A" "1.1.1.1" ∧
      exStoreIdle.engine "A" "1.1.1.1" ≠ none ∧
      exStoreIdle.engineCount "A" = 2 ∧
      (exStoreIdle.GC 16 10).engineCount "A" = 1 ∧
      (exStoreIdle.GC 16 10).engine "A" "2.2.2.2" = none) ∧
    ((NewLoadStats.AddRequest exReqMinusOne 0).Requests.keys = ["m1"] ∧
      0 < (NewLoadStats.AddRequest exReqMinusOne 0).expiredCount 12 10 "A" "1.1.1.1" ∧
      (NewLoadStats.AddRequest exReqMinusOne 0).aggregate "A" "1.1.1.1" = -1 ∧
      ((NewLoadStats.AddRequest exReqMinusOne 0).GC 12 10).Requests = [] ∧
      ((NewLoadStats.AddRequest exReqMinusOne 0).GC 12 10).queued "A" "1.1.1.1" = 0 ∧
      ((NewLoadStats.AddRequest exReqMinusOne 0).GC 12 10).aggregate "A" "1.1.1.1" = -1) := by
  decide

/-- C26, amended. For a store with unique map keys and int32 fields, a sweep
time `now` and `expire > 0`: when at least one request of the existing engine
`(c, ip)` expires in the request pass of `GC`, then after the same `GC` the
model `c` and its engine are present, both stamped `now`; `QueuedReqNum` is
reduced by the number of expired requests of the engine and the aggregate by
the sum of their positive current prompt lengths, in wrapping signed 32-bit
arithmetic, hence exactly when the results are int32 values, and both are 0
when the engine's counters were the count and the prompt sum of its requests,
all of them expire and none has a negative prompt length. `Size()` of the
model is reduced by the number of its engines that are stale after the
request pass, and is unchanged when every engine of the model without an
expiring request was touched less than `expire` before `now`. After any
further operations, in which every sweep runs before `now + expire`, the
model and the engine are still present. -/
theorem GC_keeps_engine_of_expired (s : LoadStats) (now expire : Int) (hwf : s.WellFormed)
    (hty : s.WellTyped) (hexp : 0 < expire) (c ip : String) (ms : ModelStats)
    (e : EngineStats) (hm : s.RunningModelStats.Load c = some ms)
    (he : ms.Engines.Load ip = some e) (hcnt : 0 < s.expiredCount now expire c ip) :
    ∃ ms1 ms2, (s.gcRequests now expire).RunningModelStats.Load c = some ms1 ∧
      (s.GC now expire).RunningModelStats.Load c = some ms2 ∧ ms2.UpdateTime = now ∧
      ms2.Engines.Load ip = some
        { Ip := e.Ip,
          QueuedReqNum := wrap32 (e.QueuedReqNum - s.expiredCount now expire c ip),
          PromptLength := wrap32 (e.PromptLength - s.expiredPrompt now expire c ip),
          UpdatedTime := now } ∧
      (isInt32 (e.QueuedReqNum - s.expiredCount now expire c ip) →
        (s.GC now expire).queued c ip = e.QueuedReqNum - s.expiredCount now expire c ip) ∧
      (isInt32 (e.PromptLength - s.expiredPrompt now expire c ip) →
        (s.GC now expire).aggregate c ip = e.PromptLength - s.expiredPrompt now expire c ip) ∧
      (e.QueuedReqNum = s.liveCount c ip → e.PromptLength = s.livePrompt c ip →
        (∀ kr ∈ s.Requests, kr.2.Cluster = c → kr.2.Ip = ip →
          expired now expire kr.2 ∧ 0 ≤ kr.2.PromptLength) →
        (s.GC now expire).queued c ip = 0 ∧ (s.GC now expire).aggregate c ip = 0) ∧
      ms2.Size = wrap32 (ms.Size - ms1.staleCount now expire) ∧
      ((∀ kv ∈ ms.Engines, s.expiredCount now expire c kv.1 = 0 →
          ¬ now ≥ kv.2.UpdatedTime + expire) →
        (s.GC now expire).engineCount c = s.engineCount c) ∧
      (∀ ops, BeforeExpiry now expire ops →
        ∃ ms3 e3, (run expire (s.GC now expire) ops).RunningModelStats.Load c = some ms3 ∧
          ms3.Engines.Load ip = some e3) := by
  obtain ⟨ms1, hm1, hU1, hl1, hk1, hm2, hU2, he2⟩ :=
    GC_keeps_touched_engine s now expire hwf hty hexp hm he hcnt
  have hnd := gcRequests_fold_nodup now expire s.Requests s ⟨hwf.2.1, hwf.2.2⟩
  have hnd1 : ms1.Engines.keys.Nodup := hnd.2 _ (SyncMap.mem_of_Load_eq_some hm1)
  have htyL : isInt32 ms.Length := (hty.1 _ (SyncMap.mem_of_Load_eq_some hm)).1
  have hsize : (gcEngines ms1 now expire).Size =
      wrap32 (ms.Size - ms1.staleCount now expire) := by
    unfold ModelStats.Size
    rw [gcEngines_Length ms1 now expire hnd1 (by rw [hl1]; exact htyL), hl1]
  have hq : (s.GC now expire).queued c ip =
      wrap32 (e.QueuedReqNum - s.expiredCount now expire c ip) := by
    unfold queued engine
    rw [hm2]
    simp only []
    rw [he2]
  have ha : (s.GC now expire).aggregate c ip =
      wrap32 (e.PromptLength - s.expiredPrompt now expire c ip) := by
    unfold aggregate engine
    rw [hm2]
    simp only []
    rw [he2]
  refine ⟨ms1, gcEngines ms1 now expire, hm1, hm2, hU2, he2, ?_, ?_, ?_, hsize, ?_, ?_⟩
  · intro h
    rw [hq]
    exact wrap32_of_isInt32 h
  · intro h
    rw [ha]
    exact wrap32_of_isInt32 h
  · intro h1 h2 hall
    obtain ⟨a1, a2⟩ := expired_all_counts s now expire c ip hall
    rw [hq, ha, a1, a2, h1, h2]
    simp only [sub_self]
    exact ⟨by decide, by decide⟩
  · intro hidle
    have hz := staleCount_eq_zero_after_requests s now expire hwf hty hexp hm hm1 hidle
    unfold engineCount GetModelStats
    rw [hm2, hm]
    simp only []
    rw [hsize, hz, sub_zero]
    exact wrap32_of_isInt32 htyL
  · intro ops hops
    have hnd2 := gcModels_nodup (s.gcRequests now expire) now expire hnd.1 hnd.2
    have hk : Kept now c ip (s.GC now expire) :=
      ⟨hnd2.1, hnd2.2, gcEngines ms1 now expire, _, hm2, he2, le_of_eq hU2.symm, le_refl _⟩
    obtain ⟨-, -, ms3, e3, hm3, he3, -, -⟩ := Kept_run expire ops hk hops
    exact ⟨ms3, e3, hm3, he3⟩

/-- The statement of `GC_keeps_engine_of_expired` on the store holding request
`"1"` (set at 5) for the sweep at 16 with expiry 10: the engine stays, with
both counters 0, the engine count stays 1, and the engine is still there
after a sweep at 20 and a `Set` at 30. -/
theorem GC_keeps_engine_of_expired_witness :
    exStore1.WellFormed ∧ exStore1.WellTyped ∧
    0 < exStore1.expiredCount 16 10 "A" "1.1.1.1" ∧
    (exStore1.GC 16 10).queued "A" "1.1.1.1" = 0 ∧
    (exStore1.GC 16 10).aggregate "A" "1.1.1.1" = 0 ∧
    (exStore1.GC 16 10).engineCount "A" = 1 ∧
    (run 10 (exStore1.GC 16 10) [(Op.gc, 20), (Op.set exReq2, 30)]).engine "A" "1.1.1.1" ≠
      none := by
  obtain ⟨ms1, ms2, -, -, -, -, h1, h2, -, -, h5, h6⟩ :=
    GC_keeps_engine_of_expired exStore1 16 10 (by decide) (by decide) (by decide) "A" "1.1.1.1"
      { name := "A",
        Engines := [("1.1.1.1",
          { Ip := "1.1.1.1", QueuedReqNum := 1, PromptLength := 512, UpdatedTime := 5 })],
        Length := 1, UpdateTime := 5 }
      { Ip := "1.1.1.1", QueuedReqNum := 1, PromptLength := 512, UpdatedTime := 5 }
      (by decide) (by decide) (by decide)
  refine ⟨by decide, by decide, by decide, (h1 (by decide)).trans (by decide),
    (h2 (by decide)).trans (by decide), (h5 (by decide)).trans (by decide), ?_⟩
  obtain ⟨ms3, e3, hm3, he3⟩ := h6 [(Op.gc, 20), (Op.set exReq2, 30)] (by decide)
  unfold engine
  rw [hm3]
  simp only []
  rw [he3]
  simp

end LoadStats
/-! ### The delayed retry -/

namespace LoadStats

/-- A deletion attempt after the `Set` of a new request undoes the `Set` on
the counters. -/
theorem tryDelete_after_AddRequest (s : LoadStats) (hs : s.WellTyped) (r : InferenceRequest)
    (t1 t2 : Int) (hfresh : s.Requests.Load r.RequestId = none) (hp : 0 ≤ r.PromptLength) :
    ((s.AddRequest r t1).tryDeleteRequestStats r.RequestId t2).1 = true ∧
    ((s.AddRequest r t1).tryDeleteRequestStats r.RequestId t2).2.Requests = s.Requests ∧
    ((s.AddRequest r t1).tryDeleteRequestStats r.RequestId t2).2.engine r.Cluster r.Ip ≠ none ∧
    (∀ c ip,
      ((s.AddRequest r t1).tryDeleteRequestStats r.RequestId t2).2.queued c ip = s.queued c ip ∧
      ((s.AddRequest r t1).tryDeleteRequestStats r.RequestId t2).2.aggregate c ip =
        s.aggregate c ip) := by
  have hload : (s.AddRequest r t1).Requests.Load r.RequestId = some { r with CreateTime := t1 } := by
    rw [AddRequest_Requests_of_fresh s r t1 hfresh, SyncMap.Load_put_self]
  have htry := tryDeleteRequestStats_of_some (s.AddRequest r t1) r.RequestId t2 hload
  rw [htry]
  have hne : ∀ c ip, ¬ (c = r.Cluster ∧ ip = r.Ip) →
      (decEngineStats { s.AddRequest r t1 with
          Requests := (s.AddRequest r t1).Requests.Delete r.RequestId }
        { r with CreateTime := t1 } t2).engine c ip = s.engine c ip := by
    intro c ip hcip
    rw [engine_decEngineStats_ne _ { r with CreateTime := t1 } _ c ip hcip, engine_with_Requests,
      engine_AddRequest_ne s r t1 c ip hcip]
  have hself : (decEngineStats { s.AddRequest r t1 with
          Requests := (s.AddRequest r t1).Requests.Delete r.RequestId }
        { r with CreateTime := t1 } t2).engine r.Cluster r.Ip =
      some ((((((s.engine r.Cluster r.Ip).getD (NewEngineLoadStats r.Ip t1))
        |>.IncrementQueuedReqNumAndPromptLength r.PromptLength t1).DecrementQueuedReqNum
          t2).DecrementPromptLength { r with CreateTime := t1 } t2).1) := by
    have := engine_decEngineStats_self
      { s.AddRequest r t1 with Requests := (s.AddRequest r t1).Requests.Delete r.RequestId }
      { r with CreateTime := t1 } t2
    simp only [engine_with_Requests] at this
    rw [this, engine_AddRequest_self s r t1 hfresh]
    rfl
  refine ⟨rfl, ?_, ?_, ?_⟩
  · simp only [decEngineStats_Requests]
    rw [AddRequest_Requests_of_fresh s r t1 hfresh, SyncMap.Delete_put_of_Load_none _ hfresh]
  · simp only []
    rw [hself]
    simp
  · intro c ip
    simp only []
    by_cases hcip : c = r.Cluster ∧ ip = r.Ip
    · obtain ⟨rfl, rfl⟩ := hcip
      unfold queued aggregate
      rw [hself]
      cases he : s.engine r.Cluster r.Ip with
      | none =>
        have := decrement_increment (NewEngineLoadStats r.Ip t1)
          (NewEngineLoadStats_wellTyped r.Ip t1) r hp t1 t2
        simp only [Option.getD_none]
        exact ⟨this.1, this.2⟩
      | some e =>
        have := decrement_increment e (engine_wellTyped hs he) r hp t1 t2
        simp only [Option.getD_some]
        exact ⟨this.1, this.2⟩
    · unfold queued aggregate
      rw [hne c ip hcip]
      exact ⟨rfl, rfl⟩

end LoadStats

namespace LoadStats

theorem aggregate_decEngineStats_of_nonpos (s : LoadStats) (req : InferenceRequest) (now : Int)
    (h : req.PromptLength ≤ 0) (c ip : String) :
    (s.decEngineStats req now).aggregate c ip = s.aggregate c ip := by
  unfold aggregate
  by_cases hc : c = req.Cluster ∧ ip = req.Ip
  · obtain ⟨rfl, rfl⟩ := hc
    rw [engine_decEngineStats_self]
    cases s.engine req.Cluster req.Ip with
    | none => rfl
    | some e =>
      simp only [Option.map_some']
      rw [EngineStats.DecrementPromptLength_PromptLength,
        EngineStats.DecrementQueuedReqNum_PromptLength, if_pos h]
  · rw [engine_decEngineStats_ne s req now c ip hc]

theorem aggregate_decEnginePromptLength_of_nonpos (s : LoadStats) (req : InferenceRequest)
    (now : Int) (h : req.PromptLength ≤ 0) (c ip : String) :
    (s.decEnginePromptLength req now).1.aggregate c ip = s.aggregate c ip := by
  unfold aggregate
  by_cases hc : c = req.Cluster ∧ ip = req.Ip
  · obtain ⟨rfl, rfl⟩ := hc
    rw [engine_decEnginePromptLength_self]
    cases s.engine req.Cluster req.Ip with
    | none => rfl
    | some e =>
      simp only [Option.map_some']
      rw [EngineStats.DecrementPromptLength_PromptLength, if_pos h]
  · rw [engine_decEnginePromptLength_ne s req now c ip hc]

theorem aggregate_with_Requests (s : LoadStats) (m : SyncMap InferenceRequest) (c ip : String) :
    LoadStats.aggregate { s with Requests := m } c ip = s.aggregate c ip := rfl

theorem aggregate_tryDeleteRequestStats_of_nonpos (s : LoadStats) (id : String) (now : Int)
    {r : InferenceRequest} (hl : s.Requests.Load id = some r) (h : r.PromptLength ≤ 0)
    (c ip : String) : (s.tryDeleteRequestStats id now).2.aggregate c ip = s.aggregate c ip := by
  rw [tryDeleteRequestStats_of_some s id now hl]
  simp only []
  rw [aggregate_decEngineStats_of_nonpos _ r now h c ip, aggregate_with_Requests]

theorem aggregate_tryDecPromptLength_of_nonpos (s : LoadStats) (id : String) (now : Int)
    {r : InferenceRequest} (hl : s.Requests.Load id = some r) (h : r.PromptLength ≤ 0)
    (c ip : String) : (s.tryDecPromptLength id now).2.aggregate c ip = s.aggregate c ip := by
  rw [tryDecPromptLength_of_some s id now hl]
  simp only []
  rw [aggregate_with_Requests, aggregate_decEnginePromptLength_of_nonpos s r now h c ip]

theorem aggregate_gcRequestVisit_of_nonpos (now expire : Int) (acc : LoadStats)
    (kv : String × InferenceRequest) (h : expired now expire kv.2 → kv.2.PromptLength ≤ 0)
    (c ip : String) : (gcRequestVisit now expire acc kv).aggregate c ip = acc.aggregate c ip := by
  by_cases hx : expired now expire kv.2
  · rw [gcRequestVisit_of_expired now expire acc kv hx,
      aggregate_decEngineStats_of_nonpos _ kv.2 now (h hx) c ip, aggregate_with_Requests]
  · rw [gcRequestVisit_of_not_expired now expire acc kv hx]

theorem aggregate_gcRequests_fold_of_nonpos (now expire : Int) (L : SyncMap InferenceRequest)
    (h : ∀ kv ∈ L, expired now expire kv.2 → kv.2.PromptLength ≤ 0) (acc : LoadStats)
    (c ip : String) :
    (L.foldl (gcRequestVisit now expire) acc).aggregate c ip = acc.aggregate c ip := by
  induction L generalizing acc with
  | nil => rfl
  | cons kv rest ih =>
    rw [List.foldl_cons, ih (fun x hx => h x (List.mem_cons_of_mem _ hx)),
      aggregate_gcRequestVisit_of_nonpos now expire acc kv (h kv (List.mem_cons_self _ _))]

end LoadStats

namespace load

theorem HandleLoadSet_Marshal (lib : Libraries) (r : InferenceRequest) (s : LoadStats)
    (now : Int) (hp : isInt32 r.PromptLength) (ht : isInt64 r.TimeStamp)
    (hcodec : lib.decode (lib.print r.toJSON) = Except.ok r.toJSON) :
    HandleLoadSet lib (r.Marshal lib) s now =
      { store := s.AddRequest r now, retryScheduled := false, err := none } := by
  unfold HandleLoadSet
  rw [Unmarshal_Marshal lib r hp ht hcodec]
  simp only []
  rw [InferenceRequest.AddRequest_ignores_CreateTime s r { r with CreateTime := 0 } now
    rfl rfl rfl rfl rfl]

/-- The aggregate after a negative request is not always the previous value
plus `p`. On the store of two valid requests of prompt 2^30 each (aggregate
-2147483648), `HandleLoadSet` of request `"m1"` with prompt `-1` leaves the
aggregate 2147483647, not -2147483649, and `DeleteRequest` of `"m1"` leaves it
at 2147483647. -/
theorem negative_prompt_wraps :
    exStoreHalves.aggregate "A" "1.1.1.1" = -2147483648 ∧
    exLibraries.decode exBodyMinusOne = Except.ok exReqMinusOne.toJSON ∧
    (HandleLoadSet exLibraries exBodyMinusOne exStoreHalves 7).err = none ∧
    (HandleLoadSet exLibraries exBodyMinusOne exStoreHalves 7).store.Requests.keys =
      ["halfA", "halfB", "m1"] ∧
    (HandleLoadSet exLibraries exBodyMinusOne exStoreHalves 7).store.aggregate "A" "1.1.1.1" =
      2147483647 ∧
    (((HandleLoadSet exLibraries exBodyMinusOne exStoreHalves 7).store.DeleteRequest "m1" 8).1
      ).aggregate "A" "1.1.1.1" = 2147483647 ∧
    ¬ ((((HandleLoadSet exLibraries exBodyMinusOne exStoreHalves 7).store.DeleteRequest "m1" 8).1
      ).aggregate "A" "1.1.1.1" = exStoreHalves.aggregate "A" "1.1.1.1" + (-1)) := by
  set_option maxRecDepth 100000 in
  refine ⟨by decide, by rfl, by decide, by decide, by decide, by decide, by decide⟩

/-- C29 (amended). A prompt length `≤ 0` is never subtracted. For every store
`s`: (i) when the request stored under `id` has `PromptLength ≤ 0`, the
attempts of `DeletePromptLength` and of `DeleteRequest` leave the aggregate of
every engine unchanged; (ii) the sweeper's visit of a request with
`PromptLength ≤ 0` leaves every aggregate unchanged, a request pass in which
every expired request has `PromptLength ≤ 0` leaves every aggregate unchanged,
and every engine left by the whole `GC` of a well-formed store then holds the
aggregate it had; (iii) for a request `r` with negative `int32` prompt length
`p` whose id is not stored, `HandleLoadSet` on the encoding of `r` returns no
error and makes the aggregate of its engine the previous value plus `p` in
wrapping `int32` arithmetic, a following `DeleteRequest` leaves that value, and
it is exactly the previous value plus `p` when that sum is an `int32`. -/
theorem nonpositive_prompt_never_subtracted (lib : Libraries) (s : LoadStats)
    (now expire : Int) :
    (∀ id r, s.Requests.Load id = some r → r.PromptLength ≤ 0 → ∀ c ip,
      (s.DeletePromptLength id now).1.aggregate c ip = s.aggregate c ip ∧
      (s.DeletePromptLengthRetry id now).aggregate c ip = s.aggregate c ip ∧
      (s.DeleteRequest id now).1.aggregate c ip = s.aggregate c ip ∧
      (s.DeleteRequestRetry id now).aggregate c ip = s.aggregate c ip) ∧
    (∀ kv : String × InferenceRequest, kv.2.PromptLength ≤ 0 → ∀ c ip,
      (LoadStats.gcRequestVisit now expire s kv).aggregate c ip = s.aggregate c ip) ∧
    ((∀ kr ∈ s.Requests, LoadStats.expired now expire kr.2 → kr.2.PromptLength ≤ 0) →
      ∀ c ip, (s.gcRequests now expire).aggregate c ip = s.aggregate c ip ∧
        (s.WellFormed → ∀ e, (s.GC now expire).engine c ip = some e →
          e.PromptLength = s.aggregate c ip)) ∧
    (∀ r : InferenceRequest, r.PromptLength < 0 → isInt32 r.PromptLength →
      isInt64 r.TimeStamp → lib.decode (lib.print r.toJSON) = Except.ok r.toJSON →
      s.Requests.Load r.RequestId = none →
      (HandleLoadSet lib (r.Marshal lib) s now).err = none ∧
      (HandleLoadSet lib (r.Marshal lib) s now).store.aggregate r.Cluster r.Ip =
        wrap32 (s.aggregate r.Cluster r.Ip + r.PromptLength) ∧
      (∀ later, (((HandleLoadSet lib (r.Marshal lib) s now).store.DeleteRequest r.RequestId
          later).1).aggregate r.Cluster r.Ip =
        wrap32 (s.aggregate r.Cluster r.Ip + r.PromptLength)) ∧
      (isInt32 (s.aggregate r.Cluster r.Ip + r.PromptLength) →
        ∀ later, (((HandleLoadSet lib (r.Marshal lib) s now).store.DeleteRequest r.RequestId
          later).1).aggregate r.Cluster r.Ip = s.aggregate r.Cluster r.Ip + r.PromptLength)) := by
  refine ⟨?_, ?_, ?_, ?_⟩
  · intro id r hl hp c ip
    have h1 := LoadStats.aggregate_tryDecPromptLength_of_nonpos s id now hl hp c ip
    have h2 := LoadStats.aggregate_tryDeleteRequestStats_of_nonpos s id now hl hp c ip
    refine ⟨?_, h1, ?_, h2⟩
    · rw [LoadStats.DeletePromptLength_fst]; exact h1
    · rw [LoadStats.DeleteRequest_fst]; exact h2
  · intro kv hp c ip
    exact LoadStats.aggregate_gcRequestVisit_of_nonpos now expire s kv (fun _ => hp) c ip
  · intro h c ip
    have h1 : (s.gcRequests now expire).aggregate c ip = s.aggregate c ip :=
      LoadStats.aggregate_gcRequests_fold_of_nonpos now expire s.Requests h s c ip
    refine ⟨h1, ?_⟩
    intro hwf e he
    have hnd := LoadStats.gcRequests_fold_nodup now expire s.Requests s ⟨hwf.2.1, hwf.2.2⟩
    have he1 := LoadStats.engine_gcModels_some (s.gcRequests now expire) now expire hnd.1 hnd.2 he
    rw [← h1]
    unfold LoadStats.aggregate
    rw [he1]
  · intro r hneg hp ht hcodec hfresh
    have hset := HandleLoadSet_Marshal lib r s now hp ht hcodec
    have hagg : (s.AddRequest r now).aggregate r.Cluster r.Ip =
        wrap32 (s.aggregate r.Cluster r.Ip + r.PromptLength) :=
      LoadStats.aggregate_AddRequest_self s r now hfresh
    have hload : (s.AddRequest r now).Requests.Load r.RequestId =
        some { r with CreateTime := now } := by
      rw [LoadStats.AddRequest_Requests_of_fresh s r now hfresh, SyncMap.Load_put_self]
    have hdel : ∀ later, ((s.AddRequest r now).DeleteRequest r.RequestId later).1.aggregate
        r.Cluster r.Ip = wrap32 (s.aggregate r.Cluster r.Ip + r.PromptLength) := by
      intro later
      rw [LoadStats.DeleteRequest_fst,
        LoadStats.aggregate_tryDeleteRequestStats_of_nonpos _ _ later hload
          (le_of_lt hneg) r.Cluster r.Ip, hagg]
    rw [hset]
    refine ⟨rfl, hagg, hdel, ?_⟩
    intro hin later
    rw [hdel later, wrap32_of_isInt32 hin]

end load
namespace load

/-- The statement of `nonpositive_prompt_never_subtracted` on the store that
holds request `"neg"` of prompt `-5` on engine (A, 1.1.1.1): deleting `"neg"`
and sweeping it at 20 leave the aggregate `-5`; `HandleLoadSet` of request
`"m1"` with prompt `-1` makes it `-6`, and `DeleteRequest` of `"m1"` leaves
`-6`. -/
theorem nonpositive_prompt_never_subtracted_witness :
    (NewLoadStats.AddRequest exReqNeg 0).Requests.Load "neg" = some exReqNeg ∧
    exReqNeg.PromptLength ≤ 0 ∧
    (NewLoadStats.AddRequest exReqNeg 0).aggregate "A" "1.1.1.1" = -5 ∧
    ((NewLoadStats.AddRequest exReqNeg 0).DeleteRequest "neg" 20).1.aggregate "A" "1.1.1.1" =
      -5 ∧
    (∀ kr ∈ (NewLoadStats.AddRequest exReqNeg 0).Requests,
      LoadStats.expired 20 10 kr.2 → kr.2.PromptLength ≤ 0) ∧
    ((NewLoadStats.AddRequest exReqNeg 0).gcRequests 20 10).Requests = [] ∧
    ((NewLoadStats.AddRequest exReqNeg 0).gcRequests 20 10).aggregate "A" "1.1.1.1" = -5 ∧
    exReqMinusOne.PromptLength < 0 ∧ isInt32 exReqMinusOne.PromptLength ∧
    isInt64 exReqMinusOne.TimeStamp ∧
    exLibraries.decode (exLibraries.print exReqMinusOne.toJSON) =
      Except.ok exReqMinusOne.toJSON ∧
    (NewLoadStats.AddRequest exReqNeg 0).Requests.Load exReqMinusOne.RequestId = none ∧
    (HandleLoadSet exLibraries (exReqMinusOne.Marshal exLibraries)
      (NewLoadStats.AddRequest exReqNeg 0) 20).store.aggregate "A" "1.1.1.1" = -6 ∧
    (((HandleLoadSet exLibraries (exReqMinusOne.Marshal exLibraries)
      (NewLoadStats.AddRequest exReqNeg 0) 20).store.DeleteRequest "m1" 21).1).aggregate
        "A" "1.1.1.1" = -6 :=
  have h := nonpositive_prompt_never_subtracted exLibraries (NewLoadStats.AddRequest exReqNeg 0)
    20 10
  have h3 := h.2.2.2 exReqMinusOne (by decide) (by decide) (by decide) (by rfl) (by decide)
  ⟨by decide, by decide, by decide,
    (h.1 "neg" exReqNeg (by decide) (by decide) "A" "1.1.1.1").2.2.1.trans (by decide),
    by decide, by decide, ((h.2.2.1 (by decide)) "A" "1.1.1.1").1.trans (by decide),
    by decide, by decide, by decide, by rfl, by decide,
    h3.2.1.trans (by decide), (h3.2.2.2 (by decide) 21).trans (by decide)⟩

end load
namespace LoadStats

theorem live_eq_zero_of_engine_none {s : LoadStats}
    (hE : ∀ kr ∈ s.Requests, s.engine kr.2.Cluster kr.2.Ip ≠ none)
    {c ip : String} (h : s.engine c ip = none) :
    s.liveCount c ip = 0 ∧ s.livePrompt c ip = 0 := by
  have hno : ∀ kr ∈ s.Requests, ¬ (kr.2.Cluster = c ∧ kr.2.Ip = ip) := by
    intro kr hkr hc
    apply hE kr hkr
    rw [hc.1, hc.2]
    exact h
  rw [liveCount_eq_total, livePrompt_eq_total]
  constructor
  · apply SyncMap.total_eq_zero
    intro kv hkv
    simp [countW, hno kv hkv]
  · apply SyncMap.total_eq_zero
    intro kv hkv
    simp [promptW, hno kv hkv]

theorem WrapConsistent_NewLoadStats : WrapConsistent NewLoadStats := by
  refine ⟨by simp [NewLoadStats, SyncMap.keys], by simp [NewLoadStats], ?_⟩
  intro c ip e h
  simp [engine, NewLoadStats, SyncMap.Load] at h

theorem WrapConsistent_AddRequest {s : LoadStats} (hs : WrapConsistent s)
    (r : InferenceRequest) (t : Int) : WrapConsistent (s.AddRequest r t) := by
  cases hl : s.Requests.Load r.RequestId with
  | some y => rw [AddRequest_of_present s r t (by simp [hl])]; exact hs
  | none =>
    obtain ⟨hK, hE, hC⟩ := hs
    have hreq := AddRequest_Requests_of_fresh s r t hl
    have hreq2 : (s.AddRequest r t).Requests =
        s.Requests ++ [(r.RequestId, { r with CreateTime := t })] := by
      rw [hreq, SyncMap.put_of_Load_none _ hl]
    have hcount : ∀ c ip, (s.AddRequest r t).liveCount c ip =
        s.liveCount c ip + countW c ip r := by
      intro c ip
      rw [liveCount_eq_total, liveCount_eq_total, hreq2, SyncMap.total_append_singleton]
      rfl
    have hprompt : ∀ c ip, (s.AddRequest r t).livePrompt c ip =
        s.livePrompt c ip + promptW c ip r := by
      intro c ip
      rw [livePrompt_eq_total, livePrompt_eq_total, hreq2, SyncMap.total_append_singleton]
      rfl
    have hself := engine_AddRequest_self s r t hl
    refine ⟨?_, ?_, ?_⟩
    · rw [hreq]; exact SyncMap.keys_put_nodup _ _ _ hK
    · intro kr hkr
      rw [hreq2] at hkr
      rcases List.mem_append.mp hkr with hold | hnew
      · by_cases hc : kr.2.Cluster = r.Cluster ∧ kr.2.Ip = r.Ip
        · rw [hc.1, hc.2, hself]; simp
        · rw [engine_AddRequest_ne s r t _ _ hc]; exact hE kr hold
      · simp only [List.mem_singleton] at hnew
        subst hnew
        rw [hself]; simp
    · intro c ip e he
      rw [hcount, hprompt]
      by_cases hc : c = r.Cluster ∧ ip = r.Ip
      · obtain ⟨rfl, rfl⟩ := hc
        rw [hself] at he
        simp only [Option.some.injEq] at he
        subst he
        simp only [countW, promptW, and_self, if_true]
        have hold : ((s.engine r.Cluster r.Ip).getD (NewEngineLoadStats r.Ip t)).QueuedReqNum =
            wrap32 (s.liveCount r.Cluster r.Ip) ∧
            ((s.engine r.Cluster r.Ip).getD (NewEngineLoadStats r.Ip t)).PromptLength =
              wrap32 (s.livePrompt r.Cluster r.Ip) := by
          cases h0 : s.engine r.Cluster r.Ip with
          | none =>
            obtain ⟨z1, z2⟩ := live_eq_zero_of_engine_none hE h0
            simp [NewEngineLoadStats, z1, z2, wrap32]
          | some e0 => simpa using hC _ _ e0 h0
        simp only [EngineStats.IncrementQueuedReqNumAndPromptLength, hold.1, hold.2]
        exact ⟨wrap32_add_wrap32 _ _, wrap32_add_wrap32 _ _⟩
      · rw [engine_AddRequest_ne s r t c ip hc] at he
        have hc2 : ¬ (r.Cluster = c ∧ r.Ip = ip) := fun h => hc ⟨h.1.symm, h.2.symm⟩
        simp only [countW, promptW, hc2, if_false, add_zero]
        exact hC c ip e he

theorem WrapConsistent_step_delete (expire : Int) {s : LoadStats} (hs : WrapConsistent s)
    (id : String) (t : Int)
    (hp : ∀ y, s.Requests.Load id = some y → 0 ≤ y.PromptLength) :
    WrapConsistent (step expire s (Op.delete id) t) := by
  cases hl : s.Requests.Load id with
  | none => rw [step_delete_of_none expire s id t hl]; exact hs
  | some y =>
    obtain ⟨hK, hE, hC⟩ := hs
    rw [step_delete_of_some expire s id t hl]
    have hyp : 0 ≤ y.PromptLength := hp y hl
    have hcount : ∀ c ip,
        (decEngineStats { s with Requests := s.Requests.Delete id } y t).liveCount c ip =
          s.liveCount c ip - countW c ip y := by
      intro c ip
      rw [liveCount_eq_total, liveCount_eq_total, decEngineStats_Requests]
      exact SyncMap.total_Delete _ _ hK hl
    have hprompt : ∀ c ip,
        (decEngineStats { s with Requests := s.Requests.Delete id } y t).livePrompt c ip =
          s.livePrompt c ip - promptW c ip y := by
      intro c ip
      rw [livePrompt_eq_total, livePrompt_eq_total, decEngineStats_Requests]
      exact SyncMap.total_Delete _ _ hK hl
    refine ⟨?_, ?_, ?_⟩
    · rw [decEngineStats_Requests]
      exact SyncMap.keys_Delete_nodup _ _ hK
    · intro kr hkr
      rw [decEngineStats_Requests] at hkr
      have hold := SyncMap.mem_Delete _ _ _ hkr
      exact engine_decEngineStats_ne_none _ _ _ _ _ (hE kr hold)
    · intro c ip e he
      rw [hcount, hprompt]
      by_cases hc : c = y.Cluster ∧ ip = y.Ip
      · obtain ⟨rfl, rfl⟩ := hc
        rw [engine_decEngineStats_self, engine_with_Requests] at he
        cases h0 : s.engine y.Cluster y.Ip with
        | none => rw [h0] at he; simp at he
        | some e0 =>
          rw [h0] at he
          simp only [Option.map_some', Option.some.injEq] at he
          subst he
          obtain ⟨hq0, ha0⟩ := hC _ _ e0 h0
          simp only [countW, promptW, and_self, if_true]
          rw [EngineStats.DecrementPromptLength_QueuedReqNum,
            EngineStats.DecrementPromptLength_PromptLength,
            EngineStats.DecrementQueuedReqNum_QueuedReqNum,
            EngineStats.DecrementQueuedReqNum_PromptLength, hq0, ha0]
          constructor
          · unfold addInt32
            rw [wrap32_add_wrap32]
            rfl
          · split
            · have hz : y.PromptLength = 0 := by omega
              rw [hz, sub_zero]
            · unfold addInt32
              rw [wrap32_add_wrap32]
              rfl
      · rw [engine_decEngineStats_ne _ y t c ip hc, engine_with_Requests] at he
        have hc2 : ¬ (y.Cluster = c ∧ y.Ip = ip) := fun h => hc ⟨h.1.symm, h.2.symm⟩
        simp only [countW, promptW, hc2, if_false, sub_zero]
        exact hC c ip e he

theorem WrapConsistent_step_promptDelete (expire : Int) {s : LoadStats}
    (hs : WrapConsistent s) (id : String) (t : Int) :
    WrapConsistent (step expire s (Op.promptDelete id) t) := by
  cases hl : s.Requests.Load id with
  | none => rw [step_promptDelete_of_none expire s id t hl]; exact hs
  | some y =>
    obtain ⟨hK, hE, hC⟩ := hs
    rw [step_promptDelete_of_some expire s id t hl]
    have hmem := SyncMap.mem_of_Load_eq_some hl
    have hyE : s.engine y.Cluster y.Ip ≠ none := hE _ hmem
    have hy2 : (s.decEnginePromptLength y t).2 =
        if 0 < y.PromptLength then { y with PromptLength := 0 } else y := by
      rw [decEnginePromptLength_snd]
      have : (s.engine y.Cluster y.Ip).isSome = true := by
        cases h1 : s.engine y.Cluster y.Ip with
        | none => exact absurd h1 hyE
        | some e => rfl
      simp [this]
    have hyc : (s.decEnginePromptLength y t).2.Cluster = y.Cluster ∧
        (s.decEnginePromptLength y t).2.Ip = y.Ip := by
      rw [hy2]; split <;> exact ⟨rfl, rfl⟩
    have hcount : ∀ c ip,
        LoadStats.liveCount { (s.decEnginePromptLength y t).1 with
            Requests := s.Requests.put id (s.decEnginePromptLength y t).2 } c ip =
          s.liveCount c ip := by
      intro c ip
      rw [liveCount_eq_total, liveCount_eq_total]
      simp only []
      rw [SyncMap.total_put_of_Load_some _ _ hl]
      simp [countW, hyc.1, hyc.2]
    have hprompt : ∀ c ip,
        LoadStats.livePrompt { (s.decEnginePromptLength y t).1 with
            Requests := s.Requests.put id (s.decEnginePromptLength y t).2 } c ip =
          s.livePrompt c ip -
            (if 0 < y.PromptLength then promptW c ip y else 0) := by
      intro c ip
      rw [livePrompt_eq_total, livePrompt_eq_total]
      simp only []
      rw [SyncMap.total_put_of_Load_some _ _ hl, hy2]
      by_cases h0 : 0 < y.PromptLength
      · simp only [h0, if_true, promptW]
        split <;> simp
      · simp only [h0, if_false]
        ring
    refine ⟨SyncMap.keys_put_nodup _ _ _ hK, ?_, ?_⟩
    · intro kr hkr
      rcases SyncMap.mem_put _ _ _ _ hkr with hold | hnew
      · exact engine_decEnginePromptLength_ne_none _ _ _ _ _ (hE kr hold)
      · subst hnew
        show LoadStats.engine _ (s.decEnginePromptLength y t).2.Cluster
          (s.decEnginePromptLength y t).2.Ip ≠ none
        rw [hyc.1, hyc.2]
        exact engine_decEnginePromptLength_ne_none _ _ _ _ _ hyE
    · intro c ip e he
      rw [engine_with_Requests] at he
      rw [hcount, hprompt]
      by_cases hc : c = y.Cluster ∧ ip = y.Ip
      · obtain ⟨rfl, rfl⟩ := hc
        rw [engine_decEnginePromptLength_self] at he
        cases h0 : s.engine y.Cluster y.Ip with
        | none => rw [h0] at he; simp at he
        | some e0 =>
          rw [h0] at he
          simp only [Option.map_some', Option.some.injEq] at he
          subst he
          obtain ⟨hq0, ha0⟩ := hC _ _ e0 h0
          simp only [promptW, and_self, if_true]
          rw [EngineStats.DecrementPromptLength_QueuedReqNum,
            EngineStats.DecrementPromptLength_PromptLength, hq0, ha0]
          refine ⟨rfl, ?_⟩
          by_cases hpos : 0 < y.PromptLength
          · rw [if_neg (not_le.mpr hpos), if_pos hpos]
            unfold addInt32
            rw [wrap32_add_wrap32]
            rfl
          · rw [if_pos (not_lt.mp hpos), if_neg hpos, sub_zero]
      · rw [engine_decEnginePromptLength_ne _ y t c ip hc] at he
        have hc2 : ¬ (y.Cluster = c ∧ y.Ip = ip) := fun h => hc ⟨h.1.symm, h.2.symm⟩
        simp only [promptW, hc2, if_false, sub_zero, ite_self]
        exact hC c ip e he

end LoadStats

namespace LoadStats

theorem NonnegPrompts_AddRequest {s : LoadStats} (hs : NonnegPrompts s) (r : InferenceRequest)
    (t : Int) (hr : 0 ≤ r.PromptLength) : NonnegPrompts (s.AddRequest r t) := by
  cases hl : s.Requests.Load r.RequestId with
  | some y => rw [AddRequest_of_present s r t (by simp [hl])]; exact hs
  | none =>
    intro kr hkr
    rw [AddRequest_Requests_of_fresh s r t hl] at hkr
    rcases SyncMap.mem_put _ _ _ _ hkr with hold | hnew
    · exact hs kr hold
    · subst hnew; exact hr

theorem NonnegPrompts_step_delete (expire : Int) {s : LoadStats} (hs : NonnegPrompts s)
    (id : String) (t : Int) : NonnegPrompts (step expire s (Op.delete id) t) := by
  cases hl : s.Requests.Load id with
  | none => rw [step_delete_of_none expire s id t hl]; exact hs
  | some y =>
    rw [step_delete_of_some expire s id t hl]
    intro kr hkr
    rw [decEngineStats_Requests] at hkr
    exact hs kr (SyncMap.mem_Delete _ _ _ hkr)

theorem NonnegPrompts_step_promptDelete (expire : Int) {s : LoadStats} (hs : NonnegPrompts s)
    (id : String) (t : Int) : NonnegPrompts (step expire s (Op.promptDelete id) t) := by
  cases hl : s.Requests.Load id with
  | none => rw [step_promptDelete_of_none expire s id t hl]; exact hs
  | some y =>
    rw [step_promptDelete_of_some expire s id t hl]
    intro kr hkr
    rcases SyncMap.mem_put _ _ _ _ hkr with hold | hnew
    · exact hs kr hold
    · subst hnew
      have hy := hs _ (SyncMap.mem_of_Load_eq_some hl)
      show 0 ≤ (s.decEnginePromptLength y t).2.PromptLength
      rw [decEnginePromptLength_snd]
      split
      · exact le_refl _
      · exact hy

theorem WrapConsistent_run_sets (expire : Int) (ops : List (Op × Int)) (hops : OnlySets ops)
    (s : LoadStats) (hs : WrapConsistent s) : WrapConsistent (run expire s ops) := by
  induction ops generalizing s with
  | nil => exact hs
  | cons x xs ih =>
    obtain ⟨op, t⟩ := x
    rw [run_cons]
    have hxs : OnlySets xs := fun y hy => hops y (List.mem_cons_of_mem _ hy)
    have hop : IsSet op := hops (op, t) (List.mem_cons_self _ _)
    cases op with
    | set r => exact ih hxs _ (WrapConsistent_AddRequest hs r t)
    | delete id => exact absurd hop (by simp [IsSet])
    | promptDelete id => exact absurd hop (by simp [IsSet])
    | gc => exact absurd hop (by simp [IsSet])

theorem WrapConsistent_run_valid (expire : Int) (ops : List (Op × Int)) (hops : ValidSets ops)
    (s : LoadStats) (hs : WrapConsistent s) (hn : NonnegPrompts s) :
    WrapConsistent (run expire s ops) := by
  induction ops generalizing s with
  | nil => exact hs
  | cons x xs ih =>
    obtain ⟨op, t⟩ := x
    rw [run_cons]
    have hxs : ValidSets xs := fun y hy => hops y (List.mem_cons_of_mem _ hy)
    have hop : ValidOp op := hops (op, t) (List.mem_cons_self _ _)
    cases op with
    | set r =>
      have hr : 0 ≤ r.PromptLength := hop
      exact ih hxs _ (WrapConsistent_AddRequest hs r t) (NonnegPrompts_AddRequest hn r t hr)
    | delete id =>
      exact ih hxs _
        (WrapConsistent_step_delete expire hs id t
          (fun y hy => hn _ (SyncMap.mem_of_Load_eq_some hy)))
        (NonnegPrompts_step_delete expire hn id t)
    | promptDelete id =>
      exact ih hxs _ (WrapConsistent_step_promptDelete expire hs id t)
        (NonnegPrompts_step_promptDelete expire hn id t)
    | gc => exact absurd hop (by simp [ValidOp])

theorem WrapConsistent_counters {s : LoadStats} (hs : WrapConsistent s) (c ip : String) :
    s.aggregate c ip = wrap32 (s.livePrompt c ip) ∧ s.queued c ip = wrap32 (s.liveCount c ip) := by
  unfold aggregate queued
  cases h : s.engine c ip with
  | none =>
    obtain ⟨z1, z2⟩ := live_eq_zero_of_engine_none hs.2.1 h
    rw [z1, z2]
    exact ⟨rfl, rfl⟩
  | some e =>
    obtain ⟨h1, h2⟩ := hs.2.2 c ip e h
    exact ⟨h2, h1⟩

/-- C30. The engine counters are `int32` values updated with wrapping addition.
(i) After any sequence of `Set`s on the empty store, and after any sequence of
`Set`s with prompt lengths `≥ 0`, deletion attempts and prompt-deletion
attempts (no sweeper pass), the aggregate prompt length of every engine is an
`int32` and equals the sum of the current prompt lengths of its stored
requests reduced modulo 2^32 into the `int32` range, and `QueuedReqNum` is the
number of its stored requests reduced likewise. (ii) For the two valid requests
of prompt length 2^30 each on one engine the sum is 2147483648, above
2^31 - 1, and the aggregate is -2147483648; deleting the two requests returns
the aggregate to 0, its value before the two `Set`s. -/
theorem aggregate_wraps :
    (∀ (expire : Int) (ops : List (Op × Int)), OnlySets ops ∨ ValidSets ops →
      ∀ c ip,
        (run expire NewLoadStats ops).aggregate c ip =
          wrap32 ((run expire NewLoadStats ops).livePrompt c ip) ∧
        (run expire NewLoadStats ops).queued c ip =
          wrap32 ((run expire NewLoadStats ops).liveCount c ip) ∧
        isInt32 ((run expire NewLoadStats ops).aggregate c ip)) ∧
    (0 ≤ exReqHalfA.PromptLength ∧ 0 ≤ exReqHalfB.PromptLength ∧
      exStoreHalves = run 10 NewLoadStats [(Op.set exReqHalfA, 0), (Op.set exReqHalfB, 5)] ∧
      NewLoadStats.aggregate "A" "1.1.1.1" = 0 ∧
      exStoreHalves.livePrompt "A" "1.1.1.1" = 2147483648 ∧
      exStoreHalves.aggregate "A" "1.1.1.1" = -2147483648 ∧
      (exStoreHalves.DeleteRequest "halfA" 6).1.aggregate "A" "1.1.1.1" = 1073741824 ∧
      ((exStoreHalves.DeleteRequest "halfA" 6).1.DeleteRequest "halfB" 7).1.aggregate
        "A" "1.1.1.1" = 0) := by
  constructor
  · intro expire ops h c ip
    have hw : WrapConsistent (run expire NewLoadStats ops) := by
      rcases h with h | h
      · exact WrapConsistent_run_sets expire ops h _ WrapConsistent_NewLoadStats
      · exact WrapConsistent_run_valid expire ops h _ WrapConsistent_NewLoadStats
          (by intro kr hkr; simp [NewLoadStats] at hkr)
    obtain ⟨h1, h2⟩ := WrapConsistent_counters hw c ip
    refine ⟨h1, h2, ?_⟩
    rw [h1]
    exact isInt32_wrap32 _
  · refine ⟨by decide, by decide, by rfl, by decide, by decide, by decide, by decide, by decide⟩

/-- The statement of `aggregate_wraps` for the sequence `Set` of request `"1"`
(prompt 512), `Set` of the two requests of prompt 2^30, then the deletion of
both: the aggregate of engine (A, 1.1.1.1) is 512, then -2147483136 (the sum
2147484160 reduced modulo 2^32), then 512 again. -/
theorem aggregate_wraps_witness :
    ValidSets [(Op.set exReq1, 5), (Op.set exReqHalfA, 6), (Op.set exReqHalfB, 7)] ∧
    (run 10 NewLoadStats [(Op.set exReq1, 5), (Op.set exReqHalfA, 6),
      (Op.set exReqHalfB, 7)]).livePrompt "A" "1.1.1.1" = 2147484160 ∧
    (run 10 NewLoadStats [(Op.set exReq1, 5), (Op.set exReqHalfA, 6),
      (Op.set exReqHalfB, 7)]).aggregate "A" "1.1.1.1" = -2147483136 ∧
    ValidSets [(Op.set exReq1, 5), (Op.set exReqHalfA, 6), (Op.set exReqHalfB, 7),
      (Op.delete "halfA", 8), (Op.delete "halfB", 9)] ∧
    (run 10 NewLoadStats [(Op.set exReq1, 5), (Op.set exReqHalfA, 6), (Op.set exReqHalfB, 7),
      (Op.delete "halfA", 8), (Op.delete "halfB", 9)]).aggregate "A" "1.1.1.1" = 512 ∧
    (run 10 NewLoadStats [(Op.set exReq1, 5)]).aggregate "A" "1.1.1.1" = 512 :=
  have hv1 : ValidSets [(Op.set exReq1, 5), (Op.set exReqHalfA, 6), (Op.set exReqHalfB, 7)] := by
    decide
  have hv2 : ValidSets [(Op.set exReq1, 5), (Op.set exReqHalfA, 6), (Op.set exReqHalfB, 7),
      (Op.delete "halfA", 8), (Op.delete "halfB", 9)] := by
    decide
  ⟨hv1, by decide,
    ((aggregate_wraps.1 10 _ (Or.inr hv1) "A" "1.1.1.1").1).trans (by decide),
    hv2,
    ((aggregate_wraps.1 10 _ (Or.inr hv2) "A" "1.1.1.1").1).trans (by decide),
    by decide⟩

end LoadStats

/-! ### The model pass in `int64` arithmetic -/

namespace EngineStats

theorem DecrementPromptLength_UpdatedTime (e : EngineStats) (req : InferenceRequest)
    (now : Int) :
    (e.DecrementPromptLength req now).1.UpdatedTime = e.UpdatedTime ∨
      (e.DecrementPromptLength req now).1.UpdatedTime = now := by
  unfold DecrementPromptLength
  by_cases h : req.PromptLength ≤ 0 <;> simp [h]

end EngineStats

namespace ModelStats

theorem Fits_touch {expire now : Int} {ms : ModelStats} (h : ms.Fits expire)
    (hn : isInt64 (now + expire)) : Fits expire { ms with UpdateTime := now } :=
  ⟨hn, h.2⟩

theorem Fits_put_engine {expire : Int} {ms : ModelStats} (h : ms.Fits expire) (k : String)
    (e : EngineStats) (he : isInt64 (e.UpdatedTime + expire)) :
    Fits expire { ms with Engines := ms.Engines.put k e } := by
  refine ⟨h.1, ?_⟩
  intro ke hke
  rcases SyncMap.mem_put _ _ _ _ hke with hold | hnew
  · exact h.2 ke hold
  · subst hnew; exact he

theorem Fits_Delete {expire now : Int} {ms : ModelStats} (h : ms.Fits expire)
    (hn : isInt64 (now + expire)) (k : String) : (ms.Delete k now).Fits expire := by
  unfold Delete
  cases hl : ms.Engines.Load k with
  | none => exact ⟨hn, h.2⟩
  | some e =>
    refine ⟨hn, ?_⟩
    intro ke hke
    exact h.2 ke (SyncMap.mem_Delete _ _ _ hke)

theorem Fits_LoadOrStore {expire now : Int} {ms : ModelStats} (h : ms.Fits expire)
    (hn : isInt64 (now + expire)) (ip : String) :
    (ms.LoadOrStore ip now).1.Fits expire ∧
      (isInt64 ((ms.LoadOrStore ip now).2.UpdatedTime + expire)) := by
  unfold LoadOrStore
  cases hl : ms.Engines.Load ip with
  | some e =>
    exact ⟨⟨hn, h.2⟩, h.2 (ip, e) (SyncMap.mem_of_Load_eq_some hl)⟩
  | none =>
    refine ⟨⟨hn, ?_⟩, hn⟩
    intro ke hke
    rcases SyncMap.mem_put _ _ _ _ hke with hold | hnew
    · exact h.2 ke hold
    · subst hnew; exact hn

end ModelStats

namespace LoadStats

theorem StampsFit_put {expire : Int} {s : LoadStats} (h : s.StampsFit expire) (k : String)
    {ms : ModelStats} (hm : ms.Fits expire) (R : SyncMap InferenceRequest) :
    StampsFit expire { RunningModelStats := s.RunningModelStats.put k ms, Requests := R } := by
  intro kv hkv
  rcases SyncMap.mem_put _ _ _ _ hkv with hold | hnew
  · exact h kv hold
  · subst hnew; exact hm

theorem StampsFit_of_models_eq {expire : Int} {s s2 : LoadStats} (h : s.StampsFit expire)
    (he : s2.RunningModelStats = s.RunningModelStats) : s2.StampsFit expire := by
  unfold StampsFit
  rw [he]
  exact h

theorem StampsFit_NewLoadStats (expire : Int) : NewLoadStats.StampsFit expire := by
  intro kv hkv
  simp [NewLoadStats] at hkv

theorem StampsFit_AddRequest {expire now : Int} {s : LoadStats} (h : s.StampsFit expire)
    (hn : isInt64 (now + expire)) (r : InferenceRequest) :
    (s.AddRequest r now).StampsFit expire := by
  cases hl : s.Requests.Load r.RequestId with
  | some y => rw [AddRequest_of_present s r now (by simp [hl])]; exact h
  | none =>
    have hm0 : ((s.RunningModelStats.Load r.Cluster).getD (NewModelStats r.Cluster now)).Fits
        expire := by
      cases hm : s.RunningModelStats.Load r.Cluster with
      | none => exact ⟨hn, by intro ke hke; simp [NewModelStats] at hke⟩
      | some ms => exact h _ (SyncMap.mem_of_Load_eq_some hm)
    obtain ⟨h1, h2⟩ := ModelStats.Fits_LoadOrStore hm0 hn r.Ip
    intro kv hkv
    rw [AddRequest_models_of_fresh s r now hl] at hkv
    rcases SyncMap.mem_put _ _ _ _ hkv with hold | hnew
    · exact h kv hold
    · subst hnew
      exact ModelStats.Fits_put_engine h1 r.Ip _ hn

theorem StampsFit_decEngineStats {expire now : Int} {s : LoadStats} (h : s.StampsFit expire)
    (hn : isInt64 (now + expire)) (req : InferenceRequest) :
    (s.decEngineStats req now).StampsFit expire := by
  cases hm : s.RunningModelStats.Load req.Cluster with
  | none => rw [decEngineStats_of_no_model s req now hm]; exact h
  | some ms =>
    have hms := h _ (SyncMap.mem_of_Load_eq_some hm)
    cases he : ms.Engines.Load req.Ip with
    | none =>
      rw [decEngineStats_of_no_engine s req now hm he]
      exact StampsFit_put h _ (ModelStats.Fits_touch hms hn) _
    | some e =>
      rw [decEngineStats_of_engine s req now hm he]
      apply StampsFit_put h
      refine ⟨hn, ?_⟩
      intro ke hke
      rcases SyncMap.mem_put _ _ _ _ hke with hold | hnew
      · exact hms.2 ke hold
      · subst hnew
        rcases EngineStats.DecrementPromptLength_UpdatedTime (e.DecrementQueuedReqNum now) req now
          with hu | hu
        · show isInt64 (((e.DecrementQueuedReqNum now).DecrementPromptLength req now).1.UpdatedTime
            + expire)
          rw [hu]; exact hn
        · show isInt64 (((e.DecrementQueuedReqNum now).DecrementPromptLength req now).1.UpdatedTime
            + expire)
          rw [hu]; exact hn

theorem StampsFit_decEnginePromptLength {expire now : Int} {s : LoadStats}
    (h : s.StampsFit expire) (hn : isInt64 (now + expire)) (req : InferenceRequest) :
    (s.decEnginePromptLength req now).1.StampsFit expire := by
  cases hm : s.RunningModelStats.Load req.Cluster with
  | none => rw [decEnginePromptLength_of_no_model s req now hm]; exact h
  | some ms =>
    have hms := h _ (SyncMap.mem_of_Load_eq_some hm)
    cases he : ms.Engines.Load req.Ip with
    | none =>
      rw [decEnginePromptLength_of_no_engine s req now hm he]
      exact StampsFit_put h _ (ModelStats.Fits_touch hms hn) _
    | some e =>
      rw [decEnginePromptLength_of_engine s req now hm he]
      apply StampsFit_put h
      refine ⟨hn, ?_⟩
      intro ke hke
      rcases SyncMap.mem_put _ _ _ _ hke with hold | hnew
      · exact hms.2 ke hold
      · subst hnew
        have he0 := hms.2 _ (SyncMap.mem_of_Load_eq_some he)
        rcases EngineStats.DecrementPromptLength_UpdatedTime e req now with hu | hu
        · show isInt64 ((e.DecrementPromptLength req now).1.UpdatedTime + expire)
          rw [hu]; exact he0
        · show isInt64 ((e.DecrementPromptLength req now).1.UpdatedTime + expire)
          rw [hu]; exact hn

theorem StampsFit_gcRequests_fold {expire now : Int} (hn : isInt64 (now + expire))
    (L : SyncMap InferenceRequest) {acc : LoadStats} (h : acc.StampsFit expire) :
    (L.foldl (gcRequestVisit now expire) acc).StampsFit expire := by
  induction L generalizing acc with
  | nil => exact h
  | cons kv rest ih =>
    rw [List.foldl_cons]
    apply ih
    by_cases hx : expired now expire kv.2
    · rw [gcRequestVisit_of_expired now expire acc kv hx]
      have h2 : StampsFit expire { acc with Requests := acc.Requests.Delete kv.1 } :=
        StampsFit_of_models_eq h rfl
      exact StampsFit_decEngineStats h2 hn kv.2
    · rw [gcRequestVisit_of_not_expired now expire acc kv hx]
      exact h

theorem Fits_gcEngines_fold {expire now : Int} (hn : isInt64 (now + expire))
    (L : SyncMap EngineStats) {acc : ModelStats} (h : acc.Fits expire) :
    (L.foldl (gcEngineVisit now expire) acc).Fits expire := by
  induction L generalizing acc with
  | nil => exact h
  | cons kv rest ih =>
    rw [List.foldl_cons]
    apply ih
    unfold gcEngineVisit
    split
    · exact ModelStats.Fits_Delete h hn kv.1
    · exact h

theorem StampsFit_gcModels_fold {expire now : Int} (hn : isInt64 (now + expire))
    (L : SyncMap ModelStats) (hL : ∀ kv ∈ L, kv.2.Fits expire) {acc : LoadStats}
    (h : acc.StampsFit expire) :
    (L.foldl (gcModelVisit now expire) acc).StampsFit expire := by
  induction L generalizing acc with
  | nil => exact h
  | cons kv rest ih =>
    rw [List.foldl_cons]
    apply ih (fun x hx => hL x (List.mem_cons_of_mem _ hx))
    unfold gcModelVisit
    split
    · intro x hx
      exact h x (SyncMap.mem_Delete _ _ _ hx)
    · exact StampsFit_put h _
        (Fits_gcEngines_fold hn kv.2.Engines (hL kv (List.mem_cons_self _ _))) _

theorem StampsFit_GC {expire now : Int} {s : LoadStats} (h : s.StampsFit expire)
    (hn : isInt64 (now + expire)) : (s.GC now expire).StampsFit expire := by
  have h1 : (s.gcRequests now expire).StampsFit expire :=
    StampsFit_gcRequests_fold hn s.Requests h
  exact StampsFit_gcModels_fold hn _ h1 h1

theorem StampsFit_step {expire now : Int} {s : LoadStats} (h : s.StampsFit expire)
    (hn : isInt64 (now + expire)) (op : Op) : (step expire s op now).StampsFit expire := by
  cases op with
  | set r => exact StampsFit_AddRequest h hn r
  | delete id =>
    cases hl : s.Requests.Load id with
    | none => rw [step_delete_of_none expire s id now hl]; exact h
    | some y =>
      rw [step_delete_of_some expire s id now hl]
      have h2 : StampsFit expire { s with Requests := s.Requests.Delete id } :=
        StampsFit_of_models_eq h rfl
      exact StampsFit_decEngineStats h2 hn y
  | promptDelete id =>
    cases hl : s.Requests.Load id with
    | none => rw [step_promptDelete_of_none expire s id now hl]; exact h
    | some y =>
      rw [step_promptDelete_of_some expire s id now hl]
      exact StampsFit_of_models_eq (StampsFit_decEnginePromptLength h hn y) rfl
  | gc => exact StampsFit_GC h hn

theorem machine_gcEngines_fold (now expire : Int) (L : SyncMap EngineStats)
    (hL : ∀ ke ∈ L, isInt64 (ke.2.UpdatedTime + expire)) (acc : ModelStats) :
    L.foldl (Machine.gcEngineVisit now expire) acc = L.foldl (gcEngineVisit now expire) acc := by
  induction L generalizing acc with
  | nil => rfl
  | cons kv rest ih =>
    rw [List.foldl_cons, List.foldl_cons]
    have hv : Machine.gcEngineVisit now expire acc kv = gcEngineVisit now expire acc kv := by
      unfold Machine.gcEngineVisit gcEngineVisit
      rw [prom.wrap64_of_isInt64 (hL kv (List.mem_cons_self _ _))]
    rw [hv]
    exact ih (fun x hx => hL x (List.mem_cons_of_mem _ hx)) _

theorem machine_gcModels_fold (now expire : Int) (L : SyncMap ModelStats)
    (hL : ∀ kv ∈ L, kv.2.Fits expire) (acc : LoadStats) :
    L.foldl (Machine.gcModelVisit now expire) acc = L.foldl (gcModelVisit now expire) acc := by
  induction L generalizing acc with
  | nil => rfl
  | cons kv rest ih =>
    rw [List.foldl_cons, List.foldl_cons]
    have hk := hL kv (List.mem_cons_self _ _)
    have hv : Machine.gcModelVisit now expire acc kv = gcModelVisit now expire acc kv := by
      unfold Machine.gcModelVisit gcModelVisit Machine.gcEngines gcEngines
      rw [prom.wrap64_of_isInt64 hk.1, machine_gcEngines_fold now expire kv.2.Engines hk.2]
    rw [hv]
    exact ih (fun x hx => hL x (List.mem_cons_of_mem _ hx)) _

/-- On a store whose time stamps plus `expire` are `int64` values the model
pass in `int64` arithmetic is the model pass on the integers. -/
theorem machine_gcModels_eq {expire : Int} {s : LoadStats} (h : s.StampsFit expire)
    (now : Int) : Machine.gcModels s now expire = s.gcModels now expire :=
  machine_gcModels_fold now expire s.RunningModelStats h s

theorem machine_GC_eq {expire now : Int} {s : LoadStats} (h : s.StampsFit expire)
    (hn : isInt64 (now + expire)) : Machine.GC s now expire = s.GC now expire := by
  unfold Machine.GC GC
  exact machine_gcModels_eq (StampsFit_gcRequests_fold hn s.Requests h) now

theorem machine_GC_eq_of_none_expired {expire now : Int} {s : LoadStats}
    (h : s.StampsFit expire) (hnone : ∀ kr ∈ s.Requests, ¬ expired now expire kr.2) :
    Machine.GC s now expire = s.GC now expire := by
  unfold Machine.GC GC
  rw [gcRequests_of_none_expired s now expire hnone]
  exact machine_gcModels_eq h now

theorem machine_step_eq {expire now : Int} {s : LoadStats} (h : s.StampsFit expire)
    (hn : isInt64 (now + expire)) (op : Op) :
    Machine.step expire s op now = step expire s op now := by
  cases op with
  | set r => rfl
  | delete id => rfl
  | promptDelete id => rfl
  | gc => exact machine_GC_eq h hn

theorem machine_run_eq (expire : Int) (ops : List (Op × Int)) (T : Int) (s : LoadStats)
    (h : s.StampsFit expire) (hadm : Machine.Admissible expire T s ops) :
    Machine.run expire s ops = run expire s ops ∧ Admissible expire T s ops := by
  induction ops generalizing s T with
  | nil => exact ⟨rfl, trivial⟩
  | cons x rest ih =>
    obtain ⟨hT, hfit, hop, hrest⟩ := hadm
    have hs := machine_step_eq h hfit x.1
    rw [hs] at hrest
    obtain ⟨h1, h2⟩ := ih x.2 _ (StampsFit_step h hfit x.1) hrest
    refine ⟨?_, hT, hop, h2⟩
    show Machine.run expire (Machine.step expire s x.1 x.2) rest =
      run expire (step expire s x.1 x.2) rest
    rw [hs]
    exact h1

end LoadStats


namespace LoadStats

theorem machine_run_StampsFit (expire : Int) (ops : List (Op × Int)) (T : Int) (s : LoadStats)
    (h : s.StampsFit expire) (hadm : Machine.Admissible expire T s ops) :
    (Machine.run expire s ops).StampsFit expire := by
  induction ops generalizing s T with
  | nil => exact h
  | cons x rest ih =>
    obtain ⟨hT, hfit, hop, hrest⟩ := hadm
    have hs := machine_step_eq h hfit x.1
    apply ih x.2 (Machine.step expire s x.1 x.2) _ hrest
    rw [hs]
    exact StampsFit_step h hfit x.1

end LoadStats

namespace LoadStats

/-- C10, as stated, fails when a sum `updated_at + request_expire_duration`
exceeds the `int64` range. With `request_expire_duration = 2^63 - 1` (a value
the configuration accepts), the store after `Set` of request `"1"` at 5 and
the sweep time 6: no request expires and `6 ≥ 5 + (2^63 - 1)` is false, yet the
`int64` sum wraps to a negative number and the sweep removes model `A`. -/
theorem model_pass_wraps :
    (∀ kr ∈ exStore1.Requests, ¬ expired 6 9223372036854775807 kr.2) ∧
    (∃ ms, exStore1.GetModelStats "A" = some ms ∧ ms.UpdateTime = 5) ∧
    ¬ ((6 : Int) ≥ 5 + 9223372036854775807) ∧
    wrap64 (5 + 9223372036854775807) = -9223372036854775804 ∧
    (Machine.GC exStore1 6 9223372036854775807).GetModelStats "A" = none ∧
    (Machine.GC exStore1 6 9223372036854775807).Requests = exStore1.Requests := by
  refine ⟨by decide, ⟨_, rfl, rfl⟩, by decide, by decide, by decide, by decide⟩

/-- C10, amended. The model pass of `GC`, whose sums are `int64` additions.
For a store with unique map keys, int32 fields, `Length` equal to the number
of engines of each model and every sum `UpdateTime + expire`,
`UpdatedTime + expire` within the `int64` range, and a sweep time `now` at
which no request expires: `Requests` is unchanged; a model that did not exist
does not exist afterwards; a model `ms` is absent afterwards iff
`now ≥ ms.UpdateTime + expire`; in a model that survives, the engine map is the
old one without the engines `e` with `now ≥ e.UpdatedTime + expire` (an engine
is absent iff that holds, and a surviving engine is unchanged, counters
included), and `Size()` has decreased by exactly the number of engines
removed, so that it is again the number of engines. -/
theorem GC_model_pass (s : LoadStats) (now expire : Int) (hwf : s.WellFormed)
    (hty : s.WellTyped) (hsz : s.SizesCorrect) (hfit : s.StampsFit expire)
    (hnone : ∀ kr ∈ s.Requests, ¬ expired now expire kr.2) :
    (Machine.GC s now expire).Requests = s.Requests ∧
    (∀ c, s.GetModelStats c = none → (Machine.GC s now expire).GetModelStats c = none) ∧
    (∀ c ms, s.GetModelStats c = some ms →
      ((Machine.GC s now expire).GetModelStats c = none ↔ now ≥ ms.UpdateTime + expire) ∧
      (¬ now ≥ ms.UpdateTime + expire →
        ∃ ms2, (Machine.GC s now expire).GetModelStats c = some ms2 ∧
          ms2.Engines =
            ms.Engines.filter (fun kv => decide (¬ now ≥ kv.2.UpdatedTime + expire)) ∧
          (∀ ip, ms.Engines.Load ip = none → ms2.Engines.Load ip = none) ∧
          (∀ ip e, ms.Engines.Load ip = some e →
            (ms2.Engines.Load ip = none ↔ now ≥ e.UpdatedTime + expire) ∧
            (¬ now ≥ e.UpdatedTime + expire → ms2.Engines.Load ip = some e)) ∧
          ms2.Size = ms.Size - ((ms.Engines.length : Int) - (ms2.Engines.length : Int)) ∧
          ms2.Size = (ms2.Engines.length : Int))) := by
  rw [machine_GC_eq_of_none_expired hfit hnone]
  exact gcModels_pass_exact s now expire hwf hty hsz hnone

/-- Witness for C10: with expiry 10, the sweep at 13 of `exStoreSweep` (no
request expires) removes model B (last touched at 3) and the engine 1.1.1.1 of
model A (last touched at 2); model A (touched at 8) keeps its engine 2.2.2.2
unchanged and its size goes from 2 to 1. -/
theorem GC_model_pass_witness :
    exStoreSweep.WellFormed ∧ exStoreSweep.WellTyped ∧ exStoreSweep.SizesCorrect ∧
    exStoreSweep.StampsFit 10 ∧ (∀ kr ∈ exStoreSweep.Requests, ¬ expired 13 10 kr.2) ∧
    (Machine.GC exStoreSweep 13 10).GetModelStats "B" = none ∧
    (Machine.GC exStoreSweep 13 10).engine "A" "1.1.1.1" = none ∧
    (Machine.GC exStoreSweep 13 10).engine "A" "2.2.2.2" =
      some { Ip := "2.2.2.2", QueuedReqNum := 1, PromptLength := 256, UpdatedTime := 8 } ∧
    exStoreSweep.engineCount "A" = 2 ∧ (Machine.GC exStoreSweep 13 10).engineCount "A" = 1 ∧
    (Machine.GC exStoreSweep 13 10).Requests = exStoreSweep.Requests :=
  ⟨by decide, by decide, by decide, by decide, by decide,
    (((GC_model_pass exStoreSweep 13 10 (by decide) (by decide) (by decide) (by decide)
      (by decide)).2.2 "B"
      { name := "B",
        Engines := [("1.1.1.1",
          { Ip := "1.1.1.1", QueuedReqNum := 0, PromptLength := 0, UpdatedTime := 3 })],
        Length := 1, UpdateTime := 3 } (by decide)).1).mpr (by decide),
    by decide, by decide, by decide, by decide,
    (GC_model_pass exStoreSweep 13 10 (by decide) (by decide) (by decide) (by decide)
      (by decide)).1⟩

end LoadStats

/-! ### Calls of the delete operations and their timers -/

theorem List.length_filter_eraseIdx {α : Type} (p : α → Bool) (l : List α) (i : Nat) (x : α)
    (h : l[i]? = some x) :
    ((l.eraseIdx i).filter p).length + (if p x then 1 else 0) = (l.filter p).length := by
  induction l generalizing i with
  | nil => simp at h
  | cons hd tl ih =>
    cases i with
    | zero =>
      simp only [List.getElem?_cons_zero, Option.some.injEq] at h
      subst h
      simp only [List.eraseIdx_cons_zero, List.filter_cons]
      split <;> simp
    | succ j =>
      simp only [List.getElem?_cons_succ] at h
      have := ih j h
      simp only [List.eraseIdx_cons_succ, List.filter_cons]
      split
      · simp only [List.length_cons]; omega
      · exact this

theorem List.mem_filter_of_mem_filter_eraseIdx {α : Type} (p : α → Bool) (l : List α) (i : Nat)
    {x : α} (h : x ∈ (l.eraseIdx i).filter p) : x ∈ l.filter p := by
  rw [List.mem_filter] at h ⊢
  exact ⟨(List.eraseIdx_sublist l i).subset h.1, h.2⟩

namespace Runtime

theorem tryDeleteRequestStats_fst (s : LoadStats) (id : String) (now : Int) :
    (s.tryDeleteRequestStats id now).1 = decide (id ∈ s.Requests.keys) := by
  cases hl : s.Requests.Load id with
  | none =>
    rw [LoadStats.tryDeleteRequestStats_of_none s id now hl]
    have := (SyncMap.Load_eq_none_iff s.Requests id).mp hl
    simp [this]
  | some y =>
    rw [LoadStats.tryDeleteRequestStats_of_some s id now hl]
    have : id ∈ s.Requests.keys := by
      by_contra hn
      rw [(SyncMap.Load_eq_none_iff s.Requests id).mpr hn] at hl
      cases hl
    simp [this]

theorem tryDecPromptLength_fst (s : LoadStats) (id : String) (now : Int) :
    (s.tryDecPromptLength id now).1 = decide (id ∈ s.Requests.keys) := by
  cases hl : s.Requests.Load id with
  | none =>
    rw [LoadStats.tryDecPromptLength_of_none s id now hl]
    have := (SyncMap.Load_eq_none_iff s.Requests id).mp hl
    simp [this]
  | some y =>
    rw [LoadStats.tryDecPromptLength_of_some s id now hl]
    have : id ∈ s.Requests.keys := by
      by_contra hn
      rw [(SyncMap.Load_eq_none_iff s.Requests id).mpr hn] at hl
      cases hl
    simp [this]

theorem DeleteRequest_of_found (rt : Runtime) (call : Nat) (id : String) (now : Int)
    (h : id ∈ rt.store.Requests.keys) :
    rt.DeleteRequest call id now =
      { store := (rt.store.tryDeleteRequestStats id now).2, timers := rt.timers,
        attempts := rt.attempts ++
          [{ call := call, kind := AttemptKind.request, requestID := id, time := now,
             delayed := false, found := true }] } := by
  have h1 := tryDeleteRequestStats_fst rt.store id now
  unfold DeleteRequest
  cases hr : rt.store.tryDeleteRequestStats id now with
  | mk b s1 =>
    rw [hr] at h1
    simp only [h, decide_True] at h1
    subst h1
    rfl

theorem DeleteRequest_of_not_found (rt : Runtime) (call : Nat) (id : String) (now : Int)
    (h : id ∉ rt.store.Requests.keys) :
    rt.DeleteRequest call id now =
      { store := rt.store,
        timers := rt.timers ++
          [{ due := now + time.Second, call := call, kind := AttemptKind.request,
             requestID := id }],
        attempts := rt.attempts ++
          [{ call := call, kind := AttemptKind.request, requestID := id, time := now,
             delayed := false, found := false }] } := by
  unfold DeleteRequest
  rw [LoadStats.tryDeleteRequestStats_of_none rt.store id now
    ((SyncMap.Load_eq_none_iff _ _).mpr h)]

theorem DeletePromptLength_of_found (rt : Runtime) (call : Nat) (id : String) (now : Int)
    (h : id ∈ rt.store.Requests.keys) :
    rt.DeletePromptLength call id now =
      { store := (rt.store.tryDecPromptLength id now).2, timers := rt.timers,
        attempts := rt.attempts ++
          [{ call := call, kind := AttemptKind.prompt, requestID := id, time := now,
             delayed := false, found := true }] } := by
  have h1 := tryDecPromptLength_fst rt.store id now
  unfold DeletePromptLength
  cases hr : rt.store.tryDecPromptLength id now with
  | mk b s1 =>
    rw [hr] at h1
    simp only [h, decide_True] at h1
    subst h1
    rfl

theorem DeletePromptLength_of_not_found (rt : Runtime) (call : Nat) (id : String) (now : Int)
    (h : id ∉ rt.store.Requests.keys) :
    rt.DeletePromptLength call id now =
      { store := rt.store,
        timers := rt.timers ++
          [{ due := now + time.Second, call := call, kind := AttemptKind.prompt,
             requestID := id }],
        attempts := rt.attempts ++
          [{ call := call, kind := AttemptKind.prompt, requestID := id, time := now,
             delayed := false, found := false }] } := by
  unfold DeletePromptLength
  rw [LoadStats.tryDecPromptLength_of_none rt.store id now
    ((SyncMap.Load_eq_none_iff _ _).mpr h)]

/-- What one call of a delete operation adds: one attempt, the immediate one,
and a timer due one second later when that attempt found nothing. -/
theorem deleteCall_effect (kind : AttemptKind) (rt : Runtime) (call : Nat) (id : String)
    (now : Int) :
    (deleteCall kind rt call id now).attempts = rt.attempts ++
      [{ call := call, kind := kind, requestID := id, time := now, delayed := false,
         found := decide (id ∈ rt.store.Requests.keys) }] ∧
    (deleteCall kind rt call id now).timers = rt.timers ++
      (if id ∈ rt.store.Requests.keys then []
       else [{ due := now + time.Second, call := call, kind := kind, requestID := id }]) := by
  by_cases h : id ∈ rt.store.Requests.keys
  · cases kind
    · show (rt.DeleteRequest call id now).attempts = _ ∧ (rt.DeleteRequest call id now).timers = _
      rw [DeleteRequest_of_found rt call id now h]
      simp [h]
    · show (rt.DeletePromptLength call id now).attempts = _ ∧
        (rt.DeletePromptLength call id now).timers = _
      rw [DeletePromptLength_of_found rt call id now h]
      simp [h]
  · cases kind
    · show (rt.DeleteRequest call id now).attempts = _ ∧ (rt.DeleteRequest call id now).timers = _
      rw [DeleteRequest_of_not_found rt call id now h]
      simp [h]
    · show (rt.DeletePromptLength call id now).attempts = _ ∧
        (rt.DeletePromptLength call id now).timers = _
      rw [DeletePromptLength_of_not_found rt call id now h]
      simp [h]

theorem CallState_deleteCall (kind : AttemptKind) (rt : Runtime) (call : Nat) (id : String)
    (now : Int) (hfresh : rt.attemptsOf call = [] ∧ rt.timersOf call = []) :
    CallState call kind id now (decide (id ∈ rt.store.Requests.keys))
      (deleteCall kind rt call id now) := by
  obtain ⟨ha, ht⟩ := deleteCall_effect kind rt call id now
  unfold attemptsOf timersOf at hfresh
  refine ⟨[], ?_, by simp, ?_, ?_⟩
  · unfold attemptsOf
    rw [ha, List.filter_append, hfresh.1]
    simp
  · intro tm htm
    unfold timersOf at htm
    rw [ht, List.filter_append, hfresh.2] at htm
    by_cases h : id ∈ rt.store.Requests.keys
    · simp [h] at htm
    · simp [h] at htm
      subst htm
      exact ⟨rfl, rfl, rfl⟩
  · unfold timersOf
    rw [ht, List.filter_append, hfresh.2]
    by_cases h : id ∈ rt.store.Requests.keys <;> simp [h]

/-- What a call of a delete operation with another number adds does not belong
to call `call`. -/
theorem CallState_other_call {call : Nat} {kind : AttemptKind} {id : String} {now : Int}
    {found : Bool} {rt : Runtime} (h : CallState call kind id now found rt)
    (kind2 : AttemptKind) (call2 : Nat) (id2 : String) (t : Int) (hne : call2 ≠ call) :
    CallState call kind id now found (deleteCall kind2 rt call2 id2 t) := by
  obtain ⟨ha, ht⟩ := deleteCall_effect kind2 rt call2 id2 t
  have hA : (deleteCall kind2 rt call2 id2 t).attemptsOf call = rt.attemptsOf call := by
    unfold attemptsOf
    rw [ha, List.filter_append]
    simp [hne]
  have hT : (deleteCall kind2 rt call2 id2 t).timersOf call = rt.timersOf call := by
    unfold timersOf
    rw [ht, List.filter_append]
    by_cases hk : id2 ∈ rt.store.Requests.keys <;> simp [hk, hne]
  unfold CallState
  rw [hA, hT]
  exact h

theorem CallState_store {call : Nat} {kind : AttemptKind} {id : String} {now : Int}
    {found : Bool} {rt : Runtime} (h : CallState call kind id now found rt) (s : LoadStats) :
    CallState call kind id now found { rt with store := s } := h

theorem CallState_fire {call : Nat} {kind : AttemptKind} {id : String} {now : Int}
    {found : Bool} {rt : Runtime} (h : CallState call kind id now found rt) (i : Nat)
    (t : Int) : CallState call kind id now found (rt.fire i t) := by
  unfold fire
  cases hi : rt.timers[i]? with
  | none => exact h
  | some tm =>
    simp only []
    by_cases hdue : tm.due ≤ t
    · rw [if_pos hdue]
      obtain ⟨rest, hA, hR, hT, hN⟩ := h
      have hlen := List.length_filter_eraseIdx (fun x : Timer => decide (x.call = call))
        rt.timers i tm hi
      have hsub : ∀ x ∈ (rt.timers.eraseIdx i).filter (fun x : Timer => decide (x.call = call)),
          x ∈ rt.timersOf call := fun x hx =>
        List.mem_filter_of_mem_filter_eraseIdx _ rt.timers i hx
      have hmem : tm ∈ rt.timers := List.getElem?_mem hi
      by_cases hc : tm.call = call
      · have htm : tm ∈ rt.timersOf call := by
          unfold timersOf
          exact List.mem_filter.mpr ⟨hmem, by simp [hc]⟩
        obtain ⟨hd, hk, hid⟩ := hT tm htm
        simp only [hc, decide_True, if_true] at hlen
        cases hkind : tm.kind with
        | request =>
          simp only []
          refine ⟨rest ++
            [{ call := tm.call, kind := AttemptKind.request, requestID := tm.requestID,
               time := t, delayed := true,
               found := (rt.store.tryDeleteRequestStats tm.requestID t).1 }], ?_, ?_, ?_, ?_⟩
          · show List.filter _ (rt.attempts ++ _) = _
            rw [List.filter_append]
            have hA2 : List.filter (fun a : Attempt => decide (a.call = call)) rt.attempts =
                _ := hA
            rw [hA2]
            simp [hc]
          · intro a ha
            rcases List.mem_append.mp ha with ha | ha
            · exact hR a ha
            · simp only [List.mem_singleton] at ha
              subst ha
              refine ⟨rfl, ?_, hid, ?_⟩
              · show AttemptKind.request = kind
                rw [← hk, hkind]
              · show now + time.Second ≤ t
                omega
          · intro x hx
            exact hT x (hsub x hx)
          · show (rest ++ _).length +
              ((rt.timers.eraseIdx i).filter (fun x : Timer => decide (x.call = call))).length = _
            rw [← hN]
            unfold timersOf
            simp only [List.length_append, List.length_singleton]
            omega
        | prompt =>
          simp only []
          refine ⟨rest ++
            [{ call := tm.call, kind := AttemptKind.prompt, requestID := tm.requestID,
               time := t, delayed := true,
               found := (rt.store.tryDecPromptLength tm.requestID t).1 }], ?_, ?_, ?_, ?_⟩
          · show List.filter _ (rt.attempts ++ _) = _
            rw [List.filter_append]
            have hA2 : List.filter (fun a : Attempt => decide (a.call = call)) rt.attempts =
                _ := hA
            rw [hA2]
            simp [hc]
          · intro a ha
            rcases List.mem_append.mp ha with ha | ha
            · exact hR a ha
            · simp only [List.mem_singleton] at ha
              subst ha
              refine ⟨rfl, ?_, hid, ?_⟩
              · show AttemptKind.prompt = kind
                rw [← hk, hkind]
              · show now + time.Second ≤ t
                omega
          · intro x hx
            exact hT x (hsub x hx)
          · show (rest ++ _).length +
              ((rt.timers.eraseIdx i).filter (fun x : Timer => decide (x.call = call))).length = _
            rw [← hN]
            unfold timersOf
            simp only [List.length_append, List.length_singleton]
            omega
      · simp only [hc, decide_False, Bool.false_eq_true, if_false, add_zero] at hlen
        have hA3 : ∀ a : Attempt, a.call = tm.call →
            List.filter (fun a : Attempt => decide (a.call = call)) (rt.attempts ++ [a]) =
              rt.attemptsOf call := by
          intro a ha
          rw [List.filter_append]
          unfold attemptsOf
          simp [ha, hc]
        cases hkind : tm.kind with
        | request =>
          simp only []
          refine ⟨rest, ?_, hR, ?_, ?_⟩
          · show List.filter _ (rt.attempts ++ _) = _
            rw [hA3 _ rfl]
            exact hA
          · intro x hx
            exact hT x (hsub x hx)
          · show rest.length +
              ((rt.timers.eraseIdx i).filter (fun x : Timer => decide (x.call = call))).length = _
            rw [hlen]
            exact hN
        | prompt =>
          simp only []
          refine ⟨rest, ?_, hR, ?_, ?_⟩
          · show List.filter _ (rt.attempts ++ _) = _
            rw [hA3 _ rfl]
            exact hA
          · intro x hx
            exact hT x (hsub x hx)
          · show rest.length +
              ((rt.timers.eraseIdx i).filter (fun x : Timer => decide (x.call = call))).length = _
            rw [hlen]
            exact hN
    · rw [if_neg hdue]
      exact h

theorem CallState_exec (expire : Int) {call : Nat} {kind : AttemptKind} {id : String}
    {now : Int} {found : Bool} {rt : Runtime} (h : CallState call kind id now found rt)
    (ev : Event) (t : Int) (hev : ¬ ev.isCall call) :
    CallState call kind id now found (exec expire rt ev t) := by
  cases ev with
  | set req => exact CallState_store h _
  | delete c id2 =>
    exact CallState_other_call h AttemptKind.request c id2 t (fun hc => hev hc)
  | promptDelete c id2 =>
    exact CallState_other_call h AttemptKind.prompt c id2 t (fun hc => hev hc)
  | gc => exact CallState_store h _
  | fire i => exact CallState_fire h i t

theorem CallState_runEvents (expire : Int) {call : Nat} {kind : AttemptKind} {id : String}
    {now : Int} {found : Bool} (evs : List (Event × Int))
    (hevs : ∀ x ∈ evs, ¬ x.1.isCall call) {rt : Runtime}
    (h : CallState call kind id now found rt) :
    CallState call kind id now found (runEvents expire rt evs) := by
  induction evs generalizing rt with
  | nil => exact h
  | cons x rest ih =>
    exact ih (fun y hy => hevs y (List.mem_cons_of_mem _ hy))
      (CallState_exec expire h x.1 x.2 (hevs x (List.mem_cons_self _ _)))

end Runtime
namespace Runtime

theorem fire_last (rt : Runtime) (tm : Timer) (t : Int) (hdue : tm.due ≤ t)
    (hk : tm.kind = AttemptKind.request) (A : List Attempt) (s : LoadStats) :
    fire { store := s, timers := rt.timers ++ [tm], attempts := A } rt.timers.length t =
      { store := (s.tryDeleteRequestStats tm.requestID t).2, timers := rt.timers,
        attempts := A ++
          [{ call := tm.call, kind := AttemptKind.request, requestID := tm.requestID,
             time := t, delayed := true,
             found := (s.tryDeleteRequestStats tm.requestID t).1 }] } := by
  unfold fire
  have h1 : (rt.timers ++ [tm])[rt.timers.length]? = some tm := by simp
  have h2 : (rt.timers ++ [tm]).eraseIdx rt.timers.length = rt.timers := by
    rw [List.eraseIdx_append_of_length_le (le_refl _)]
    simp
  simp only [h1, hdue, if_true, hk, h2]

/-- C28, as stated, fails in its last sentence. On the store holding request
`"1"` of engine (A, 1.1.1.1), `DeleteRequest("2")` finds nothing and starts its
timer; `Set` of request `"2"` on the same engine arrives before the timer
fires; the retry (the second and last attempt of the call, one second after
the first) removes `"2"`, and the engine shows `queued = 1` and aggregate 512,
the contribution of `"1"`, not 0 and 0. -/
theorem retry_leaves_other_requests :
    exRuntimeRetry.attemptsOf 0 =
      [{ call := 0, kind := AttemptKind.request, requestID := "2", time := 6,
         delayed := false, found := false },
       { call := 0, kind := AttemptKind.request, requestID := "2", time := 1000000006,
         delayed := true, found := true }] ∧
    exRuntimeRetry.timers = [] ∧
    exRuntimeRetry.store.Requests.Load "2" = none ∧
    exRuntimeRetry.store.queued exReq2.Cluster exReq2.Ip = 1 ∧
    exRuntimeRetry.store.aggregate exReq2.Cluster exReq2.Ip = 512 := by
  decide

/-- C28, amended. One call of `DeleteRequest` (likewise `DeletePromptLength`,
`kind`) makes its deletion attempt once immediately and, only when that
attempt found the id absent, once more from its timer, one second after the
call or later; never a third time. For every runtime `rt` (store and pending
timers), call number `k` not used before, request id, clock reading `now`, and
every sequence of events after the call (`Set`s, other calls of the delete
operations, sweeps, firings of timers): the attempts of the call executed so
far together with its pending timers are one when the id was stored and two
when it was not; the first attempt is the immediate one, at `now`; every other
attempt is a delayed retry for the same id run at `now + 1 s` or later; the
pending timers of the call are due at `now + 1 s`; when the id was stored
there is one attempt and no timer; when it was not, there is one attempt
while the timer is pending and two once it has fired, whatever the retry
found. If `Set(r)`, with `r.PromptLength ≥ 0`, is applied to a store with
int32 fields between the failed immediate attempt of `DeleteRequest` and the
firing of its timer, then after the retry `r` is absent, its engine is
present, and every engine has the `QueuedReqNum` and the aggregate it had
before the call: for the engine of `r`, 0 and 0 when the engine did not exist
or had these values before. -/
theorem delete_call_attempts (expire : Int) (kind : AttemptKind) (rt : Runtime) (k : Nat)
    (id : String) (now : Int) (evs : List (Event × Int))
    (hfresh : rt.attemptsOf k = [] ∧ rt.timersOf k = [])
    (hevs : ∀ x ∈ evs, ¬ x.1.isCall k) :
    ((afterCall expire kind rt k id now evs).attemptsOf k).length +
        ((afterCall expire kind rt k id now evs).timersOf k).length =
      (if id ∈ rt.store.Requests.keys then 1 else 2) ∧
    1 ≤ ((afterCall expire kind rt k id now evs).attemptsOf k).length ∧
    ((afterCall expire kind rt k id now evs).attemptsOf k).length ≤ 2 ∧
    ((afterCall expire kind rt k id now evs).attemptsOf k).head? =
      some { call := k, kind := kind, requestID := id, time := now, delayed := false,
             found := decide (id ∈ rt.store.Requests.keys) } ∧
    (∀ a ∈ ((afterCall expire kind rt k id now evs).attemptsOf k).tail,
      a.delayed = true ∧ a.kind = kind ∧ a.requestID = id ∧ now + time.Second ≤ a.time) ∧
    (∀ tm ∈ (afterCall expire kind rt k id now evs).timersOf k,
      tm.due = now + time.Second ∧ tm.kind = kind ∧ tm.requestID = id) ∧
    (id ∈ rt.store.Requests.keys →
      ((afterCall expire kind rt k id now evs).attemptsOf k).length = 1 ∧
      (afterCall expire kind rt k id now evs).timersOf k = []) ∧
    (id ∉ rt.store.Requests.keys →
      ((afterCall expire kind rt k id now evs).timersOf k ≠ [] →
        ((afterCall expire kind rt k id now evs).attemptsOf k).length = 1) ∧
      ((afterCall expire kind rt k id now evs).timersOf k = [] →
        ((afterCall expire kind rt k id now evs).attemptsOf k).length = 2)) ∧
    (∀ (r : InferenceRequest) (t1 t2 : Int), rt.store.WellTyped → r.RequestId = id →
      id ∉ rt.store.Requests.keys → 0 ≤ r.PromptLength → now + time.Second ≤ t2 →
      (afterCall expire AttemptKind.request rt k id now
          [(Event.set r, t1), (Event.fire rt.timers.length, t2)]).timers = rt.timers ∧
      (afterCall expire AttemptKind.request rt k id now
          [(Event.set r, t1), (Event.fire rt.timers.length, t2)]).attempts =
        rt.attempts ++
          [{ call := k, kind := AttemptKind.request, requestID := id, time := now,
             delayed := false, found := false },
           { call := k, kind := AttemptKind.request, requestID := id, time := t2,
             delayed := true, found := true }] ∧
      (afterCall expire AttemptKind.request rt k id now
          [(Event.set r, t1), (Event.fire rt.timers.length, t2)]).store.Requests.Load id =
        none ∧
      (afterCall expire AttemptKind.request rt k id now
          [(Event.set r, t1), (Event.fire rt.timers.length, t2)]).store.engine
            r.Cluster r.Ip ≠ none ∧
      (∀ c ip,
        (afterCall expire AttemptKind.request rt k id now
            [(Event.set r, t1), (Event.fire rt.timers.length, t2)]).store.queued c ip =
          rt.store.queued c ip ∧
        (afterCall expire AttemptKind.request rt k id now
            [(Event.set r, t1), (Event.fire rt.timers.length, t2)]).store.aggregate c ip =
          rt.store.aggregate c ip) ∧
      (rt.store.engine r.Cluster r.Ip = none ∨
          (rt.store.queued r.Cluster r.Ip = 0 ∧ rt.store.aggregate r.Cluster r.Ip = 0) →
        (afterCall expire AttemptKind.request rt k id now
            [(Event.set r, t1), (Event.fire rt.timers.length, t2)]).store.queued
              r.Cluster r.Ip = 0 ∧
        (afterCall expire AttemptKind.request rt k id now
            [(Event.set r, t1), (Event.fire rt.timers.length, t2)]).store.aggregate
              r.Cluster r.Ip = 0)) := by
  have hst := CallState_runEvents expire evs hevs
    (CallState_deleteCall kind rt k id now hfresh)
  obtain ⟨rest, hA, hR, hT, hN⟩ := hst
  have hA2 : (afterCall expire kind rt k id now evs).attemptsOf k = _ := hA
  have hT2 : ∀ tm ∈ (afterCall expire kind rt k id now evs).timersOf k, _ := hT
  have hN2 : rest.length + ((afterCall expire kind rt k id now evs).timersOf k).length = _ := hN
  refine ⟨?_, ?_, ?_, ?_, ?_, hT2, ?_, ?_, ?_⟩
  · rw [hA2]
    by_cases h : id ∈ rt.store.Requests.keys
    · simp only [h, decide_True, if_true] at hN2 ⊢
      simp only [List.length_cons]; omega
    · simp only [h, decide_False, Bool.false_eq_true, if_false] at hN2 ⊢
      simp only [List.length_cons]; omega
  · rw [hA2]; simp
  · rw [hA2]
    simp only [List.length_cons]
    by_cases h : id ∈ rt.store.Requests.keys
    · simp only [h, decide_True, if_true] at hN2; omega
    · simp only [h, decide_False, Bool.false_eq_true, if_false] at hN2; omega
  · rw [hA2]; rfl
  · rw [hA2]; exact hR
  · intro h
    simp only [h, decide_True, if_true] at hN2
    have h1 : rest.length = 0 := by omega
    have h2 : ((afterCall expire kind rt k id now evs).timersOf k).length = 0 := by omega
    rw [hA2]
    exact ⟨by simp only [List.length_cons]; omega, List.length_eq_zero.mp h2⟩
  · intro h
    simp only [h, decide_False, Bool.false_eq_true, if_false] at hN2
    rw [hA2]
    constructor
    · intro hne
      have : 0 < ((afterCall expire kind rt k id now evs).timersOf k).length :=
        List.length_pos.mpr hne
      simp only [List.length_cons]; omega
    · intro he
      rw [he] at hN2
      simp only [List.length_nil, add_zero] at hN2
      simp only [List.length_cons]; omega
  · intro r t1 t2 hty hid hno hp ht2
    subst hid
    have hfreshLoad : rt.store.Requests.Load r.RequestId = none :=
      (SyncMap.Load_eq_none_iff _ _).mpr hno
    have hfin : afterCall expire AttemptKind.request rt k r.RequestId now
        [(Event.set r, t1), (Event.fire rt.timers.length, t2)] =
        { store := ((rt.store.AddRequest r t1).tryDeleteRequestStats r.RequestId t2).2,
          timers := rt.timers,
          attempts := rt.attempts ++
            [{ call := k, kind := AttemptKind.request, requestID := r.RequestId, time := now,
               delayed := false, found := false }] ++
            [{ call := k, kind := AttemptKind.request, requestID := r.RequestId, time := t2,
               delayed := true,
               found :=
                 ((rt.store.AddRequest r t1).tryDeleteRequestStats r.RequestId t2).1 }] } := by
      unfold afterCall runEvents deleteCall
      simp only [List.foldl_cons, List.foldl_nil, exec]
      rw [DeleteRequest_of_not_found rt k r.RequestId now hno]
      exact fire_last rt
        { due := now + time.Second, call := k, kind := AttemptKind.request,
          requestID := r.RequestId } t2 ht2 rfl _ _
    obtain ⟨h1, h2, h3, h4⟩ :=
      LoadStats.tryDelete_after_AddRequest rt.store hty r t1 t2 hfreshLoad hp
    rw [hfin]
    refine ⟨rfl, ?_, ?_, h3, h4, ?_⟩
    · simp only [h1, List.append_assoc, List.singleton_append]
    · show (((rt.store.AddRequest r t1).tryDeleteRequestStats r.RequestId t2).2).Requests.Load
        r.RequestId = none
      rw [h2]; exact hfreshLoad
    · intro h0
      have hq := h4 r.Cluster r.Ip
      rcases h0 with hno2 | ⟨z1, z2⟩
      · have z1 : rt.store.queued r.Cluster r.Ip = 0 := by
          unfold LoadStats.queued; rw [hno2]
        have z2 : rt.store.aggregate r.Cluster r.Ip = 0 := by
          unfold LoadStats.aggregate; rw [hno2]
        exact ⟨hq.1.trans z1, hq.2.trans z2⟩
      · exact ⟨hq.1.trans z1, hq.2.trans z2⟩

/-- The statement of `delete_call_attempts` on the scenario of
`TestDelayDeleteWithLateAdd`: on the empty store with no pending timer,
`DeleteRequest("1")` at 0 (call 0), `Set` of request `"1"` (prompt 512) at
500 ms, the timer fired at 1 s: two attempts, no timer left, the request is
gone and the engine shows 0 and 0. -/
theorem delete_call_attempts_witness :
    NewLoadStats.WellTyped ∧ "1" ∉ NewLoadStats.Requests.keys ∧ 0 ≤ exReq1.PromptLength ∧
    ((0 : Int) + time.Second ≤ 1000000000) ∧
    ((afterCall 10 AttemptKind.request { store := NewLoadStats, timers := [], attempts := [] }
        0 "1" 0 [(Event.set exReq1, 500000000)]).store.queued "A" "1.1.1.1" = 1) ∧
    ((afterCall 10 AttemptKind.request { store := NewLoadStats, timers := [], attempts := [] }
        0 "1" 0 [(Event.set exReq1, 500000000)]).store.aggregate "A" "1.1.1.1" = 512) ∧
    ((afterCall 10 AttemptKind.request { store := NewLoadStats, timers := [], attempts := [] }
        0 "1" 0 [(Event.set exReq1, 500000000), (Event.fire 0, 1000000000)]).attemptsOf
          0).length = 2 ∧
    (afterCall 10 AttemptKind.request { store := NewLoadStats, timers := [], attempts := [] }
        0 "1" 0 [(Event.set exReq1, 500000000), (Event.fire 0, 1000000000)]).timers = [] ∧
    (afterCall 10 AttemptKind.request { store := NewLoadStats, timers := [], attempts := [] }
        0 "1" 0 [(Event.set exReq1, 500000000), (Event.fire 0, 1000000000)]).store.queued
          "A" "1.1.1.1" = 0 ∧
    (afterCall 10 AttemptKind.request { store := NewLoadStats, timers := [], attempts := [] }
        0 "1" 0 [(Event.set exReq1, 500000000), (Event.fire 0, 1000000000)]).store.aggregate
          "A" "1.1.1.1" = 0 :=
  have h := delete_call_attempts 10 AttemptKind.request
    { store := NewLoadStats, timers := [], attempts := [] } 0 "1" 0
    [(Event.set exReq1, 500000000), (Event.fire 0, 1000000000)] (by decide) (by decide)
  have h9 := h.2.2.2.2.2.2.2.2 exReq1 500000000 1000000000 (by decide) rfl (by decide)
    (by decide) (by decide)
  ⟨by decide, by decide, by decide, by decide, by decide, by decide,
    (h.2.2.2.2.2.2.2.1 (by decide)).2 (by decide), h9.1,
    (h9.2.2.2.2.2 (Or.inl (by decide))).1, (h9.2.2.2.2.2 (Or.inl (by decide))).2⟩

end Runtime

namespace SyncMap

theorem Load_map {V W : Type} (f : V → W) (m : SyncMap V) (k : String) :
    SyncMap.Load (List.map (fun kv => (kv.1, f kv.2)) m) k = (m.Load k).map f := by
  induction m with
  | nil => rfl
  | cons x xs ih =>
    obtain ⟨k1, v⟩ := x
    simp only [List.map_cons, Load]
    by_cases h : k1 = k
    · simp [h]
    · simp [h, ih]

theorem map_put {V W : Type} (f : V → W) (m : SyncMap V) (k : String) (v : V) :
    List.map (fun kv => (kv.1, f kv.2)) (m.put k v) =
      SyncMap.put (List.map (fun kv => (kv.1, f kv.2)) m) k (f v) := by
  induction m with
  | nil => rfl
  | cons x xs ih =>
    obtain ⟨k1, v1⟩ := x
    simp only [List.map_cons, put]
    by_cases h : k1 = k
    · simp [h]
    · simp [h, ih]

end SyncMap

namespace Ptr

theorem write_self (mem : ReqPtr → InferenceRequest) (p : ReqPtr) (v : InferenceRequest) :
    write mem p v p = v := by
  simp [write]

theorem write_ne (mem : ReqPtr → InferenceRequest) {p q : ReqPtr} (h : q ≠ p)
    (v : InferenceRequest) : write mem p v q = mem q := by
  simp [write, h]

namespace LoadStats

theorem view_Requests_Load (s : LoadStats) (k : String) :
    s.view.Requests.Load k = (s.Requests.Load k).map s.mem :=
  SyncMap.Load_map s.mem s.Requests k

/-- Two stores with the same maps whose memories agree on the stored pointers
look the same to a reader. -/
theorem view_congr {s s2 : LoadStats} (hm : s2.RunningModelStats = s.RunningModelStats)
    (hr : s2.Requests = s.Requests) (hmem : ∀ kv ∈ s.Requests, s2.mem kv.2 = s.mem kv.2) :
    s2.view = s.view := by
  unfold view
  rw [hm, hr]
  congr 1
  apply List.map_congr_left
  intro kv hkv
  rw [hmem kv hkv]

theorem ptr_AddRequest_mem (s : LoadStats) (req : ReqPtr) (now : Int) :
    (s.AddRequest req now).mem = write s.mem req { s.mem req with CreateTime := now } := by
  unfold AddRequest
  cases h : s.Requests.Load (s.mem req).RequestId <;> simp [write_self, h]

theorem ptr_AddRequest_of_present (s : LoadStats) (req : ReqPtr) (now : Int)
    (h : s.Requests.Load (s.mem req).RequestId ≠ none) :
    s.AddRequest req now =
      { s with mem := write s.mem req { s.mem req with CreateTime := now } } := by
  unfold AddRequest
  cases hl : s.Requests.Load (s.mem req).RequestId with
  | none => exact absurd hl h
  | some v => simp [write_self, hl]

theorem ptr_AddRequest_Requests_of_fresh (s : LoadStats) (req : ReqPtr) (now : Int)
    (h : s.Requests.Load (s.mem req).RequestId = none) :
    (s.AddRequest req now).Requests = s.Requests.put (s.mem req).RequestId req := by
  unfold AddRequest
  simp [write_self, h]

theorem ptr_AddRequest_Load_self (s : LoadStats) (req : ReqPtr) (now : Int) :
    (s.AddRequest req now).Requests.Load (s.mem req).RequestId ≠ none := by
  cases hl : s.Requests.Load (s.mem req).RequestId with
  | none =>
    rw [ptr_AddRequest_Requests_of_fresh s req now hl, SyncMap.Load_put_self]
    simp
  | some v =>
    rw [ptr_AddRequest_of_present s req now (by simp [hl])]
    simp [hl]

/-- The models after `AddRequest` through a pointer are the models after
`AddRequest` of the struct it points to. -/
theorem ptr_AddRequest_models (s : LoadStats) (req : ReqPtr) (now : Int) :
    (s.AddRequest req now).RunningModelStats =
      (s.view.AddRequest (s.mem req) now).RunningModelStats := by
  unfold AddRequest MetadataCenter.LoadStats.AddRequest
  simp only [write_self]
  rw [view_Requests_Load]
  cases h : s.Requests.Load (s.mem req).RequestId with
  | some v => simp [view]
  | none =>
    cases hm : s.RunningModelStats.Load (s.mem req).Cluster <;> simp [view, hm]

/-- `AddRequest` through a pointer the store does not hold acts on the store a
reader sees as `AddRequest` of the struct does. -/
theorem view_AddRequest (s : LoadStats) (req : ReqPtr) (now : Int)
    (hreq : ∀ kv ∈ s.Requests, kv.2 ≠ req) :
    (s.AddRequest req now).view = s.view.AddRequest (s.mem req) now := by
  cases h : s.Requests.Load (s.mem req).RequestId with
  | some v =>
    rw [MetadataCenter.LoadStats.AddRequest_of_present s.view (s.mem req) now
      (by rw [view_Requests_Load, h]; simp),
      ptr_AddRequest_of_present s req now (by simp [h])]
    exact view_congr rfl rfl (fun kv hkv => write_ne _ (hreq kv hkv) _)
  | none =>
    have hv : s.view.Requests.Load (s.mem req).RequestId = none := by
      rw [view_Requests_Load, h]; rfl
    have hm := ptr_AddRequest_models s req now
    have hr := ptr_AddRequest_Requests_of_fresh s req now h
    have hmem := ptr_AddRequest_mem s req now
    have hr2 := MetadataCenter.LoadStats.AddRequest_Requests_of_fresh s.view (s.mem req) now hv
    have e1 : (s.AddRequest req now).view.RunningModelStats =
        (s.view.AddRequest (s.mem req) now).RunningModelStats := hm
    have e2 : (s.AddRequest req now).view.Requests =
        (s.view.AddRequest (s.mem req) now).Requests := by
      rw [hr2]
      show List.map (fun kv => (kv.1, (s.AddRequest req now).mem kv.2))
        (s.AddRequest req now).Requests = _
      rw [hr, hmem, SyncMap.map_put, write_self]
      congr 1
      apply List.map_congr_left
      intro kv hkv
      rw [write_ne _ (hreq kv hkv)]
    cases hx : (s.AddRequest req now).view
    cases hy : s.view.AddRequest (s.mem req) now
    rw [hx] at e1 e2
    rw [hy] at e1 e2
    simp only at e1 e2
    rw [e1, e2]

end LoadStats

end Ptr
namespace LoadStats

theorem engine_of_models_eq {x y : LoadStats} (h : x.RunningModelStats = y.RunningModelStats)
    (c ip : String) : x.engine c ip = y.engine c ip := by
  unfold engine
  rw [h]

end LoadStats

namespace Ptr

namespace LoadStats

theorem ptr_decEngineStats_of_no_model (s : LoadStats) (req : ReqPtr) (now : Int)
    (hm : s.RunningModelStats.Load (s.mem req).Cluster = none) : s.decEngineStats req now = s := by
  unfold decEngineStats
  simp [hm]

theorem ptr_decEngineStats_of_no_engine (s : LoadStats) (req : ReqPtr) (now : Int)
    {ms : ModelStats} (hm : s.RunningModelStats.Load (s.mem req).Cluster = some ms)
    (he : ms.Engines.Load (s.mem req).Ip = none) :
    s.decEngineStats req now =
      { s with RunningModelStats :=
          s.RunningModelStats.put (s.mem req).Cluster { ms with UpdateTime := now } } := by
  unfold decEngineStats
  simp [hm, he, ModelStats.Load]

theorem ptr_decEngineStats_of_engine (s : LoadStats) (req : ReqPtr) (now : Int)
    {ms : ModelStats} {e : EngineStats}
    (hm : s.RunningModelStats.Load (s.mem req).Cluster = some ms)
    (he : ms.Engines.Load (s.mem req).Ip = some e) :
    s.decEngineStats req now =
      { s with
        mem := write s.mem req
          ((e.DecrementQueuedReqNum now).DecrementPromptLength (s.mem req) now).2,
        RunningModelStats := s.RunningModelStats.put (s.mem req).Cluster { ms with
          UpdateTime := now,
          Engines := ms.Engines.put (s.mem req).Ip
            ((e.DecrementQueuedReqNum now).DecrementPromptLength (s.mem req) now).1 } } := by
  unfold decEngineStats
  simp [hm, he, ModelStats.Load]

theorem ptr_decEngineStats_Requests (s : LoadStats) (req : ReqPtr) (now : Int) :
    (s.decEngineStats req now).Requests = s.Requests := by
  cases hm : s.RunningModelStats.Load (s.mem req).Cluster with
  | none => rw [ptr_decEngineStats_of_no_model s req now hm]
  | some ms =>
    cases he : ms.Engines.Load (s.mem req).Ip with
    | none => rw [ptr_decEngineStats_of_no_engine s req now hm he]
    | some e => rw [ptr_decEngineStats_of_engine s req now hm he]

/-- The models after `decEngineStats` through a pointer are the models after
`decEngineStats` of the struct it points to. -/
theorem ptr_decEngineStats_models (s : LoadStats) (req : ReqPtr) (now : Int) :
    (s.decEngineStats req now).RunningModelStats =
      (s.view.decEngineStats (s.mem req) now).RunningModelStats := by
  have hv : s.view.RunningModelStats = s.RunningModelStats := rfl
  cases hm : s.RunningModelStats.Load (s.mem req).Cluster with
  | none =>
    rw [ptr_decEngineStats_of_no_model s req now hm,
      MetadataCenter.LoadStats.decEngineStats_of_no_model s.view (s.mem req) now (hv ▸ hm)]
    rfl
  | some ms =>
    cases he : ms.Engines.Load (s.mem req).Ip with
    | none =>
      rw [ptr_decEngineStats_of_no_engine s req now hm he,
        MetadataCenter.LoadStats.decEngineStats_of_no_engine s.view (s.mem req) now
          (hv ▸ hm) he]
      rfl
    | some e =>
      rw [ptr_decEngineStats_of_engine s req now hm he,
        MetadataCenter.LoadStats.decEngineStats_of_engine s.view (s.mem req) now (hv ▸ hm) he]
      rfl

theorem ptr_decEngineStats_mem_ne (s : LoadStats) (req : ReqPtr) (now : Int) {q : ReqPtr}
    (h : q ≠ req) : (s.decEngineStats req now).mem q = s.mem q := by
  cases hm : s.RunningModelStats.Load (s.mem req).Cluster with
  | none => rw [ptr_decEngineStats_of_no_model s req now hm]
  | some ms =>
    cases he : ms.Engines.Load (s.mem req).Ip with
    | none => rw [ptr_decEngineStats_of_no_engine s req now hm he]
    | some e =>
      rw [ptr_decEngineStats_of_engine s req now hm he]
      exact write_ne _ h _

theorem ptr_decEngineStats_mem_self (s : LoadStats) (req : ReqPtr) (now : Int) :
    (s.decEngineStats req now).mem req = s.mem req ∨
      (s.decEngineStats req now).mem req = { s.mem req with PromptLength := 0 } := by
  cases hm : s.RunningModelStats.Load (s.mem req).Cluster with
  | none => rw [ptr_decEngineStats_of_no_model s req now hm]; exact Or.inl rfl
  | some ms =>
    cases he : ms.Engines.Load (s.mem req).Ip with
    | none => rw [ptr_decEngineStats_of_no_engine s req now hm he]; exact Or.inl rfl
    | some e =>
      rw [ptr_decEngineStats_of_engine s req now hm he]
      show write _ _ _ req = _ ∨ write _ _ _ req = _
      rw [write_self]
      unfold EngineStats.DecrementPromptLength
      by_cases hp : (s.mem req).PromptLength ≤ 0
      · left; simp [hp]
      · right; simp [hp]

theorem ptr_tryDeleteRequestStats_of_some (s : LoadStats) (id : String) (now : Int)
    {req : ReqPtr} (h : s.Requests.Load id = some req) :
    s.tryDeleteRequestStats id now =
      (true, decEngineStats { s with Requests := s.Requests.Delete id } req now) := by
  unfold tryDeleteRequestStats
  simp [h]

theorem ptr_tryDeleteRequestStats_of_none (s : LoadStats) (id : String) (now : Int)
    (h : s.Requests.Load id = none) : s.tryDeleteRequestStats id now = (false, s) := by
  unfold tryDeleteRequestStats
  simp [h]

theorem ptr_run_nil (s : LoadStats) : run s [] = s := rfl

theorem ptr_run_cons (s : LoadStats) (x : Op × Int) (ops : List (Op × Int)) :
    run s (x :: ops) = run (step s x.1 x.2) ops := rfl

theorem ptr_run_preserves (allowed : Op → Prop) (P : LoadStats → Prop)
    (hstep : ∀ x op t, allowed op → P x → P (step x op t)) :
    ∀ (ops : List (Op × Int)), (∀ x ∈ ops, allowed x.1) → ∀ s, P s → P (run s ops) := by
  intro ops
  induction ops with
  | nil => intro _ s hs; exact hs
  | cons x xs ih =>
    intro hops s hs
    rw [ptr_run_cons]
    exact ih (fun y hy => hops y (List.mem_cons_of_mem _ hy)) _
      (hstep s x.1 x.2 (hops x (List.mem_cons_self _ _)) hs)

end LoadStats

end Ptr
namespace Ptr

namespace LoadStats

theorem ptr_AddRequest_mem_RequestId (s : LoadStats) (req : ReqPtr) (now : Int) (q : ReqPtr) :
    ((s.AddRequest req now).mem q).RequestId = (s.mem q).RequestId := by
  rw [ptr_AddRequest_mem]
  by_cases h : q = req
  · subst h; rw [write_self]
  · rw [write_ne _ h]

/-- Further `AddRequest` calls with an id that is stored change neither map;
when none of the structs passed is held by the store, the store reads the
same. -/
theorem ptr_AddRequest_fold (id : String) (rs : List (ReqPtr × Int)) :
    ∀ s1 : LoadStats, s1.Requests.Load id ≠ none →
      (∀ x ∈ rs, (s1.mem x.1).RequestId = id) →
      (rs.foldl (fun acc x => acc.AddRequest x.1 x.2) s1).Requests = s1.Requests ∧
      (rs.foldl (fun acc x => acc.AddRequest x.1 x.2) s1).RunningModelStats =
        s1.RunningModelStats ∧
      ((∀ x ∈ rs, ∀ kv ∈ s1.Requests, kv.2 ≠ x.1) →
        (rs.foldl (fun acc x => acc.AddRequest x.1 x.2) s1).view = s1.view) := by
  induction rs with
  | nil => intro s1 _ _; exact ⟨rfl, rfl, fun _ => rfl⟩
  | cons x xs ih =>
    intro s1 hkey hids
    have hx : (s1.mem x.1).RequestId = id := hids x (List.mem_cons_self _ _)
    have hstep := ptr_AddRequest_of_present s1 x.1 x.2 (by rw [hx]; exact hkey)
    have hR : (s1.AddRequest x.1 x.2).Requests = s1.Requests := by rw [hstep]
    have hM : (s1.AddRequest x.1 x.2).RunningModelStats = s1.RunningModelStats := by rw [hstep]
    obtain ⟨h1, h2, h3⟩ := ih (s1.AddRequest x.1 x.2) (by rw [hR]; exact hkey)
      (fun y hy => by
        rw [ptr_AddRequest_mem_RequestId]
        exact hids y (List.mem_cons_of_mem _ hy))
    rw [List.foldl_cons]
    refine ⟨h1.trans hR, h2.trans hM, fun hfree => ?_⟩
    rw [h3 (fun y hy kv hkv => hfree y (List.mem_cons_of_mem _ hy) kv (hR ▸ hkv))]
    refine view_congr hM hR (fun kv hkv => ?_)
    rw [ptr_AddRequest_mem]
    exact write_ne _ (hfree x (List.mem_cons_self _ _) kv hkv) _

/-- C1 (counterexample). The store holds the pointer it was given, and
`AddRequest` writes `CreateTime` through the pointer before it looks the id
up. The struct at address 0 was stored at time 5 under id `"1"`; `AddRequest`
with the same struct at time 9 finds the id stored, and the stored request now
reads `CreateTime = 9`: the store is not left unchanged. -/
theorem AddRequest_restamps_stored_request :
    exPtrStore1.Requests.Load (exPtrStore1.mem 0).RequestId = some 0 ∧
    exPtrStore1.view.Requests.Load "1" = some { exReq1 with CreateTime := 5 } ∧
    (exPtrStore1.AddRequest 0 9).view.Requests.Load "1" = some { exReq1 with CreateTime := 9 } ∧
    (exPtrStore1.AddRequest 0 9).view ≠ exPtrStore1.view := by
  refine ⟨by decide, by decide, by decide, by decide⟩

/-- C1, amended. `Set` is idempotent on `request_id` for request structs the
store does not hold. (i) When the id of the struct at `req` is already a key
of `Requests`, `AddRequest req` changes neither `Requests` nor any model,
engine map, `Length` or counter, whatever the cluster, ip and prompt length of
the struct; the only write is `CreateTime` of the struct at `req`, so when the
store does not hold `req` every stored request, its `CreateTime` included,
reads as before. (ii) Any number of further `AddRequest` calls `rs` with the
request id of a first call `req` leave both maps as that first call left
them, and the store reads the same when none of the structs passed is held by
the store; when the id was fresh, the stored request is the first struct
stamped with the time of the first call, the engine of the first struct has
received exactly one `IncrementQueuedReqNumAndPromptLength` with its prompt
length (starting from a new 0/0 engine when it did not exist), and no other
engine has changed. -/
theorem AddRequest_idempotent (s : LoadStats) (req : ReqPtr) (now : Int)
    (rs : List (ReqPtr × Int))
    (hrs : ∀ x ∈ rs, (s.mem x.1).RequestId = (s.mem req).RequestId) :
    (s.Requests.Load (s.mem req).RequestId ≠ none →
      (s.AddRequest req now).Requests = s.Requests ∧
      (s.AddRequest req now).RunningModelStats = s.RunningModelStats ∧
      (s.AddRequest req now).mem = write s.mem req { s.mem req with CreateTime := now } ∧
      ((∀ kv ∈ s.Requests, kv.2 ≠ req) → (s.AddRequest req now).view = s.view)) ∧
    (rs.foldl (fun acc x => acc.AddRequest x.1 x.2) (s.AddRequest req now)).Requests =
      (s.AddRequest req now).Requests ∧
    (rs.foldl (fun acc x => acc.AddRequest x.1 x.2) (s.AddRequest req now)).RunningModelStats =
      (s.AddRequest req now).RunningModelStats ∧
    ((∀ kv ∈ s.Requests, kv.2 ≠ req) →
      (∀ x ∈ rs, x.1 ≠ req ∧ ∀ kv ∈ s.Requests, kv.2 ≠ x.1) →
      (rs.foldl (fun acc x => acc.AddRequest x.1 x.2) (s.AddRequest req now)).view =
        s.view.AddRequest (s.mem req) now ∧
      (s.Requests.Load (s.mem req).RequestId = none →
        (rs.foldl (fun acc x => acc.AddRequest x.1 x.2) (s.AddRequest req now)).view.Requests.Load
            (s.mem req).RequestId = some { s.mem req with CreateTime := now } ∧
        (rs.foldl (fun acc x => acc.AddRequest x.1 x.2) (s.AddRequest req now)).view.engine
            (s.mem req).Cluster (s.mem req).Ip =
          some (((s.view.engine (s.mem req).Cluster (s.mem req).Ip).getD
              (NewEngineLoadStats (s.mem req).Ip now))
            |>.IncrementQueuedReqNumAndPromptLength (s.mem req).PromptLength now) ∧
        ∀ c ip, ¬ (c = (s.mem req).Cluster ∧ ip = (s.mem req).Ip) →
          (rs.foldl (fun acc x => acc.AddRequest x.1 x.2)
              (s.AddRequest req now)).view.engine c ip = s.view.engine c ip)) := by
  obtain ⟨hR, hM, hV⟩ := ptr_AddRequest_fold (s.mem req).RequestId rs (s.AddRequest req now)
    (ptr_AddRequest_Load_self s req now)
    (fun x hx => by rw [ptr_AddRequest_mem_RequestId]; exact hrs x hx)
  refine ⟨fun hkey => ?_, hR, hM, fun hreq hfree => ?_⟩
  · have hstep := ptr_AddRequest_of_present s req now hkey
    refine ⟨by rw [hstep], by rw [hstep], ptr_AddRequest_mem s req now, fun hreq => ?_⟩
    rw [view_AddRequest s req now hreq]
    exact MetadataCenter.LoadStats.AddRequest_of_present s.view (s.mem req) now
      (by rw [view_Requests_Load]; cases h : s.Requests.Load (s.mem req).RequestId with
          | none => exact absurd h hkey
          | some v => simp)
  · have hview : (rs.foldl (fun acc x => acc.AddRequest x.1 x.2) (s.AddRequest req now)).view =
        s.view.AddRequest (s.mem req) now := by
      rw [← view_AddRequest s req now hreq]
      apply hV
      intro x hx kv hkv
      cases hl : s.Requests.Load (s.mem req).RequestId with
      | some v =>
        rw [ptr_AddRequest_of_present s req now (by simp [hl])] at hkv
        exact (hfree x hx).2 kv hkv
      | none =>
        rw [ptr_AddRequest_Requests_of_fresh s req now hl] at hkv
        rcases SyncMap.mem_put _ _ _ _ hkv with h | h
        · exact (hfree x hx).2 kv h
        · rw [h]; exact fun e => (hfree x hx).1 e.symm
    refine ⟨hview, fun hfresh => ?_⟩
    have hv : s.view.Requests.Load (s.mem req).RequestId = none := by
      rw [view_Requests_Load, hfresh]; rfl
    rw [hview]
    refine ⟨?_, MetadataCenter.LoadStats.engine_AddRequest_self s.view (s.mem req) now hv,
      MetadataCenter.LoadStats.engine_AddRequest_ne s.view (s.mem req) now⟩
    rw [MetadataCenter.LoadStats.AddRequest_Requests_of_fresh s.view (s.mem req) now hv,
      SyncMap.Load_put_self]

end LoadStats

end Ptr
namespace Ptr

namespace LoadStats

/-- Witness for C1: scenario 1 of the specification with the handler's
structs. The struct at address 0 is stored at time 5; `AddRequest` of the
struct at address 1, which has the same id and other fields, leaves the store
reading the same, and after two more calls with structs of their own the
engine shows `queued = 1`, `prompt = 512`. -/
theorem AddRequest_idempotent_witness :
    (exPtrStore1.AddRequest 1 9).view = exPtrStore1.view ∧
    ([(2, (6 : Int)), (1, 7)].foldl (fun acc x => acc.AddRequest x.1 x.2)
        ((NewLoadStats exMem).AddRequest 0 5)).view = exStore1 ∧
    ([(2, (6 : Int)), (1, 7)].foldl (fun acc x => acc.AddRequest x.1 x.2)
        ((NewLoadStats exMem).AddRequest 0 5)).view.engine "A" "1.1.1.1" =
      some { Ip := "1.1.1.1", QueuedReqNum := 1, PromptLength := 512, UpdatedTime := 5 } := by
  refine ⟨((AddRequest_idempotent exPtrStore1 1 9 [] (by simp)).1 (by decide)).2.2.2
    (by decide), ?_, ?_⟩
  · exact ((AddRequest_idempotent (NewLoadStats exMem) 0 5 [(2, 6), (1, 7)]
      (by decide)).2.2.2 (by decide) (by decide)).1
  · exact (((AddRequest_idempotent (NewLoadStats exMem) 0 5 [(2, 6), (1, 7)]
      (by decide)).2.2.2 (by decide) (by decide)).2 (by decide)).2.1

end LoadStats

end Ptr
namespace Ptr

namespace LoadStats

theorem ptr_AddRequest_mem_PromptLength (s : LoadStats) (req : ReqPtr) (now : Int)
    (q : ReqPtr) : ((s.AddRequest req now).mem q).PromptLength = (s.mem q).PromptLength := by
  rw [ptr_AddRequest_mem]
  by_cases h : q = req
  · subst h; rw [write_self]
  · rw [write_ne _ h]

theorem setPtrs_cons_set (q : ReqPtr) (t : Int) (ops : List (Op × Int)) :
    setPtrs ((Op.set q, t) :: ops) = q :: setPtrs ops := by
  simp [setPtrs]

theorem setPtrs_cons_delete (id : String) (t : Int) (ops : List (Op × Int)) :
    setPtrs ((Op.delete id, t) :: ops) = setPtrs ops := by
  simp [setPtrs]

theorem setPtrs_take_sublist (ops : List (Op × Int)) (n : Nat) :
    List.Sublist (setPtrs (ops.take n)) (setPtrs ops) :=
  List.Sublist.filterMap _ (List.take_sublist n ops)

theorem SingleInv_NewLoadStats (mem0 : ReqPtr → InferenceRequest) (r : InferenceRequest) :
    SingleInv mem0 r (NewLoadStats mem0) := by
  refine ⟨fun q hq => ?_, Or.inl ⟨rfl, fun e he => ?_⟩⟩
  · show (mem0 q).Cluster = _ ∧ (mem0 q).Ip = _ ∧ (mem0 q).RequestId = _ ∧
      ((mem0 q).PromptLength = _ ∨ (mem0 q).PromptLength = 0)
    rw [hq]
    exact ⟨rfl, rfl, rfl, Or.inl rfl⟩
  · cases he

theorem SingleInv_step_set {mem0 : ReqPtr → InferenceRequest} {r : InferenceRequest}
    (hr : isInt32 r.PromptLength) {s : LoadStats} (hs : SingleInv mem0 r s)
    (q : ReqPtr) (hq : mem0 q = r) (t : Int) : SingleInv mem0 r (s.AddRequest q t) := by
  obtain ⟨ha, hb⟩ := hs
  obtain ⟨hc, hi, hid, hpl⟩ := ha q hq
  have hmem := ptr_AddRequest_mem s q t
  have ha2 : ∀ q2, mem0 q2 = r →
      ((s.AddRequest q t).mem q2).Cluster = r.Cluster ∧
      ((s.AddRequest q t).mem q2).Ip = r.Ip ∧
      ((s.AddRequest q t).mem q2).RequestId = r.RequestId ∧
      (((s.AddRequest q t).mem q2).PromptLength = r.PromptLength ∨
        ((s.AddRequest q t).mem q2).PromptLength = 0) := by
    intro q2 hq2
    rw [hmem]
    by_cases h : q2 = q
    · subst h
      rw [write_self]
      exact ha q2 hq2
    · rw [write_ne _ h]
      exact ha q2 hq2
  refine ⟨ha2, ?_⟩
  rcases hb with ⟨hreq, he⟩ | ⟨q0, e, hreq, hq0, he, hQ, hP⟩
  · have hfresh : s.Requests.Load (s.mem q).RequestId = none := by rw [hreq]; rfl
    have hv : s.view.Requests.Load (s.mem q).RequestId = none := by
      rw [view_Requests_Load, hfresh]; rfl
    have heng : (s.AddRequest q t).view.engine r.Cluster r.Ip =
        some (((s.view.engine r.Cluster r.Ip).getD (NewEngineLoadStats r.Ip t))
          |>.IncrementQueuedReqNumAndPromptLength (s.mem q).PromptLength t) := by
      have h := MetadataCenter.LoadStats.engine_AddRequest_self s.view (s.mem q) t hv
      rw [hc, hi] at h
      rw [← h]
      exact MetadataCenter.LoadStats.engine_of_models_eq (ptr_AddRequest_models s q t) _ _
    have hpi : isInt32 (s.mem q).PromptLength := by
      rcases hpl with h | h
      · rw [h]; exact hr
      · rw [h]; exact ⟨by decide, by decide⟩
    have h01 : addInt32 0 1 = 1 := by decide
    have h0p : addInt32 0 (s.mem q).PromptLength = (s.mem q).PromptLength := by
      rw [MetadataCenter.LoadStats.addInt32_of_isInt32 (by simpa using hpi)]; simp
    right
    refine ⟨q, _, ?_, hq, heng, ?_, ?_⟩
    · rw [ptr_AddRequest_Requests_of_fresh s q t hfresh, hreq, hid]; rfl
    · cases hE : s.view.engine r.Cluster r.Ip with
      | none => simp [NewEngineLoadStats, EngineStats.IncrementQueuedReqNumAndPromptLength, h01]
      | some e0 =>
        simp [EngineStats.IncrementQueuedReqNumAndPromptLength, (he e0 hE).1, h01]
    · rw [ptr_AddRequest_mem_PromptLength]
      cases hE : s.view.engine r.Cluster r.Ip with
      | none => simp [NewEngineLoadStats, EngineStats.IncrementQueuedReqNumAndPromptLength, h0p]
      | some e0 =>
        simp [EngineStats.IncrementQueuedReqNumAndPromptLength, (he e0 hE).2, h0p]
  · have hkey : s.Requests.Load (s.mem q).RequestId ≠ none := by
      rw [hreq, hid]; simp [SyncMap.Load]
    have hstep := ptr_AddRequest_of_present s q t hkey
    right
    refine ⟨q0, e, by rw [hstep]; exact hreq, hq0, ?_, hQ, ?_⟩
    · rw [hstep]; exact he
    · rw [hP, ptr_AddRequest_mem_PromptLength]

theorem SingleInv_step_delete {mem0 : ReqPtr → InferenceRequest} {r : InferenceRequest}
    (hp : 0 ≤ r.PromptLength) (hr : isInt32 r.PromptLength) {s : LoadStats}
    (hs : SingleInv mem0 r s) (t : Int) :
    SingleInv mem0 r (s.tryDeleteRequestStats r.RequestId t).2 := by
  obtain ⟨ha, hb⟩ := hs
  rcases hb with ⟨hreq, he⟩ | ⟨q0, e, hreq, hq0, he, hQ, hP⟩
  · rw [ptr_tryDeleteRequestStats_of_none s _ t (by rw [hreq]; rfl)]
    exact ⟨ha, Or.inl ⟨hreq, he⟩⟩
  · have hload : s.Requests.Load r.RequestId = some q0 := by rw [hreq]; simp [SyncMap.Load]
    rw [ptr_tryDeleteRequestStats_of_some s _ t hload]
    obtain ⟨hc, hi, hid, hpl⟩ := ha q0 hq0
    have hdel : s.Requests.Delete r.RequestId = [] := by rw [hreq]; simp [SyncMap.Delete]
    refine ⟨fun q2 hq2 => ?_, Or.inl ⟨?_, fun e2 he2 => ?_⟩⟩
    · by_cases h : q2 = q0
      · subst h
        rcases ptr_decEngineStats_mem_self { s with Requests := s.Requests.Delete r.RequestId }
          q2 t with h | h
        · rw [h]; exact ha q2 hq2
        · rw [h]; exact ⟨hc, hi, hid, Or.inr rfl⟩
      · rw [ptr_decEngineStats_mem_ne _ q0 t h]
        exact ha q2 hq2
    · show (decEngineStats _ q0 t).Requests = []
      rw [ptr_decEngineStats_Requests]
      exact hdel
    · have h1 : (decEngineStats { s with Requests := s.Requests.Delete r.RequestId } q0
          t).view.engine r.Cluster r.Ip =
          (LoadStats.view { s with Requests := s.Requests.Delete r.RequestId }
            |>.decEngineStats (s.mem q0) t).engine r.Cluster r.Ip :=
        MetadataCenter.LoadStats.engine_of_models_eq (ptr_decEngineStats_models _ q0 t) _ _
      have h2 := MetadataCenter.LoadStats.engine_decEngineStats_self
        (LoadStats.view { s with Requests := s.Requests.Delete r.RequestId }) (s.mem q0) t
      rw [hc, hi] at h2
      have h3 : (LoadStats.view { s with Requests := s.Requests.Delete r.RequestId }).engine
          r.Cluster r.Ip = some e := he
      rw [h3] at h2
      have he2b : (decEngineStats { s with Requests := s.Requests.Delete r.RequestId } q0
          t).view.engine r.Cluster r.Ip = some e2 := he2
      rw [h1, h2] at he2b
      cases he2b
      obtain ⟨r1, r2⟩ := hr
      unfold EngineStats.DecrementPromptLength EngineStats.DecrementQueuedReqNum addInt32 wrap32
      by_cases h0 : (s.mem q0).PromptLength ≤ 0
      · simp only [h0, if_true, hQ, hP]
        rcases hpl with h | h
        · constructor <;> omega
        · constructor <;> omega
      · simp only [h0, if_false, hQ, hP]
        rcases hpl with h | h
        · constructor <;> omega
        · constructor <;> omega

theorem SingleInv_step {mem0 : ReqPtr → InferenceRequest} {r : InferenceRequest}
    (hp : 0 ≤ r.PromptLength) (hr : isInt32 r.PromptLength) (s : LoadStats) (op : Op) (t : Int)
    (hop : SingleOp mem0 r op) (hs : SingleInv mem0 r s) : SingleInv mem0 r (step s op t) := by
  cases op with
  | set q => exact SingleInv_step_set hr hs q hop t
  | delete id =>
    have hid : id = r.RequestId := hop
    subst hid
    exact SingleInv_step_delete hp hr hs t

theorem SingleInv_run {mem0 : ReqPtr → InferenceRequest} {r : InferenceRequest}
    (hp : 0 ≤ r.PromptLength) (hr : isInt32 r.PromptLength) (ops : List (Op × Int))
    (hops : ∀ x ∈ ops, SingleOp mem0 r x.1) :
    SingleInv mem0 r (run (NewLoadStats mem0) ops) :=
  ptr_run_preserves (SingleOp mem0 r) (SingleInv mem0 r)
    (fun s op t hop hs => SingleInv_step hp hr s op t hop hs) ops hops _
    (SingleInv_NewLoadStats mem0 r)

theorem Unused_run {mem0 : ReqPtr → InferenceRequest} {r : InferenceRequest}
    (hp : 0 ≤ r.PromptLength) (hr : isInt32 r.PromptLength) :
    ∀ (ops : List (Op × Int)) (s : LoadStats), (∀ x ∈ ops, SingleOp mem0 r x.1) →
      SingleInv mem0 r s → (setPtrs ops).Nodup → Unused r.PromptLength (setPtrs ops) s →
      Unused r.PromptLength [] (run s ops) := by
  intro ops
  induction ops with
  | nil => intro s _ _ _ hU; exact hU
  | cons x xs ih =>
    intro s hops hs hnd hU
    obtain ⟨op, t⟩ := x
    have hop : SingleOp mem0 r op := hops (op, t) (List.mem_cons_self _ _)
    have hs2 := SingleInv_step hp hr s op t hop hs
    rw [ptr_run_cons]
    cases op with
    | set q =>
      rw [setPtrs_cons_set] at hnd hU
      obtain ⟨hqn, hnd2⟩ := List.nodup_cons.mp hnd
      refine ih _ (fun y hy => hops y (List.mem_cons_of_mem _ hy)) hs2 hnd2 ⟨?_, ?_⟩
      · intro q2 hq2
        have hne : q2 ≠ q := fun e => hqn (e ▸ hq2)
        refine ⟨?_, fun kv hkv => ?_⟩
        · show ((s.AddRequest q t).mem q2).PromptLength = _
          rw [ptr_AddRequest_mem_PromptLength]
          exact (hU.1 q2 (List.mem_cons_of_mem _ hq2)).1
        · have hkv2 : kv ∈ (s.AddRequest q t).Requests := hkv
          cases hl : s.Requests.Load (s.mem q).RequestId with
          | some v =>
            rw [ptr_AddRequest_of_present s q t (by simp [hl])] at hkv2
            exact (hU.1 q2 (List.mem_cons_of_mem _ hq2)).2 kv hkv2
          | none =>
            rw [ptr_AddRequest_Requests_of_fresh s q t hl] at hkv2
            rcases SyncMap.mem_put _ _ _ _ hkv2 with h | h
            · exact (hU.1 q2 (List.mem_cons_of_mem _ hq2)).2 kv h
            · rw [h]; exact fun e => hne e.symm
      · intro kv hkv
        have hkv2 : kv ∈ (s.AddRequest q t).Requests := hkv
        show ((s.AddRequest q t).mem kv.2).PromptLength = _
        rw [ptr_AddRequest_mem_PromptLength]
        cases hl : s.Requests.Load (s.mem q).RequestId with
        | some v =>
          rw [ptr_AddRequest_of_present s q t (by simp [hl])] at hkv2
          exact hU.2 kv hkv2
        | none =>
          rw [ptr_AddRequest_Requests_of_fresh s q t hl] at hkv2
          rcases SyncMap.mem_put _ _ _ _ hkv2 with h | h
          · exact hU.2 kv h
          · rw [h]; exact (hU.1 q (List.mem_cons_self _ _)).1
    | delete id =>
      have hid : id = r.RequestId := hop
      subst hid
      rw [setPtrs_cons_delete] at hnd hU
      refine ih _ (fun y hy => hops y (List.mem_cons_of_mem _ hy)) hs2 hnd ?_
      show Unused _ _ (s.tryDeleteRequestStats r.RequestId t).2
      obtain ⟨ha, hb⟩ := hs
      rcases hb with ⟨hreq, he⟩ | ⟨q0, e, hreq, hq0, he, hQ, hP⟩
      · rw [ptr_tryDeleteRequestStats_of_none s _ t (by rw [hreq]; rfl)]
        exact hU
      · have hload : s.Requests.Load r.RequestId = some q0 := by
          rw [hreq]; simp [SyncMap.Load]
        have hdel : s.Requests.Delete r.RequestId = [] := by rw [hreq]; simp [SyncMap.Delete]
        have hR : (decEngineStats { s with Requests := s.Requests.Delete r.RequestId } q0
            t).Requests = [] := by
          rw [ptr_decEngineStats_Requests]; exact hdel
        rw [ptr_tryDeleteRequestStats_of_some s _ t hload]
        refine ⟨fun q2 hq2 => ⟨?_, fun kv hkv => ?_⟩, fun kv hkv => ?_⟩
        · have hne : q2 ≠ q0 := fun e =>
            (hU.1 q2 hq2).2 (r.RequestId, q0) (by rw [hreq]; exact List.mem_singleton_self _)
              e.symm
          show ((decEngineStats _ q0 t).mem q2).PromptLength = _
          rw [ptr_decEngineStats_mem_ne _ q0 t hne]
          exact (hU.1 q2 hq2).1
        · have hkv2 : kv ∈ (decEngineStats { s with Requests := s.Requests.Delete r.RequestId }
              q0 t).Requests := hkv
          rw [hR] at hkv2
          cases hkv2
        · have hkv2 : kv ∈ (decEngineStats { s with Requests := s.Requests.Delete r.RequestId }
              q0 t).Requests := hkv
          rw [hR] at hkv2
          cases hkv2

end LoadStats

end Ptr
namespace Ptr

namespace LoadStats

/-- C6 (counterexample). `DecrementPromptLength` sets `PromptLength` of the
struct it is given to 0, and the struct is the caller's. `AddRequest` of the
struct at address 0 (request `"1"`, prompt length 512), a deletion attempt for
`"1"`, and `AddRequest` of the same struct again: the request is stored, and
the engine shows `queued = 1` with an aggregate prompt length of 0, not 512. -/
theorem readded_struct_counts_zero :
    (∀ x ∈ [(Op.set 0, (5 : Int)), (Op.delete "1", 6), (Op.set 0, 7)],
      SingleOp exMem exReq1 x.1) ∧
    exReq1.PromptLength = 512 ∧
    (run (NewLoadStats exMem)
      [(Op.set 0, 5), (Op.delete "1", 6), (Op.set 0, 7)]).Requests.Load "1" = some 0 ∧
    (run (NewLoadStats exMem)
      [(Op.set 0, 5), (Op.delete "1", 6), (Op.set 0, 7)]).view.Requests.Load "1" =
        some { exReq1 with PromptLength := 0, CreateTime := 7 } ∧
    (run (NewLoadStats exMem)
      [(Op.set 0, 5), (Op.delete "1", 6), (Op.set 0, 7)]).view.engine "A" "1.1.1.1" =
        some { Ip := "1.1.1.1", QueuedReqNum := 1, PromptLength := 0, UpdatedTime := 7 } := by
  refine ⟨by decide, by decide, by decide, by decide, by decide⟩

/-- C6, amended. Starting from the empty store, after every finite sequence
made only of `AddRequest` of structs that hold one request `r` (with
`0 ≤ PromptLength = p`) and deletion attempts for `r.RequestId`, and after
every prefix of such a sequence: if the engine `(r.Cluster, r.Ip)` exists, its
counters are `(1, q)` when `r.RequestId` is in `Requests`, where `q` is the
prompt length the stored struct has now, which is `p` or 0 and is `p` when
every `AddRequest` of the sequence passes a struct of its own; and `(0, 0)`
when it is not in `Requests`; in both cases neither counter is negative. -/
theorem single_request_contribution (mem0 : ReqPtr → InferenceRequest) (r : InferenceRequest)
    (hp : 0 ≤ r.PromptLength) (hr : isInt32 r.PromptLength) (ops : List (Op × Int))
    (hops : ∀ x ∈ ops, SingleOp mem0 r x.1) (n : Nat) :
    ∀ e, (run (NewLoadStats mem0) (ops.take n)).view.engine r.Cluster r.Ip = some e →
      (∀ q, (run (NewLoadStats mem0) (ops.take n)).Requests.Load r.RequestId = some q →
        e.QueuedReqNum = 1 ∧
        e.PromptLength = ((run (NewLoadStats mem0) (ops.take n)).mem q).PromptLength ∧
        (e.PromptLength = r.PromptLength ∨ e.PromptLength = 0) ∧
        ((setPtrs (ops.take n)).Nodup → e.PromptLength = r.PromptLength)) ∧
      ((run (NewLoadStats mem0) (ops.take n)).Requests.Load r.RequestId = none →
        e.QueuedReqNum = 0 ∧ e.PromptLength = 0) ∧
      0 ≤ e.QueuedReqNum ∧ 0 ≤ e.PromptLength := by
  have hops2 : ∀ x ∈ ops.take n, SingleOp mem0 r x.1 :=
    fun x hx => hops x (List.mem_of_mem_take hx)
  have hinv := SingleInv_run hp hr (ops.take n) hops2
  intro e he
  obtain ⟨ha, hb⟩ := hinv
  rcases hb with ⟨hreq, hz⟩ | ⟨q0, e0, hreq, hq0, he0, hQ, hP⟩
  · obtain ⟨h1, h2⟩ := hz e he
    refine ⟨fun q hq => ?_, fun _ => ⟨h1, h2⟩, by rw [h1], by rw [h2]⟩
    rw [hreq] at hq
    cases hq
  · rw [he] at he0
    cases he0
    obtain ⟨-, -, -, hpl⟩ := ha q0 hq0
    rw [← hP] at hpl
    have hload : (run (NewLoadStats mem0) (ops.take n)).Requests.Load r.RequestId = some q0 := by
      rw [hreq]; simp [SyncMap.Load]
    refine ⟨fun q hq => ?_, fun hn => ?_, by rw [hQ]; decide, ?_⟩
    · rw [hload] at hq
      cases hq
      refine ⟨hQ, hP, hpl, fun hnd => ?_⟩
      have hU := Unused_run hp hr (ops.take n) (NewLoadStats mem0) hops2
        (SingleInv_NewLoadStats mem0 r) hnd
        ⟨fun q2 hq2 => ⟨?_, fun kv hkv => by cases hkv⟩, fun kv hkv => by cases hkv⟩
      · rw [hP]
        exact hU.2 (r.RequestId, q0) (by rw [hreq]; exact List.mem_singleton_self _)
      · have hmem : ∀ (l : List (Op × Int)), (∀ x ∈ l, SingleOp mem0 r x.1) →
            ∀ q2 ∈ setPtrs l, mem0 q2 = r := by
          intro l
          induction l with
          | nil => intro _ q2 hq2; cases hq2
          | cons x xs ih =>
            intro hl q2 hq2
            obtain ⟨op, t⟩ := x
            have hop : SingleOp mem0 r op := hl (op, t) (List.mem_cons_self _ _)
            cases op with
            | set q3 =>
              rw [setPtrs_cons_set] at hq2
              rcases List.mem_cons.mp hq2 with h | h
              · rw [h]; exact hop
              · exact ih (fun y hy => hl y (List.mem_cons_of_mem _ hy)) q2 h
            | delete id =>
              rw [setPtrs_cons_delete] at hq2
              exact ih (fun y hy => hl y (List.mem_cons_of_mem _ hy)) q2 hq2
        show (mem0 q2).PromptLength = r.PromptLength
        rw [hmem _ hops2 q2 hq2]
    · rw [hload] at hn
      cases hn
    · rcases hpl with h | h
      · rw [h]; exact hp
      · rw [h]

/-- Witness for C6: scenario 5 of the specification with the handler's
structs. A deletion attempt on the empty store, then `AddRequest` of the
struct at address 0 and of the struct at address 2, both holding request
`"1"` with prompt length 512: the request is stored and the engine, which
exists, shows `queued = 1`, `prompt = 512`. -/
theorem single_request_contribution_witness :
    (run (NewLoadStats exMem)
      [(Op.delete "1", 0), (Op.set 0, 5), (Op.set 2, 6)]).view.engine "A" "1.1.1.1" =
        some { Ip := "1.1.1.1", QueuedReqNum := 1, PromptLength := 512, UpdatedTime := 5 } ∧
    (run (NewLoadStats exMem)
      [(Op.delete "1", 0), (Op.set 0, 5), (Op.set 2, 6)]).Requests.Load "1" = some 0 ∧
    (setPtrs [(Op.delete "1", (0 : Int)), (Op.set 0, 5), (Op.set 2, 6)]).Nodup ∧
    ∀ e, (run (NewLoadStats exMem)
        [(Op.delete "1", 0), (Op.set 0, 5), (Op.set 2, 6)]).view.engine "A" "1.1.1.1" = some e →
      e.QueuedReqNum = 1 ∧ e.PromptLength = 512 ∧ 0 ≤ e.QueuedReqNum ∧ 0 ≤ e.PromptLength := by
  refine ⟨by decide, by decide, by decide, fun e he => ?_⟩
  have h := single_request_contribution exMem exReq1 (by decide) (by decide)
    [(Op.delete "1", 0), (Op.set 0, 5), (Op.set 2, 6), (Op.delete "1", 10)]
    (by decide) 3 e he
  have h1 := h.1 0 (by decide)
  exact ⟨h1.1, h1.2.2.2 (by decide), h.2.2.1, h.2.2.2⟩

end LoadStats

end Ptr

end MetadataCenter
